import Mathlib

/-!
# RebrewU: disassembler table lookup, function analysis, image loading, recompiler

A shallow embedding of the PowerPC opcode lookup and the branch helpers
(`RebrewUtils/disasm.cpp`, `RebrewUtils/wiiu_ppc.h`), of the guest memory macros
and the XER register (`RebrewUtils/ppc_context.h`), of the basic-block analyser
with its block merge and validation (`RebrewAnalyse/function.cpp`,
`RebrewAnalyse/function.h`), of the jump-table scan of the analyzer tool
(`RebrewAnalyse/main.cpp`), of the call scan of `RPXAnalyzer`
(`RebrewAnalyse/rpx_analyzer.cpp`), of the RPX image loader
(`RebrewUtils/file.cpp`, `RebrewUtils/rpx_image.cpp`) and of the recompiler
(`RebrewRecomp/recompiler.cpp`): the system function entries and the scan of the
code sections of `Analyse`, the translation of one function, and the output
files of `Recompile`.

Conventions of the embedding.

* `uint32_t` values are naturals below `2^32`, `size_t` values and host
  pointers are naturals below `2^64`; every operation that can wrap carries an
  explicit `% 2^32` or `% 2^64`.  `int32_t` values are integers.
* Host memory is a function from absolute byte addresses to bytes.  The host is
  little-endian, so `ByteSwap(*p)` is the big-endian word stored at `p`.
* The walking pointer `data` of `Function::Analyze` is represented by its byte
  offset from `dataStart` (modulo `2^64`); the pointer itself is
  `code + offset`.
* `assert` is compiled out (`NDEBUG`) and the `DEBUG(...)` members are absent
  (`_DEBUG` undefined).  Where a statement is about runs that pass an assertion,
  the condition of the assertion is a hypothesis on the passes of the run.
* The analysis loop is run with a fuel bound on the number of evaluations of
  the loop condition; `none` means the bound was reached.
* The files that the recompiler saves are a list of pairs of a path and a
  content, oldest first.
* The contents of a section that is scanned live in host memory from a given
  address on; the memory around them reads as zero.
-/

namespace RebrewU

/-! ## Machine words -/

/-- The modulus of `uint32_t`. -/
def U32 : Nat := 2 ^ 32

/-- The modulus of `size_t` and of host pointers. -/
def U64 : Nat := 2 ^ 64

/-- The value `static_cast<size_t>(-1)`. -/
def NPOS : Nat := 2 ^ 64 - 1

/-- Reinterpretation of a `uint32_t` as `int32_t`. -/
def toInt32 (v : Nat) : Int :=
  if v % U32 < 2 ^ 31 then ((v % U32 : Nat) : Int) else ((v % U32 : Nat) : Int) - 2 ^ 32

/-- Conversion of a signed integer to `size_t` (two's complement, modulo `2^64`). -/
def toSizeT (i : Int) : Nat := (i % 2 ^ 64).toNat

/-- Conversion of a signed integer to `uint32_t` (two's complement, modulo `2^32`). -/
def toU32 (i : Int) : Nat := (i % 2 ^ 32).toNat

/-- The macro `BSWAP32` of wiiu_ppc.h: reverses the four bytes of a 32-bit value. -/
def ByteSwap (value : Nat) : Nat :=
  ((value &&& 0xFF) <<< 24) ||| ((value &&& 0xFF00) <<< 8) |||
    ((value >>> 8) &&& 0xFF00) ||| ((value >>> 24) &&& 0xFF)

/-- A host load `*(const uint32_t*)p` on the little-endian host. -/
def load32 (mem : Nat → Nat) (p : Nat) : Nat :=
  (mem p % 256) ||| ((mem ((p + 1) % U64) % 256) <<< 8) |||
    ((mem ((p + 2) % U64) % 256) <<< 16) ||| ((mem ((p + 3) % U64) % 256) <<< 24)

/-! ## Instruction fields (wiiu_ppc.h) -/

/-- The macro `PPC_OP`: the primary opcode, bits 0-5. -/
def PPC_OP (instr : Nat) : Nat := (instr >>> 26) &&& 0x3F

/-- The macro `PPC_XOP`: the extended opcode, bits 21-30. -/
def PPC_XOP (instr : Nat) : Nat := (instr >>> 1) &&& 0x3FF

/-- The macro `PPC_BL`: the link bit LK. -/
def PPC_BL (instr : Nat) : Nat := instr &&& 1

/-- The macro `PPC_BA`: the absolute-address bit AA. -/
def PPC_BA (instr : Nat) : Nat := (instr >>> 1) &&& 1

/-- The macro `PPC_BO`: the BO field, bits 6-10. -/
def PPC_BO (instr : Nat) : Nat := (instr >>> 21) &&& 0x1F

/-- The macro `((int32_t(instr) << 6) >> 6)`: the low 26 bits, sign-extended. -/
def PPC_BI (instr : Nat) : Int := toInt32 ((instr <<< 6) % U32) >>> (6 : Nat)

/-- The macro `((int32_t(instr) << 16) >> 16)`: the low 16 bits, sign-extended. -/
def PPC_BD (instr : Nat) : Int := toInt32 ((instr <<< 16) % U32) >>> (16 : Nat)

/-- The primary opcode of `b`, `ba`, `bl`. -/
def PPC_OP_B : Nat := 18

/-- The primary opcode of `bc`. -/
def PPC_OP_BC : Nat := 16

/-- The primary opcode of `bclr` and `bcctr`. -/
def PPC_OP_CTR : Nat := 19

/-! ## Opcode descriptors (wiiu_ppc.h, disasm.cpp) -/

/-- The enum `ppc_insn_id` of wiiu_ppc.h, in declaration order up to `PPC_INST_COUNT`.
The opcode table of disasm.cpp also names `PPC_INST_MFCTR` and `PPC_INST_MTCTR`, which
the header does not declare; they are added after the declared identifiers as two further,
distinct identifiers. -/
inductive ppc_insn_id where
  | PPC_INST_INVALID | PPC_INST_ADD | PPC_INST_ADDC | PPC_INST_ADDE
  | PPC_INST_ADDI | PPC_INST_ADDIC | PPC_INST_ADDIS | PPC_INST_ADDME
  | PPC_INST_ADDZE | PPC_INST_AND | PPC_INST_ANDC | PPC_INST_ANDI
  | PPC_INST_ANDIS | PPC_INST_B | PPC_INST_BA | PPC_INST_BC
  | PPC_INST_BCCTR | PPC_INST_BCLR | PPC_INST_BCTR | PPC_INST_BDZ
  | PPC_INST_BDZL | PPC_INST_BDNZ | PPC_INST_BDNZL | PPC_INST_BEQ
  | PPC_INST_BEQL | PPC_INST_BGE | PPC_INST_BGEL | PPC_INST_BGT
  | PPC_INST_BGTL | PPC_INST_BL | PPC_INST_BLE | PPC_INST_BLEL
  | PPC_INST_BLR | PPC_INST_BLRL | PPC_INST_BLT | PPC_INST_BLTL
  | PPC_INST_BNE | PPC_INST_BNEL | PPC_INST_BNS | PPC_INST_BNSL
  | PPC_INST_BSO | PPC_INST_BSOL | PPC_INST_CLRLWI | PPC_INST_CMPW
  | PPC_INST_CMPWI | PPC_INST_CMPLW | PPC_INST_CMPLWI | PPC_INST_CNTLZW
  | PPC_INST_CROR | PPC_INST_DCBF | PPC_INST_DCBI | PPC_INST_DCBST
  | PPC_INST_DCBT | PPC_INST_DCBTST | PPC_INST_DCBZ | PPC_INST_DIVW
  | PPC_INST_DIVWU | PPC_INST_EIEIO | PPC_INST_EQV | PPC_INST_EXTSB
  | PPC_INST_EXTSH | PPC_INST_FABS | PPC_INST_FADD | PPC_INST_FADDS
  | PPC_INST_FCMPO | PPC_INST_FCMPU | PPC_INST_FCTIW | PPC_INST_FCTIWZ
  | PPC_INST_FDIV | PPC_INST_FDIVS | PPC_INST_FMADD | PPC_INST_FMADDS
  | PPC_INST_FMR | PPC_INST_FMSUB | PPC_INST_FMSUBS | PPC_INST_FMUL
  | PPC_INST_FMULS | PPC_INST_FNABS | PPC_INST_FNEG | PPC_INST_FNMADD
  | PPC_INST_FNMADDS | PPC_INST_FNMSUB | PPC_INST_FNMSUBS | PPC_INST_FRES
  | PPC_INST_FRSP | PPC_INST_FRSQRTE | PPC_INST_FSEL | PPC_INST_FSQRT
  | PPC_INST_FSQRTS | PPC_INST_FSUB | PPC_INST_FSUBS | PPC_INST_ICBI
  | PPC_INST_ISYNC | PPC_INST_LBZ | PPC_INST_LBZU | PPC_INST_LBZUX
  | PPC_INST_LBZX | PPC_INST_LFD | PPC_INST_LFDU | PPC_INST_LFDUX
  | PPC_INST_LFDX | PPC_INST_LFS | PPC_INST_LFSU | PPC_INST_LFSUX
  | PPC_INST_LFSX | PPC_INST_LHA | PPC_INST_LHAU | PPC_INST_LHAUX
  | PPC_INST_LHAX | PPC_INST_LHBRX | PPC_INST_LHZ | PPC_INST_LHZU
  | PPC_INST_LHZUX | PPC_INST_LHZX | PPC_INST_LI | PPC_INST_LIS
  | PPC_INST_LMW | PPC_INST_LSWI | PPC_INST_LSWX | PPC_INST_LWARX
  | PPC_INST_LWBRX | PPC_INST_LWZ | PPC_INST_LWZU | PPC_INST_LWZUX
  | PPC_INST_LWZX | PPC_INST_MCRF | PPC_INST_MCRFS | PPC_INST_MFCR
  | PPC_INST_MFFS | PPC_INST_MFLR | PPC_INST_MFMSR | PPC_INST_MFSPR
  | PPC_INST_MFSR | PPC_INST_MFSRIN | PPC_INST_MFTB | PPC_INST_MTCRF
  | PPC_INST_MTFSB0 | PPC_INST_MTFSB1 | PPC_INST_MTFSF | PPC_INST_MTFSFI
  | PPC_INST_MTLR | PPC_INST_MTMSR | PPC_INST_MTSPR | PPC_INST_MTSR
  | PPC_INST_MTSRIN | PPC_INST_MULHW | PPC_INST_MULHWU | PPC_INST_MULLI
  | PPC_INST_MULLW | PPC_INST_NAND | PPC_INST_NEG | PPC_INST_NOP
  | PPC_INST_NOR | PPC_INST_OR | PPC_INST_ORC | PPC_INST_ORI
  | PPC_INST_ORIS | PPC_INST_RFI | PPC_INST_RLWIMI | PPC_INST_RLWINM
  | PPC_INST_RLWNM | PPC_INST_SC | PPC_INST_SLW | PPC_INST_SRAW
  | PPC_INST_SRAWI | PPC_INST_SRW | PPC_INST_STB | PPC_INST_STBU
  | PPC_INST_STBUX | PPC_INST_STBX | PPC_INST_STFD | PPC_INST_STFDU
  | PPC_INST_STFDUX | PPC_INST_STFDX | PPC_INST_STFIWX | PPC_INST_STFS
  | PPC_INST_STFSU | PPC_INST_STFSUX | PPC_INST_STFSX | PPC_INST_STH
  | PPC_INST_STHBRX | PPC_INST_STHU | PPC_INST_STHUX | PPC_INST_STHX
  | PPC_INST_STMW | PPC_INST_STSWI | PPC_INST_STSWX | PPC_INST_STW
  | PPC_INST_STWBRX | PPC_INST_STWCX | PPC_INST_STWU | PPC_INST_STWUX
  | PPC_INST_STWX | PPC_INST_SUBF | PPC_INST_SUBFC | PPC_INST_SUBFE
  | PPC_INST_SUBFIC | PPC_INST_SUBFME | PPC_INST_SUBFZE | PPC_INST_SYNC
  | PPC_INST_TW | PPC_INST_TWI | PPC_INST_XOR | PPC_INST_XORI
  | PPC_INST_XORIS | PPC_INST_PS_ABS | PPC_INST_PS_ADD | PPC_INST_PS_CMPO0
  | PPC_INST_PS_CMPO1 | PPC_INST_PS_CMPU0 | PPC_INST_PS_CMPU1 | PPC_INST_PS_DIV
  | PPC_INST_PS_MADD | PPC_INST_PS_MADDS0 | PPC_INST_PS_MADDS1 | PPC_INST_PS_MERGE00
  | PPC_INST_PS_MERGE01 | PPC_INST_PS_MERGE10 | PPC_INST_PS_MERGE11 | PPC_INST_PS_MR
  | PPC_INST_PS_MSUB | PPC_INST_PS_MUL | PPC_INST_PS_MULS0 | PPC_INST_PS_MULS1
  | PPC_INST_PS_NABS | PPC_INST_PS_NEG | PPC_INST_PS_NMADD | PPC_INST_PS_NMSUB
  | PPC_INST_PS_RES | PPC_INST_PS_RSQRTE | PPC_INST_PS_SEL | PPC_INST_PS_SUB
  | PPC_INST_PS_SUM0 | PPC_INST_PS_SUM1 | PPC_INST_PSQ_L | PPC_INST_PSQ_LU
  | PPC_INST_PSQ_LX | PPC_INST_PSQ_LUX | PPC_INST_PSQ_ST | PPC_INST_PSQ_STU
  | PPC_INST_PSQ_STX | PPC_INST_PSQ_STUX | PPC_INST_COUNT
  | PPC_INST_MFCTR | PPC_INST_MTCTR
  deriving DecidableEq, Repr

/-- The struct `ppc_opcode`; a null `name` is `none`. -/
structure ppc_opcode where
  name : Option String
  opcode : Nat
  mask : Nat
  operands : List Int
  id : ppc_insn_id
  deriving DecidableEq, Repr

/-- The struct `ppc_insn` without its display string `op_str`. -/
structure ppc_insn where
  instruction : Nat
  opcode : Option ppc_opcode
  operands : List Nat
  deriving DecidableEq, Repr

/-- The static table `ppc::opcodes`, end marker included. -/
def opcodes : List ppc_opcode := [
  -- Arithmetic instructions
  ppc_opcode.mk (some "add") 0x7C000214 0xFC0007FE [0, 1, 2, -1] .PPC_INST_ADD,
  ppc_opcode.mk (some "add.") 0x7C000215 0xFC0007FF [0, 1, 2, -1] .PPC_INST_ADD,
  ppc_opcode.mk (some "addi") 0x38000000 0xFC000000 [0, 1, 2, -1] .PPC_INST_ADDI,
  ppc_opcode.mk (some "addis") 0x3C000000 0xFC000000 [0, 1, 2, -1] .PPC_INST_ADDIS,
  ppc_opcode.mk (some "addic") 0x30000000 0xFC000000 [0, 1, 2, -1] .PPC_INST_ADDIC,
  ppc_opcode.mk (some "addic.") 0x34000000 0xFC000000 [0, 1, 2, -1] .PPC_INST_ADDIC,
  -- Logic instructions
  ppc_opcode.mk (some "and") 0x7C000038 0xFC0007FE [0, 1, 2, -1] .PPC_INST_AND,
  ppc_opcode.mk (some "and.") 0x7C000039 0xFC0007FF [0, 1, 2, -1] .PPC_INST_AND,
  ppc_opcode.mk (some "andi.") 0x70000000 0xFC000000 [0, 1, 2, -1] .PPC_INST_ANDI,
  ppc_opcode.mk (some "andis.") 0x74000000 0xFC000000 [0, 1, 2, -1] .PPC_INST_ANDIS,
  ppc_opcode.mk (some "or") 0x7C000378 0xFC0007FE [0, 1, 2, -1] .PPC_INST_OR,
  ppc_opcode.mk (some "or.") 0x7C000379 0xFC0007FF [0, 1, 2, -1] .PPC_INST_OR,
  ppc_opcode.mk (some "ori") 0x60000000 0xFC000000 [0, 1, 2, -1] .PPC_INST_ORI,
  ppc_opcode.mk (some "oris") 0x64000000 0xFC000000 [0, 1, 2, -1] .PPC_INST_ORIS,
  ppc_opcode.mk (some "xor") 0x7C000278 0xFC0007FE [0, 1, 2, -1] .PPC_INST_XOR,
  ppc_opcode.mk (some "xori") 0x68000000 0xFC000000 [0, 1, 2, -1] .PPC_INST_XORI,
  ppc_opcode.mk (some "xoris") 0x6C000000 0xFC000000 [0, 1, 2, -1] .PPC_INST_XORIS,
  -- Branch instructions
  ppc_opcode.mk (some "b") 0x48000000 0xFC000003 [0, -1, -1, -1] .PPC_INST_B,
  ppc_opcode.mk (some "ba") 0x48000002 0xFC000003 [0, -1, -1, -1] .PPC_INST_BA,
  ppc_opcode.mk (some "bl") 0x48000001 0xFC000003 [0, -1, -1, -1] .PPC_INST_BL,
  ppc_opcode.mk (some "bc") 0x40000000 0xFC000003 [0, 1, 2, -1] .PPC_INST_BC,
  ppc_opcode.mk (some "bclr") 0x4C000020 0xFC00FFFE [0, 1, -1, -1] .PPC_INST_BCLR,
  ppc_opcode.mk (some "bcctr") 0x4C000420 0xFC00FFFE [0, 1, -1, -1] .PPC_INST_BCCTR,
  ppc_opcode.mk (some "blr") 0x4E800020 0xFFFFFFFF [-1, -1, -1, -1] .PPC_INST_BLR,
  ppc_opcode.mk (some "bctr") 0x4E800420 0xFFFFFFFF [-1, -1, -1, -1] .PPC_INST_BCTR,
  -- Load/Store instructions
  ppc_opcode.mk (some "lwz") 0x80000000 0xFC000000 [0, 1, 2, -1] .PPC_INST_LWZ,
  ppc_opcode.mk (some "lwzu") 0x84000000 0xFC000000 [0, 1, 2, -1] .PPC_INST_LWZU,
  ppc_opcode.mk (some "lwzx") 0x7C00002E 0xFC0007FE [0, 1, 2, -1] .PPC_INST_LWZX,
  ppc_opcode.mk (some "stw") 0x90000000 0xFC000000 [0, 1, 2, -1] .PPC_INST_STW,
  ppc_opcode.mk (some "stwu") 0x94000000 0xFC000000 [0, 1, 2, -1] .PPC_INST_STWU,
  ppc_opcode.mk (some "stwx") 0x7C00012E 0xFC0007FE [0, 1, 2, -1] .PPC_INST_STWX,
  ppc_opcode.mk (some "lbz") 0x88000000 0xFC000000 [0, 1, 2, -1] .PPC_INST_LBZ,
  ppc_opcode.mk (some "lbzx") 0x7C0000AE 0xFC0007FE [0, 1, 2, -1] .PPC_INST_LBZX,
  ppc_opcode.mk (some "stb") 0x98000000 0xFC000000 [0, 1, 2, -1] .PPC_INST_STB,
  ppc_opcode.mk (some "stbx") 0x7C0001AE 0xFC0007FE [0, 1, 2, -1] .PPC_INST_STBX,
  ppc_opcode.mk (some "lhz") 0xA0000000 0xFC000000 [0, 1, 2, -1] .PPC_INST_LHZ,
  ppc_opcode.mk (some "lhzx") 0x7C00022E 0xFC0007FE [0, 1, 2, -1] .PPC_INST_LHZX,
  ppc_opcode.mk (some "sth") 0xB0000000 0xFC000000 [0, 1, 2, -1] .PPC_INST_STH,
  ppc_opcode.mk (some "sthx") 0x7C00032E 0xFC0007FE [0, 1, 2, -1] .PPC_INST_STHX,
  -- Floating point instructions
  ppc_opcode.mk (some "fadd") 0xFC00002A 0xFC0007FE [0, 1, 2, -1] .PPC_INST_FADD,
  ppc_opcode.mk (some "fadds") 0xEC00002A 0xFC0007FE [0, 1, 2, -1] .PPC_INST_FADDS,
  ppc_opcode.mk (some "fsub") 0xFC000028 0xFC0007FE [0, 1, 2, -1] .PPC_INST_FSUB,
  ppc_opcode.mk (some "fsubs") 0xEC000028 0xFC0007FE [0, 1, 2, -1] .PPC_INST_FSUBS,
  ppc_opcode.mk (some "fmul") 0xFC000032 0xFC0007FE [0, 1, 3, -1] .PPC_INST_FMUL,
  ppc_opcode.mk (some "fmuls") 0xEC000032 0xFC0007FE [0, 1, 3, -1] .PPC_INST_FMULS,
  ppc_opcode.mk (some "fdiv") 0xFC000024 0xFC0007FE [0, 1, 2, -1] .PPC_INST_FDIV,
  ppc_opcode.mk (some "fdivs") 0xEC000024 0xFC0007FE [0, 1, 2, -1] .PPC_INST_FDIVS,
  ppc_opcode.mk (some "fmadd") 0xFC00003A 0xFC0007FE [0, 1, 3, 2] .PPC_INST_FMADD,
  ppc_opcode.mk (some "fmadds") 0xEC00003A 0xFC0007FE [0, 1, 3, 2] .PPC_INST_FMADDS,
  ppc_opcode.mk (some "lfs") 0xC0000000 0xFC000000 [0, 1, 2, -1] .PPC_INST_LFS,
  ppc_opcode.mk (some "lfd") 0xC8000000 0xFC000000 [0, 1, 2, -1] .PPC_INST_LFD,
  ppc_opcode.mk (some "stfs") 0xD0000000 0xFC000000 [0, 1, 2, -1] .PPC_INST_STFS,
  ppc_opcode.mk (some "stfd") 0xD8000000 0xFC000000 [0, 1, 2, -1] .PPC_INST_STFD,
  -- Paired single instructions (WiiU specific)
  ppc_opcode.mk (some "ps_add") 0x1000002A 0xFC0007FE [0, 1, 2, -1] .PPC_INST_PS_ADD,
  ppc_opcode.mk (some "ps_sub") 0x10000028 0xFC0007FE [0, 1, 2, -1] .PPC_INST_PS_SUB,
  ppc_opcode.mk (some "ps_mul") 0x10000032 0xFC0007FE [0, 1, 3, -1] .PPC_INST_PS_MUL,
  ppc_opcode.mk (some "ps_div") 0x10000024 0xFC0007FE [0, 1, 2, -1] .PPC_INST_PS_DIV,
  ppc_opcode.mk (some "ps_madd") 0x1000003A 0xFC0007FE [0, 1, 3, 2] .PPC_INST_PS_MADD,
  ppc_opcode.mk (some "ps_merge00") 0x10000420 0xFC0007FE [0, 1, 2, -1] .PPC_INST_PS_MERGE00,
  ppc_opcode.mk (some "ps_merge01") 0x10000460 0xFC0007FE [0, 1, 2, -1] .PPC_INST_PS_MERGE01,
  ppc_opcode.mk (some "ps_merge10") 0x100004A0 0xFC0007FE [0, 1, 2, -1] .PPC_INST_PS_MERGE10,
  ppc_opcode.mk (some "ps_merge11") 0x100004E0 0xFC0007FE [0, 1, 2, -1] .PPC_INST_PS_MERGE11,
  ppc_opcode.mk (some "psq_l") 0xE0000000 0xFC000000 [0, 1, 2, 3] .PPC_INST_PSQ_L,
  ppc_opcode.mk (some "psq_st") 0xF0000000 0xFC000000 [0, 1, 2, 3] .PPC_INST_PSQ_ST,
  -- System instructions
  ppc_opcode.mk (some "mflr") 0x7C0802A6 0xFC1FFFFF [0, -1, -1, -1] .PPC_INST_MFLR,
  ppc_opcode.mk (some "mtlr") 0x7C0803A6 0xFC1FFFFF [0, -1, -1, -1] .PPC_INST_MTLR,
  ppc_opcode.mk (some "mfctr") 0x7C0902A6 0xFC1FFFFF [0, -1, -1, -1] .PPC_INST_MFCTR,
  ppc_opcode.mk (some "mtctr") 0x7C0903A6 0xFC1FFFFF [0, -1, -1, -1] .PPC_INST_MTCTR,
  ppc_opcode.mk (some "mfcr") 0x7C000026 0xFC1FFFFF [0, -1, -1, -1] .PPC_INST_MFCR,
  ppc_opcode.mk (some "mtcrf") 0x7C000120 0xFC100FFF [0, 1, -1, -1] .PPC_INST_MTCRF,
  ppc_opcode.mk (some "isync") 0x4C00012C 0xFFFFFFFF [-1, -1, -1, -1] .PPC_INST_ISYNC,
  ppc_opcode.mk (some "sync") 0x7C0004AC 0xFFFFFFFF [-1, -1, -1, -1] .PPC_INST_SYNC,
  -- Compare instructions
  ppc_opcode.mk (some "cmpw") 0x7C000000 0xFC400000 [0, 1, 2, -1] .PPC_INST_CMPW,
  ppc_opcode.mk (some "cmpwi") 0x2C000000 0xFC400000 [0, 1, 2, -1] .PPC_INST_CMPWI,
  ppc_opcode.mk (some "cmplw") 0x7C000040 0xFC400000 [0, 1, 2, -1] .PPC_INST_CMPLW,
  ppc_opcode.mk (some "cmplwi") 0x28000000 0xFC400000 [0, 1, 2, -1] .PPC_INST_CMPLWI,
  -- Simplified aliases
  ppc_opcode.mk (some "li") 0x38000000 0xFFE00000 [0, 1, -1, -1] .PPC_INST_LI,
  ppc_opcode.mk (some "lis") 0x3C000000 0xFFE00000 [0, 1, -1, -1] .PPC_INST_LIS,
  ppc_opcode.mk (some "mr") 0x7C000378 0xFC0007FE [0, 1, 1, -1] .PPC_INST_OR,  -- mr is or rA,rS,rS
  ppc_opcode.mk (some "nop") 0x60000000 0xFFFFFFFF [-1, -1, -1, -1] .PPC_INST_NOP,
  -- End marker
  ppc_opcode.mk (none) 0 0 [-1, -1, -1, -1] .PPC_INST_INVALID
]

/-- The descriptors of the table: the entries before the end marker. -/
def descriptors : List ppc_opcode := opcodes.takeWhile (fun op => op.name.isSome)

/-- The function `ExtractOperand` of disasm.cpp (bits `start..end`, bit 0 the MSB). -/
def ExtractOperand (instruction start stop : Nat) : Nat :=
  let mask := ((1 <<< (stop - start + 1)) % U32 + U32 - 1) % U32
  (instruction >>> (31 - stop)) &&& mask

/-- The function `SignExtend` of disasm.cpp. -/
def SignExtend (value bits : Nat) : Int :=
  let sign_bit := (1 <<< (bits - 1)) % U32
  toInt32 (((value ^^^ sign_bit) + U32 - sign_bit) % U32)

/-- The loop of `ppc::GetOpcode` over a table that ends with a null-named entry.
Running off the end of the list cannot happen for `opcodes`. -/
def GetOpcodeFrom : List ppc_opcode → Nat → Option ppc_opcode
  | [], _ => none
  | op :: rest, instruction =>
    match op.name with
    | none => none
    | some _ =>
      if (instruction &&& op.mask) = op.opcode then some op
      else GetOpcodeFrom rest instruction

/-- The function `ppc::GetOpcode`. -/
def GetOpcode (instruction : Nat) : Option ppc_opcode :=
  GetOpcodeFrom opcodes instruction

/-- The function `ppc::DecodeInstruction`: the returned flag and the updated `insn`. -/
def DecodeInstruction (instruction : Nat) (insn : ppc_insn) : Bool × ppc_insn :=
  let insn : ppc_insn := { insn with instruction := instruction, opcode := GetOpcode instruction }
  match insn.opcode with
  | none => (false, insn)
  | some d =>
    let opcode := PPC_OP instruction
    if d.id = .PPC_INST_B ∨ d.id = .PPC_INST_BA ∨ d.id = .PPC_INST_BL then
      let target := SignExtend ((ExtractOperand instruction 6 29 <<< 2) % U32) 26
      (true, { insn with operands := insn.operands.set 0 (toU32 target) })
    else if d.id = .PPC_INST_BC then
      let ops := insn.operands.set 0 (ExtractOperand instruction 6 10)
      let ops := ops.set 1 (ExtractOperand instruction 11 15)
      let target := SignExtend ((ExtractOperand instruction 16 29 <<< 2) % U32) 16
      (true, { insn with operands := ops.set 2 (toU32 target) })
    else if opcode ≥ 32 ∧ opcode ≤ 47 then
      let ops := insn.operands.set 0 (ExtractOperand instruction 6 10)
      let offset := SignExtend (ExtractOperand instruction 16 31) 16
      let ops := ops.set 1 (toU32 offset)
      (true, { insn with operands := ops.set 2 (ExtractOperand instruction 11 15) })
    else
      let ops := insn.operands.set 0 (ExtractOperand instruction 6 10)
      let ops := ops.set 1 (ExtractOperand instruction 11 15)
      let ops := ops.set 2 (ExtractOperand instruction 16 20)
      (true, { insn with operands := ops.set 3 (ExtractOperand instruction 21 25) })

/-- The function `ppc::Disassemble(const uint32_t*, uint32_t, ppc_insn&)`. -/
def Disassemble (mem : Nat → Nat) (data : Nat) (_address : Nat) (insn : ppc_insn) :
    Bool × ppc_insn :=
  DecodeInstruction (ByteSwap (load32 mem data)) insn

/-- An `insn` object before any decode: four operand slots of unspecified content. -/
def freshInsn : ppc_insn := ⟨0, none, [0, 0, 0, 0]⟩

/-! ## Functions and blocks (function.h) -/

/-- The struct `Function::Block`. -/
structure Function.Block where
  base : Nat := 0
  size : Nat := 0
  projectedSize : Nat := NPOS
  deriving DecidableEq, Repr

/-- The default constructor `Block()`: base 0, size 0, no projected size. -/
instance : Inhabited Function.Block := ⟨⟨0, 0, NPOS⟩⟩

/-- The struct `Function`. -/
structure Function where
  base : Nat := 0
  size : Nat := 0
  blocks : List Function.Block := []
  deriving DecidableEq, Repr

/-- The containment of C10 in unbounded arithmetic: a non-empty block covers the
addresses from `fbase + base` up to, not including, `fbase + base + size`; an empty
block covers only `fbase + base`. -/
def Function.Block.Covers (fbase : Nat) (block : Function.Block) (a : Nat) : Prop :=
  (block.size ≠ 0 ∧ fbase + block.base ≤ a ∧ a < fbase + block.base + block.size) ∨
    (block.size = 0 ∧ a = fbase + block.base)

/-- The loop of `Function::SearchBlock` from index `i` on. -/
def SearchBlockFrom (base address : Nat) : List Function.Block → Nat → Nat
  | [], _ => NPOS
  | block :: rest, i =>
    let blockBegin := (base + block.base) % U64
    let blockEnd := (blockBegin + block.size) % U64
    if blockBegin ≠ blockEnd then
      if address ≥ blockBegin ∧ address < blockEnd then i
      else SearchBlockFrom base address rest (i + 1)
    else
      if address = blockBegin then i
      else SearchBlockFrom base address rest (i + 1)

/-- The method `Function::SearchBlock`. -/
def Function.SearchBlock (f : Function) (address : Nat) : Nat :=
  if address < f.base then NPOS
  else SearchBlockFrom f.base address f.blocks 0

/-- The method `Function::IsValid`. -/
def Function.IsValid (f : Function) : Bool :=
  decide (f.size > 0) && !f.blocks.isEmpty

/-- The second loop of `Function::Validate`: no block starts before the end of its predecessor. -/
def blocksOrdered : List Function.Block → Bool
  | a :: b :: rest =>
    if b.base < (a.base + a.size) % U64 then false else blocksOrdered (b :: rest)
  | _ => true

/-- The method `Function::Validate`. -/
def Function.Validate (f : Function) : Bool :=
  if f.base = 0 ∨ f.size = 0 ∨ f.blocks.isEmpty then false
  else if f.blocks.any (fun block =>
      decide (block.base ≥ f.size ∨ (block.base + block.size) % U64 > f.size)) then false
  else blocksOrdered f.blocks

/-! ## Function::Analyze (function.cpp) -/

/-- The arguments of `Function::Analyze` together with the host memory they point into:
`code` is the pointer, `size` the length of the window in bytes, `base` the guest
address of the first byte. -/
structure Window where
  mem : Nat → Nat
  code : Nat
  size : Nat
  base : Nat

/-- The instruction `ByteSwap(*data)` for the pointer `data = dataStart + off` (byte offset). -/
def Window.insnAt (w : Window) (off : Nat) : Nat :=
  ByteSwap (load32 w.mem ((w.code + off) % U64))

/-- The loop condition `data <= dataEnd` for the pointer `data = dataStart + off`. -/
def Window.inRange (w : Window) (off : Nat) : Bool :=
  decide ((w.code + off) % U64 ≤ (w.code + w.size) % U64)

/-- The test of the fast path: `size >= 8 && ByteSwap(data[1]) == 0x04000048`. -/
def Window.isTailCallThunk (w : Window) : Bool :=
  decide (w.size ≥ 8) && decide (w.insnAt 4 = 0x04000048)

/-- The mutable locals of the analysis loop: `fn.blocks`, `blockStack` (its back is the
head of the list) and `data` (as a byte offset from `dataStart`). -/
structure AnalyzeState where
  blocks : List Function.Block
  blockStack : List Nat
  data : Nat
  deriving DecidableEq, Repr

/-- The lambda `restoreData`: `data = dataStart + (base + size) / 4 - 1` for the block on
top of the stack, nothing when the stack is empty. -/
def restoreData (s : AnalyzeState) : AnalyzeState :=
  match s.blockStack with
  | [] => s
  | top :: _ =>
    let b := s.blocks.getD top default
    { s with data := (4 * (((b.base + b.size) % U64) / 4) + U64 - 4) % U64 }

/-- The effect of `blocks.emplace_back(...)` followed by `blockStack.emplace_back(blocks.size() - 1)`. -/
def pushBlock (s : AnalyzeState) (b : Function.Block) : AnalyzeState :=
  { s with blocks := s.blocks ++ [b], blockStack := s.blocks.length :: s.blockStack }

/-- One pass through the body of the analysis loop.  The result `none` is `break`; a
state is returned both for `continue` and for reaching the end of the body (the
increment `++data` is applied by `analyzeLoop`). -/
def loopBody (w : Window) (s : AnalyzeState) : Option AnalyzeState :=
  let addr := (w.base + s.data) % U64
  match s.blockStack with
  | [] => none
  | cur :: stackTail =>
    let curBlock := s.blocks.getD cur default
    let instruction := w.insnAt s.data
    let op := PPC_OP instruction
    let isLink := PPC_BL instruction
    let insn := (Disassemble w.mem ((w.code + s.data) % U64) (addr % U32) freshInsn).2
    if curBlock.projectedSize ≠ NPOS ∧ curBlock.size ≥ curBlock.projectedSize then
      -- fallthrough
      some (restoreData { s with blockStack := stackTail })
    else
      let curBlock := { curBlock with size := (curBlock.size + 4) % U64 }
      let s := { s with blocks := s.blocks.set cur curBlock }
      if op = PPC_OP_BC then
        if isLink ≠ 0 then some s
        else
          let curBlock := { curBlock with projectedSize := NPOS }
          let s := { s with blocks := s.blocks.set cur curBlock, blockStack := stackTail }
          let branchDest := (addr + toSizeT (PPC_BD instruction)) % U64
          let lBase := ((addr + U64 - w.base) % U64 + 4) % U64
          let rBase := ((addr + toSizeT (PPC_BD instruction)) % U64 + U64 - w.base) % U64
          let lBlock := Function.SearchBlock ⟨w.base, 0, s.blocks⟩ ((w.base + lBase) % U64)
          let s :=
            if lBlock = NPOS then pushBlock s ⟨lBase, 0, (rBase + U64 - lBase) % U64⟩ else s
          let rBlock := Function.SearchBlock ⟨w.base, 0, s.blocks⟩ ((w.base + rBase) % U64)
          let s :=
            if rBlock = NPOS then pushBlock s ⟨(branchDest + U64 - w.base) % U64, 0, NPOS⟩ else s
          some (restoreData s)
      else if op = PPC_OP_B ∨ instruction = 0 ∨
          (op = PPC_OP_CTR ∧ (PPC_XOP instruction = 16 ∨ PPC_XOP instruction = 528)) then
        if isLink = 0 then
          let s := { s with blockStack := stackTail }
          if op = PPC_OP_B then
            let branchDest := (addr + toSizeT (PPC_BI instruction)) % U64
            let branchBase := (branchDest + U64 - w.base) % U64
            if branchDest < w.base then
              -- a branch before base is a tail call
              some (restoreData s)
            else
              let branchBlock := Function.SearchBlock ⟨w.base, 0, s.blocks⟩ branchDest
              let isContinuous := branchBase = (curBlock.base + curBlock.size) % U64
              let sizeProjection :=
                if curBlock.projectedSize ≠ NPOS ∧ isContinuous then
                  (curBlock.projectedSize + U64 - curBlock.size) % U64
                else NPOS
              if branchBlock = NPOS then
                some (restoreData (pushBlock s ⟨branchBase, 0, sizeProjection⟩))
              else some (restoreData s)
          else if op = PPC_OP_CTR then
            let conditional := (PPC_BO instruction &&& 0x10) = 0
            if conditional then
              let lBase := ((addr + U64 - w.base) % U64 + 4) % U64
              let lBlock := Function.SearchBlock ⟨w.base, 0, s.blocks⟩ lBase
              if lBlock = NPOS then some (restoreData (pushBlock s ⟨lBase, 0, NPOS⟩))
              else some (restoreData s)
            else some (restoreData s)
          else some (restoreData s)
        else some s
      else if insn.opcode = none then
        some (restoreData { s with blockStack := stackTail })
      else some s

/-- The loop `for (; data <= dataEnd; ++data)` of `Function::Analyze`, at most `fuel`
evaluations of its condition.  The result is the state at loop exit. -/
def analyzeLoop (w : Window) : Nat → AnalyzeState → Option AnalyzeState
  | 0, _ => none
  | fuel + 1, s =>
    if w.inRange s.data then
      match loopBody w s with
      | none => some s
      | some s1 => analyzeLoop w fuel { s1 with data := (s1.data + 4) % U64 }
    else some s

/-- The contract of `std::sort` with the comparator `a.base < b.base`: the result is a
rearrangement of the input in which no block is followed by one of smaller base.  The
order of blocks of equal base is left open. -/
def SortsByBase (srt : List Function.Block → List Function.Block) : Prop :=
  ∀ l, List.Perm (srt l) l ∧ List.Pairwise (fun a b => a.base ≤ b.base) (srt l)

/-- Insertion of a block into a list sorted by base, before the blocks of equal base. -/
def insertBlock (b : Function.Block) : List Function.Block → List Function.Block
  | [] => [b]
  | a :: rest => if b.base ≤ a.base then b :: a :: rest else a :: insertBlock b rest

/-- A stable insertion sort by base, one admissible behaviour of `std::sort`: blocks of
equal base keep the order they have in the input. -/
def sortBlocks : List Function.Block → List Function.Block
  | [] => []
  | b :: rest => insertBlock b (sortBlocks rest)

/-- The scan for the first discontinuity in the sorted blocks, from index `i` on: the
index of the first block that starts after the end of its predecessor, or `NPOS`. -/
def findDiscontinuity : List Function.Block → Nat → Nat
  | a :: b :: rest, i =>
    if (a.base + a.size) % U64 ≥ b.base then findDiscontinuity (b :: rest) (i + 1)
    else i + 1
  | _, _ => NPOS

/-- The block list after "Sort and invalidate discontinuous blocks". -/
def sortAndInvalidate (srt : List Function.Block → List Function.Block)
    (blocks : List Function.Block) : List Function.Block :=
  if blocks.length > 1 then
    let sorted := srt blocks
    let discontinuity := findDiscontinuity sorted 0
    if discontinuity ≠ NPOS then sorted.take discontinuity else sorted
  else blocks

/-- The final loop of `Function::Analyze`: the largest `block.base + block.size`. -/
def functionSize (blocks : List Function.Block) : Nat :=
  blocks.foldl (fun acc block => max acc ((block.base + block.size) % U64)) 0

/-- The state at loop entry: one default block, its index on the stack, `data = dataStart`. -/
def initialState : AnalyzeState := ⟨[default], [0], 0⟩

/-- The function `Function::Analyze`, for a given behaviour `srt` of `std::sort`. -/
def AnalyzeWith (srt : List Function.Block → List Function.Block) (fuel : Nat) (w : Window) :
    Option Function :=
  if w.isTailCallThunk then some ⟨w.base, 8, []⟩
  else
    match analyzeLoop w fuel initialState with
    | none => none
    | some s =>
      let blocks := sortAndInvalidate srt s.blocks
      some ⟨w.base, functionSize blocks, blocks⟩

/-- The function `Function::Analyze` with the stable sort `sortBlocks`. -/
def Analyze (fuel : Nat) (w : Window) : Option Function :=
  AnalyzeWith sortBlocks fuel w

/-- A host memory holding the given bytes from address `code` on and zero elsewhere. -/
def memOfBytes (code : Nat) (bytes : List Nat) : Nat → Nat :=
  fun a => if a < code then 0 else bytes.getD (a - code) 0

/-! ## Example windows -/

/-- A window over the given bytes, stored at host address `0x1000`, for guest base
`0x02000000`. -/
def windowOfBytes (bytes : List Nat) : Window :=
  ⟨memOfBytes 0x1000 bytes, 0x1000, bytes.length, 0x02000000⟩

/-- The window `b +8; blr; blr`. -/
def forwardBranchWindow : Window :=
  windowOfBytes [0x48, 0x00, 0x00, 0x08, 0x4E, 0x80, 0x00, 0x20, 0x4E, 0x80, 0x00, 0x20]

/-- The window `b +8; nop; beq -4; blr`: a loop entered at its condition. -/
def loopWindow : Window :=
  windowOfBytes [0x48, 0x00, 0x00, 0x08, 0x60, 0x00, 0x00, 0x00, 0x41, 0x82, 0xFF, 0xFC,
    0x4E, 0x80, 0x00, 0x20]

/-- The function returned for `loopWindow`. -/
def loopWindowResult : Function :=
  ⟨0x02000000, 16,
    [⟨0, 4, NPOS⟩, ⟨4, 8, NPOS⟩, ⟨8, 4, NPOS⟩, ⟨12, 4, 0xFFFFFFFFFFFFFFF8⟩]⟩

/-- The two-word thunk `48 00 00 00 04 00 00 48`. -/
def thunkWindow : Window :=
  windowOfBytes [0x48, 0x00, 0x00, 0x00, 0x04, 0x00, 0x00, 0x48]

/-- The two-word window `beq +8` followed by the word `04 00 00 48` that the fast path
tests for. -/
def thunkBranchWindow : Window :=
  windowOfBytes [0x41, 0x82, 0x00, 0x08, 0x04, 0x00, 0x00, 0x48]

/-- The window `beq +8; blr; blr`. -/
def condBranchWindow : Window :=
  windowOfBytes [0x41, 0x82, 0x00, 0x08, 0x4E, 0x80, 0x00, 0x20, 0x4E, 0x80, 0x00, 0x20]

/-- The window `beq +4; blr; blr`: the branch targets its own fall-through. -/
def condBranchNextWindow : Window :=
  windowOfBytes [0x41, 0x82, 0x00, 0x04, 0x4E, 0x80, 0x00, 0x20, 0x4E, 0x80, 0x00, 0x20]

/-- The window holding one all-zero word. -/
def zeroWordWindow : Window :=
  windowOfBytes [0x00, 0x00, 0x00, 0x00]

/-- The window `b -8; blr`. -/
def tailCallWindow : Window :=
  windowOfBytes [0x4B, 0xFF, 0xFF, 0xF8, 0x4E, 0x80, 0x00, 0x20]

/-- The function returned for `condBranchWindow`. -/
def condBranchResult : Function :=
  ⟨0x02000000, 12, [⟨0, 4, NPOS⟩, ⟨4, 4, 4⟩, ⟨8, 4, NPOS⟩]⟩

/-! ## RPX image loading (file.cpp, rpx_image.h, rpx_image.cpp)

A byte buffer `(data, size)` is given with the host memory around it: `mem` lists the
bytes readable from the pointer `data` on, the first `size` of which are the buffer.
Reads of NUL-terminated strings that run off `mem` are faults, modelled by `none`.
The contents of fresh allocations and the library function `uncompress` are parameters.
The members `functions`, `imports`, `exports` and `dynamic_string_table` of `RPXImage`
are left out, together with the methods that write only them. -/

/-- The byte buffer of `ValidateRPXHeader` and `RPXImage::ParseImage`. -/
structure HostBuffer where
  mem : List Nat
  size : Nat

/-- The byte `p[i]` of a memory region. -/
def byteAt (mem : List Nat) (i : Nat) : Nat := mem.getD i 0 % 256

/-- The macro `BSWAP16`: exchanges the two bytes of a 16-bit value. -/
def ByteSwap16 (value : Nat) : Nat :=
  ((value &&& 0xFF) <<< 8) ||| ((value >>> 8) &&& 0xFF)

/-- A host load of a `uint16_t` at byte offset `p` on the little-endian host. -/
def hostLoad16 (mem : List Nat) (p : Nat) : Nat :=
  byteAt mem p ||| (byteAt mem (p + 1) <<< 8)

/-- A host load of a `uint32_t` at byte offset `p` on the little-endian host. -/
def hostLoad32 (mem : List Nat) (p : Nat) : Nat :=
  byteAt mem p ||| (byteAt mem (p + 1) <<< 8) ||| (byteAt mem (p + 2) <<< 16) |||
    (byteAt mem (p + 3) <<< 24)

/-- The read of a `be<uint16_t>` stored at byte offset `p`. -/
def be16At (mem : List Nat) (p : Nat) : Nat := ByteSwap16 (hostLoad16 mem p)

/-- The read of a `be<uint32_t>` stored at byte offset `p`. -/
def be32At (mem : List Nat) (p : Nat) : Nat := ByteSwap (hostLoad32 mem p)

/-- The function `ValidateRPXHeader` of file.cpp. -/
def ValidateRPXHeader (buf : HostBuffer) : Bool :=
  if buf.size < 16 then false
  else if byteAt buf.mem 0 ≠ 0x7F ∨ byteAt buf.mem 1 ≠ 0x45 ∨ byteAt buf.mem 2 ≠ 0x4C ∨
      byteAt buf.mem 3 ≠ 0x46 then false
  else if byteAt buf.mem 4 ≠ 1 ∨ byteAt buf.mem 5 ≠ 2 then false
  else if buf.size ≥ 18 then
    let machine := ((byteAt buf.mem 18 <<< 8) ||| byteAt buf.mem 19) % 65536
    if machine ≠ 20 then false else true
  else true

/-- The struct `RPX_ElfHeader` (52 bytes), its fields as read through `be<T>`. -/
structure RPX_ElfHeader where
  e_ident : List Nat
  e_type : Nat
  e_machine : Nat
  e_version : Nat
  e_entry : Nat
  e_phoff : Nat
  e_shoff : Nat
  e_flags : Nat
  e_ehsize : Nat
  e_phentsize : Nat
  e_phnum : Nat
  e_shentsize : Nat
  e_shnum : Nat
  e_shstrndx : Nat
  deriving DecidableEq, Repr

/-- The struct `RPX_SectionHeader` (40 bytes), its fields as read through `be<T>`. -/
structure RPX_SectionHeader where
  sh_name : Nat
  sh_type : Nat
  sh_flags : Nat
  sh_addr : Nat
  sh_offset : Nat
  sh_size : Nat
  sh_link : Nat
  sh_info : Nat
  sh_addralign : Nat
  sh_entsize : Nat
  deriving DecidableEq, Repr

/-- The struct `RPX_ProgramHeader` (32 bytes), its fields as read through `be<T>`. -/
structure RPX_ProgramHeader where
  p_type : Nat
  p_offset : Nat
  p_vaddr : Nat
  p_paddr : Nat
  p_filesz : Nat
  p_memsz : Nat
  p_flags : Nat
  p_align : Nat
  deriving DecidableEq, Repr

/-- The size `sizeof(RPX_ElfHeader)`. -/
def sizeofElfHeader : Nat := 52

/-- The size `sizeof(RPX_SectionHeader)`. -/
def sizeofSectionHeader : Nat := 40

/-- The size `sizeof(RPX_ProgramHeader)`. -/
def sizeofProgramHeader : Nat := 32

/-- The size `sizeof(RPX_SymbolEntry)`. -/
def sizeofSymbolEntry : Nat := 16

/-- The section type `SHT_NOBITS`. -/
def SHT_NOBITS : Nat := 8

/-- The section flag `SHF_WRITE`. -/
def SHF_WRITE : Nat := 0x1

/-- The section flag `SHF_EXECINSTR`. -/
def SHF_EXECINSTR : Nat := 0x4

/-- The section flag `SHF_RPL_ZLIB`. -/
def SHF_RPL_ZLIB : Nat := 0x08000000

/-- The derived flag `SectionFlags_Code` of wiiu_ppc.h. -/
def SectionFlags_Code : Nat := 0x20

/-- The derived flag `SectionFlags_Data` of wiiu_ppc.h. -/
def SectionFlags_Data : Nat := 0x40

/-- The derived flag `SectionFlags_BSS` of wiiu_ppc.h. -/
def SectionFlags_BSS : Nat := 0x80

/-- The value `UINT32_MAX`. -/
def UINT32_MAX : Nat := 0xFFFFFFFF

/-- The `memcpy` of an ELF header from byte offset `p`. -/
def readElfHeader (mem : List Nat) (p : Nat) : RPX_ElfHeader :=
  { e_ident := (List.range 16).map (fun i => byteAt mem (p + i))
    e_type := be16At mem (p + 16)
    e_machine := be16At mem (p + 18)
    e_version := be32At mem (p + 20)
    e_entry := be32At mem (p + 24)
    e_phoff := be32At mem (p + 28)
    e_shoff := be32At mem (p + 32)
    e_flags := be32At mem (p + 36)
    e_ehsize := be16At mem (p + 40)
    e_phentsize := be16At mem (p + 42)
    e_phnum := be16At mem (p + 44)
    e_shentsize := be16At mem (p + 46)
    e_shnum := be16At mem (p + 48)
    e_shstrndx := be16At mem (p + 50) }

/-- The `memcpy` of a section header from byte offset `p`. -/
def readSectionHeader (mem : List Nat) (p : Nat) : RPX_SectionHeader :=
  { sh_name := be32At mem p
    sh_type := be32At mem (p + 4)
    sh_flags := be32At mem (p + 8)
    sh_addr := be32At mem (p + 12)
    sh_offset := be32At mem (p + 16)
    sh_size := be32At mem (p + 20)
    sh_link := be32At mem (p + 24)
    sh_info := be32At mem (p + 28)
    sh_addralign := be32At mem (p + 32)
    sh_entsize := be32At mem (p + 36) }

/-- The `memcpy` of a program header from byte offset `p`. -/
def readProgramHeader (mem : List Nat) (p : Nat) : RPX_ProgramHeader :=
  { p_type := be32At mem p
    p_offset := be32At mem (p + 4)
    p_vaddr := be32At mem (p + 8)
    p_paddr := be32At mem (p + 12)
    p_filesz := be32At mem (p + 16)
    p_memsz := be32At mem (p + 20)
    p_flags := be32At mem (p + 24)
    p_align := be32At mem (p + 28) }

/-- The struct `Section`; a null `data` is `none`, otherwise the `size` bytes it points to. -/
structure Section where
  base : Nat := 0
  size : Nat := 0
  flags : Nat := 0
  data : Option (List Nat) := none
  name : String := ""
  deriving DecidableEq, Repr

/-- The enum `SymbolType` of wiiu_ppc.h. -/
inductive SymbolType where
  | Symbol_Function | Symbol_Data | Symbol_Object
  deriving DecidableEq, Repr

/-- The struct `Symbol` of wiiu_ppc.h. -/
structure Symbol where
  name : String
  address : Nat
  size : Nat
  type : SymbolType
  deriving DecidableEq, Repr

/-- What the loader takes from outside the repository: the zlib function `uncompress`
(for a destination capacity and the source bytes, `some out` is `Z_OK` with `out` written
to the start of the destination, `none` any error), the contents of the fresh allocation
made for section `i`, and the equality of the `std::unordered_set<Symbol>`, which the
sources do not declare. -/
structure LoaderEnv where
  uncompress : Nat → List Nat → Option (List Nat)
  fresh : Nat → Nat → Nat
  sameSymbol : Symbol → Symbol → Bool

/-- The class `RPXImage`: the members the loader reads and writes. -/
structure RPXImage where
  data : List Nat := []
  base : Nat := 0
  size : Nat := 0
  entry_point : Nat := 0
  text_base : Nat := 0
  text_size : Nat := 0
  data_base : Nat := 0
  data_size : Nat := 0
  sections : List Section := []
  symbols : List Symbol := []
  address_to_symbol : List (Nat × String) := []
  string_table : List String := []
  elf_header : RPX_ElfHeader := readElfHeader [] 0
  section_headers : List RPX_SectionHeader := []
  program_headers : List RPX_ProgramHeader := []
  deriving Repr

/-- The method `RPXImage::ParseElfHeader`. -/
def RPXImage.ParseElfHeader (image : RPXImage) (buf : HostBuffer) : Bool × RPXImage :=
  if buf.size < sizeofElfHeader then (false, image)
  else
    let header := readElfHeader buf.mem 0
    (true, { image with elf_header := header, entry_point := header.e_entry })

/-- The method `RPXImage::ParseSectionHeaders`. -/
def RPXImage.ParseSectionHeaders (image : RPXImage) (buf : HostBuffer) : Bool × RPXImage :=
  if image.elf_header.e_shoff = 0 ∨ image.elf_header.e_shnum = 0 then (false, image)
  else if image.elf_header.e_shoff + image.elf_header.e_shnum * sizeofSectionHeader >
      buf.size then (false, image)
  else
    (true, { image with section_headers :=
      (List.range image.elf_header.e_shnum).map (fun i =>
        readSectionHeader buf.mem (image.elf_header.e_shoff + i * sizeofSectionHeader)) })

/-- The method `RPXImage::ParseProgramHeaders`. -/
def RPXImage.ParseProgramHeaders (image : RPXImage) (buf : HostBuffer) : Bool × RPXImage :=
  if image.elf_header.e_phoff = 0 ∨ image.elf_header.e_phnum = 0 then (true, image)
  else if image.elf_header.e_phoff + image.elf_header.e_phnum * sizeofProgramHeader >
      buf.size then (false, image)
  else
    (true, { image with program_headers :=
      (List.range image.elf_header.e_phnum).map (fun i =>
        readProgramHeader buf.mem (image.elf_header.e_phoff + i * sizeofProgramHeader)) })

/-- The bytes of a NUL-terminated string at the start of a memory region, the
terminator excluded; `none` when the region ends before a NUL. -/
def cstring : List Nat → Option (List Nat)
  | [] => none
  | b :: rest => if b % 256 = 0 then some [] else (cstring rest).map (fun s => (b % 256) :: s)

/-- The `std::string` with the given bytes. -/
def stringOfBytes (bytes : List Nat) : String :=
  String.mk (bytes.map Char.ofNat)

/-- The loop "Parse null-terminated strings" of `ParseSections`, from offset `i` of the
table that starts at byte offset `start`.  The result is `none` when a string read runs
off the memory, or when the 32-bit offset wraps around so that the loop does not end
within `fuel` steps. -/
def parseStringTable (mem : List Nat) (start shSize : Nat) : Nat → Nat → Option (List String)
  | 0, _ => none
  | fuel + 1, i =>
    if i < shSize then
      match cstring (mem.drop (start + i)) with
      | none => none
      | some str =>
        (parseStringTable mem start shSize fuel ((i + str.length + 1) % U32)).map
          (fun rest => stringOfBytes str :: rest)
    else some []

/-- The method `RPXImage::GetSectionName`. -/
def GetSectionName (string_table : List String) (name_offset : Nat) : String :=
  if name_offset < string_table.length then string_table.getD name_offset "" else ""

/-- A fresh allocation `new uint8_t[n]` made for section `i`. -/
def freshBytes (env : LoaderEnv) (i n : Nat) : List Nat :=
  (List.range n).map (fun k => env.fresh i k % 256)

/-- The destination after `written` has been stored at its start. -/
def overlay (written dest : List Nat) : List Nat :=
  written.take dest.length ++ dest.drop written.length

/-- The method `RPXImage::DecompressSection`: the contents of `section.data` afterwards. -/
def DecompressSection (env : LoaderEnv) (sec : Section) (compressed : List Nat) :
    Option (List Nat) :=
  match sec.data with
  | none => none
  | some dest =>
    if sec.size = 0 then some dest
    else
      match env.uncompress sec.size compressed with
      | some out => some (overlay out dest)
      | none => some (List.replicate sec.size 0)

/-- The body of the section loop of `ParseSections` for header `i`, up to the derived
flags. -/
def makeSection (env : LoaderEnv) (string_table : List String) (buf : HostBuffer) (i : Nat)
    (header : RPX_SectionHeader) : Section :=
  let sec : Section :=
    { base := header.sh_addr, size := header.sh_size, flags := header.sh_flags,
      name := GetSectionName string_table header.sh_name, data := none }
  let sec : Section :=
    if header.sh_type ≠ SHT_NOBITS ∧ header.sh_size > 0 ∧ header.sh_offset < buf.size then
      if header.sh_flags &&& SHF_RPL_ZLIB ≠ 0 then
        let sec := { sec with data := some (freshBytes env i header.sh_size) }
        let compressed := (buf.mem.drop header.sh_offset).take
          (min ((buf.size - header.sh_offset) % U32) header.sh_size)
        { sec with data := DecompressSection env sec compressed }
      else
        let copied := (buf.mem.drop header.sh_offset).take
          (min header.sh_size (buf.size - header.sh_offset))
        { sec with data := some (overlay copied (freshBytes env i header.sh_size)) }
    else { sec with data := none }
  let sec : Section :=
    if header.sh_flags &&& SHF_EXECINSTR ≠ 0 then
      { sec with flags := sec.flags ||| SectionFlags_Code } else sec
  let sec : Section :=
    if header.sh_flags &&& SHF_WRITE ≠ 0 then
      { sec with flags := sec.flags ||| SectionFlags_Data } else sec
  if header.sh_type = SHT_NOBITS then
    { sec with flags := sec.flags ||| SectionFlags_BSS } else sec

/-- The sections made from the headers with indices `i`, `i + 1`, ... -/
def makeSections (env : LoaderEnv) (string_table : List String) (buf : HostBuffer) :
    Nat → List RPX_SectionHeader → List Section
  | _, [] => []
  | i, header :: rest =>
    makeSection env string_table buf i header :: makeSections env string_table buf (i + 1) rest

/-- The bookkeeping "Track important sections" of the section loop, for one section. -/
def trackSection (image : RPXImage) (sec : Section) : RPXImage :=
  let image :=
    if sec.name = ".text" ∧ sec.flags &&& SectionFlags_Code ≠ 0 then
      { image with text_base := sec.base, text_size := sec.size } else image
  if sec.name = ".data" ∧ sec.flags &&& SectionFlags_Data ≠ 0 then
    { image with data_base := sec.base, data_size := sec.size } else image

/-- The loop "Calculate base address from the lowest section address". -/
def lowestBase (sections : List Section) : Nat :=
  let base := sections.foldl
    (fun base sec => if sec.base > 0 ∧ sec.base < base then sec.base else base) UINT32_MAX
  if base = UINT32_MAX then 0 else base

/-- The method `RPXImage::ParseSections`; `none` is a fault while reading the names. -/
def RPXImage.ParseSections (env : LoaderEnv) (image : RPXImage) (buf : HostBuffer) :
    Option (Bool × RPXImage) :=
  if image.section_headers.isEmpty then some (false, image)
  else
    let table : Option (List String) :=
      if image.elf_header.e_shstrndx < image.section_headers.length then
        let strtab_header := image.section_headers.getD image.elf_header.e_shstrndx
          (readSectionHeader [] 0)
        if strtab_header.sh_offset < buf.size ∧ strtab_header.sh_size > 0 then
          parseStringTable buf.mem strtab_header.sh_offset strtab_header.sh_size
            (strtab_header.sh_size + 1) 0
        else some image.string_table
      else some image.string_table
    match table with
    | none => none
    | some string_table =>
      let sections := makeSections env string_table buf 0 image.section_headers
      let image := { image with string_table := string_table, sections := sections }
      let image := sections.foldl trackSection image
      some (true, { image with base := lowestBase sections })

/-- The loop of `RPXImage::Find(uint32_t)` from section index `i` on.  A returned pointer
`section.data + (address - section.base)` is the pair of the section index and the byte
offset into its data. -/
def findAddressFrom (address : Nat) : List Section → Nat → Option (Nat × Nat)
  | [], _ => none
  | sec :: rest, i =>
    if address ≥ sec.base ∧ address < (sec.base + sec.size) % U32 then
      if sec.data.isSome then some (i, address - sec.base)
      else findAddressFrom address rest (i + 1)
    else findAddressFrom address rest (i + 1)

/-- The method `RPXImage::Find(uint32_t address)`; `none` is the null pointer. -/
def RPXImage.Find (image : RPXImage) (address : Nat) : Option (Nat × Nat) :=
  findAddressFrom address image.sections 0

/-- The method `RPXImage::Find(const std::string& name)`; `none` is the null pointer. -/
def RPXImage.FindName (image : RPXImage) (name : String) : Option Section :=
  image.sections.find? (fun sec => sec.name = name)

/-- The call `symbols.insert(symbol)` on the unordered set. -/
def insertSymbol (env : LoaderEnv) (symbols : List Symbol) (symbol : Symbol) : List Symbol :=
  if symbols.any (fun s => env.sameSymbol s symbol) then symbols else symbols ++ [symbol]

/-- The assignment `address_to_symbol[address] = name`. -/
def setAddressName (map : List (Nat × String)) (address : Nat) (name : String) :
    List (Nat × String) :=
  map.filter (fun entry => entry.1 ≠ address) ++ [(address, name)]

/-- The entry loop of `RPXImage::LoadSymbols` over the entry indices still to visit;
`none` is a fault while reading a name. -/
def loadSymbolEntries (env : LoaderEnv) (symData strData : List Nat) (strSize : Nat) :
    List Nat → List Symbol × List (Nat × String) → Option (List Symbol × List (Nat × String))
  | [], state => some state
  | i :: rest, state =>
    let p := i * sizeofSymbolEntry
    let st_name := be32At symData p
    let st_value := be32At symData (p + 4)
    let st_size := be32At symData (p + 8)
    let st_info := byteAt symData (p + 12)
    if st_name ≥ strSize then loadSymbolEntries env symData strData strSize rest state
    else
      match cstring (strData.drop st_name) with
      | none => none
      | some bytes =>
        let name := stringOfBytes bytes
        if name = "" then loadSymbolEntries env symData strData strSize rest state
        else
          let symbol_type := st_info &&& 0xF
          let type :=
            if symbol_type = 1 then SymbolType.Symbol_Data
            else if symbol_type = 2 then SymbolType.Symbol_Function
            else SymbolType.Symbol_Function
          let symbol : Symbol := ⟨name, st_value, st_size, type⟩
          loadSymbolEntries env symData strData strSize rest
            (insertSymbol env state.1 symbol, setAddressName state.2 st_value name)

/-- The method `RPXImage::LoadSymbols`; `none` is a fault while reading a name. -/
def RPXImage.LoadSymbols (env : LoaderEnv) (image : RPXImage) : Option (Bool × RPXImage) :=
  match image.FindName ".symtab", image.FindName ".strtab" with
  | some symtab, some strtab =>
    match symtab.data, strtab.data with
    | some symData, some strData =>
      let symbol_count := symtab.size / sizeofSymbolEntry
      match loadSymbolEntries env symData strData strtab.size (List.range symbol_count)
          ([], []) with
      | none => none
      | some state =>
        some (true, { image with symbols := state.1, address_to_symbol := state.2 })
    | _, _ => some (false, image)
  | _, _ => some (false, image)

/-- The stages of `RPXImage::ParseImage` that can return early. -/
inductive ParseStage where
  | header | elfHeader | sectionHeaders | programHeaders | sections
  deriving DecidableEq, Repr

/-- The function `RPXImage::ParseImage`, with the stage whose failure made it return
early (`none` when every stage succeeded) next to the returned image.  The outer `none`
is a fault while reading a name.  The calls of `LoadImports`, `LoadExports`,
`LoadRelocations` and `AnalyzeFunctions` that follow `LoadSymbols` write only members
that are left out here. -/
def RPXImage.ParseImageStaged (env : LoaderEnv) (buf : HostBuffer) :
    Option (Option ParseStage × RPXImage) :=
  let image : RPXImage := {}
  if ValidateRPXHeader buf = false then some (some .header, image)
  else
    let image := { image with data := buf.mem.take buf.size, size := buf.size % U32 }
    let r := image.ParseElfHeader buf
    if r.1 = false then some (some .elfHeader, r.2)
    else
      let r := r.2.ParseSectionHeaders buf
      if r.1 = false then some (some .sectionHeaders, r.2)
      else
        let r := r.2.ParseProgramHeaders buf
        if r.1 = false then some (some .programHeaders, r.2)
        else
          match r.2.ParseSections env buf with
          | none => none
          | some r =>
            if r.1 = false then some (some .sections, r.2)
            else
              match r.2.LoadSymbols env with
              | none => none
              | some r => some (none, r.2)

/-- The function `RPXImage::ParseImage`. -/
def RPXImage.ParseImage (env : LoaderEnv) (buf : HostBuffer) : Option RPXImage :=
  (RPXImage.ParseImageStaged env buf).map (fun r => r.2)

/-! ## Example buffers -/

/-- A 16-byte buffer holding only the identification bytes of a 32-bit big-endian ELF file,
followed in memory by four zero bytes. -/
def identOnlyBuffer : HostBuffer :=
  ⟨[
    0x7F, 0x45, 0x4C, 0x46, 0x01, 0x02, 0x01, 0x00, 0x00, 0x00, 0x00, 0x00, 0x00, 0x00, 0x00, 0x00,
    0x00, 0x00, 0x00, 0x00],
   16⟩

/-- A 20-byte buffer: valid identification bytes, `e_type`, and `e_machine = 20`. -/
def shortHeaderBuffer : HostBuffer :=
  ⟨[
    0x7F, 0x45, 0x4C, 0x46, 0x01, 0x02, 0x01, 0x00, 0x00, 0x00, 0x00, 0x00, 0x00, 0x00, 0x00, 0x00,
    0xFE, 0x01, 0x00, 0x14],
   20⟩

/-- A 52-byte buffer: a complete ELF header announcing one section header at offset 52,
where the buffer ends. -/
def truncatedTableBuffer : HostBuffer :=
  ⟨[
    0x7F, 0x45, 0x4C, 0x46, 0x01, 0x02, 0x01, 0x00, 0x00, 0x00, 0x00, 0x00, 0x00, 0x00, 0x00, 0x00,
    0xFE, 0x01, 0x00, 0x14, 0x00, 0x00, 0x00, 0x01, 0x02, 0x00, 0x00, 0x00, 0x00, 0x00, 0x00, 0x00,
    0x00, 0x00, 0x00, 0x34, 0x00, 0x00, 0x00, 0x00, 0x00, 0x34, 0x00, 0x00, 0x00, 0x00, 0x00, 0x28,
    0x00, 0x01, 0x00, 0x00],
   52⟩

/-- An image with one section header (PROGBITS, `SHF_ALLOC | SHF_RPL_ZLIB`, address
`0x02000000`, `sh_size = 4`) whose four payload bytes `00 00 00 00` are no zlib stream. -/
def zlibSectionBuffer : HostBuffer :=
  ⟨[
    0x7F, 0x45, 0x4C, 0x46, 0x01, 0x02, 0x01, 0x00, 0x00, 0x00, 0x00, 0x00, 0x00, 0x00, 0x00, 0x00,
    0xFE, 0x01, 0x00, 0x14, 0x00, 0x00, 0x00, 0x01, 0x02, 0x00, 0x00, 0x00, 0x00, 0x00, 0x00, 0x00,
    0x00, 0x00, 0x00, 0x34, 0x00, 0x00, 0x00, 0x00, 0x00, 0x34, 0x00, 0x00, 0x00, 0x00, 0x00, 0x28,
    0x00, 0x01, 0x00, 0x01, 0x00, 0x00, 0x00, 0x00, 0x00, 0x00, 0x00, 0x01, 0x08, 0x00, 0x00, 0x02,
    0x02, 0x00, 0x00, 0x00, 0x00, 0x00, 0x00, 0x5C, 0x00, 0x00, 0x00, 0x04, 0x00, 0x00, 0x00, 0x00,
    0x00, 0x00, 0x00, 0x00, 0x00, 0x00, 0x00, 0x01, 0x00, 0x00, 0x00, 0x00, 0x00, 0x00, 0x00, 0x00],
   96⟩

/-- An image with one section header: NOBITS, address `0x10000000`, size `0x100`. -/
def bssSectionBuffer : HostBuffer :=
  ⟨[
    0x7F, 0x45, 0x4C, 0x46, 0x01, 0x02, 0x01, 0x00, 0x00, 0x00, 0x00, 0x00, 0x00, 0x00, 0x00, 0x00,
    0xFE, 0x01, 0x00, 0x14, 0x00, 0x00, 0x00, 0x01, 0x02, 0x00, 0x00, 0x00, 0x00, 0x00, 0x00, 0x00,
    0x00, 0x00, 0x00, 0x34, 0x00, 0x00, 0x00, 0x00, 0x00, 0x34, 0x00, 0x00, 0x00, 0x00, 0x00, 0x28,
    0x00, 0x01, 0x00, 0x01, 0x00, 0x00, 0x00, 0x00, 0x00, 0x00, 0x00, 0x08, 0x00, 0x00, 0x00, 0x03,
    0x10, 0x00, 0x00, 0x00, 0x00, 0x00, 0x00, 0x5C, 0x00, 0x00, 0x01, 0x00, 0x00, 0x00, 0x00, 0x00,
    0x00, 0x00, 0x00, 0x00, 0x00, 0x00, 0x00, 0x01, 0x00, 0x00, 0x00, 0x00],
   92⟩

/-- An image with two NOBITS section headers, `[0x10000000, 0x10000100)` and
`[0x10000080, 0x10000180)`. -/
def overlappingSectionsBuffer : HostBuffer :=
  ⟨[
    0x7F, 0x45, 0x4C, 0x46, 0x01, 0x02, 0x01, 0x00, 0x00, 0x00, 0x00, 0x00, 0x00, 0x00, 0x00, 0x00,
    0xFE, 0x01, 0x00, 0x14, 0x00, 0x00, 0x00, 0x01, 0x02, 0x00, 0x00, 0x00, 0x00, 0x00, 0x00, 0x00,
    0x00, 0x00, 0x00, 0x34, 0x00, 0x00, 0x00, 0x00, 0x00, 0x34, 0x00, 0x00, 0x00, 0x00, 0x00, 0x28,
    0x00, 0x02, 0x00, 0x02, 0x00, 0x00, 0x00, 0x00, 0x00, 0x00, 0x00, 0x08, 0x00, 0x00, 0x00, 0x03,
    0x10, 0x00, 0x00, 0x00, 0x00, 0x00, 0x00, 0x84, 0x00, 0x00, 0x01, 0x00, 0x00, 0x00, 0x00, 0x00,
    0x00, 0x00, 0x00, 0x00, 0x00, 0x00, 0x00, 0x01, 0x00, 0x00, 0x00, 0x00, 0x00, 0x00, 0x00, 0x00,
    0x00, 0x00, 0x00, 0x08, 0x00, 0x00, 0x00, 0x03, 0x10, 0x00, 0x00, 0x80, 0x00, 0x00, 0x00, 0x84,
    0x00, 0x00, 0x01, 0x00, 0x00, 0x00, 0x00, 0x00, 0x00, 0x00, 0x00, 0x00, 0x00, 0x00, 0x00, 0x01,
    0x00, 0x00, 0x00, 0x00],
   132⟩

/-- An image with three section headers: `sh_name = 1` (PROGBITS, executable, holding
`blr`), `sh_name = 7` (PROGBITS, writable) and the section-name string table
`"\\0.text\\0.data\\0"` itself (`sh_name = 0`, `e_shstrndx = 2`). -/
def namedSectionsBuffer : HostBuffer :=
  ⟨[
    0x7F, 0x45, 0x4C, 0x46, 0x01, 0x02, 0x01, 0x00, 0x00, 0x00, 0x00, 0x00, 0x00, 0x00, 0x00, 0x00,
    0xFE, 0x01, 0x00, 0x14, 0x00, 0x00, 0x00, 0x01, 0x02, 0x00, 0x00, 0x00, 0x00, 0x00, 0x00, 0x00,
    0x00, 0x00, 0x00, 0x34, 0x00, 0x00, 0x00, 0x00, 0x00, 0x34, 0x00, 0x00, 0x00, 0x00, 0x00, 0x28,
    0x00, 0x03, 0x00, 0x02, 0x00, 0x00, 0x00, 0x01, 0x00, 0x00, 0x00, 0x01, 0x00, 0x00, 0x00, 0x06,
    0x02, 0x00, 0x00, 0x00, 0x00, 0x00, 0x00, 0xB9, 0x00, 0x00, 0x00, 0x04, 0x00, 0x00, 0x00, 0x00,
    0x00, 0x00, 0x00, 0x00, 0x00, 0x00, 0x00, 0x01, 0x00, 0x00, 0x00, 0x00, 0x00, 0x00, 0x00, 0x07,
    0x00, 0x00, 0x00, 0x01, 0x00, 0x00, 0x00, 0x03, 0x10, 0x00, 0x00, 0x00, 0x00, 0x00, 0x00, 0xBD,
    0x00, 0x00, 0x00, 0x04, 0x00, 0x00, 0x00, 0x00, 0x00, 0x00, 0x00, 0x00, 0x00, 0x00, 0x00, 0x01,
    0x00, 0x00, 0x00, 0x00, 0x00, 0x00, 0x00, 0x00, 0x00, 0x00, 0x00, 0x03, 0x00, 0x00, 0x00, 0x00,
    0x00, 0x00, 0x00, 0x00, 0x00, 0x00, 0x00, 0xAC, 0x00, 0x00, 0x00, 0x0D, 0x00, 0x00, 0x00, 0x00,
    0x00, 0x00, 0x00, 0x00, 0x00, 0x00, 0x00, 0x01, 0x00, 0x00, 0x00, 0x00, 0x00, 0x2E, 0x74, 0x65,
    0x78, 0x74, 0x00, 0x2E, 0x64, 0x61, 0x74, 0x61, 0x00, 0x4E, 0x80, 0x00, 0x20, 0x00, 0x00, 0x00,
    0x01],
   193⟩

/-- An image with one section header: PROGBITS with `sh_flags = SHF_MERGE | SHF_STRINGS`
(`0x30`), neither executable nor writable, holding the bytes of `"abc"`. -/
def stringsSectionBuffer : HostBuffer :=
  ⟨[
    0x7F, 0x45, 0x4C, 0x46, 0x01, 0x02, 0x01, 0x00, 0x00, 0x00, 0x00, 0x00, 0x00, 0x00, 0x00, 0x00,
    0xFE, 0x01, 0x00, 0x14, 0x00, 0x00, 0x00, 0x01, 0x02, 0x00, 0x00, 0x00, 0x00, 0x00, 0x00, 0x00,
    0x00, 0x00, 0x00, 0x34, 0x00, 0x00, 0x00, 0x00, 0x00, 0x34, 0x00, 0x00, 0x00, 0x00, 0x00, 0x28,
    0x00, 0x01, 0x00, 0x01, 0x00, 0x00, 0x00, 0x00, 0x00, 0x00, 0x00, 0x01, 0x00, 0x00, 0x00, 0x30,
    0x00, 0x00, 0x00, 0x00, 0x00, 0x00, 0x00, 0x5C, 0x00, 0x00, 0x00, 0x04, 0x00, 0x00, 0x00, 0x00,
    0x00, 0x00, 0x00, 0x00, 0x00, 0x00, 0x00, 0x01, 0x00, 0x00, 0x00, 0x00, 0x61, 0x62, 0x63, 0x00],
   96⟩

/-- A zlib that reports an error for its input, as it does for the payloads of the example
buffers, which are not zlib streams; fresh allocations hold `0xCD`; two symbols are the
same when all their members are. -/
def failingZlibEnv : LoaderEnv :=
  ⟨fun _ _ => none, fun _ _ => 0xCD, fun a b => decide (a = b)⟩

/-- An image with the sections `.symtab` (one 16-byte entry: `st_name = 1`,
`st_value = 0x02000000`, `st_size = 0`, `st_info = 2`) and `.strtab` (`"\\0f\\0"`). -/
def symbolTableImage : RPXImage :=
  { sections :=
      [ { base := 0, size := 16, flags := 0, name := ".symtab",
          data := some [0x00, 0x00, 0x00, 0x01, 0x02, 0x00, 0x00, 0x00,
                        0x00, 0x00, 0x00, 0x00, 0x02, 0x00, 0x00, 0x01] },
        { base := 0, size := 3, flags := 0, name := ".strtab",
          data := some [0x00, 0x66, 0x00] } ] }

/-- The test of the loop of `RPXImage::Find(uint32_t)` under which it returns: the address
is inside the range of the section, its end computed in `uint32_t`, and the section has
data. -/
def Section.Holds (sec : Section) (address : Nat) : Prop :=
  sec.base ≤ address ∧ address < (sec.base + sec.size) % U32 ∧ sec.data.isSome = true

instance (sec : Section) (address : Nat) : Decidable (sec.Holds address) := by
  unfold Section.Holds
  infer_instance

/-- Two address ranges, each a pair of a base and a size, have an address in common. -/
def rangesIntersect (r s : Nat × Nat) : Prop :=
  ∃ a, r.1 ≤ a ∧ a < r.1 + r.2 ∧ s.1 ≤ a ∧ a < s.1 + s.2

/-- The address range of a section. -/
def Section.range (sec : Section) : Nat × Nat := (sec.base, sec.size)

/-- The address range a section header announces. -/
def RPX_SectionHeader.range (header : RPX_SectionHeader) : Nat × Nat :=
  (header.sh_addr, header.sh_size)

/-! ## The recompiler (recompiler.h, recompiler_config.h, recompiler.cpp)

The text the recompiler emits is the string `out`; the messages it writes to standard
output are left out.  The lookup `image.symbols.find(address)` of the unordered set, whose
hash and equality the sources do not declare, is a parameter `find`. -/

/-- The struct `RecompilerSwitchTable`. -/
structure RecompilerSwitchTable where
  r : Nat := 0
  labels : List Nat := []
  deriving DecidableEq, Repr

/-- The struct `RecompilerMidAsmHook`. -/
structure RecompilerMidAsmHook where
  name : String := ""
  registers : List String := []
  ret : Bool := false
  returnOnTrue : Bool := false
  returnOnFalse : Bool := false
  jumpAddress : Nat := 0
  jumpAddressOnTrue : Nat := 0
  jumpAddressOnFalse : Nat := 0
  afterInstruction : Bool := false
  deriving DecidableEq, Repr

/-- The struct `RecompilerConfig`: the members that the analysis, the translation of a
function and the generation of the output files read.  The maps are lists of key and
value, looked up by key. -/
structure RecompilerConfig where
  directoryPath : String := ""
  outDirectoryPath : String := ""
  switchTables : List (Nat × RecompilerSwitchTable) := []
  skipLr : Bool := false
  ctrAsLocalVariable : Bool := false
  xerAsLocalVariable : Bool := false
  reservedRegisterAsLocalVariable : Bool := false
  skipMsr : Bool := false
  crRegistersAsLocalVariables : Bool := false
  nonArgumentRegistersAsLocalVariables : Bool := false
  nonVolatileRegistersAsLocalVariables : Bool := false
  restGpr14Address : Nat := 0
  saveGpr14Address : Nat := 0
  restFpr14Address : Nat := 0
  saveFpr14Address : Nat := 0
  midAsmHooks : List (Nat × RecompilerMidAsmHook) := []
  mem1_base : Nat := 0x00800000
  mem1_size : Nat := 0x01800000
  mem2_base : Nat := 0x10000000
  mem2_size : Nat := 0x20000000
  generatePairedSingleSupport : Bool := true
  treatUnknownInstructionsAsNop : Bool := false
  functions : List (Nat × Nat) := []
  invalidInstructions : List (Nat × Nat) := []
  deriving DecidableEq, Repr

/-- The struct `RecompilerLocalVariables`. -/
structure RecompilerLocalVariables where
  ctr : Bool := false
  xer : Bool := false
  reserved : Bool := false
  cr : List Bool := List.replicate 8 false
  r : List Bool := List.replicate 32 false
  f : List Bool := List.replicate 32 false
  gqr : List Bool := List.replicate 8 false
  env : Bool := false
  temp : Bool := false
  vTemp : Bool := false
  ea : Bool := false
  ps_temp : Bool := false
  deriving DecidableEq, Repr

/-- The enum class `FPState`. -/
inductive FPState where
  | Unknown | FPU | PairedSingle
  deriving DecidableEq, Repr

/-- The class `Recompiler`: its data members. -/
structure Recompiler where
  image : RPXImage := {}
  functions : List Function := []
  out : String := ""
  cppFileIndex : Nat := 0
  config : RecompilerConfig := {}

/-- The lookup `image.symbols.find(address)`. -/
abbrev SymbolLookup : Type := List Symbol → Nat → Option Symbol

/-- One hexadecimal digit in upper case, as the formats `{:X}` and `%X` write it. -/
def hexDigit (d : Nat) : Char :=
  if d < 10 then Char.ofNat (48 + d) else Char.ofNat (55 + d)

/-- The hexadecimal digits of `n` put before `acc`; the fuel bounds the number of
digits. -/
def hexDigits : Nat → Nat → List Char → List Char
  | 0, _, acc => acc
  | fuel + 1, n, acc =>
    if n < 16 then hexDigit n :: acc
    else hexDigits fuel (n / 16) (hexDigit (n % 16) :: acc)

/-- The formats `{:X}` and `%X` of an unsigned value below `2^64`: upper-case hexadecimal
digits, no prefix, no padding. -/
def formatHex (n : Nat) : String := String.mk (hexDigits 16 n [])

/-- The method `Recompiler::println` for an already formatted text. -/
def Recompiler.println (r : Recompiler) (text : String) : Recompiler :=
  { r with out := r.out ++ text ++ "\n" }

/-- The operand loop of `ppc::FormatInstruction` over the operand indices still to visit.
The bounds of the two character buffers (256 and 32 bytes) are not reached by a name of the
table and four operands. -/
def formatOperands (d : ppc_opcode) (insn : ppc_insn) : List Nat → Bool → String → String
  | [], _, buffer => buffer
  | i :: rest, first_operand, buffer =>
    if d.operands.getD i (-1) = -1 then buffer
    else
      let buffer := if first_operand then buffer ++ " " else buffer ++ ", "
      let operand_str :=
        if d.id = .PPC_INST_B ∨ d.id = .PPC_INST_BL ∨ d.id = .PPC_INST_BC then
          "0x" ++ formatHex (insn.operands.getD i 0)
        else "r" ++ toString (insn.operands.getD i 0)
      formatOperands d insn rest false (buffer ++ operand_str)

/-- The function `ppc::FormatInstruction`: the text it leaves in the buffer.  After a
successful `DecodeInstruction` this is the member `op_str` of the instruction. -/
def FormatInstruction (insn : ppc_insn) : String :=
  match insn.opcode with
  | none => "invalid"
  | some d => formatOperands d insn [0, 1, 2, 3] true (d.name.getD "")

/-- The method `Recompiler::GetRegisterName`: the name and the updated local variables. -/
def Recompiler.GetRegisterName (r : Recompiler) (index : Nat) (type : Char)
    (locals : RecompilerLocalVariables) : String × RecompilerLocalVariables :=
  if type = 'r' ∧ index < 32 then
    if (r.config.nonArgumentRegistersAsLocalVariables = true ∧
          (index = 0 ∨ index = 2 ∨ index = 11 ∨ index = 12)) ∨
        (r.config.nonVolatileRegistersAsLocalVariables = true ∧ index ≥ 14) then
      ("r" ++ toString index, { locals with r := locals.r.set index true })
    else ("ctx.r" ++ toString index, locals)
  else ("ctx." ++ type.toString ++ toString index, locals)

/-- The method `Recompiler::RecompilePairedSingleInstruction`, for the descriptor `d` of
the instruction. -/
def Recompiler.RecompilePairedSingleInstruction (r : Recompiler) (d : ppc_opcode) :
    Bool × Recompiler :=
  (true, r.println ("\t// Paired single instruction: " ++ d.name.getD ""))

/-- The method `Recompiler::PrintFunctionCall`. -/
def Recompiler.PrintFunctionCall (find : SymbolLookup) (r : Recompiler) (address : Nat) :
    Recompiler :=
  match find r.image.symbols address with
  | some targetSymbol =>
    if targetSymbol.type = SymbolType.Symbol_Function then
      r.println ("\t" ++ targetSymbol.name ++ "(ctx, base);")
    else r.println ("\t// CALL to unknown function 0x" ++ formatHex address)
  | none => r.println ("\t// CALL to unknown function 0x" ++ formatHex address)

/-- The method `Recompiler::PrintMidAsmHook`. -/
def Recompiler.PrintMidAsmHook (r : Recompiler) (hook : RecompilerMidAsmHook) : Recompiler :=
  r.println ("\t" ++ hook.name ++ "(); // Mid-asm hook")

/-- The method `Recompiler::RecompileInstruction` for an instruction with the descriptor
`d = *insn.opcode`: the returned flag, the recompiler and the local variables afterwards.
Its parameters `data`, `switchTable` and `fpState` are not used by the body. -/
def Recompiler.RecompileInstruction (find : SymbolLookup) (r : Recompiler) (fn : Function)
    (base : Nat) (insn : ppc_insn) (d : ppc_opcode) (localVariables : RecompilerLocalVariables) :
    Bool × Recompiler × RecompilerLocalVariables :=
  let r := r.println ("\t// " ++ d.name.getD "" ++ " " ++ FormatInstruction insn)
  let midAsmHook := r.config.midAsmHooks.lookup base
  let r :=
    match midAsmHook with
    | some hook => if hook.afterInstruction = false then r.PrintMidAsmHook hook else r
    | none => r
  let after (r : Recompiler) : Recompiler :=
    match midAsmHook with
    | some hook => if hook.afterInstruction = true then r.PrintMidAsmHook hook else r
    | none => r
  match d.id with
  | .PPC_INST_ADD =>
    let n0 := r.GetRegisterName (insn.operands.getD 0 0) 'r' localVariables
    let n1 := r.GetRegisterName (insn.operands.getD 1 0) 'r' n0.2
    let n2 := r.GetRegisterName (insn.operands.getD 2 0) 'r' n1.2
    (true, after (r.println ("\t" ++ n0.1 ++ ".u64 = " ++ n1.1 ++ ".u64 + " ++ n2.1 ++ ".u64;")),
      n2.2)
  | .PPC_INST_ADDI =>
    let n0 := r.GetRegisterName (insn.operands.getD 0 0) 'r' localVariables
    let n1 := r.GetRegisterName (insn.operands.getD 1 0) 'r' n0.2
    (true, after (r.println ("\t" ++ n0.1 ++ ".s64 = " ++ n1.1 ++ ".s64 + " ++
      toString (toInt32 (insn.operands.getD 2 0)) ++ ";")), n1.2)
  | .PPC_INST_B =>
    if insn.operands.getD 0 0 < fn.base ∨ insn.operands.getD 0 0 ≥ (fn.base + fn.size) % U64 then
      let r := Recompiler.PrintFunctionCall find r (insn.operands.getD 0 0)
      (true, after (r.println "\treturn;"), localVariables)
    else
      (true, after (r.println ("\tgoto loc_" ++ formatHex (insn.operands.getD 0 0) ++ ";")),
        localVariables)
  | .PPC_INST_BLR => (true, after (r.println "\treturn;"), localVariables)
  | .PPC_INST_PS_ADD =>
    if r.config.generatePairedSingleSupport = true then
      let p := r.RecompilePairedSingleInstruction d
      (p.1, p.2, localVariables)
    else (true, after r, localVariables)
  | _ =>
    (false, r.println ("\t__builtin_debugtrap(); // Unimplemented: " ++ d.name.getD ""),
      localVariables)

/-- The call `labels.emplace(label)` on the unordered set of labels. -/
def emplaceLabel (labels : List Nat) (label : Nat) : List Nat :=
  if label ∈ labels then labels else labels ++ [label]

/-- The labels a mid-asm hook contributes in the first loop of `RecompileFunction`. -/
def hookLabels (labels : List Nat) (hook : RecompilerMidAsmHook) : List Nat :=
  let labels := if hook.jumpAddress ≠ 0 then emplaceLabel labels hook.jumpAddress else labels
  let labels :=
    if hook.jumpAddressOnTrue ≠ 0 then emplaceLabel labels hook.jumpAddressOnTrue else labels
  if hook.jumpAddressOnFalse ≠ 0 then emplaceLabel labels hook.jumpAddressOnFalse else labels

/-- The first loop of `Recompiler::RecompileFunction`, "Collect labels for jumps within
the function", from address `addr` on.  The pointer `data` is the byte offset `data` into
the contents `bytes` of its section; `none` is a read outside these contents, or the end
of the fuel. -/
def collectLabels (config : RecompilerConfig) (bytes : List Nat) (data base end_ : Nat) :
    Nat → Nat → List Nat → Option (List Nat)
  | 0, _, _ => none
  | fuel + 1, addr, labels =>
    if addr < end_ then
      if addr < base ∨ data + (addr - base) + 4 > bytes.length then none
      else
        let instruction := ByteSwap (load32 (memOfBytes 0 bytes) (data + (addr - base)))
        let labels :=
          if PPC_BL instruction = 0 then
            if PPC_OP instruction = PPC_OP_B then
              emplaceLabel labels ((addr + toSizeT (PPC_BI instruction)) % U64)
            else if PPC_OP instruction = PPC_OP_BC then
              emplaceLabel labels ((addr + toSizeT (PPC_BD instruction)) % U64)
            else labels
          else labels
        let labels :=
          match config.switchTables.lookup (addr % U32) with
          | some switchTable => switchTable.labels.foldl emplaceLabel labels
          | none => labels
        let labels :=
          match config.midAsmHooks.lookup (addr % U32) with
          | some midAsmHook => hookLabels labels midAsmHook
          | none => labels
        collectLabels config bytes data base end_ fuel ((addr + 4) % U64) labels
    else some labels

/-- The variables of the second loop of `Recompiler::RecompileFunction`; `data` is the
byte offset of the pointer `data` into the contents of its section, `switchTable` the
iterator (`none` at `end()`). -/
structure RecompileState where
  recompiler : Recompiler
  base : Nat
  data : Nat
  insn : ppc_insn
  switchTable : Option (Nat × RecompilerSwitchTable) := none
  localVariables : RecompilerLocalVariables := {}
  fpState : FPState := FPState.Unknown
  allRecompiled : Bool := true

/-- One pass through the body of the loop "Recompile each instruction"; `none` is a read
outside the contents `bytes` of the section. -/
def recompileStep (find : SymbolLookup) (fn : Function) (bytes : List Nat) (labels : List Nat)
    (s : RecompileState) : Option RecompileState :=
  let s :=
    if s.base ∈ labels then
      { s with recompiler := s.recompiler.println ("loc_" ++ formatHex s.base ++ ":"),
               fpState := FPState.Unknown }
    else s
  let s :=
    if s.switchTable = none then
      { s with switchTable :=
          (s.recompiler.config.switchTables.find? (fun entry => entry.1 = s.base % U32)) }
    else s
  if s.data + 4 > bytes.length then none
  else
    let decoded := Disassemble (memOfBytes 0 bytes) s.data (s.base % U32) s.insn
    let s := { s with insn := decoded.2 }
    let s :=
      match s.insn.opcode with
      | none =>
        let word := ByteSwap (load32 (memOfBytes 0 bytes) s.data)
        let r := s.recompiler.println ("\t// INVALID INSTRUCTION: 0x" ++ formatHex word)
        if s.recompiler.config.treatUnknownInstructionsAsNop = false then
          { s with recompiler := r, allRecompiled := false }
        else { s with recompiler := r }
      | some d =>
        let result := Recompiler.RecompileInstruction find s.recompiler fn (s.base % U32)
          s.insn d s.localVariables
        if result.1 = false then
          { s with recompiler := result.2.1, localVariables := result.2.2,
                   allRecompiled := false }
        else { s with recompiler := result.2.1, localVariables := result.2.2 }
    some { s with base := (s.base + 4) % U64, data := s.data + 4 }

/-- The loop "Recompile each instruction" of `Recompiler::RecompileFunction`; `none` is a
read outside the contents of the section, or the end of the fuel. -/
def recompileLoop (find : SymbolLookup) (fn : Function) (bytes : List Nat) (labels : List Nat)
    (end_ : Nat) : Nat → RecompileState → Option RecompileState
  | 0, _ => none
  | fuel + 1, s =>
    if s.base < end_ then
      match recompileStep find fn bytes labels s with
      | none => none
      | some s => recompileLoop find fn bytes labels end_ fuel s
    else some s

/-- The declarations "Generate local variable declarations" for the registers with
indices `i`, `i + 1`, ... of two register files, printed alternately. -/
def printRegisterPairs (first second : String) :
    List (Bool × Bool) → Nat → Recompiler → Recompiler
  | [], _, r => r
  | (a, b) :: rest, i, r =>
    let r := if a = true then r.println (first ++ toString i ++ "\x7b\x7d;") else r
    let r := if b = true then r.println (second ++ toString i ++ "\x7b\x7d;") else r
    printRegisterPairs first second rest (i + 1) r

/-- The part "Generate local variable declarations" of `Recompiler::RecompileFunction`. -/
def printLocalVariables (r : Recompiler) (localVariables : RecompilerLocalVariables) :
    Recompiler :=
  let r := if localVariables.ctr = true then r.println "\tPPCRegister ctr\x7b\x7d;" else r
  let r := if localVariables.xer = true then r.println "\tPPCXERRegister xer\x7b\x7d;" else r
  let r :=
    if localVariables.reserved = true then r.println "\tPPCRegister reserved\x7b\x7d;" else r
  let r := printRegisterPairs "\tPPCCRRegister cr" "\tPPCRegister gqr"
    (localVariables.cr.zip localVariables.gqr) 0 r
  let r := printRegisterPairs "\tPPCRegister r" "\tPPCFPRegister f"
    (localVariables.r.zip localVariables.f) 0 r
  let r := if localVariables.env = true then r.println "\tPPCContext env\x7b\x7d;" else r
  let r := if localVariables.temp = true then r.println "\tPPCRegister temp\x7b\x7d;" else r
  let r := if localVariables.vTemp = true then r.println "\tPPCRegister vTemp\x7b\x7d;" else r
  let r := if localVariables.ea = true then r.println "\tuint32_t ea\x7b\x7d;" else r
  if localVariables.ps_temp = true then r.println "\tPPCFPRegister ps_temp\x7b\x7d;" else r

/-- The method `Recompiler::RecompileFunction` (built without `REBREW_RECOMP_USE_ALIAS`,
which the sources never define): the returned flag and the recompiler afterwards.  The
fuel bounds the passes of each of the two loops; `none` is a read outside the contents of
the section that holds the function, or the end of the fuel. -/
def Recompiler.RecompileFunction (find : SymbolLookup) (fuel : Nat) (r : Recompiler)
    (fn : Function) : Option (Bool × Recompiler) :=
  let base := fn.base
  let end_ := (base + fn.size) % U64
  match r.image.Find (base % U32) with
  | none => some (false, r)
  | some data =>
    let bytes := ((r.image.sections.getD data.1 {}).data).getD []
    match collectLabels r.config bytes data.2 base end_ fuel base [] with
    | none => none
    | some labels =>
      let name :=
        match find r.image.symbols fn.base with
        | some symbol => symbol.name
        | none => "sub_" ++ formatHex fn.base
      let r := r.println ("PPC_FUNC_IMPL(__imp__" ++ name ++ ") \x7b")
      let r := r.println "\tPPC_FUNC_PROLOGUE();"
      let tempOutput := r.out
      let r := { r with out := "" }
      match recompileLoop find fn bytes labels end_ fuel
          { recompiler := r, base := base, data := data.2, insn := freshInsn } with
      | none => none
      | some s =>
        let r := s.recompiler
        let r := r.println "\x7d"
        let r := r.println ""
        let r := r.println ("PPC_WEAK_FUNC(" ++ name ++ ") \x7b")
        let r := r.println ("\t__imp__" ++ name ++ "(ctx, base);")
        let r := r.println "\x7d"
        let r := r.println ""
        let body := r.out
        let r := { r with out := tempOutput }
        let r := printLocalVariables r s.localVariables
        some (s.allRecompiled, { r with out := r.out ++ body })

/-- The lookup of a symbol by its address in a store kept as a list. -/
def findByAddress : SymbolLookup :=
  fun symbols address => symbols.find? (fun symbol => symbol.address = address)

/-- An image with one code section at `0x02000000` holding the word `4E 80 00 20`, and no
symbols. -/
def blrImage : RPXImage :=
  { sections :=
      [ { base := 0x02000000, size := 4, flags := 0x26, name := ".text",
          data := some [0x4E, 0x80, 0x00, 0x20] } ],
    text_base := 0x02000000, text_size := 4, base := 0x02000000 }

/-- The function of 4 bytes at `0x02000000`, one block. -/
def blrFunction : Function :=
  { base := 0x02000000, size := 4, blocks := [{ base := 0, size := 4 }] }

/-- An image with one code section at `0x02000000` holding `b +8; blr; blr`, and no
symbols. -/
def forwardBranchImage : RPXImage :=
  { sections :=
      [ { base := 0x02000000, size := 12, flags := 0x26, name := ".text",
          data := some [0x48, 0x00, 0x00, 0x08, 0x4E, 0x80, 0x00, 0x20,
                        0x4E, 0x80, 0x00, 0x20] } ],
    text_base := 0x02000000, text_size := 12, base := 0x02000000 }

/-- The function of 12 bytes at `0x02000000` with the blocks `(0, 4)` and `(8, 4)`. -/
def forwardBranchFunction : Function :=
  { base := 0x02000000, size := 12, blocks := [{ base := 0, size := 4 }, { base := 8, size := 4 }] }

/-! ## Branch helpers (disasm.cpp) -/

/-- The function `ppc::IsBranchInstruction`. -/
def IsBranchInstruction (insn : ppc_insn) : Bool :=
  match insn.opcode with
  | none => false
  | some d =>
    match d.id with
    | .PPC_INST_B => true
    | .PPC_INST_BA => true
    | .PPC_INST_BL => true
    | .PPC_INST_BC => true
    | .PPC_INST_BCLR => true
    | .PPC_INST_BCCTR => true
    | .PPC_INST_BLR => true
    | .PPC_INST_BCTR => true
    | _ => false

/-- The function `ppc::CalculateBranchTarget`; the sum is taken in `uint32_t`. -/
def CalculateBranchTarget (address : Nat) (insn : ppc_insn) : Nat :=
  if IsBranchInstruction insn = false then 0
  else
    match insn.opcode with
    | none => 0
    | some d =>
      if d.id = .PPC_INST_BA then insn.operands.getD 0 0
      else (address + insn.operands.getD 0 0) % U32

/-! ## Guest memory access (ppc_context.h)

The host memory is a function from byte addresses to bytes; the host is little-endian. -/

/-- The builtin `__builtin_bswap64`: reverses the eight bytes of a 64-bit value. -/
def ByteSwap64 (value : Nat) : Nat :=
  ((value &&& 0xFF) <<< 56) ||| ((value &&& 0xFF00) <<< 40) |||
    ((value &&& 0xFF0000) <<< 24) ||| ((value &&& 0xFF000000) <<< 8) |||
    ((value >>> 8) &&& 0xFF000000) ||| ((value >>> 24) &&& 0xFF0000) |||
    ((value >>> 40) &&& 0xFF00) ||| ((value >>> 56) &&& 0xFF)

/-- A host load `*(volatile uint16_t*)p`. -/
def load16 (mem : Nat → Nat) (p : Nat) : Nat :=
  (mem p % 256) ||| ((mem ((p + 1) % U64) % 256) <<< 8)

/-- A host load `*(volatile uint64_t*)p`. -/
def load64 (mem : Nat → Nat) (p : Nat) : Nat :=
  (mem p % 256) ||| ((mem ((p + 1) % U64) % 256) <<< 8) |||
    ((mem ((p + 2) % U64) % 256) <<< 16) ||| ((mem ((p + 3) % U64) % 256) <<< 24) |||
    ((mem ((p + 4) % U64) % 256) <<< 32) ||| ((mem ((p + 5) % U64) % 256) <<< 40) |||
    ((mem ((p + 6) % U64) % 256) <<< 48) ||| ((mem ((p + 7) % U64) % 256) <<< 56)

/-- A host store of the `n` low bytes of `v` at `p`, `p + 1`, ..., lowest byte first. -/
def storeBytes (mem : Nat → Nat) (p v : Nat) : Nat → Nat → Nat
  | 0 => mem
  | n + 1 => fun a =>
    if a = (p + n) % U64 then (v >>> (8 * n)) % 256 else storeBytes mem p v n a

/-- A host store `*(volatile uint16_t*)p = v`. -/
def store16 (mem : Nat → Nat) (p v : Nat) : Nat → Nat := storeBytes mem p v 2

/-- A host store `*(volatile uint32_t*)p = v`. -/
def store32 (mem : Nat → Nat) (p v : Nat) : Nat → Nat := storeBytes mem p v 4

/-- A host store `*(volatile uint64_t*)p = v`. -/
def store64 (mem : Nat → Nat) (p v : Nat) : Nat → Nat := storeBytes mem p v 8

/-- The macro `PPC_LOAD_U16`, for the pointer `base` and the guest memory `mem`. -/
def PPC_LOAD_U16 (mem : Nat → Nat) (base addr : Nat) : Nat :=
  ByteSwap16 (load16 mem ((base + addr) % U64))

/-- The macro `PPC_LOAD_U32`. -/
def PPC_LOAD_U32 (mem : Nat → Nat) (base addr : Nat) : Nat :=
  ByteSwap (load32 mem ((base + addr) % U64))

/-- The macro `PPC_LOAD_U64`. -/
def PPC_LOAD_U64 (mem : Nat → Nat) (base addr : Nat) : Nat :=
  ByteSwap64 (load64 mem ((base + addr) % U64))

/-- The macro `PPC_STORE_U16`: the memory after the store. -/
def PPC_STORE_U16 (mem : Nat → Nat) (base addr val : Nat) : Nat → Nat :=
  store16 mem ((base + addr) % U64) (ByteSwap16 (val % 2 ^ 16))

/-- The macro `PPC_STORE_U32`: the memory after the store. -/
def PPC_STORE_U32 (mem : Nat → Nat) (base addr val : Nat) : Nat → Nat :=
  store32 mem ((base + addr) % U64) (ByteSwap (val % U32))

/-- The macro `PPC_STORE_U64`: the memory after the store. -/
def PPC_STORE_U64 (mem : Nat → Nat) (base addr val : Nat) : Nat → Nat :=
  store64 mem ((base + addr) % U64) (ByteSwap64 (val % U64))

/-! ## Recompiler::Analyse: system function entries (recompiler.cpp) -/

/-- One of the four blocks in the body of the loop "Generate system function entries
first" of `Recompiler::Analyse`: for a non-zero helper address, a function is appended
and a symbol emplaced.  `stem` is the name without the number and `trailing` the constant
added to the size (12, 8 or 4).  The constructor of `Symbol` takes the address and the
size as `uint32_t`. -/
def Recompiler.systemFunctionEntry (env : LoaderEnv) (r : Recompiler) (address i : Nat)
    (stem : String) (trailing : Nat) : Recompiler :=
  if address ≠ 0 then
    let fn : Function :=
      { base := (address + ((i - 14) * 4) % U64) % U64,
        size := (((32 - i) * 4) % U64 + trailing) % U64 }
    let symbol : Symbol :=
      ⟨stem ++ toString i, fn.base % U32, fn.size % U32, SymbolType.Symbol_Function⟩
    let image := { r.image with symbols := insertSymbol env r.image.symbols symbol }
    { r with functions := r.functions ++ [fn], image := image }
  else r

/-- The body of the loop "Generate system function entries first" for one `i`. -/
def Recompiler.systemFunctionEntries (env : LoaderEnv) (r : Recompiler) (i : Nat) :
    Recompiler :=
  let r := r.systemFunctionEntry env r.config.restGpr14Address i "__restgprlr_" 12
  let r := r.systemFunctionEntry env r.config.saveGpr14Address i "__savegprlr_" 8
  let r := r.systemFunctionEntry env r.config.restFpr14Address i "__restfpr_" 4
  r.systemFunctionEntry env r.config.saveFpr14Address i "__savefpr_" 4

/-- The start of `Recompiler::Analyse`: `functions.clear()` and the loop "Generate system
function entries first" for `i` from 14 to 31. -/
def Recompiler.generateSystemFunctions (env : LoaderEnv) (r : Recompiler) : Recompiler :=
  (List.range' 14 18).foldl (Recompiler.systemFunctionEntries env) { r with functions := [] }

/-- A recompiler whose configuration names `0x02000000` as the address of
`__restgprlr_14` and no other helper. -/
def restGprRecompiler : Recompiler :=
  { config := { restGpr14Address := 0x02000000 } }

/-- The unordered set of symbols holds the symbol, or one that it regards as the same, so
that an `emplace` of the symbol has left the set as it was. -/
def holdsSymbol (env : LoaderEnv) (symbols : List Symbol) (symbol : Symbol) : Prop :=
  symbol ∈ symbols ∨ ∃ s ∈ symbols, env.sameSymbol s symbol = true

/-! ## The analyzer tool: jump-table scan (RebrewAnalyse/main.cpp)

A pointer into the contents of a section is its byte offset into these contents; the
result of `image.Find` is the pair of the section index and the byte offset.  A read
that leaves the contents is a fault (`none`).  The text that `printTable` prints for a
table is left out. -/

/-- The constant `SWITCH_ABSOLUTE`. -/
def SWITCH_ABSOLUTE : Nat := 0

/-- The constant `SWITCH_COMPUTED`. -/
def SWITCH_COMPUTED : Nat := 1

/-- The constant `SWITCH_BYTEOFFSET`. -/
def SWITCH_BYTEOFFSET : Nat := 2

/-- The constant `SWITCH_SHORTOFFSET`. -/
def SWITCH_SHORTOFFSET : Nat := 3

/-- The struct `SwitchTable` of main.cpp. -/
structure SwitchTable where
  labels : List Nat := []
  base : Nat := 0
  defaultLabel : Nat := 0
  r : Nat := 0
  type : Nat := 0
  deriving DecidableEq, Repr

/-- The call `ppc::Disassemble(p, address, insn)` on the word at byte offset `p` of the
contents `bytes`: the updated `insn`. -/
def disassembleAt (bytes : List Nat) (p : Nat) (insn : ppc_insn) : Option ppc_insn :=
  if p + 4 ≤ bytes.length then some (Disassemble (memOfBytes 0 bytes) p 0 insn).2 else none

/-- The contents a pointer returned by `image.Find` points into, next to its offset. -/
def contentsAt (image : RPXImage) (ptr : Option (Nat × Nat)) : Option (List Nat × Nat) :=
  match ptr with
  | none => none
  | some (i, p) =>
    match (image.sections.get? i).bind (fun sec => sec.data) with
    | none => none
    | some bytes => some (bytes, p)

/-- The call `ppc::Disassemble(code + k, .., insn)` of `ReadTable`, `off` being `4 * k`. -/
def decodeAt (image : RPXImage) (code : Option (Nat × Nat)) (off : Nat) (insn : ppc_insn) :
    Option ppc_insn :=
  match contentsAt image code with
  | none => none
  | some (bytes, p) => disassembleAt bytes (p + off) insn

/-- The read of `offsets[i]` through a `uint8_t*`. -/
def readU8 (image : RPXImage) (offsets : Option (Nat × Nat)) (i : Nat) : Option Nat :=
  match contentsAt image offsets with
  | none => none
  | some (bytes, p) => if p + i < bytes.length then some (byteAt bytes (p + i)) else none

/-- The read of `offsets[i]` through a `be<uint16_t>*`. -/
def readBE16 (image : RPXImage) (offsets : Option (Nat × Nat)) (i : Nat) : Option Nat :=
  match contentsAt image offsets with
  | none => none
  | some (bytes, p) =>
    if p + 2 * i + 2 ≤ bytes.length then some (be16At bytes (p + 2 * i)) else none

/-- The read of `offsets[i]` through a `be<uint32_t>*`. -/
def readBE32 (image : RPXImage) (offsets : Option (Nat × Nat)) (i : Nat) : Option Nat :=
  match contentsAt image offsets with
  | none => none
  | some (bytes, p) =>
    if p + 4 * i + 4 ≤ bytes.length then some (be32At bytes (p + 4 * i)) else none

/-- The loops `for (i = 0; i < table.labels.size(); i++) table.labels[i] = ..` of
`ReadTable`: the labels from index `i` on, `n` of them left. -/
def readLabels (label : Nat → Option Nat) : Nat → Nat → Option (List Nat)
  | 0, _ => some []
  | n + 1, i =>
    match label i with
    | none => none
    | some v =>
      match readLabels label n (i + 1) with
      | none => none
      | some rest => some (v :: rest)

/-- The two decodes of `ReadTable` that make a 32-bit value of a `lis` / `addi` pair:
`insn.operands[1] << 16` of the word at `hi`, plus `insn.operands[2]` of the word at
`lo`. -/
def readPair (image : RPXImage) (code : Option (Nat × Nat)) (hi lo : Nat) (insn : ppc_insn) :
    Option (Nat × ppc_insn) :=
  match decodeAt image code hi insn with
  | none => none
  | some insn =>
    let value := (insn.operands.getD 1 0 <<< 16) % U32
    match decodeAt image code lo insn with
    | none => none
    | some insn => some ((value + insn.operands.getD 2 0) % U32, insn)

/-- The function `ReadTable` of main.cpp.  A shift `offsets[i] << shift` is taken
without overflow. -/
def ReadTable (image : RPXImage) (table : SwitchTable) : Option SwitchTable :=
  let code := image.Find (table.base % U32)
  match readPair image code 0 4 freshInsn with
  | none => none
  | some (pOffset, insn) =>
    let offsets := image.Find pOffset
    let count := table.labels.length
    if table.type = SWITCH_ABSOLUTE then
      (readLabels (readBE32 image offsets) count 0).map (fun l => { table with labels := l })
    else if table.type = SWITCH_COMPUTED then
      match readPair image code 16 20 insn with
      | none => none
      | some (base, insn) =>
        match decodeAt image code 12 insn with
        | none => none
        | some insn =>
          let shift := insn.operands.getD 2 0
          (readLabels (fun i => (readU8 image offsets i).map
            (fun o => (base + (o <<< shift)) % U32)) count 0).map
            (fun l => { table with labels := l })
    else if table.type = SWITCH_BYTEOFFSET then
      match readPair image code 12 16 insn with
      | none => none
      | some (base, _) =>
        (readLabels (fun i => (readU8 image offsets i).map
          (fun o => (base + o) % U32)) count 0).map (fun l => { table with labels := l })
    else if table.type = SWITCH_SHORTOFFSET then
      match readPair image code 16 20 insn with
      | none => none
      | some (base, _) =>
        (readLabels (fun i => (readBE16 image offsets i).map
          (fun o => (base + o) % U32)) count 0).map (fun l => { table with labels := l })
    else some table

/-- The loop of `ScanTable` over the remaining values of `i`: `code` is the byte offset
of the pattern in `bytes`, `cr` the variable of that name (`0xFFFFFFFF` for `-1`). -/
def scanTableLoop (bytes : List Nat) (code base : Nat) :
    List Nat → ppc_insn → Nat → SwitchTable → Option SwitchTable
  | [], _, _, table => some table
  | i :: rest, insn, cr, table =>
    if code < 4 * i then none
    else
      match disassembleAt bytes (code - 4 * i) insn with
      | none => none
      | some insn =>
        match insn.opcode with
        | none => scanTableLoop bytes code base rest insn cr table
        | some d =>
          if cr = 0xFFFFFFFF ∧ (d.id = .PPC_INST_BGT ∨ d.id = .PPC_INST_BLE) then
            let table :=
              if d.operands.getD 1 0 ≠ 0 then
                { table with defaultLabel := insn.operands.getD 1 0 }
              else table
            scanTableLoop bytes code base rest insn (insn.operands.getD 0 0) table
          else if cr ≠ 0xFFFFFFFF then
            if d.id = .PPC_INST_CMPLWI ∧ insn.operands.getD 0 0 = cr then
              some { table with r := insn.operands.getD 1 0,
                                labels := List.replicate ((insn.operands.getD 2 0 + 1) % U32) 0,
                                base := base }
            else scanTableLoop bytes code base rest insn cr table
          else scanTableLoop bytes code base rest insn cr table

/-- The function `ScanTable` of main.cpp. -/
def ScanTable (bytes : List Nat) (code base : Nat) (table : SwitchTable) : Option SwitchTable :=
  scanTableLoop bytes code base (List.range 32) freshInsn 0xFFFFFFFF table

/-- The inner loop of `SearchMask` from the word at byte offset `p` on: whether every
remaining entry of `compare` is the id of the word decoded at its place.  The object
`insn` that the calls of `Disassemble` share is read for its member `opcode` only, which
every call overwrites. -/
def matchCompare (bytes : List Nat) : Nat → List ppc_insn_id → Option Bool
  | _, [] => some true
  | p, id :: rest =>
    match disassembleAt bytes p freshInsn with
    | none => none
    | some insn =>
      match insn.opcode with
      | none => some false
      | some d => if d.id ≠ id then some false else matchCompare bytes (p + 4) rest

/-- The outer loop of `SearchMask` from index `i` on, `n` indices left. -/
def searchMaskLoop (bytes : List Nat) (source : Nat) (compare : List ppc_insn_id) :
    Nat → Nat → Option (Option Nat)
  | 0, _ => some none
  | n + 1, i =>
    match matchCompare bytes (source + 4 * i) compare with
    | none => none
    | some true => some (some (source + 4 * i))
    | some false => searchMaskLoop bytes source compare n (i + 1)

/-- The function `SearchMask` of main.cpp: the byte offset of the first match, or the
null pointer. -/
def SearchMask (bytes : List Nat) (source : Nat) (compare : List ppc_insn_id) (size : Nat) :
    Option (Option Nat) :=
  searchMaskLoop bytes source compare (size / 4) 0

/-- The `while` loop of the lambda `scanPattern` over one section with contents `bytes`;
`data` is the byte offset of the pointer of that name. -/
def scanSection (image : RPXImage) (bytes : List Nat) (base dataEnd : Nat)
    (pattern : List ppc_insn_id) (type : Nat) :
    Nat → Nat → List SwitchTable → Option (List SwitchTable)
  | 0, _, _ => none
  | fuel + 1, data, switches =>
    if data < dataEnd then
      match SearchMask bytes data pattern (dataEnd - data) with
      | none => none
      | some none => some switches
      | some (some found) =>
        match ScanTable bytes found ((base + found) % U64) { type := type } with
        | none => none
        | some table =>
          if table.base ≠ 0 then
            match ReadTable image table with
            | none => none
            | some table =>
              scanSection image bytes base dataEnd pattern type fuel (found + 4)
                (switches ++ [table])
          else scanSection image bytes base dataEnd pattern type fuel (found + 4) switches
    else some switches

/-- The lambda `scanPattern` of `main`: the vector `switches` after the scan of every
code section. -/
def scanPattern (image : RPXImage) (pattern : List ppc_insn_id) (type : Nat) (fuel : Nat)
    (switches : List SwitchTable) : Option (List SwitchTable) :=
  image.sections.foldl
    (fun acc sec =>
      match acc with
      | none => none
      | some switches =>
        if sec.flags &&& SectionFlags_Code = 0 then some switches
        else
          match sec.data with
          | none => some switches
          | some bytes => scanSection image bytes sec.base sec.size pattern type fuel 0 switches)
    (some switches)

/-- The array `absoluteSwitch` of `main`. -/
def absoluteSwitch : List ppc_insn_id :=
  [.PPC_INST_LIS, .PPC_INST_ADDI, .PPC_INST_RLWINM, .PPC_INST_LWZX, .PPC_INST_MTCTR,
   .PPC_INST_BCTR]

/-- An image with one code section at `0x02000000`: `cmplwi r3, 3`; `bgt +0x20`;
`lis r11, 0x0200`; `addi r11, r11, 0x40`; `slwi r0, r3, 2`; `lwzx r0, r11, r0`;
`mtctr r0`; `bctr`; then four `blr` (the default label at `0x02000024` among them), four
words of padding, and at `0x02000040` the four labels `0x02000020` .. `0x0200002C`. -/
def jumpTableImage : RPXImage :=
  { sections :=
      [ { base := 0x02000000, size := 80, flags := 0x26, name := ".text",
          data := some
            [0x28, 0x03, 0x00, 0x03, 0x41, 0x81, 0x00, 0x20,
             0x3D, 0x60, 0x02, 0x00, 0x39, 0x6B, 0x00, 0x40,
             0x54, 0x60, 0x10, 0x3A, 0x7C, 0x0B, 0x00, 0x2E,
             0x7C, 0x09, 0x03, 0xA6, 0x4E, 0x80, 0x04, 0x20,
             0x4E, 0x80, 0x00, 0x20, 0x4E, 0x80, 0x00, 0x20,
             0x4E, 0x80, 0x00, 0x20, 0x4E, 0x80, 0x00, 0x20,
             0x60, 0x00, 0x00, 0x00, 0x60, 0x00, 0x00, 0x00,
             0x60, 0x00, 0x00, 0x00, 0x60, 0x00, 0x00, 0x00,
             0x02, 0x00, 0x00, 0x20, 0x02, 0x00, 0x00, 0x24,
             0x02, 0x00, 0x00, 0x28, 0x02, 0x00, 0x00, 0x2C] } ],
    text_base := 0x02000000, text_size := 80, base := 0x02000000 }

/-! ## Function::Analyze: the words read and the steps of the loop -/

/-- The byte offsets from `dataStart` (modulo `2^64`) of the words `*data` that the loop
of `Function::Analyze` reads, in the order of the reads: a pass through the body reads
the word at `data` unless it leaves by the `break` on the empty stack. -/
def analyzeReads (w : Window) : Nat → AnalyzeState → Option (List Nat)
  | 0, _ => none
  | fuel + 1, s =>
    if w.inRange s.data then
      match loopBody w s with
      | none => some []
      | some s1 =>
        match analyzeReads w fuel { s1 with data := (s1.data + 4) % U64 } with
        | none => none
        | some reads => some (s.data :: reads)
    else some []

/-- The byte offsets of all words that `Function::Analyze` reads: the word `data[1]` of
the fast-path test, which is evaluated when `size >= 8`, and then the reads of the loop. -/
def Function.AnalyzeReads (fuel : Nat) (w : Window) : Option (List Nat) :=
  let first := if w.size ≥ 8 then [4] else []
  if w.isTailCallThunk then some first
  else
    match analyzeReads w fuel initialState with
    | none => none
    | some reads => some (first ++ reads)

/-- The state of the loop of `Function::Analyze` after at most `n` passes through its
body, started in `s`: the state at loop exit when the loop ends within `n` passes. -/
def analyzeSteps (w : Window) : Nat → AnalyzeState → AnalyzeState
  | 0, s => s
  | n + 1, s =>
    if w.inRange s.data then
      match loopBody w s with
      | none => s
      | some s1 => analyzeSteps w n { s1 with data := (s1.data + 4) % U64 }
    else s

/-- A window of one word, `nop`, followed in memory by zero bytes. -/
def nopWindow : Window := windowOfBytes [0x60, 0x00, 0x00, 0x00]

/-- The same window of one word, `nop`, followed in memory by the word `beq +8`. -/
def nopThenBranchWindow : Window :=
  ⟨memOfBytes 0x1000 [0x60, 0x00, 0x00, 0x00, 0x41, 0x82, 0x00, 0x08], 0x1000, 4, 0x02000000⟩

/-- A window of one word, `beq -4`, with zero bytes around it. -/
def backwardBranchWindow : Window := windowOfBytes [0x41, 0x82, 0xFF, 0xFC]

/-- The window `beqa 0xA; nop; nop; blr`: a conditional branch with the AA bit set. -/
def absoluteBranchWindow : Window :=
  windowOfBytes [0x41, 0x82, 0x00, 0x0A, 0x60, 0x00, 0x00, 0x00, 0x60, 0x00, 0x00, 0x00,
    0x4E, 0x80, 0x00, 0x20]

/-- The window `beq +12; nop; nop; blr`. -/
def skipBranchWindow : Window :=
  windowOfBytes [0x41, 0x82, 0x00, 0x0C, 0x60, 0x00, 0x00, 0x00, 0x60, 0x00, 0x00, 0x00,
    0x4E, 0x80, 0x00, 0x20]

/-- The bound that the projection check of the loop maintains for a block: its size is a
multiple of 4, and a projected size, when the block carries one, is a multiple of 4 that
the size does not exceed. -/
def Function.Block.WithinProjection (b : Function.Block) : Prop :=
  b.size % 4 = 0 ∧
    (b.projectedSize = NPOS ∨ (b.projectedSize % 4 = 0 ∧ b.size ≤ b.projectedSize))

/-- The value `lBase` that the loop body computes for a conditional branch at the byte
offset `data`: `(addr - base) + 4`, the offset of the false successor. -/
def Window.lBase (w : Window) (data : Nat) : Nat :=
  (((w.base + data) % U64 + U64 - w.base) % U64 + 4) % U64

/-- The value `rBase` that the loop body computes for a conditional branch at the byte
offset `data`: `(addr + PPC_BD(instruction)) - base`, the offset of the true successor. -/
def Window.rBase (w : Window) (data : Nat) : Nat :=
  (((w.base + data) % U64 + toSizeT (PPC_BD (w.insnAt data))) % U64 + U64 - w.base) % U64

/-- The condition of `assert(!PPC_BA(instruction))` in the conditional-branch case of the
loop body, for the pass that starts in the state `s`.  The pass evaluates the assertion
when the loop condition holds, the block stack is not empty, the projection check does
not end the current block, and the instruction is a conditional branch without link; the
condition is true when the pass does not evaluate the assertion.  A build with assertions
aborts in a pass in which the condition is false. -/
def Window.AssertNotAbsolute (w : Window) (s : AnalyzeState) : Prop :=
  match s.blockStack with
  | [] => True
  | cur :: _ =>
    w.inRange s.data = true →
    ¬ ((s.blocks.getD cur default).projectedSize ≠ NPOS ∧
        (s.blocks.getD cur default).size ≥ (s.blocks.getD cur default).projectedSize) →
    PPC_OP (w.insnAt s.data) = PPC_OP_BC → PPC_BL (w.insnAt s.data) = 0 →
    PPC_BA (w.insnAt s.data) = 0

instance (w : Window) (s : AnalyzeState) : Decidable (w.AssertNotAbsolute s) := by
  unfold Window.AssertNotAbsolute
  split <;> infer_instance

/-! ## Recompiler::Recompile: the output files (recompiler.cpp)

The files are the list of the pairs of a path and the content that
`SaveCurrentOutData` saved under it, oldest first.  A file that is left alone because it
already holds the content counts as saved; a failure of `SaveFile` and the messages on
the standard output are not modelled. -/

/-- The method `Recompiler::SaveCurrentOutData`.  The member `cppFileIndex` counts the
numbered files saved so far; its increment is taken without wrap-around. -/
def Recompiler.SaveCurrentOutData (r : Recompiler) (files : List (String × String))
    (name : String) : Recompiler × List (String × String) :=
  if r.out ≠ "" then
    let fileName :=
      if name = "" then "ppc_recomp." ++ toString r.cppFileIndex ++ ".cpp" else name
    let r := if name = "" then { r with cppFileIndex := r.cppFileIndex + 1 } else r
    let fullPath :=
      r.config.directoryPath ++ "/" ++ r.config.outDirectoryPath ++ "/" ++ fileName
    ({ r with out := "" }, files ++ [(fullPath, r.out)])
  else (r, files)

/-- The method `Recompiler::GenerateConfigFiles`. -/
def Recompiler.GenerateConfigFiles (r : Recompiler) (files : List (String × String)) :
    Recompiler × List (String × String) :=
  let r := r.println "#pragma once"
  let r := r.println "#ifndef PPC_CONFIG_H_INCLUDED"
  let r := r.println "#define PPC_CONFIG_H_INCLUDED"
  let r := r.println ""
  let r := if r.config.skipLr = true then r.println "#define PPC_CONFIG_SKIP_LR" else r
  let r :=
    if r.config.ctrAsLocalVariable = true then r.println "#define PPC_CONFIG_CTR_AS_LOCAL"
    else r
  let r :=
    if r.config.xerAsLocalVariable = true then r.println "#define PPC_CONFIG_XER_AS_LOCAL"
    else r
  let r :=
    if r.config.reservedRegisterAsLocalVariable = true then
      r.println "#define PPC_CONFIG_RESERVED_AS_LOCAL"
    else r
  let r := if r.config.skipMsr = true then r.println "#define PPC_CONFIG_SKIP_MSR" else r
  let r :=
    if r.config.crRegistersAsLocalVariables = true then
      r.println "#define PPC_CONFIG_CR_AS_LOCAL"
    else r
  let r :=
    if r.config.nonArgumentRegistersAsLocalVariables = true then
      r.println "#define PPC_CONFIG_NON_ARGUMENT_AS_LOCAL"
    else r
  let r :=
    if r.config.nonVolatileRegistersAsLocalVariables = true then
      r.println "#define PPC_CONFIG_NON_VOLATILE_AS_LOCAL"
    else r
  let r := r.println ""
  let r := r.println ("#define PPC_IMAGE_BASE 0x" ++ formatHex r.image.base ++ "ull")
  let r := r.println ("#define PPC_IMAGE_SIZE 0x" ++ formatHex r.image.size ++ "ull")
  let r := r.println ("#define PPC_MEM1_BASE 0x" ++ formatHex r.config.mem1_base ++ "ull")
  let r := r.println ("#define PPC_MEM1_SIZE 0x" ++ formatHex r.config.mem1_size ++ "ull")
  let r := r.println ("#define PPC_MEM2_BASE 0x" ++ formatHex r.config.mem2_base ++ "ull")
  let r := r.println ("#define PPC_MEM2_SIZE 0x" ++ formatHex r.config.mem2_size ++ "ull")
  let r := r.println ""
  let r := r.println "#ifdef PPC_INCLUDE_DETAIL"
  let r := r.println "#include \"ppc_detail.h\""
  let r := r.println "#endif"
  let r := r.println ""
  let r := r.println "#endif"
  r.SaveCurrentOutData files "ppc_config.h"

/-- The loops `for (auto& symbol : image.symbols)` of `GenerateHeaderFiles` and
`GenerateFunctionMappings`: one line per function symbol, in the order of the store. -/
def printFunctionSymbols (line : Symbol → String) (symbols : List Symbol) (r : Recompiler) :
    Recompiler :=
  symbols.foldl
    (fun (r : Recompiler) symbol =>
      if symbol.type = SymbolType.Symbol_Function then r.println (line symbol) else r) r

/-- The method `Recompiler::GenerateHeaderFiles`; `contextFile` holds the lines of the
host file `RebrewUtils/ppc_context.h`, or `none` when it cannot be opened. -/
def Recompiler.GenerateHeaderFiles (contextFile : Option (List String)) (r : Recompiler)
    (files : List (String × String)) : Recompiler × List (String × String) :=
  let r :=
    match contextFile with
    | some lines =>
      let r := r.println "#pragma once"
      let r := r.println "#include \"ppc_config.h\""
      let r := r.println ""
      lines.foldl (fun (r : Recompiler) line => r.println line) r
    | none => r
  let saved := r.SaveCurrentOutData files "ppc_context.h"
  let r := saved.1.println "#pragma once"
  let r := r.println "#include \"ppc_config.h\""
  let r := r.println "#include \"ppc_context.h\""
  let r := r.println ""
  let r := printFunctionSymbols (fun symbol => "PPC_EXTERN_FUNC(" ++ symbol.name ++ ");")
    r.image.symbols r
  r.SaveCurrentOutData saved.2 "ppc_recomp_shared.h"

/-- The method `Recompiler::GenerateFunctionMappings`. -/
def Recompiler.GenerateFunctionMappings (r : Recompiler) (files : List (String × String)) :
    Recompiler × List (String × String) :=
  let r := r.println "#include \"ppc_recomp_shared.h\""
  let r := r.println ""
  let r := r.println "PPCFuncMapping PPCFuncMappings[] = \x7b"
  let r := printFunctionSymbols
    (fun symbol => "\t\x7b 0x" ++ formatHex symbol.address ++ ", " ++ symbol.name ++ " \x7d,")
    r.image.symbols r
  let r := r.println "\t\x7b 0, nullptr \x7d"
  let r := r.println "\x7d;"
  r.SaveCurrentOutData files "ppc_func_mapping.cpp"

/-- The loop "Recompile all functions" of `Recompiler::Recompile` from index `i` on, `n`
functions left.  The bound `functions.size()` is read once, at loop entry:
`RecompileFunction` leaves the vector alone.  The result `none` is a `none` of
`RecompileFunction`. -/
def recompileFunctions (find : SymbolLookup) (fuel : Nat) :
    Nat → Nat → Recompiler → List (String × String) →
      Option (Recompiler × List (String × String))
  | 0, _, r, files => some (r, files)
  | n + 1, i, r, files =>
    let saved :=
      if i % 256 = 0 then
        let saved := r.SaveCurrentOutData files ""
        let r := saved.1.println "#include \"ppc_recomp_shared.h\""
        let r := r.println "#include <cmath>"
        let r := r.println "#include <immintrin.h>"
        (r.println "", saved.2)
      else (r, files)
    match saved.1.functions.get? i with
    | none => none
    | some fn =>
      match Recompiler.RecompileFunction find fuel saved.1 fn with
      | none => none
      | some result => recompileFunctions find fuel n (i + 1) result.2 saved.2

/-- The method `Recompiler::Recompile`: the recompiler and the files afterwards.  Its
parameter `headerFilePath` is not used by the body. -/
def Recompiler.Recompile (find : SymbolLookup) (fuel : Nat)
    (contextFile : Option (List String)) (r : Recompiler) (files : List (String × String)) :
    Option (Recompiler × List (String × String)) :=
  let generated := r.GenerateConfigFiles files
  let generated := generated.1.GenerateHeaderFiles contextFile generated.2
  let generated := generated.1.GenerateFunctionMappings generated.2
  match recompileFunctions find fuel generated.1.functions.length 0 generated.1
      generated.2 with
  | none => none
  | some result => some (result.1.SaveCurrentOutData result.2 "")

/-- The text that `printRegisterPairs` appends to `out`: what it leaves in the `out` of
an empty recompiler. -/
def registerPairsText (first second : String) (pairs : List (Bool × Bool)) (i : Nat) :
    String :=
  (printRegisterPairs first second pairs i {}).out

/-- The text that `printLocalVariables` appends to `out`: what it leaves in the `out` of
an empty recompiler. -/
def localVariablesText (localVariables : RecompilerLocalVariables) : String :=
  (printLocalVariables {} localVariables).out

/-- The four lines that the loop of `Recompile` prints at the start of a numbered file. -/
def unitIncludes : String :=
  "#include \"ppc_recomp_shared.h\"\n#include <cmath>\n#include <immintrin.h>\n\n"

/-- The path under which `SaveCurrentOutData` saves the file `fileName`. -/
def outputPath (config : RecompilerConfig) (fileName : String) : String :=
  config.directoryPath ++ "/" ++ config.outDirectoryPath ++ "/" ++ fileName

/-- The path of the numbered file `k`. -/
def unitPath (config : RecompilerConfig) (k : Nat) : String :=
  outputPath config ("ppc_recomp." ++ toString k ++ ".cpp")

/-- The text that `RecompileFunction` appends to `out` for the function `fn`: what it
leaves in an `out` that was empty. -/
def functionText (find : SymbolLookup) (fuel : Nat) (r : Recompiler) (fn : Function) :
    Option String :=
  (Recompiler.RecompileFunction find fuel { r with out := "", cppFileIndex := 0 } fn).map
    (fun result => result.2.out)

/-- The numbered files for the functions `functions`: file `k` holds the include lines
and then the texts of the functions with the indices `256 * k` to `256 * k + 255`. -/
def translationUnits (find : SymbolLookup) (fuel : Nat) (r : Recompiler) :
    List (String × String) :=
  (List.range ((r.functions.length + 255) / 256)).map
    (fun k => (unitPath r.config k,
      unitIncludes ++ String.join (((r.functions.drop (256 * k)).take 256).map
        (fun fn => (functionText find fuel r fn).getD ""))))

/-- A recompiler over `blrImage` with 257 copies of `blrFunction` to translate. -/
def manyFunctionsRecompiler : Recompiler :=
  { image := blrImage, functions := List.replicate 257 blrFunction,
    config := { directoryPath := ".", outDirectoryPath := "out" } }

/-- A recompiler over `blrImage` with the function `blrFunction` to translate. -/
def oneFunctionRecompiler : Recompiler :=
  { image := blrImage, functions := [blrFunction],
    config := { directoryPath := ".", outDirectoryPath := "out" } }

/-! ## Function::MergeOverlappingBlocks (function.cpp) -/

/-- The size assigned to `last` when `current` is merged into it:
`std::max(last.base + last.size, current.base + current.size) - last.base`. -/
def mergedSize (last current : Function.Block) : Nat :=
  (max ((last.base + last.size) % U64) ((current.base + current.size) % U64) + U64 - last.base)
    % U64

/-- One pass through the body of the loop of `Function::MergeOverlappingBlocks`: `merged`
is the vector built so far, `last` its back.  The vector is never empty inside the loop. -/
def mergeStep (merged : List Function.Block) (current : Function.Block) :
    List Function.Block :=
  match merged.getLast? with
  | none => merged
  | some last =>
    if current.base ≤ (last.base + last.size) % U64 then
      -- overlapping or adjacent blocks: merge them
      merged.dropLast ++ [{ last with size := mergedSize last current }]
    else
      -- non-overlapping block
      merged ++ [current]

/-- The block vector after `Function::MergeOverlappingBlocks`, for a given behaviour `srt`
of `std::sort`. -/
def mergeBlocksWith (srt : List Function.Block → List Function.Block)
    (blocks : List Function.Block) : List Function.Block :=
  if blocks.length ≤ 1 then blocks
  else
    match srt blocks with
    | [] => []
    | first :: rest => rest.foldl mergeStep [first]

/-- The method `Function::MergeOverlappingBlocks`, for a given behaviour `srt` of
`std::sort`. -/
def Function.MergeOverlappingBlocksWith (srt : List Function.Block → List Function.Block)
    (f : Function) : Function :=
  { f with blocks := mergeBlocksWith srt f.blocks }

/-- The method `Function::MergeOverlappingBlocks` with the stable sort `sortBlocks`. -/
def Function.MergeOverlappingBlocks (f : Function) : Function :=
  f.MergeOverlappingBlocksWith sortBlocks

/-- The loop of `Function::MergeOverlappingBlocks` seen from its back element: the blocks
before `last` are final, `last` absorbs the blocks that start at or before its end. -/
def mergeFrom (last : Function.Block) : List Function.Block → List Function.Block
  | [] => [last]
  | current :: rest =>
    if current.base ≤ (last.base + last.size) % U64 then
      mergeFrom { last with size := mergedSize last current } rest
    else last :: mergeFrom current rest

/-- The offset `x` lies in the half-open range of the block, its end computed in `size_t`
as the code computes it. -/
def Function.Block.InRange (b : Function.Block) (x : Nat) : Prop :=
  b.base ≤ x ∧ x < (b.base + b.size) % U64

/-- The offset `x` lies in the half-open range `[start, start + size)` of the block, in
unbounded arithmetic. -/
def Function.Block.Spans (b : Function.Block) (x : Nat) : Prop :=
  b.base ≤ x ∧ x < b.base + b.size

instance (b : Function.Block) (x : Nat) : Decidable (b.InRange x) := by
  unfold Function.Block.InRange
  infer_instance

instance (b : Function.Block) (x : Nat) : Decidable (b.Spans x) := by
  unfold Function.Block.Spans
  infer_instance

/-! ## The XER register (ppc_context.h) -/

/-- The struct `PPCXERRegister`; `count` is a `uint8_t`. -/
structure PPCXERRegister where
  so : Bool := false
  ov : Bool := false
  ca : Bool := false
  count : Nat := 0
  deriving DecidableEq, Repr

/-- The method `PPCXERRegister::Get`. -/
def PPCXERRegister.Get (x : PPCXERRegister) : Nat :=
  (if x.so then 0x80000000 else 0) ||| (if x.ov then 0x40000000 else 0) |||
    (if x.ca then 0x20000000 else 0) ||| (x.count % 256)

/-- The method `PPCXERRegister::Set`: every member is overwritten. -/
def PPCXERRegister.Set (_x : PPCXERRegister) (value : Nat) : PPCXERRegister :=
  { so := decide ((value &&& 0x80000000) ≠ 0),
    ov := decide ((value &&& 0x40000000) ≠ 0),
    ca := decide ((value &&& 0x20000000) ≠ 0),
    count := (value &&& 0x7F) % 256 }


/-! ## RPXAnalyzer::FindFunctionBoundaries (rpx_analyzer.cpp)

The section contents live in host memory from the address `host` on; the memory around
them reads as zero. -/

/-- The address `target_addr` that `RPXAnalyzer::FindFunctionBoundaries` computes for the
instruction word at index `i` of a section: `current_addr + PPC_BI(instruction)` with
`current_addr = section.base + (i * 4)`, both `uint32_t`. -/
def callTarget (sectionBase i instruction : Nat) : Nat :=
  let current_addr := (sectionBase + (i * 4) % U64) % U32
  (current_addr + toU32 (PPC_BI instruction)) % U32

/-- The method `RPXAnalyzer::AnalyzeSingleFunction`, called with the pointer
`section.data + offset`. -/
def RPXAnalyzer.AnalyzeSingleFunction (fuel host : Nat) (bytes : List Nat)
    (address offset max_size : Nat) : Option Function :=
  Analyze fuel ⟨memOfBytes host bytes, (host + offset) % U64, max_size, address⟩

/-- One pass through the loop of `RPXAnalyzer::FindFunctionBoundaries`, for the word at
index `i`; `functions` is the member of the analyzer.  The result `none` is an analysis
that does not end within `fuel`. -/
def findFunctionBoundariesStep (fuel host : Nat) (sec : Section) (bytes : List Nat)
    (functions : List Function) (i : Nat) : Option (List Function) :=
  let instruction := be32At bytes (4 * i)
  let op := PPC_OP instruction
  if op = PPC_OP_B ∧ PPC_BL instruction ≠ 0 then
    -- this is a function call
    let target_addr := callTarget sec.base i instruction
    if target_addr ≥ sec.base ∧ target_addr < (sec.base + sec.size) % U32 then
      if functions.any (fun f => decide (f.base = target_addr)) then some functions
      else
        let offset := (target_addr + U32 - sec.base) % U32
        let max_size := (sec.size + U64 - offset) % U64
        match RPXAnalyzer.AnalyzeSingleFunction fuel host bytes target_addr offset max_size with
        | none => none
        | some func => if func.IsValid then some (functions ++ [func]) else some functions
    else some functions
  else some functions

/-- The method `RPXAnalyzer::FindFunctionBoundaries`: the member `functions` after the
scan of the `section.size / 4` words of the section.  A section without data is
dereferenced as soon as it has a word. -/
def RPXAnalyzer.FindFunctionBoundaries (fuel host : Nat) (sec : Section)
    (functions : List Function) : Option (List Function) :=
  match sec.data with
  | none => if sec.size / 4 = 0 then some functions else none
  | some bytes =>
    (List.range (sec.size / 4)).foldl
      (fun acc i => acc.bind (fun fs => findFunctionBoundariesStep fuel host sec bytes fs i))
      (some functions)

/-- A code section at `0x02000000` holding `bl +8; blr; blr` and a zero word. -/
def callSection : Section :=
  { base := 0x02000000, size := 16, flags := 0x26, name := ".text",
    data := some [0x48, 0x00, 0x00, 0x09, 0x4E, 0x80, 0x00, 0x20,
                  0x4E, 0x80, 0x00, 0x20, 0x00, 0x00, 0x00, 0x00] }


/-! ## Windows inside a section -/

/-- The second word of the code `nop; beq -4`, as a window of its own: the four bytes
`41 82 FF FC` at host address `0x1000`, for guest base `0x02000000`, preceded in memory by
the word `60 00 00 00`. -/
def loopBelowWindow : Window :=
  ⟨memOfBytes 0xFFC [0x60, 0x00, 0x00, 0x00, 0x41, 0x82, 0xFF, 0xFC], 0x1000, 4, 0x02000000⟩

/-- The state of the analysis of `loopBelowWindow` whenever the walk stands on the word
before the window: the first block, the false successor of the branch, the blocks `front`
created for the branch target so far, and a new block for the branch target on top of the
stack. -/
def belowState (front : List Function.Block) : AnalyzeState :=
  ⟨⟨0, 4, NPOS⟩ :: ⟨4, 0, 0xFFFFFFFFFFFFFFF8⟩ ::
      (front ++ [⟨0xFFFFFFFFFFFFFFFC, 0, NPOS⟩]),
    [front.length + 2, 1], 0xFFFFFFFFFFFFFFFC⟩

/-- The window `beqlr; blr` (`4D 82 00 20 4E 80 00 20`) at host address `0x1000`, for the
guest base `base`. -/
def conditionalReturnWindow (base : Nat) : Window :=
  ⟨memOfBytes 0x1000 [0x4D, 0x82, 0x00, 0x20, 0x4E, 0x80, 0x00, 0x20], 0x1000, 8, base⟩

/-- The window `b +8; beqlr; b -4` at host address `0x1000`, for the guest base `base`. -/
def returnLoopWindow (base : Nat) : Window :=
  ⟨memOfBytes 0x1000 [0x48, 0x00, 0x00, 0x08, 0x4D, 0x82, 0x00, 0x20, 0x4B, 0xFF, 0xFF, 0xFC],
    0x1000, 12, base⟩


/-! ## Recompiler::Analyse: the scan of the code sections (recompiler.cpp)

The contents of a section live in host memory from the address `host` on; the memory
around them reads as zero.  The scan pointer `data` is represented by its byte offset
from `section.data`. -/

/-- The locals of the scan of one section together with the members it changes: the
recompiler (symbols of the image, functions), the guest address `base` and the scan
pointer `data`. -/
structure ScanState where
  r : Recompiler
  base : Nat
  data : Nat

/-- The branch "Analyze new function" of the scan: the function found at the scan pointer is
recorded and stepped over when it is valid and of at least 4 bytes, otherwise one word is
skipped.  The result `none` is an analysis that does not end within `analyzeFuel`. -/
def Recompiler.scanAnalyze (env : LoaderEnv) (analyzeFuel host : Nat) (sec : Section)
    (bytes : List Nat) (s : ScanState) : Option ScanState :=
  let window : Window :=
    ⟨memOfBytes host bytes, (host + s.data) % U64, (sec.size + U64 - s.data) % U64, s.base⟩
  match Analyze analyzeFuel window with
  | none => none
  | some fn =>
    if fn.IsValid ∧ fn.size ≥ 4 then
      let symbol : Symbol :=
        ⟨"sub_" ++ formatHex fn.base, fn.base % U32, fn.size % U32, SymbolType.Symbol_Function⟩
      let image := { s.r.image with symbols := insertSymbol env s.r.image.symbols symbol }
      some { r := { s.r with image := image, functions := s.r.functions ++ [fn] },
             base := (s.base + fn.size) % U64, data := (s.data + fn.size) % U64 }
    else
      -- skip this instruction
      some { s with base := (s.base + 4) % U64, data := (s.data + 4) % U64 }

/-- One pass through the body of the loop `while (data < dataEnd)` of
`Recompiler::Analyse`. -/
def Recompiler.scanStep (find : SymbolLookup) (env : LoaderEnv) (analyzeFuel host : Nat)
    (sec : Section) (bytes : List Nat) (s : ScanState) : Option ScanState :=
  let word := ByteSwap (load32 (memOfBytes host bytes) ((host + s.data) % U64))
  -- skip invalid instruction patterns
  match s.r.config.invalidInstructions.find? (fun entry => decide (entry.1 = word)) with
  | some invalidInstr =>
    some { s with base := (s.base + invalidInstr.2) % U64,
                  data := (s.data + invalidInstr.2) % U64 }
  | none =>
    -- check if we already have a function at this address
    match find s.r.image.symbols s.base with
    | some existing_symbol =>
      if existing_symbol.address = s.base ∧
          existing_symbol.type = SymbolType.Symbol_Function then
        some { s with base := (s.base + existing_symbol.size) % U64,
                      data := (s.data + existing_symbol.size) % U64 }
      else Recompiler.scanAnalyze env analyzeFuel host sec bytes s
    | none => Recompiler.scanAnalyze env analyzeFuel host sec bytes s

/-- The loop `while (data < dataEnd)` over one code section, at most `fuel` evaluations of
its condition.  The result is the state at loop exit. -/
def Recompiler.scanLoop (find : SymbolLookup) (env : LoaderEnv) (analyzeFuel host : Nat)
    (sec : Section) (bytes : List Nat) : Nat → ScanState → Option ScanState
  | 0, _ => none
  | fuel + 1, s =>
    if (host + s.data) % U64 < (host + sec.size) % U64 then
      match Recompiler.scanStep find env analyzeFuel host sec bytes s with
      | none => none
      | some s1 => Recompiler.scanLoop find env analyzeFuel host sec bytes fuel s1
    else some s

/-- The body of the loop "Scan code sections for additional functions" for one section,
whose contents are at the host address `host`. -/
def Recompiler.scanSection (find : SymbolLookup) (env : LoaderEnv) (fuel analyzeFuel host : Nat)
    (r : Recompiler) (sec : Section) : Option Recompiler :=
  match sec.data with
  | none => some r
  | some bytes =>
    if (sec.flags &&& SectionFlags_Code) = 0 then some r
    else
      (Recompiler.scanLoop find env analyzeFuel host sec bytes fuel ⟨r, sec.base, 0⟩).map
        (fun s => s.r)

/-- The loop "Scan code sections for additional functions" of `Recompiler::Analyse`; the
contents of section `i` are at the host address `hostOf i`. -/
def Recompiler.scanCodeSections (find : SymbolLookup) (env : LoaderEnv)
    (fuel analyzeFuel : Nat) (hostOf : Nat → Nat) (r : Recompiler) : Option Recompiler :=
  (List.range r.image.sections.length).foldl
    (fun acc i =>
      acc.bind (fun r1 =>
        Recompiler.scanSection find env fuel analyzeFuel (hostOf i) r1
          (r.image.sections.getD i {})))
    (some r)

/-- A recompiler over `blrImage` (one code section at `0x02000000` holding `blr`) whose
symbol set holds the function symbol `f` at `0x02000000` with size 0. -/
def zeroSizeSymbolRecompiler : Recompiler :=
  { image := { blrImage with
      symbols := [⟨"f", 0x02000000, 0, SymbolType.Symbol_Function⟩] } }

/-- A recompiler over `blrImage` whose configuration lists the word `4E 80 00 20` as an
invalid instruction pattern of size 0. -/
def zeroSizePatternRecompiler : Recompiler :=
  { image := blrImage, config := { invalidInstructions := [(0x4E800020, 0)] } }

/-- The code section of `blrImage`. -/
def blrSection : Section :=
  { base := 0x02000000, size := 4, flags := 0x26, name := ".text",
    data := some [0x4E, 0x80, 0x00, 0x20] }

/-! ## Theorems: opcode lookup -/

/-- On a list of named descriptors followed by a null-named entry, the lookup loop is
`List.find?` on the named descriptors. -/
theorem GetOpcodeFrom_append_marker (l : List ppc_opcode) (m : ppc_opcode) (w : Nat)
    (hl : ∀ d ∈ l, d.name.isSome = true) (hm : m.name = none) :
    GetOpcodeFrom (l ++ [m]) w = l.find? (fun d => decide ((w &&& d.mask) = d.opcode)) := by
  induction l with
  | nil => simp [GetOpcodeFrom, hm]
  | cons a rest ih =>
    have ha : a.name.isSome = true := hl a (List.mem_cons_self _ _)
    have hrest : ∀ d ∈ rest, d.name.isSome = true :=
      fun d hd => hl d (List.mem_cons_of_mem _ hd)
    obtain ⟨n, hn⟩ := Option.isSome_iff_exists.mp ha
    by_cases hmatch : (w &&& a.mask) = a.opcode
    · simp [GetOpcodeFrom, hn, hmatch, List.find?]
    · simp [GetOpcodeFrom, hn, hmatch, List.find?, ih hrest]

/-- The value of `List.find?` is the element at the least index that satisfies the test. -/
theorem find?_eq_some_iff_least {α : Type} (p : α → Bool) (l : List α) (d : α) :
    l.find? p = some d ↔
      ∃ i : Nat, l[i]? = some d ∧ p d = true ∧
        ∀ (j : Nat) (e : α), j < i → l[j]? = some e → p e = false := by
  induction l with
  | nil => simp
  | cons a rest ih =>
    by_cases ha : p a = true
    · simp only [List.find?, ha]
      constructor
      · intro h
        have hd : a = d := by simpa using h
        subst hd
        exact ⟨0, by simp, ha, fun j e hj => absurd hj (Nat.not_lt_zero _)⟩
      · rintro ⟨i, hi, _, hmin⟩
        cases i with
        | zero => simpa using hi
        | succ k =>
          have := hmin 0 a (Nat.succ_pos _) (by simp)
          simp [ha] at this
    · have ha2 : p a = false := by simpa using ha
      simp only [List.find?, ha2]
      rw [ih]
      constructor
      · rintro ⟨i, hi, hpd, hmin⟩
        refine ⟨i + 1, by simpa using hi, hpd, ?_⟩
        intro j e hj hje
        cases j with
        | zero =>
          have : a = e := by simpa using hje
          subst this
          exact ha2
        | succ k => exact hmin k e (by omega) (by simpa using hje)
      · rintro ⟨i, hi, hpd, hmin⟩
        cases i with
        | zero =>
          have : a = d := by simpa using hi
          subst this
          simp [ha2] at hpd
        | succ k =>
          refine ⟨k, by simpa using hi, hpd, ?_⟩
          intro j e hj hje
          exact hmin (j + 1) e (by omega) (by simpa using hje)

/-- The table is its descriptors followed by the end marker. -/
theorem opcodes_eq_descriptors_marker :
    opcodes = descriptors ++ [ppc_opcode.mk none 0 0 [-1, -1, -1, -1] .PPC_INST_INVALID] := by
  rfl

/-- Every descriptor before the end marker has a name. -/
theorem descriptors_named : ∀ d ∈ descriptors, d.name.isSome = true := by
  decide

/-- The lookup is `List.find?` on the descriptors of the table. -/
theorem GetOpcode_eq_find (w : Nat) :
    GetOpcode w = descriptors.find? (fun d => decide ((w &&& d.mask) = d.opcode)) := by
  unfold GetOpcode
  rw [opcodes_eq_descriptors_marker]
  exact GetOpcodeFrom_append_marker _ _ w descriptors_named rfl

/-- The decoder stores the looked-up descriptor and reports failure exactly when there is none. -/
theorem DecodeInstruction_opcode (w : Nat) (insn : ppc_insn) :
    (DecodeInstruction w insn).2.opcode = GetOpcode w ∧
      ((DecodeInstruction w insn).1 = false ↔ GetOpcode w = none) := by
  unfold DecodeInstruction
  cases h : GetOpcode w with
  | none => simp
  | some d =>
    simp only []
    split_ifs <;> simp

/-- C1: for every word `w`, `ppc::GetOpcode(w)` is the first descriptor of the table, in
table order, with `(w & mask) == opcode`; it is null exactly when no descriptor of the
table matches `w`, and that is exactly when `ppc::DecodeInstruction` returns false (the
instruction is invalid). -/
theorem C1_GetOpcode_first_match (w : Nat) :
    (∀ d, GetOpcode w = some d ↔
      ∃ i : Nat, descriptors[i]? = some d ∧ (w &&& d.mask) = d.opcode ∧
        ∀ (j : Nat) (e : ppc_opcode), j < i → descriptors[j]? = some e →
          (w &&& e.mask) ≠ e.opcode) ∧
    (GetOpcode w = none ↔ ∀ d ∈ descriptors, (w &&& d.mask) ≠ d.opcode) ∧
    (∀ insn, (DecodeInstruction w insn).2.opcode = GetOpcode w ∧
      ((DecodeInstruction w insn).1 = false ↔ GetOpcode w = none)) := by
  refine ⟨?_, ?_, fun insn => DecodeInstruction_opcode w insn⟩
  · intro d
    rw [GetOpcode_eq_find, find?_eq_some_iff_least]
    simp
  · rw [GetOpcode_eq_find]
    simp

/-- C2: whenever `ppc::GetOpcode(w)` returns a descriptor `d`, `(w & d.mask) == d.opcode`. -/
theorem C2_GetOpcode_mask (w : Nat) (d : ppc_opcode) (h : GetOpcode w = some d) :
    (w &&& d.mask) = d.opcode := by
  rw [GetOpcode_eq_find] at h
  simpa using List.find?_some h

/-- C2 at the word of `blr`: the lookup returns the `bclr` descriptor, whose masked bits agree. -/
theorem C2_GetOpcode_mask_witness :
    GetOpcode 0x4E800020 =
        some (ppc_opcode.mk (some "bclr") 0x4C000020 0xFC00FFFE [0, 1, -1, -1] .PPC_INST_BCLR) ∧
      (0x4E800020 &&& 0xFC00FFFE) = 0x4C000020 :=
  ⟨by decide, C2_GetOpcode_mask 0x4E800020
    (ppc_opcode.mk (some "bclr") 0x4C000020 0xFC00FFFE [0, 1, -1, -1] .PPC_INST_BCLR) (by decide)⟩

/-! ## Theorems: Function::SearchBlock -/

/-- The search loop, when no block end wraps around: either it returns the offset index of
the first covering block, or no block covers the address and it returns the sentinel. -/
theorem SearchBlockFrom_spec (fbase a : Nat) (l : List Function.Block)
    (hfit : ∀ b ∈ l, fbase + b.base + b.size < U64) (k : Nat) :
    (∃ (i : Nat) (b : Function.Block), l[i]? = some b ∧ b.Covers fbase a ∧
        (∀ (j : Nat) (c : Function.Block), j < i → l[j]? = some c → ¬ c.Covers fbase a) ∧
        SearchBlockFrom fbase a l k = k + i) ∨
      ((∀ b ∈ l, ¬ b.Covers fbase a) ∧ SearchBlockFrom fbase a l k = NPOS) := by
  induction l generalizing k with
  | nil => right; simp [SearchBlockFrom]
  | cons x rest ih =>
    have hx : fbase + x.base + x.size < U64 := hfit x (List.mem_cons_self _ _)
    have hrest : ∀ b ∈ rest, fbase + b.base + b.size < U64 :=
      fun b hb => hfit b (List.mem_cons_of_mem _ hb)
    have hb1 : (fbase + x.base) % U64 = fbase + x.base := Nat.mod_eq_of_lt (by omega)
    have hb2 : (fbase + x.base + x.size) % U64 = fbase + x.base + x.size :=
      Nat.mod_eq_of_lt hx
    by_cases hc : x.Covers fbase a
    · left
      refine ⟨0, x, by simp, hc, fun j c hj => absurd hj (Nat.not_lt_zero _), ?_⟩
      unfold Function.Block.Covers at hc
      simp only [SearchBlockFrom, hb1, hb2]
      rcases hc with ⟨h0, h1, h2⟩ | ⟨h0, h1⟩
      · have : fbase + x.base ≠ fbase + x.base + x.size := by omega
        simp [this, h1, h2]
      · simp [h0, h1]
    · have hstep : SearchBlockFrom fbase a (x :: rest) k = SearchBlockFrom fbase a rest (k + 1) := by
        unfold Function.Block.Covers at hc
        simp only [SearchBlockFrom, hb1, hb2]
        by_cases h0 : x.size = 0
        · have h1 : a ≠ fbase + x.base := fun h => hc (Or.inr ⟨h0, h⟩)
          simp [h0, h1]
        · have h1 : fbase + x.base ≠ fbase + x.base + x.size := by omega
          have h2 : ¬ (a ≥ fbase + x.base ∧ a < fbase + x.base + x.size) :=
            fun h => hc (Or.inl ⟨h0, h.1, h.2⟩)
          simp only [ne_eq, h1, not_false_eq_true, if_true, h2, if_false]
      rcases ih hrest (k + 1) with ⟨i, b, hi, hcov, hmin, hres⟩ | ⟨hnone, hres⟩
      · left
        refine ⟨i + 1, b, by simpa using hi, hcov, ?_, by rw [hstep, hres]; omega⟩
        intro j c hj hjc
        cases j with
        | zero =>
          have : x = c := by simpa using hjc
          subst this
          exact hc
        | succ j => exact hmin j c (by omega) (by simpa using hjc)
      · right
        refine ⟨?_, by rw [hstep, hres]⟩
        intro b hb
        rcases List.mem_cons.mp hb with rfl | hb
        · exact hc
        · exact hnone b hb

/-- C10, counterexample: with function base `0x02000000` and the single block of start
`2^64 - 4` and size 8 (the start computed for a branch four bytes backwards), no block
covers address `0x02000000` in the sense of the claim, yet the search returns index 0 and
not the sentinel.  Reading the bounds of the claim in `size_t` arithmetic does not help:
with base 100 and the single block of start `2^64 - 50` and size 10, address 55 lies
between the wrapped bounds 50 and 60, yet the search returns the sentinel. -/
theorem C10_SearchBlock_counterexample :
    ((∀ b ∈ (Function.mk 0x02000000 0 [⟨0xFFFFFFFFFFFFFFFC, 8, NPOS⟩]).blocks,
        ¬ b.Covers 0x02000000 0x02000000) ∧
      (Function.mk 0x02000000 0 [⟨0xFFFFFFFFFFFFFFFC, 8, NPOS⟩]).SearchBlock 0x02000000 = 0 ∧
      (0 : Nat) ≠ NPOS) ∧
    ((Function.mk 100 0 [⟨0xFFFFFFFFFFFFFFCE, 10, NPOS⟩]).SearchBlock 55 = NPOS ∧
      (100 + 0xFFFFFFFFFFFFFFCE) % U64 ≤ 55 ∧
      55 < ((100 + 0xFFFFFFFFFFFFFFCE) % U64 + 10) % U64) := by
  refine ⟨⟨?_, by decide, by decide⟩, by decide⟩
  intro b hb
  have hb2 : b = ⟨0xFFFFFFFFFFFFFFFC, 8, NPOS⟩ := by simpa using hb
  subst hb2
  unfold Function.Block.Covers
  decide

/-- C10, amended: when no block end `f.base + start + size` wraps around `2^64` (and the
block count is below the sentinel), `SearchBlock(a)` returns index `i` exactly when block
`i` is the first block covering `a`; it returns the sentinel exactly when no block covers
`a`, in particular whenever `a < f.base`. -/
theorem C10_SearchBlock_amended (f : Function) (a : Nat)
    (hfit : ∀ b ∈ f.blocks, f.base + b.base + b.size < U64)
    (hlen : f.blocks.length < NPOS) :
    (∀ (i : Nat) (b : Function.Block), f.blocks[i]? = some b →
      (f.SearchBlock a = i ↔ b.Covers f.base a ∧
        ∀ (j : Nat) (c : Function.Block), j < i → f.blocks[j]? = some c →
          ¬ c.Covers f.base a)) ∧
    (f.SearchBlock a = NPOS ↔ ∀ b ∈ f.blocks, ¬ b.Covers f.base a) ∧
    (a < f.base → f.SearchBlock a = NPOS) := by
  have hlow : a < f.base → ∀ b : Function.Block, ¬ b.Covers f.base a := by
    intro h b hb
    unfold Function.Block.Covers at hb
    omega
  have hidx : ∀ (i : Nat) (b : Function.Block), f.blocks[i]? = some b → i < NPOS := by
    intro i b hi
    have := (List.getElem?_eq_some_iff.mp hi).1
    omega
  by_cases hlt : a < f.base
  · have hres : f.SearchBlock a = NPOS := by simp [Function.SearchBlock, hlt]
    refine ⟨?_, ?_, fun _ => hres⟩
    · intro i b hi
      have := hidx i b hi
      constructor
      · intro h; omega
      · intro h; exact absurd h.1 (hlow hlt b)
    · simp only [hres, true_iff]
      exact fun b _ => hlow hlt b
  · have hres : f.SearchBlock a = SearchBlockFrom f.base a f.blocks 0 := by
      simp [Function.SearchBlock, hlt]
    refine ⟨?_, ?_, fun h => absurd h hlt⟩
    · intro i b hi
      have hiN := hidx i b hi
      rcases SearchBlockFrom_spec f.base a f.blocks hfit 0 with
        ⟨i0, b0, hi0, hcov, hmin, hr⟩ | ⟨hnone, hr⟩
      · rw [hres, hr, Nat.zero_add]
        constructor
        · intro h
          subst h
          have : b0 = b := by rw [hi0] at hi; exact Option.some.inj hi
          subst this
          exact ⟨hcov, hmin⟩
        · rintro ⟨hc, hm⟩
          rcases Nat.lt_trichotomy i0 i with h | h | h
          · exact absurd hcov (hm i0 b0 h hi0)
          · exact h
          · exact absurd hc (hmin i b h hi)
      · rw [hres, hr]
        constructor
        · intro h; omega
        · intro h
          exact absurd h.1 (hnone b (List.getElem?_mem hi))
    · rcases SearchBlockFrom_spec f.base a f.blocks hfit 0 with
        ⟨i0, b0, hi0, hcov, hmin, hr⟩ | ⟨hnone, hr⟩
      · have hiN := hidx i0 b0 hi0
        rw [hres, hr, Nat.zero_add]
        constructor
        · intro h; omega
        · intro h
          exact absurd hcov (h b0 (List.getElem?_mem hi0))
      · rw [hres, hr]
        simpa using hnone

/-- C10, amended, at a function with blocks `(0,4)`, `(4,0)`, `(8,4)` and base
`0x02000000`: the hypotheses hold and the characterisation applies. -/
theorem C10_SearchBlock_amended_witness :
    (∀ b ∈ (Function.mk 0x02000000 12 [⟨0, 4, NPOS⟩, ⟨4, 0, 0⟩, ⟨8, 4, NPOS⟩]).blocks,
        0x02000000 + b.base + b.size < U64) ∧
      (Function.mk 0x02000000 12 [⟨0, 4, NPOS⟩, ⟨4, 0, 0⟩, ⟨8, 4, NPOS⟩]).SearchBlock 0x02000004 = 1 ∧
      ((Function.mk 0x02000000 12 [⟨0, 4, NPOS⟩, ⟨4, 0, 0⟩, ⟨8, 4, NPOS⟩]).SearchBlock 0x0200000C
          = NPOS ↔
        ∀ b ∈ (Function.mk 0x02000000 12 [⟨0, 4, NPOS⟩, ⟨4, 0, 0⟩, ⟨8, 4, NPOS⟩]).blocks,
          ¬ b.Covers 0x02000000 0x0200000C) :=
  ⟨by decide, by decide,
    (C10_SearchBlock_amended (Function.mk 0x02000000 12 [⟨0, 4, NPOS⟩, ⟨4, 0, 0⟩, ⟨8, 4, NPOS⟩])
      0x0200000C (by decide) (by decide)).2.1⟩

/-! ## Theorems: the analysis loop -/

/-- Inside a window that lies in the address space, offsets up to `size` pass the loop
condition. -/
theorem inRange_of_le (w : Window) (off : Nat) (hfit : w.code + w.size < U64)
    (hoff : off ≤ w.size) : w.inRange off = true := by
  have h1 : (w.code + off) % U64 = w.code + off := Nat.mod_eq_of_lt (by omega)
  have h2 : (w.code + w.size) % U64 = w.code + w.size := Nat.mod_eq_of_lt hfit
  simp [Window.inRange, h1, h2, hoff]

/-- More fuel does not change a result of the loop. -/
theorem analyzeLoop_fuel_mono (w : Window) (n k : Nat) (s r : AnalyzeState)
    (h : analyzeLoop w n s = some r) : analyzeLoop w (n + k) s = some r := by
  induction n generalizing s with
  | zero => simp [analyzeLoop] at h
  | succ n ih =>
    rw [Nat.succ_add]
    simp only [analyzeLoop] at h ⊢
    split at h
    · rename_i hr
      simp only [hr, if_true]
      cases hb : loopBody w s with
      | none => simpa [hb] using h
      | some s1 =>
        simp only [hb] at h ⊢
        exact ih _ h
    · rename_i hr
      simp only [hr]
      simpa using h

/-- More fuel does not change a result of `Function::Analyze`. -/
theorem AnalyzeWith_fuel_mono (srt : List Function.Block → List Function.Block) (w : Window)
    (n m : Nat) (f : Function) (hnm : n ≤ m) (h : AnalyzeWith srt n w = some f) :
    AnalyzeWith srt m w = some f := by
  obtain ⟨k, rfl⟩ := Nat.exists_eq_add_of_le hnm
  unfold AnalyzeWith at h ⊢
  split at h
  · rename_i ht
    simpa [ht] using h
  · rename_i ht
    simp only [ht]
    cases hl : analyzeLoop w n initialState with
    | none => simp [hl] at h
    | some s =>
      rw [analyzeLoop_fuel_mono w n k _ s hl]
      simpa [hl] using h

/-- One iteration of the loop that runs the body to its end or to `continue`. -/
theorem analyzeLoop_succ_cont (w : Window) (n : Nat) (s s1 : AnalyzeState)
    (h1 : w.inRange s.data = true) (h2 : loopBody w s = some s1) :
    analyzeLoop w (n + 1) s = analyzeLoop w n { s1 with data := (s1.data + 4) % U64 } := by
  simp only [analyzeLoop, h1, h2, if_true]

/-- One iteration of the loop, with the state after `++data` given explicitly. -/
theorem analyzeLoop_step (w : Window) (n : Nat) (s s1 s2 : AnalyzeState)
    (h1 : w.inRange s.data = true) (h2 : loopBody w s = some s1)
    (h3 : s2 = { s1 with data := (s1.data + 4) % U64 }) :
    analyzeLoop w (n + 1) s = analyzeLoop w n s2 := by
  rw [h3]
  exact analyzeLoop_succ_cont w n s s1 h1 h2

/-- An iteration of the loop whose body executes `break`. -/
theorem analyzeLoop_succ_break (w : Window) (n : Nat) (s : AnalyzeState)
    (h2 : loopBody w s = none) : analyzeLoop w (n + 1) s = some s := by
  simp only [analyzeLoop, h2]
  split <;> rfl

/-- The loop ends when the condition fails. -/
theorem analyzeLoop_succ_exit (w : Window) (n : Nat) (s : AnalyzeState)
    (h1 : w.inRange s.data = false) : analyzeLoop w (n + 1) s = some s := by
  simp [analyzeLoop, h1]

/-- With an empty block stack the loop ends at once, by `break` or by its condition. -/
theorem analyzeLoop_empty_stack (w : Window) (n : Nat) (blocks : List Function.Block)
    (data : Nat) : analyzeLoop w (n + 1) ⟨blocks, [], data⟩ = some ⟨blocks, [], data⟩ := by
  cases h : w.inRange data with
  | true => exact analyzeLoop_succ_break w n _ (by simp [loopBody])
  | false => exact analyzeLoop_succ_exit w n _ h

/-! ## Theorems: invariants of the analysis -/

/-- The lambda `restoreData` leaves the block vector alone. -/
theorem restoreData_blocks (s : AnalyzeState) : (restoreData s).blocks = s.blocks := by
  unfold restoreData
  split <;> rfl

/-- A new block goes to the end of the block vector. -/
theorem pushBlock_blocks (s : AnalyzeState) (b : Function.Block) :
    (pushBlock s b).blocks = s.blocks ++ [b] := rfl

/-- Overwriting a block by one of the same base leaves the list of bases unchanged. -/
theorem map_base_set (l : List Function.Block) (i : Nat) (b : Function.Block)
    (h : b.base = (l.getD i default).base) :
    (l.set i b).map (fun x => x.base) = l.map (fun x => x.base) := by
  induction l generalizing i with
  | nil => simp
  | cons a rest ih =>
    cases i with
    | zero => simpa using h
    | succ i =>
      simp only [List.set_cons_succ, List.map_cons, List.cons.injEq, true_and]
      exact ih i (by simpa using h)

/-- The loop body never removes or moves a block and never changes a block base: the
bases after the body are the bases before it, followed by those of the new blocks. -/
theorem loopBody_bases (w : Window) (s s1 : AnalyzeState) (h : loopBody w s = some s1) :
    ∃ suffix, s1.blocks.map (fun x => x.base) = s.blocks.map (fun x => x.base) ++ suffix := by
  unfold loopBody at h
  split at h
  · simp at h
  · rename_i cur stackTail hstack
    simp only at h
    split_ifs at h <;>
      (simp only [Option.some.injEq] at h
       subst h
       simp only [restoreData_blocks, pushBlock_blocks, List.map_append, List.set_set,
         List.append_assoc]
       try rw [map_base_set _ _ _ (by rfl)]
       first
         | exact ⟨_, rfl⟩
         | exact ⟨[], by simp⟩)

/-- The loop never removes or moves a block and never changes a block base. -/
theorem analyzeLoop_bases (w : Window) (n : Nat) (s r : AnalyzeState)
    (h : analyzeLoop w n s = some r) :
    ∃ suffix, r.blocks.map (fun x => x.base) = s.blocks.map (fun x => x.base) ++ suffix := by
  induction n generalizing s with
  | zero => simp [analyzeLoop] at h
  | succ n ih =>
    simp only [analyzeLoop] at h
    split at h
    · cases hb : loopBody w s with
      | none =>
        simp only [hb, Option.some.injEq] at h
        subst h
        exact ⟨[], by simp⟩
      | some s1 =>
        simp only [hb] at h
        obtain ⟨suf1, h1⟩ := loopBody_bases w s s1 hb
        obtain ⟨suf2, h2⟩ := ih _ h
        refine ⟨suf1 ++ suf2, ?_⟩
        rw [h2]
        simp only [h1, List.append_assoc]
    · simp only [Option.some.injEq] at h
      subst h
      exact ⟨[], by simp⟩

/-- At loop exit the first block of the vector still has base 0. -/
theorem analyzeLoop_head (w : Window) (n : Nat) (r : AnalyzeState)
    (h : analyzeLoop w n initialState = some r) :
    ∃ b rest, r.blocks = b :: rest ∧ b.base = 0 := by
  obtain ⟨suffix, hs⟩ := analyzeLoop_bases w n initialState r h
  cases hr : r.blocks with
  | nil => simp [hr, initialState] at hs
  | cons b rest =>
    refine ⟨b, rest, rfl, ?_⟩
    simp only [hr, initialState, List.map_cons, List.map_nil, List.singleton_append,
      List.cons.injEq] at hs
    simpa [default] using hs.1

/-- The discontinuity scan: when it reports none (and the indices fit a `size_t`), no block
starts after the end of its predecessor; when it reports an index, that index lies beyond
the start index and the blocks before it have no such gap. -/
theorem findDiscontinuity_spec (l : List Function.Block) (i : Nat) :
    (findDiscontinuity l i = NPOS → l.length + i ≤ NPOS →
        List.Chain' (fun a b => b.base ≤ (a.base + a.size) % U64) l) ∧
      (findDiscontinuity l i ≠ NPOS → i < findDiscontinuity l i ∧
        List.Chain' (fun a b => b.base ≤ (a.base + a.size) % U64)
          (l.take (findDiscontinuity l i - i))) := by
  induction l generalizing i with
  | nil => simp [findDiscontinuity]
  | cons a rest ih =>
    cases rest with
    | nil => simp [findDiscontinuity]
    | cons b rest2 =>
      by_cases hgap : (a.base + a.size) % U64 ≥ b.base
      · have hstep : findDiscontinuity (a :: b :: rest2) i =
            findDiscontinuity (b :: rest2) (i + 1) := by
          simp [findDiscontinuity, hgap]
        rw [hstep]
        obtain ⟨ih1, ih2⟩ := ih (i + 1)
        constructor
        · intro hd hlen
          have := ih1 hd (by simp only [List.length_cons] at hlen ⊢; omega)
          exact List.Chain'.cons hgap this
        · intro hd
          obtain ⟨hlt, hch⟩ := ih2 hd
          refine ⟨by omega, ?_⟩
          obtain ⟨k, hk⟩ : ∃ k, findDiscontinuity (b :: rest2) (i + 1) - (i + 1) = k + 1 :=
            ⟨findDiscontinuity (b :: rest2) (i + 1) - (i + 1) - 1, by omega⟩
          have hk2 : findDiscontinuity (b :: rest2) (i + 1) - i = k + 2 := by omega
          rw [hk] at hch
          rw [hk2]
          simp only [List.take_succ_cons] at hch ⊢
          exact List.Chain'.cons hgap hch
      · have hstep : findDiscontinuity (a :: b :: rest2) i = i + 1 := by
          simp [findDiscontinuity, hgap]
        rw [hstep]
        constructor
        · intro hd hlen
          simp only [List.length_cons] at hlen
          omega
        · intro _
          refine ⟨by omega, ?_⟩
          simp

/-- A chain, read by index. -/
theorem chain_getElem {α : Type} (R : α → α → Prop) (l : List α) (h : List.Chain' R l)
    (i : Nat) (a b : α) (ha : l[i]? = some a) (hb : l[i + 1]? = some b) : R a b := by
  induction l generalizing i with
  | nil => simp at ha
  | cons x rest ih =>
    cases rest with
    | nil => simp at hb
    | cons y rest2 =>
      rw [List.chain'_cons] at h
      cases i with
      | zero =>
        have hx : x = a := by simpa using ha
        have hy : y = b := by simpa using hb
        subst hx
        subst hy
        exact h.1
      | succ i => exact ih h.2 i (by simpa using ha) (by simpa using hb)

/-- The running maximum of the final loop exceeds `o` exactly when its start value or
some block end does. -/
theorem foldl_max_lt (l : List Function.Block) (acc o : Nat) :
    o < l.foldl (fun acc block => max acc ((block.base + block.size) % U64)) acc ↔
      o < acc ∨ ∃ b ∈ l, o < (b.base + b.size) % U64 := by
  induction l generalizing acc with
  | nil => simp
  | cons a rest ih =>
    simp only [List.foldl_cons, ih, List.mem_cons, exists_eq_or_imp, lt_max_iff]
    tauto

/-- The running maximum of the final loop is its start value or some block end. -/
theorem foldl_max_attained (l : List Function.Block) (acc : Nat) :
    l.foldl (fun acc block => max acc ((block.base + block.size) % U64)) acc = acc ∨
      ∃ b ∈ l, l.foldl (fun acc block => max acc ((block.base + block.size) % U64)) acc =
        (b.base + b.size) % U64 := by
  induction l generalizing acc with
  | nil => simp
  | cons a rest ih =>
    simp only [List.foldl_cons, List.mem_cons, exists_eq_or_imp]
    rcases ih (max acc ((a.base + a.size) % U64)) with h | ⟨b, hb, h⟩
    · rcases max_choice acc ((a.base + a.size) % U64) with hm | hm
      · left; rw [h, hm]
      · right; left; rw [h, hm]
    · right; right; exact ⟨b, hb, h⟩

/-- The function size bounds every block end and, for a non-empty vector, is one of them. -/
theorem functionSize_max (l : List Function.Block) (hne : l ≠ []) :
    (∀ b ∈ l, (b.base + b.size) % U64 ≤ functionSize l) ∧
      ∃ b ∈ l, functionSize l = (b.base + b.size) % U64 := by
  have hub : ∀ b ∈ l, (b.base + b.size) % U64 ≤ functionSize l := by
    intro b hb
    by_contra hlt
    have h1 : functionSize l < (b.base + b.size) % U64 := by omega
    have h2 := (foldl_max_lt l 0 (functionSize l)).mpr (Or.inr ⟨b, hb, h1⟩)
    unfold functionSize at h2
    omega
  refine ⟨hub, ?_⟩
  rcases foldl_max_attained l 0 with h | h
  · cases l with
    | nil => exact absurd rfl hne
    | cons a rest =>
      refine ⟨a, List.mem_cons_self _ _, ?_⟩
      have := hub a (List.mem_cons_self _ _)
      unfold functionSize at this ⊢
      omega
  · exact h

/-- In a gap-free vector every offset from the first block base up to the function size
lies inside some block. -/
theorem chain_covers (l : List Function.Block) (o : Nat)
    (hch : List.Chain' (fun a b => b.base ≤ (a.base + a.size) % U64) l)
    (hhead : ∀ a ∈ l.head?, a.base ≤ o)
    (hex : ∃ b ∈ l, o < (b.base + b.size) % U64) :
    ∃ b ∈ l, b.base ≤ o ∧ o < (b.base + b.size) % U64 := by
  induction l with
  | nil => simp at hex
  | cons a rest ih =>
    have ha : a.base ≤ o := hhead a (by simp)
    by_cases hlt : o < (a.base + a.size) % U64
    · exact ⟨a, List.mem_cons_self _ _, ha, hlt⟩
    · obtain ⟨b, hb, hob⟩ := hex
      have hbrest : b ∈ rest := by
        rcases List.mem_cons.mp hb with rfl | h
        · exact absurd hob hlt
        · exact h
      cases rest with
      | nil => simp at hbrest
      | cons c rest2 =>
        rw [List.chain'_cons] at hch
        have hc : c.base ≤ o := by
          have := hch.1
          omega
        obtain ⟨x, hx, hx1, hx2⟩ := ih hch.2 (by simpa using hc) ⟨b, hbrest, hob⟩
        exact ⟨x, List.mem_cons_of_mem _ hx, hx1, hx2⟩

/-- After sorting, the first block is one of least base. -/
theorem sorted_head_zero (l sorted : List Function.Block) (hperm : List.Perm sorted l)
    (hs : List.Pairwise (fun a b => a.base ≤ b.base) sorted)
    (hz : ∃ b ∈ l, b.base = 0) : ∃ b rest, sorted = b :: rest ∧ b.base = 0 := by
  obtain ⟨z, hzl, hz0⟩ := hz
  have hzs : z ∈ sorted := hperm.mem_iff.mpr hzl
  cases sorted with
  | nil => simp at hzs
  | cons a rest =>
    refine ⟨a, rest, rfl, ?_⟩
    rcases List.mem_cons.mp hzs with rfl | h
    · exact hz0
    · have := (List.pairwise_cons.mp hs).1 z h
      omega

/-- Insertion keeps the elements. -/
theorem insertBlock_perm (b : Function.Block) (l : List Function.Block) :
    List.Perm (insertBlock b l) (b :: l) := by
  induction l with
  | nil => simp [insertBlock]
  | cons a rest ih =>
    simp only [insertBlock]
    split
    · exact List.Perm.refl _
    · exact (List.Perm.cons a ih).trans (List.Perm.swap b a rest)

/-- Insertion into a list sorted by base gives a list sorted by base. -/
theorem insertBlock_sorted (b : Function.Block) (l : List Function.Block)
    (h : List.Pairwise (fun x y => x.base ≤ y.base) l) :
    List.Pairwise (fun x y => x.base ≤ y.base) (insertBlock b l) := by
  induction l with
  | nil => simp [insertBlock]
  | cons a rest ih =>
    simp only [insertBlock]
    obtain ⟨ha, hrest⟩ := List.pairwise_cons.mp h
    split
    · rename_i hlt
      refine List.pairwise_cons.mpr ⟨?_, h⟩
      intro y hy
      rcases List.mem_cons.mp hy with rfl | hy
      · omega
      · have := ha y hy
        omega
    · rename_i hge
      refine List.pairwise_cons.mpr ⟨?_, ih hrest⟩
      intro y hy
      rcases List.mem_cons.mp ((insertBlock_perm b rest).mem_iff.mp hy) with rfl | hy
      · omega
      · exact ha y hy

/-- The stable insertion sort meets the contract of `std::sort`. -/
theorem sortBlocks_spec : SortsByBase sortBlocks := by
  intro l
  induction l with
  | nil => simp [sortBlocks]
  | cons b rest ih =>
    simp only [sortBlocks]
    exact ⟨(insertBlock_perm b _).trans (List.Perm.cons b ih.1), insertBlock_sorted b _ ih.2⟩

/-- The vector after the fixup pass: it starts with a block of base 0, is sorted by base
and has no gap between consecutive blocks. -/
theorem sortAndInvalidate_spec (srt : List Function.Block → List Function.Block)
    (hsrt : SortsByBase srt) (blocks : List Function.Block)
    (hz : ∃ b rest, blocks = b :: rest ∧ b.base = 0)
    (hlen : (sortAndInvalidate srt blocks).length ≤ NPOS) :
    (∃ b rest, sortAndInvalidate srt blocks = b :: rest ∧ b.base = 0) ∧
      List.Pairwise (fun a b => a.base ≤ b.base) (sortAndInvalidate srt blocks) ∧
      List.Chain' (fun a b => b.base ≤ (a.base + a.size) % U64)
        (sortAndInvalidate srt blocks) := by
  obtain ⟨b0, rest0, hb, hb0⟩ := hz
  unfold sortAndInvalidate at hlen ⊢
  by_cases h1 : blocks.length > 1
  · simp only [h1, if_true] at hlen ⊢
    obtain ⟨hperm, hsorted⟩ := hsrt blocks
    obtain ⟨a, rest, ha, ha0⟩ := sorted_head_zero blocks (srt blocks) hperm hsorted
      ⟨b0, by rw [hb]; exact List.mem_cons_self _ _, hb0⟩
    obtain ⟨hs1, hs2⟩ := findDiscontinuity_spec (srt blocks) 0
    by_cases hd : findDiscontinuity (srt blocks) 0 = NPOS
    · simp only [hd, ne_eq, not_true_eq_false, if_false] at hlen ⊢
      exact ⟨⟨a, rest, ha, ha0⟩, hsorted, hs1 hd (by omega)⟩
    · simp only [ne_eq, hd, not_false_eq_true, if_true] at hlen ⊢
      obtain ⟨hpos, hch⟩ := hs2 hd
      refine ⟨?_, hsorted.sublist (List.take_sublist _ _), by simpa using hch⟩
      obtain ⟨k, hk⟩ : ∃ k, findDiscontinuity (srt blocks) 0 = k + 1 :=
        ⟨findDiscontinuity (srt blocks) 0 - 1, by omega⟩
      rw [hk, ha]
      exact ⟨a, rest.take k, by simp, ha0⟩
  · simp only [h1, if_false]
    have hnil : rest0 = [] := by
      cases rest0 with
      | nil => rfl
      | cons c r => simp [hb] at h1
    subst hnil
    subst hb
    exact ⟨⟨b0, [], rfl, hb0⟩, by simp, by simp⟩

/-- C4: every function returned by the worklist path of `Function::Analyze` (fast path not
taken; the block vector fits a `size_t` count) has a first block of start 0, blocks sorted
by start, no gap between consecutive blocks (`blocks[i].start + blocks[i].size >=
blocks[i+1].start`, also with the sum taken in `size_t`), every offset below
`function.size` inside some block, and `function.size` equal to the largest block end as
the code computes it. -/
theorem C4_worklist_result_contiguous (srt : List Function.Block → List Function.Block)
    (hsrt : SortsByBase srt) (fuel : Nat) (w : Window) (fn : Function)
    (hfast : w.isTailCallThunk = false) (h : AnalyzeWith srt fuel w = some fn)
    (hvec : fn.blocks.length < U64) :
    (∃ b rest, fn.blocks = b :: rest ∧ b.base = 0) ∧
      List.Pairwise (fun a b => a.base ≤ b.base) fn.blocks ∧
      (∀ (i : Nat) (a b : Function.Block), fn.blocks[i]? = some a → fn.blocks[i + 1]? = some b →
        b.base ≤ (a.base + a.size) % U64 ∧ b.base ≤ a.base + a.size) ∧
      (∀ o, o < fn.size → ∃ b ∈ fn.blocks, b.base ≤ o ∧ o < b.base + b.size) ∧
      (∀ b ∈ fn.blocks, (b.base + b.size) % U64 ≤ fn.size) ∧
      (∃ b ∈ fn.blocks, fn.size = (b.base + b.size) % U64) := by
  unfold AnalyzeWith at h
  simp only [hfast, Bool.false_eq_true, if_false] at h
  cases hl : analyzeLoop w fuel initialState with
  | none => simp [hl] at h
  | some s =>
    simp only [hl, Option.some.injEq] at h
    subst h
    simp only at hvec ⊢
    obtain ⟨⟨b, rest, hb, hb0⟩, hsorted, hch⟩ :=
      sortAndInvalidate_spec srt hsrt s.blocks (analyzeLoop_head w fuel s hl)
        (by unfold U64 at hvec; unfold NPOS; omega)
    have hne : sortAndInvalidate srt s.blocks ≠ [] := by rw [hb]; simp
    obtain ⟨hub, hmax⟩ := functionSize_max _ hne
    refine ⟨⟨b, rest, hb, hb0⟩, hsorted, ?_, ?_, hub, hmax⟩
    · intro i x y hx hy
      have := chain_getElem _ _ hch i x y hx hy
      exact ⟨this, le_trans this (Nat.mod_le _ _)⟩
    · intro o ho
      have hex : ∃ c ∈ sortAndInvalidate srt s.blocks, o < (c.base + c.size) % U64 := by
        have := (foldl_max_lt (sortAndInvalidate srt s.blocks) 0 o).mp ho
        simpa using this
      obtain ⟨c, hc, hc1, hc2⟩ := chain_covers _ o hch
        (by rw [hb]; intro a ha; simp at ha; subst ha; omega) hex
      exact ⟨c, hc, hc1, lt_of_lt_of_le hc2 (Nat.mod_le _ _)⟩

/-- C4 at the window `beq +8; blr; blr`, whose result is `condBranchResult`. -/
theorem C4_worklist_result_contiguous_witness :
    AnalyzeWith sortBlocks 4 condBranchWindow = some condBranchResult ∧
      (∃ b rest, condBranchResult.blocks = b :: rest ∧ b.base = 0) ∧
      (∀ o, o < condBranchResult.size →
        ∃ b ∈ condBranchResult.blocks, b.base ≤ o ∧ o < b.base + b.size) :=
  ⟨by decide,
    (C4_worklist_result_contiguous sortBlocks sortBlocks_spec 4 condBranchWindow
      condBranchResult (by decide) (by decide) (by decide)).1,
    (C4_worklist_result_contiguous sortBlocks sortBlocks_spec 4 condBranchWindow
      condBranchResult (by decide) (by decide) (by decide)).2.2.2.1⟩

/-! ## Theorems: concrete windows -/

/-- Two results of `Function::Analyze` for different fuel agree. -/
theorem AnalyzeWith_fuel_unique (srt : List Function.Block → List Function.Block) (w : Window)
    (n m : Nat) (f g : Function) (hf : AnalyzeWith srt n w = some f)
    (hg : AnalyzeWith srt m w = some g) : f = g := by
  have h1 := AnalyzeWith_fuel_mono srt w n (max n m) f (le_max_left _ _) hf
  have h2 := AnalyzeWith_fuel_mono srt w m (max n m) g (le_max_right _ _) hg
  rw [h1] at h2
  exact Option.some.inj h2

/-- The descriptor stored by `Disassemble` is the lookup of the instruction at `data`. -/
theorem Disassemble_opcode (w : Window) (off a : Nat) (insn : ppc_insn) :
    (Disassemble w.mem ((w.code + off) % U64) a insn).2.opcode = GetOpcode (w.insnAt off) :=
  (DecodeInstruction_opcode _ _).1

/-- The loop body depends on the window only through `base` and the instruction at `data`. -/
theorem loopBody_congr (w v : Window) (s : AnalyzeState) (hbase : w.base = v.base)
    (hinsn : w.insnAt s.data = v.insnAt s.data) : loopBody w s = loopBody v s := by
  simp only [loopBody, Disassemble_opcode, hbase, hinsn]

/-- A sort by base leaves a vector with strictly increasing bases as it is. -/
theorem sort_of_strictly_sorted (srt : List Function.Block → List Function.Block)
    (hsrt : SortsByBase srt) (l : List Function.Block)
    (hl : List.Pairwise (fun a b => a.base < b.base) l) : srt l = l := by
  obtain ⟨hperm, hsorted⟩ := hsrt l
  have hnd : (l.map (fun x => x.base)).Nodup := by
    rw [List.Nodup, List.pairwise_map]
    exact hl.imp (fun h => Nat.ne_of_lt h)
  have hnd2 : ((srt l).map (fun x => x.base)).Nodup :=
    ((hperm.map _).nodup_iff).mpr hnd
  rw [List.Nodup, List.pairwise_map] at hnd2
  have hlt : List.Pairwise (fun a b => a.base < b.base) (srt l) :=
    (hsorted.and hnd2).imp (fun h => Nat.lt_of_le_of_ne h.1 h.2)
  haveI : IsAntisymm Function.Block (fun a b => a.base < b.base) :=
    ⟨fun a b h1 h2 => absurd h1 (Nat.lt_asymm h2)⟩
  exact List.eq_of_perm_of_sorted hperm hlt hl

/-- The fixup pass on a vector with strictly increasing bases does not depend on the sort. -/
theorem sortAndInvalidate_of_strictly_sorted (srt : List Function.Block → List Function.Block)
    (hsrt : SortsByBase srt) (l : List Function.Block)
    (hl : List.Pairwise (fun a b => a.base < b.base) l) :
    sortAndInvalidate srt l = sortAndInvalidate (fun x => x) l := by
  unfold sortAndInvalidate
  rw [sort_of_strictly_sorted srt hsrt l hl]

/-- The instruction read at an offset whose four bytes lie in the address space. -/
theorem insnAt_of_bytes (w : Window) (off b0 b1 b2 b3 : Nat) (hfit : w.code + off + 3 < U64)
    (h0 : w.mem (w.code + off) = b0) (h1 : w.mem (w.code + off + 1) = b1)
    (h2 : w.mem (w.code + off + 2) = b2) (h3 : w.mem (w.code + off + 3) = b3) :
    w.insnAt off = ByteSwap
      ((b0 % 256) ||| ((b1 % 256) <<< 8) ||| ((b2 % 256) <<< 16) ||| ((b3 % 256) <<< 24)) := by
  have e0 : (w.code + off) % U64 = w.code + off := Nat.mod_eq_of_lt (by omega)
  have e1 : (w.code + off + 1) % U64 = w.code + off + 1 := Nat.mod_eq_of_lt (by omega)
  have e2 : (w.code + off + 2) % U64 = w.code + off + 2 := Nat.mod_eq_of_lt (by omega)
  have e3 : (w.code + off + 3) % U64 = w.code + off + 3 := Nat.mod_eq_of_lt (by omega)
  simp only [Window.insnAt, load32, e0, e1, e2, e3, h0, h1, h2, h3]

/-- The macro `PPC_BD` yields a multiple of 4 when the AA and LK bits are clear. -/
theorem PPC_BD_mod_four (instr : Nat) (haa : PPC_BA instr = 0) (hlk : PPC_BL instr = 0) :
    PPC_BD instr % 4 = 0 := by
  unfold PPC_BA at haa
  unfold PPC_BL at hlk
  unfold PPC_BD toInt32
  rw [Nat.and_one_is_mod] at haa hlk
  rw [Nat.shiftRight_eq_div_pow] at haa
  rw [Int.shiftRight_eq_div_pow, Nat.shiftLeft_eq]
  simp only [U32]
  norm_num at haa ⊢
  split_ifs <;> omega

/-- The macro `PPC_BD` yields a 16-bit signed value. -/
theorem PPC_BD_range (instr : Nat) : -32768 ≤ PPC_BD instr ∧ PPC_BD instr < 32768 := by
  unfold PPC_BD toInt32
  rw [Int.shiftRight_eq_div_pow, Nat.shiftLeft_eq]
  simp only [U32]
  norm_num
  split_ifs <;> omega

/-- The size_t image of a multiple of 4 in the 16-bit signed range, other than 0 and 4. -/
theorem toSizeT_PPC_BD (instr : Nat) (haa : PPC_BA instr = 0) (hlk : PPC_BL instr = 0)
    (h0 : PPC_BD instr ≠ 0) (h4 : PPC_BD instr ≠ 4) :
    toSizeT (PPC_BD instr) < U64 ∧ toSizeT (PPC_BD instr) % 4 = 0 ∧
      toSizeT (PPC_BD instr) ≠ 0 ∧ toSizeT (PPC_BD instr) ≠ 4 := by
  have hm := PPC_BD_mod_four instr haa hlk
  have hr := PPC_BD_range instr
  unfold toSizeT U64
  omega

/-- After the first instruction the fall-through address `base + 4` lies in no block. -/
theorem SearchBlock_fallthrough (base : Nat) :
    Function.SearchBlock ⟨base, 0, [⟨0, 4, NPOS⟩]⟩ ((base + 4) % U64) = NPOS := by
  unfold Function.SearchBlock
  simp only [SearchBlockFrom, U64, NPOS]
  split_ifs <;> omega

/-- A branch target other than the branch itself and its fall-through lies in neither the
first block nor the fresh fall-through block. -/
theorem SearchBlock_target (base bd p : Nat) (hbase : base < U64) (hbd : bd < U64)
    (hm : bd % 4 = 0) (h0 : bd ≠ 0) (h4 : bd ≠ 4) :
    Function.SearchBlock ⟨base, 0, [⟨0, 4, NPOS⟩, ⟨4, 0, p⟩]⟩ ((base + bd) % U64) = NPOS := by
  unfold Function.SearchBlock
  simp only [SearchBlockFrom, U64, NPOS] at hbase hbd ⊢
  split_ifs <;> omega

/-- The first loop iteration on a conditional branch without link whose displacement is
neither 0 nor 4: the first block ends, and the false successor (offset 4, projected size
`BD - 4`) and the true successor (offset `BD`) are created and pushed in this order. -/
theorem loopBody_conditional_branch (w : Window) (hbase : w.base < U64)
    (hop : PPC_OP (w.insnAt 0) = PPC_OP_BC) (hlk : PPC_BL (w.insnAt 0) = 0)
    (haa : PPC_BA (w.insnAt 0) = 0)
    (h0 : PPC_BD (w.insnAt 0) ≠ 0) (h4 : PPC_BD (w.insnAt 0) ≠ 4) :
    loopBody w initialState = some
      ⟨[⟨0, 4, NPOS⟩,
        ⟨4, 0, (toSizeT (PPC_BD (w.insnAt 0)) + U64 - 4) % U64⟩,
        ⟨toSizeT (PPC_BD (w.insnAt 0)), 0, NPOS⟩],
       [2, 1],
       (4 * (toSizeT (PPC_BD (w.insnAt 0)) / 4) + U64 - 4) % U64⟩ := by
  have hmb : w.base % U64 = w.base := Nat.mod_eq_of_lt hbase
  have hl : (w.base + U64 - w.base) % U64 = 0 := by unfold U64 at *; omega
  have h44 : (0 + 4) % U64 = 4 := by decide
  have h04 : (0 + 4 : Nat) = 4 := rfl
  simp only [loopBody, initialState, hop, hlk, Nat.add_zero, hmb, hl, h44, h04]
  obtain ⟨hbd, hm, hb0, hb4⟩ := toSizeT_PPC_BD (w.insnAt 0) haa hlk h0 h4
  generalize toSizeT (PPC_BD (w.insnAt 0)) = bd at hbd hm hb0 hb4 ⊢
  have hr : ((w.base + bd) % U64 + U64 - w.base) % U64 = bd := by unfold U64 at *; omega
  have hbdm : bd % U64 = bd := Nat.mod_eq_of_lt hbd
  have hs1 := SearchBlock_fallthrough w.base
  have hs2 := SearchBlock_target w.base bd ((bd + U64 - 4) % U64) hbase hbd hm hb0 hb4
  simp [default, restoreData, pushBlock, hs1, hs2, hbdm, h44, hr]

/-- The fields of the word `0x4E800020` (blr) that the analysis inspects. -/
theorem blr_fields :
    PPC_OP 0x4E800020 = 19 ∧ PPC_BL 0x4E800020 = 0 ∧ PPC_XOP 0x4E800020 = 16 ∧
      PPC_BO 0x4E800020 &&& 0x10 = 16 := by
  decide

/-- The loop body on `blr` with no projected bound reached: the current block grows by 4
and is popped, and the walk resumes at the end of the block below it. -/
theorem loopBody_blr (w : Window) (blocks : List Function.Block) (cur : Nat)
    (stackTail : List Nat) (data : Nat) (b : Function.Block)
    (hb : blocks[cur]? = some b) (hproj : ¬ (b.projectedSize ≠ NPOS ∧ b.size ≥ b.projectedSize))
    (hinsn : w.insnAt data = 0x4E800020) :
    loopBody w ⟨blocks, cur :: stackTail, data⟩ =
      some (restoreData ⟨blocks.set cur { b with size := (b.size + 4) % U64 }, stackTail, data⟩) := by
  obtain ⟨h1, h2, h3, h4⟩ := blr_fields
  simp [loopBody, hinsn, h1, h2, h3, h4, hb, hproj, PPC_OP_BC, PPC_OP_B, PPC_OP_CTR]

/-- The analysis of `bc +8; blr; blr`: three blocks of four bytes each. -/
theorem Analyze_bc_blr_blr (srt : List Function.Block → List Function.Block)
    (hsrt : SortsByBase srt) (w : Window) (fuel : Nat) (hfit : w.code + w.size < U64)
    (hsize : 12 ≤ w.size) (hbase : w.base < U64)
    (hop : PPC_OP (w.insnAt 0) = PPC_OP_BC) (hlk : PPC_BL (w.insnAt 0) = 0)
    (haa : PPC_BA (w.insnAt 0) = 0) (hbd : PPC_BD (w.insnAt 0) = 8)
    (h4 : w.insnAt 4 = 0x4E800020) (h8 : w.insnAt 8 = 0x4E800020) (hfuel : 4 ≤ fuel) :
    AnalyzeWith srt fuel w = some ⟨w.base, 12, [⟨0, 4, NPOS⟩, ⟨4, 4, 4⟩, ⟨8, 4, NPOS⟩]⟩ := by
  apply AnalyzeWith_fuel_mono srt w 4 fuel _ hfuel
  have hfast : w.isTailCallThunk = false := by simp [Window.isTailCallThunk, h4]
  have hr0 : w.inRange initialState.data = true := inRange_of_le w 0 hfit (Nat.zero_le _)
  have hr4 : w.inRange 4 = true := inRange_of_le w 4 hfit (by omega)
  have hr8 : w.inRange 8 = true := inRange_of_le w 8 hfit (by omega)
  have hb1 := loopBody_conditional_branch w hbase hop hlk haa (by rw [hbd]; decide)
    (by rw [hbd]; decide)
  rw [hbd] at hb1
  have e1 : toSizeT 8 = 8 := by decide
  have e2 : (8 + U64 - 4) % U64 = 4 := by decide
  have e3 : (4 * (8 / 4) + U64 - 4) % U64 = 4 := by decide
  simp only [e1, e2, e3] at hb1
  have hb2 := loopBody_blr w [⟨0, 4, NPOS⟩, ⟨4, 0, 4⟩, ⟨8, 0, NPOS⟩] 2 [1] 8 ⟨8, 0, NPOS⟩
    (by rfl) (by decide) h8
  have hb3 := loopBody_blr w [⟨0, 4, NPOS⟩, ⟨4, 0, 4⟩, ⟨8, 4, NPOS⟩] 1 [] 4 ⟨4, 0, 4⟩
    (by rfl) (by decide) h4
  have hloop : analyzeLoop w 4 initialState =
      some ⟨[⟨0, 4, NPOS⟩, ⟨4, 4, 4⟩, ⟨8, 4, NPOS⟩], [], 8⟩ := by
    rw [analyzeLoop_step w 3 _ _
      ⟨[⟨0, 4, NPOS⟩, ⟨4, 0, 4⟩, ⟨8, 0, NPOS⟩], [2, 1], 8⟩ hr0 hb1 (by decide)]
    rw [analyzeLoop_step w 2 _ _
      ⟨[⟨0, 4, NPOS⟩, ⟨4, 0, 4⟩, ⟨8, 4, NPOS⟩], [1], 4⟩ hr8 hb2 (by decide)]
    rw [analyzeLoop_step w 1 _ _
      ⟨[⟨0, 4, NPOS⟩, ⟨4, 4, 4⟩, ⟨8, 4, NPOS⟩], [], 8⟩ hr4 hb3 (by decide)]
    exact analyzeLoop_empty_stack w 0 _ _
  have hpost : sortAndInvalidate srt [⟨0, 4, NPOS⟩, ⟨4, 4, 4⟩, ⟨8, 4, NPOS⟩] =
      [⟨0, 4, NPOS⟩, ⟨4, 4, 4⟩, ⟨8, 4, NPOS⟩] := by
    rw [sortAndInvalidate_of_strictly_sorted srt hsrt _ (by decide)]
    decide
  have hsz : functionSize [⟨0, 4, NPOS⟩, ⟨4, 4, 4⟩, ⟨8, 4, NPOS⟩] = 12 := by decide
  simp [AnalyzeWith, hfast, hloop, hpost, hsz]

/-- The state after the first pass of the loop on a conditional branch without link whose
displacement is neither 0 nor 4, in a window that lies in the address space. -/
theorem analyzeSteps_conditional_branch (w : Window) (hbase : w.base < U64)
    (hfit : w.code + w.size < U64)
    (hop : PPC_OP (w.insnAt 0) = PPC_OP_BC) (hlk : PPC_BL (w.insnAt 0) = 0)
    (haa : PPC_BA (w.insnAt 0) = 0)
    (h0 : PPC_BD (w.insnAt 0) ≠ 0) (h4 : PPC_BD (w.insnAt 0) ≠ 4) :
    analyzeSteps w 1 initialState =
        ⟨[⟨0, 4, NPOS⟩,
          ⟨4, 0, (toSizeT (PPC_BD (w.insnAt 0)) + U64 - 4) % U64⟩,
          ⟨toSizeT (PPC_BD (w.insnAt 0)), 0, NPOS⟩],
         [2, 1],
         ((4 * (toSizeT (PPC_BD (w.insnAt 0)) / 4) + U64 - 4) % U64 + 4) % U64⟩ ∧
      ∀ fuel, analyzeLoop w (fuel + 1) initialState =
        analyzeLoop w fuel (analyzeSteps w 1 initialState) := by
  have hr0 : w.inRange initialState.data = true := inRange_of_le w 0 hfit (Nat.zero_le _)
  have hb := loopBody_conditional_branch w hbase hop hlk haa h0 h4
  have hs : analyzeSteps w 1 initialState =
      ⟨[⟨0, 4, NPOS⟩,
        ⟨4, 0, (toSizeT (PPC_BD (w.insnAt 0)) + U64 - 4) % U64⟩,
        ⟨toSizeT (PPC_BD (w.insnAt 0)), 0, NPOS⟩],
       [2, 1],
       ((4 * (toSizeT (PPC_BD (w.insnAt 0)) / 4) + U64 - 4) % U64 + 4) % U64⟩ := by
    simp only [analyzeSteps, hr0, hb, if_true]
  refine ⟨hs, ?_⟩
  intro fuel
  rw [hs]
  exact analyzeLoop_step w fuel _ _ _ hr0 hb rfl

/-- C7, counterexample: (1) on the window `beq +4; blr; blr` the first word is a
conditional branch without link and with AA clear, yet the loop body creates a single
successor block (the false successor at offset 4, which is also the target), and the
result has two blocks; (2) on the two-word window `beq +8` followed by `04 00 00 48` the
fast path returns size 8 and no block at all; (3) on the one-word window `beq -4` that is
preceded by `nop` the first pass creates the two successors, and the third pass, on the
same branch, creates one more block for the true successor. -/
theorem C7_conditional_branch_counterexample :
    (PPC_OP (condBranchNextWindow.insnAt 0) = PPC_OP_BC ∧
      PPC_BL (condBranchNextWindow.insnAt 0) = 0 ∧
      PPC_BA (condBranchNextWindow.insnAt 0) = 0 ∧
      PPC_BD (condBranchNextWindow.insnAt 0) = 4 ∧
      loopBody condBranchNextWindow initialState =
        some ⟨[⟨0, 4, NPOS⟩, ⟨4, 0, 0⟩], [1], 0⟩ ∧
      Analyze 3 condBranchNextWindow = some ⟨0x02000000, 4, [⟨0, 4, NPOS⟩, ⟨4, 0, 0⟩]⟩) ∧
    (PPC_OP (thunkBranchWindow.insnAt 0) = PPC_OP_BC ∧
      PPC_BL (thunkBranchWindow.insnAt 0) = 0 ∧
      PPC_BA (thunkBranchWindow.insnAt 0) = 0 ∧
      PPC_BD (thunkBranchWindow.insnAt 0) = 8 ∧
      thunkBranchWindow.isTailCallThunk = true ∧
      Analyze 0 thunkBranchWindow = some ⟨0x02000000, 8, []⟩ ∧
      Analyze 8 thunkBranchWindow = some ⟨0x02000000, 8, []⟩) ∧
    (PPC_OP (loopBelowWindow.insnAt 0) = PPC_OP_BC ∧
      PPC_BL (loopBelowWindow.insnAt 0) = 0 ∧
      PPC_BA (loopBelowWindow.insnAt 0) = 0 ∧
      PPC_BD (loopBelowWindow.insnAt 0) = -4 ∧
      (analyzeSteps loopBelowWindow 1 initialState).blocks =
        [⟨0, 4, NPOS⟩, ⟨4, 0, 0xFFFFFFFFFFFFFFF8⟩, ⟨0xFFFFFFFFFFFFFFFC, 0, NPOS⟩] ∧
      (analyzeSteps loopBelowWindow 3 initialState).blocks =
        [⟨0, 4, NPOS⟩, ⟨4, 0, 0xFFFFFFFFFFFFFFF8⟩, ⟨0xFFFFFFFFFFFFFFFC, 8, NPOS⟩,
          ⟨0xFFFFFFFFFFFFFFFC, 0, NPOS⟩]) := by
  decide

/-- C7, amended: when the window lies in the address space, does not take the fast path,
and begins with a conditional branch (primary opcode 16) with AA and LK clear whose
displacement BD is neither 0 nor 4, the first pass of the loop of `Function::Analyze`
creates exactly two successor blocks, the false successor at offset 4 and the true
successor at offset BD (as a `size_t`), and pushes them in this order, and the analysis
continues from the vector of these three blocks; in particular for `bc +8` followed by
two `blr` the result, with fuel of at least 4, is exactly the three blocks `(0,4)`,
`(4,4)`, `(8,4)`. -/
theorem C7_conditional_branch_amended (srt : List Function.Block → List Function.Block)
    (hsrt : SortsByBase srt) (w : Window) (hbase : w.base < U64)
    (hfit : w.code + w.size < U64) (hfast : w.isTailCallThunk = false)
    (hop : PPC_OP (w.insnAt 0) = PPC_OP_BC) (hlk : PPC_BL (w.insnAt 0) = 0)
    (haa : PPC_BA (w.insnAt 0) = 0)
    (h0 : PPC_BD (w.insnAt 0) ≠ 0) (h4 : PPC_BD (w.insnAt 0) ≠ 4) :
    analyzeSteps w 1 initialState =
        ⟨[⟨0, 4, NPOS⟩,
          ⟨4, 0, (toSizeT (PPC_BD (w.insnAt 0)) + U64 - 4) % U64⟩,
          ⟨toSizeT (PPC_BD (w.insnAt 0)), 0, NPOS⟩],
         [2, 1],
         ((4 * (toSizeT (PPC_BD (w.insnAt 0)) / 4) + U64 - 4) % U64 + 4) % U64⟩ ∧
      (∀ fuel, AnalyzeWith srt (fuel + 1) w =
        (analyzeLoop w fuel (analyzeSteps w 1 initialState)).map
          (fun s => ⟨w.base, functionSize (sortAndInvalidate srt s.blocks),
            sortAndInvalidate srt s.blocks⟩)) ∧
      (PPC_BD (w.insnAt 0) = 8 → w.insnAt 4 = 0x4E800020 → w.insnAt 8 = 0x4E800020 →
        12 ≤ w.size → ∀ fuel, 4 ≤ fuel →
        AnalyzeWith srt fuel w =
          some ⟨w.base, 12, [⟨0, 4, NPOS⟩, ⟨4, 4, 4⟩, ⟨8, 4, NPOS⟩]⟩) := by
  obtain ⟨hs, hloop⟩ := analyzeSteps_conditional_branch w hbase hfit hop hlk haa h0 h4
  refine ⟨hs, ?_, ?_⟩
  · intro fuel
    unfold AnalyzeWith
    rw [hfast, hloop fuel]
    cases analyzeLoop w fuel (analyzeSteps w 1 initialState) <;> rfl
  · intro hbd hi4 hi8 hsize fuel hfuel
    exact Analyze_bc_blr_blr srt hsrt w fuel hfit hsize hbase hop hlk haa hbd hi4 hi8 hfuel

/-- C7, amended, at the window `beq +8; blr; blr`. -/
theorem C7_conditional_branch_amended_witness :
    (analyzeSteps condBranchWindow 1 initialState).blocks =
        [⟨0, 4, NPOS⟩, ⟨4, 0, 4⟩, ⟨8, 0, NPOS⟩] ∧
      AnalyzeWith sortBlocks 4 condBranchWindow =
        some ⟨condBranchWindow.base, 12, [⟨0, 4, NPOS⟩, ⟨4, 4, 4⟩, ⟨8, 4, NPOS⟩]⟩ :=
  ⟨by decide,
    (C7_conditional_branch_amended sortBlocks sortBlocks_spec condBranchWindow (by decide)
      (by decide) (by decide) (by decide) (by decide) (by decide) (by decide)
      (by decide)).2.2 (by decide) (by decide) (by decide) (by decide) 4 (by decide)⟩

/-- C3, failing input: on the window `b +8; nop; beq -4; blr` at base `0x02000000` the
analysis returns, for every fuel that suffices, the blocks `(0,4)`, `(4,8)`, `(8,4)`,
`(12,4)`; the blocks `(4,8)` and `(8,4)` are distinct and both contain offset 8, and
`Function::Validate` rejects the returned function. -/
theorem C3_analyze_returns_overlapping_blocks :
    Analyze 6 loopWindow = some loopWindowResult ∧
      (∀ fuel fn, Analyze fuel loopWindow = some fn → fn = loopWindowResult) ∧
      (∃ a ∈ loopWindowResult.blocks, ∃ b ∈ loopWindowResult.blocks, a ≠ b ∧
        ∃ o, a.base ≤ o ∧ o < a.base + a.size ∧ b.base ≤ o ∧ o < b.base + b.size) ∧
      loopWindowResult.Validate = false := by
  have h : Analyze 6 loopWindow = some loopWindowResult := by decide
  refine ⟨h, ?_, ?_, by decide⟩
  · intro fuel fn hfn
    exact AnalyzeWith_fuel_unique sortBlocks loopWindow fuel 6 fn _ hfn h
  · exact ⟨⟨4, 8, NPOS⟩, by decide, ⟨8, 4, NPOS⟩, by decide, by decide, 8, by decide⟩

/-- C5, counterexample: on the window `48 00 00 08 4E 80 00 20 4E 80 00 20` at base
`0x02000000` the analysis returns a function of size 4 with the single block `(0,4)`, and
for no fuel a function of size 12. -/
theorem C5_forward_branch_counterexample :
    Analyze 3 forwardBranchWindow = some ⟨0x02000000, 4, [⟨0, 4, NPOS⟩]⟩ ∧
      ¬ ∃ fuel fn, Analyze fuel forwardBranchWindow = some fn ∧ fn.size = 12 := by
  have h : Analyze 3 forwardBranchWindow = some ⟨0x02000000, 4, [⟨0, 4, NPOS⟩]⟩ := by decide
  refine ⟨h, ?_⟩
  rintro ⟨fuel, fn, hfn, hsz⟩
  have := AnalyzeWith_fuel_unique sortBlocks forwardBranchWindow fuel 3 fn _ hfn h
  subst this
  simp at hsz

/-- C5, amended: for the 12-byte window `48 00 00 08 4E 80 00 20 4E 80 00 20` at base
`0x02000000`, wherever it lies in host memory and whatever `std::sort` does with equal
keys, the analysis with fuel of at least 3 returns a function of size 4 whose blocks are
exactly `(0,4)`: the block `(8,4)` reached through the branch is cut off by the fixup pass
because of the gap between offsets 4 and 8. -/
theorem C5_forward_branch_amended (srt : List Function.Block → List Function.Block)
    (hsrt : SortsByBase srt) (w : Window) (fuel : Nat) (hfit : w.code + w.size < U64)
    (hsize : w.size = 12) (hbase : w.base = 0x02000000)
    (hbytes : ∀ i, i < 12 → w.mem (w.code + i) =
      [0x48, 0x00, 0x00, 0x08, 0x4E, 0x80, 0x00, 0x20, 0x4E, 0x80, 0x00, 0x20].getD i 0)
    (hfuel : 3 ≤ fuel) :
    AnalyzeWith srt fuel w = some ⟨0x02000000, 4, [⟨0, 4, NPOS⟩]⟩ := by
  apply AnalyzeWith_fuel_mono srt w 3 fuel _ hfuel
  have h0 : w.insnAt 0 = 0x48000008 := by
    rw [insnAt_of_bytes w 0 0x48 0x00 0x00 0x08 (by omega) (hbytes 0 (by omega))
      (hbytes 1 (by omega)) (hbytes 2 (by omega)) (hbytes 3 (by omega))]
    decide
  have h4 : w.insnAt 4 = 0x4E800020 := by
    rw [insnAt_of_bytes w 4 0x4E 0x80 0x00 0x20 (by omega) (hbytes 4 (by omega))
      (hbytes 5 (by omega)) (hbytes 6 (by omega)) (hbytes 7 (by omega))]
    decide
  have h8 : w.insnAt 8 = 0x4E800020 := by
    rw [insnAt_of_bytes w 8 0x4E 0x80 0x00 0x20 (by omega) (hbytes 8 (by omega))
      (hbytes 9 (by omega)) (hbytes 10 (by omega)) (hbytes 11 (by omega))]
    decide
  have hfast : w.isTailCallThunk = false := by simp [Window.isTailCallThunk, h4]
  have hr0 : w.inRange initialState.data = true := inRange_of_le w 0 hfit (Nat.zero_le _)
  have hr8 : w.inRange 8 = true := inRange_of_le w 8 hfit (by omega)
  have hb1 : loopBody w initialState = some ⟨[⟨0, 4, NPOS⟩, ⟨8, 0, NPOS⟩], [1], 4⟩ := by
    rw [loopBody_congr w forwardBranchWindow initialState (by rw [hbase]; rfl)
      (by show w.insnAt 0 = _; rw [h0]; decide)]
    decide
  have hb2 := loopBody_blr w [⟨0, 4, NPOS⟩, ⟨8, 0, NPOS⟩] 1 [] 8 ⟨8, 0, NPOS⟩
    (by rfl) (by decide) h8
  have hloop : analyzeLoop w 3 initialState =
      some ⟨[⟨0, 4, NPOS⟩, ⟨8, 4, NPOS⟩], [], 12⟩ := by
    rw [analyzeLoop_step w 2 _ _ ⟨[⟨0, 4, NPOS⟩, ⟨8, 0, NPOS⟩], [1], 8⟩ hr0 hb1 (by decide)]
    rw [analyzeLoop_step w 1 _ _ ⟨[⟨0, 4, NPOS⟩, ⟨8, 4, NPOS⟩], [], 12⟩ hr8 hb2 (by decide)]
    exact analyzeLoop_empty_stack w 0 _ _
  have hpost : sortAndInvalidate srt [⟨0, 4, NPOS⟩, ⟨8, 4, NPOS⟩] = [⟨0, 4, NPOS⟩] := by
    rw [sortAndInvalidate_of_strictly_sorted srt hsrt _ (by decide)]
    decide
  have hsz : functionSize [⟨0, 4, NPOS⟩] = 4 := by decide
  simp [AnalyzeWith, hfast, hloop, hpost, hsz, hbase]

/-- C5, amended, at the window stored at host address `0x1000`. -/
theorem C5_forward_branch_amended_witness :
    AnalyzeWith sortBlocks 3 forwardBranchWindow = some ⟨0x02000000, 4, [⟨0, 4, NPOS⟩]⟩ :=
  C5_forward_branch_amended sortBlocks sortBlocks_spec forwardBranchWindow 3 (by decide)
    (by decide) (by decide) (by decide) (by decide)

/-- C6, failing input: on the thunk `48 00 00 00 04 00 00 48` the fast path returns, for
every fuel, a function of size 8 with an empty block vector, which `Function::IsValid`
rejects. -/
theorem C6_thunk_returns_no_block :
    thunkWindow.isTailCallThunk = true ∧
      (∀ fuel, Analyze fuel thunkWindow = some ⟨0x02000000, 8, []⟩) ∧
      Function.IsValid ⟨0x02000000, 8, []⟩ = false := by
  refine ⟨by decide, ?_, by decide⟩
  intro fuel
  exact AnalyzeWith_fuel_mono sortBlocks thunkWindow 0 fuel _ (Nat.zero_le _) (by decide)

/-- C8: when the fast path is not taken and the first word of the window is all zero,
the first block ends on that word and no successor is created: with any fuel of at least
2 the result is the single block `(0, 4)` and function size 4. -/
theorem C8_zero_word_terminates (srt : List Function.Block → List Function.Block)
    (w : Window) (fuel : Nat) (hfit : w.code + w.size < U64)
    (hfast : w.isTailCallThunk = false) (hzero : w.insnAt 0 = 0) (hfuel : 2 ≤ fuel) :
    AnalyzeWith srt fuel w = some ⟨w.base, 4, [⟨0, 4, NPOS⟩]⟩ := by
  apply AnalyzeWith_fuel_mono srt w 2 fuel _ hfuel
  have hr : w.inRange initialState.data = true := inRange_of_le w 0 hfit (Nat.zero_le _)
  have hb : loopBody w initialState = some ⟨[⟨0, 4, NPOS⟩], [], 0⟩ := by
    simp [loopBody, initialState, hzero, PPC_OP, PPC_BL, PPC_OP_BC, PPC_OP_B, PPC_OP_CTR,
      restoreData, default, NPOS, U64]
  have hloop : analyzeLoop w 2 initialState = some ⟨[⟨0, 4, NPOS⟩], [], 4⟩ := by
    rw [analyzeLoop_succ_cont w 1 _ _ hr hb]
    exact analyzeLoop_empty_stack w 0 _ _
  simp [AnalyzeWith, hfast, hloop, sortAndInvalidate, functionSize, U64]

/-- C9: when the fast path is not taken and the first word is a direct branch (primary
opcode 18) without link whose target address `base + LI`, as the code computes it, is
below `base`, the branch is treated as a tail call: no block is created for the target,
and with any fuel of at least 2 the result is the single block `(0, 4)` and function
size 4. -/
theorem C9_branch_below_base_is_tail_call (srt : List Function.Block → List Function.Block)
    (w : Window) (fuel : Nat) (hfit : w.code + w.size < U64) (hbase : w.base < U64)
    (hfast : w.isTailCallThunk = false)
    (hop : PPC_OP (w.insnAt 0) = PPC_OP_B) (hlk : PPC_BL (w.insnAt 0) = 0)
    (hdest : (w.base + toSizeT (PPC_BI (w.insnAt 0))) % U64 < w.base) (hfuel : 2 ≤ fuel) :
    AnalyzeWith srt fuel w = some ⟨w.base, 4, [⟨0, 4, NPOS⟩]⟩ := by
  apply AnalyzeWith_fuel_mono srt w 2 fuel _ hfuel
  have hr : w.inRange initialState.data = true := inRange_of_le w 0 hfit (Nat.zero_le _)
  have hm : w.base % U64 = w.base := Nat.mod_eq_of_lt hbase
  have hb : loopBody w initialState = some ⟨[⟨0, 4, NPOS⟩], [], 0⟩ := by
    simp [loopBody, initialState, hop, hlk, hm, hdest, PPC_OP_BC, PPC_OP_B, restoreData,
      default, NPOS]
    simp [U64]
  have hloop : analyzeLoop w 2 initialState = some ⟨[⟨0, 4, NPOS⟩], [], 4⟩ := by
    rw [analyzeLoop_succ_cont w 1 _ _ hr hb]
    exact analyzeLoop_empty_stack w 0 _ _
  simp [AnalyzeWith, hfast, hloop, sortAndInvalidate, functionSize, U64]

/-- C8 at the window holding one all-zero word. -/
theorem C8_zero_word_terminates_witness :
    AnalyzeWith sortBlocks 2 zeroWordWindow =
      some ⟨zeroWordWindow.base, 4, [⟨0, 4, NPOS⟩]⟩ :=
  C8_zero_word_terminates sortBlocks zeroWordWindow 2 (by decide) (by decide) (by decide)
    (by decide)

/-- C9 at the window `b -8; blr` with base `0x02000000`: the target `0x01FFFFF8` is below
the base. -/
theorem C9_branch_below_base_is_tail_call_witness :
    AnalyzeWith sortBlocks 2 tailCallWindow =
      some ⟨tailCallWindow.base, 4, [⟨0, 4, NPOS⟩]⟩ :=
  C9_branch_below_base_is_tail_call sortBlocks tailCallWindow 2 (by decide) (by decide)
    (by decide) (by decide) (by decide) (by decide) (by decide)

/-! ## Theorems: RPX header validation and parse failures -/

/-- The 16-bit value assembled from two bytes is 20 exactly for the bytes `00 14`. -/
theorem machine_eq_twenty (b18 b19 : Nat) (h18 : b18 < 256) (h19 : b19 < 256)
    (h : ((b18 <<< 8) ||| b19) % 65536 = 20) : b18 = 0 ∧ b19 = 20 := by
  have hor : (b18 <<< 8) ||| b19 = 2 ^ 8 * b18 + b19 := by
    rw [Nat.shiftLeft_eq, Nat.mul_comm]
    exact (Nat.mul_add_lt_is_or (by norm_num; exact h19) b18).symm
  rw [hor] at h
  omega

/-- A byte read is below 256. -/
theorem byteAt_lt (mem : List Nat) (i : Nat) : byteAt mem i < 256 := by
  unfold byteAt
  omega

/-- C11, counterexample: the 16-byte buffer `7F 45 4C 46 01 02 01 00 ...` is accepted
although it has no `e_machine` field (it ends at offset 16), and the two bytes that
follow it in memory at offsets 18 and 19 are not `00 14` either. -/
theorem C11_ValidateRPXHeader_counterexample :
    ValidateRPXHeader identOnlyBuffer = true ∧ identOnlyBuffer.size = 16 ∧
      ¬ (byteAt identOnlyBuffer.mem 18 = 0 ∧ byteAt identOnlyBuffer.mem 19 = 20) := by
  decide

/-- C11, amended: `ValidateRPXHeader` accepts a buffer only if it has at least 16 bytes,
bytes 0..3 are `7F 45 4C 46`, byte 4 is 1, byte 5 is 2 and, when the buffer has at least
20 bytes, the big-endian `e_machine` field at offset 18 is 20 (bytes `00 14`). -/
theorem C11_ValidateRPXHeader_amended (buf : HostBuffer) (h : ValidateRPXHeader buf = true) :
    16 ≤ buf.size ∧
      byteAt buf.mem 0 = 0x7F ∧ byteAt buf.mem 1 = 0x45 ∧ byteAt buf.mem 2 = 0x4C ∧
      byteAt buf.mem 3 = 0x46 ∧ byteAt buf.mem 4 = 1 ∧ byteAt buf.mem 5 = 2 ∧
      (20 ≤ buf.size → byteAt buf.mem 18 = 0 ∧ byteAt buf.mem 19 = 20) := by
  unfold ValidateRPXHeader at h
  by_cases h1 : buf.size < 16
  · simp [h1] at h
  by_cases h2 : byteAt buf.mem 0 ≠ 0x7F ∨ byteAt buf.mem 1 ≠ 0x45 ∨ byteAt buf.mem 2 ≠ 0x4C ∨
      byteAt buf.mem 3 ≠ 0x46
  · simp only [h1, h2, if_true, if_false] at h
    exact absurd h (by decide)
  by_cases h3 : byteAt buf.mem 4 ≠ 1 ∨ byteAt buf.mem 5 ≠ 2
  · simp only [h1, h2, h3, if_true, if_false] at h
    exact absurd h (by decide)
  have hm : 20 ≤ buf.size → byteAt buf.mem 18 = 0 ∧ byteAt buf.mem 19 = 20 := by
    intro h20
    have h4 : buf.size ≥ 18 := by omega
    simp only [h1, h2, h3, h4, if_true, if_false] at h
    by_cases h5 : ((byteAt buf.mem 18 <<< 8) ||| byteAt buf.mem 19) % 65536 = 20
    · exact machine_eq_twenty _ _ (byteAt_lt _ _) (byteAt_lt _ _) h5
    · simp [h5] at h
  refine ⟨by omega, ?_, ?_, ?_, ?_, ?_, ?_, hm⟩
  · by_contra hc; exact h2 (Or.inl hc)
  · by_contra hc; exact h2 (Or.inr (Or.inl hc))
  · by_contra hc; exact h2 (Or.inr (Or.inr (Or.inl hc)))
  · by_contra hc; exact h2 (Or.inr (Or.inr (Or.inr hc)))
  · by_contra hc; exact h3 (Or.inl hc)
  · by_contra hc; exact h3 (Or.inr hc)

/-- C11, amended, at the 20-byte buffer with `e_machine = 20`. -/
theorem C11_ValidateRPXHeader_amended_witness :
    16 ≤ shortHeaderBuffer.size ∧
      byteAt shortHeaderBuffer.mem 0 = 0x7F ∧ byteAt shortHeaderBuffer.mem 1 = 0x45 ∧
      byteAt shortHeaderBuffer.mem 2 = 0x4C ∧ byteAt shortHeaderBuffer.mem 3 = 0x46 ∧
      byteAt shortHeaderBuffer.mem 4 = 1 ∧ byteAt shortHeaderBuffer.mem 5 = 2 ∧
      (20 ≤ shortHeaderBuffer.size →
        byteAt shortHeaderBuffer.mem 18 = 0 ∧ byteAt shortHeaderBuffer.mem 19 = 20) :=
  C11_ValidateRPXHeader_amended shortHeaderBuffer (by decide)

/-! ## Theorems: the stages of ParseImage -/

/-- The bookkeeping of the section loop changes only the text and data bounds. -/
theorem trackSection_fields (image : RPXImage) (sec : Section) :
    (trackSection image sec).data = image.data ∧
      (trackSection image sec).sections = image.sections ∧
      (trackSection image sec).section_headers = image.section_headers ∧
      (trackSection image sec).string_table = image.string_table := by
  unfold trackSection
  split_ifs <;> exact ⟨rfl, rfl, rfl, rfl⟩

/-- The bookkeeping of the whole section loop changes only the text and data bounds. -/
theorem foldl_trackSection_fields (secs : List Section) (image : RPXImage) :
    (secs.foldl trackSection image).data = image.data ∧
      (secs.foldl trackSection image).sections = image.sections ∧
      (secs.foldl trackSection image).section_headers = image.section_headers ∧
      (secs.foldl trackSection image).string_table = image.string_table := by
  induction secs generalizing image with
  | nil => exact ⟨rfl, rfl, rfl, rfl⟩
  | cons sec rest ih =>
    obtain ⟨h1, h2, h3, h4⟩ := ih (trackSection image sec)
    obtain ⟨g1, g2, g3, g4⟩ := trackSection_fields image sec
    simp only [List.foldl_cons]
    exact ⟨h1.trans g1, h2.trans g2, h3.trans g3, h4.trans g4⟩

/-- The header stages leave `data` and `sections` alone. -/
theorem ParseElfHeader_fields (image : RPXImage) (buf : HostBuffer) :
    (image.ParseElfHeader buf).2.data = image.data ∧
      (image.ParseElfHeader buf).2.sections = image.sections := by
  unfold RPXImage.ParseElfHeader
  split_ifs <;> exact ⟨rfl, rfl⟩

/-- The section header stage leaves `data` and `sections` alone. -/
theorem ParseSectionHeaders_fields (image : RPXImage) (buf : HostBuffer) :
    (image.ParseSectionHeaders buf).2.data = image.data ∧
      (image.ParseSectionHeaders buf).2.sections = image.sections := by
  unfold RPXImage.ParseSectionHeaders
  split_ifs <;> exact ⟨rfl, rfl⟩

/-- The section header stage succeeds only with a non-empty header table. -/
theorem ParseSectionHeaders_nonempty (image : RPXImage) (buf : HostBuffer)
    (h : (image.ParseSectionHeaders buf).1 = true) :
    (image.ParseSectionHeaders buf).2.section_headers ≠ [] := by
  unfold RPXImage.ParseSectionHeaders at h ⊢
  split_ifs at h ⊢ with h1 h2
  simp only [not_or] at h1
  obtain ⟨k, hk⟩ := Nat.exists_eq_succ_of_ne_zero h1.2
  simp [hk, List.range_succ_eq_map]

/-- The program header stage leaves `data`, `sections` and the section headers alone. -/
theorem ParseProgramHeaders_fields (image : RPXImage) (buf : HostBuffer) :
    (image.ParseProgramHeaders buf).2.data = image.data ∧
      (image.ParseProgramHeaders buf).2.sections = image.sections ∧
      (image.ParseProgramHeaders buf).2.section_headers = image.section_headers := by
  unfold RPXImage.ParseProgramHeaders
  split_ifs <;> exact ⟨rfl, rfl, rfl⟩

/-- Section parsing: it fails only on an empty header table, leaving the image as it is;
otherwise it succeeds and the sections are made from the headers in order. -/
theorem ParseSections_spec (env : LoaderEnv) (image : RPXImage) (buf : HostBuffer)
    (ok : Bool) (image1 : RPXImage) (h : image.ParseSections env buf = some (ok, image1)) :
    image1.data = image.data ∧ image1.section_headers = image.section_headers ∧
      ((ok = false ∧ image.section_headers = [] ∧ image1 = image) ∨
        (ok = true ∧ image.section_headers ≠ [] ∧
          image1.sections =
            makeSections env image1.string_table buf 0 image.section_headers)) := by
  unfold RPXImage.ParseSections at h
  by_cases he : image.section_headers.isEmpty = true
  · simp only [he, if_true, Option.some.injEq, Prod.mk.injEq] at h
    obtain ⟨h1, h2⟩ := h
    subst h1
    subst h2
    exact ⟨rfl, rfl, Or.inl ⟨rfl, by simpa using he, rfl⟩⟩
  · simp only [he, Bool.false_eq_true, if_false] at h
    split at h
    · simp at h
    · rename_i string_table _
      simp only [Option.some.injEq, Prod.mk.injEq] at h
      obtain ⟨h1, h2⟩ := h
      subst h1
      subst h2
      obtain ⟨g1, g2, g3, g4⟩ := foldl_trackSection_fields
        (makeSections env string_table buf 0 image.section_headers)
        { image with string_table := string_table,
                     sections := makeSections env string_table buf 0 image.section_headers }
      refine ⟨g1, g3, Or.inr ⟨rfl, by simpa using he, ?_⟩⟩
      show (List.foldl trackSection _ _).sections =
        makeSections env (List.foldl trackSection _ _).string_table buf 0 image.section_headers
      rw [g2, g4]

/-- Symbol loading leaves `data`, the sections and the section headers alone. -/
theorem LoadSymbols_fields (env : LoaderEnv) (image image1 : RPXImage) (ok : Bool)
    (h : image.LoadSymbols env = some (ok, image1)) :
    image1.data = image.data ∧ image1.sections = image.sections ∧
      image1.section_headers = image.section_headers ∧
      image1.string_table = image.string_table := by
  unfold RPXImage.LoadSymbols at h
  split at h
  · split at h
    · simp only at h
      split at h
      · simp at h
      · simp only [Option.some.injEq, Prod.mk.injEq] at h
        obtain ⟨_, h2⟩ := h
        subst h2
        exact ⟨rfl, rfl, rfl, rfl⟩
    · simp only [Option.some.injEq, Prod.mk.injEq] at h
      obtain ⟨_, h2⟩ := h
      subst h2
      exact ⟨rfl, rfl, rfl, rfl⟩
  · simp only [Option.some.injEq, Prod.mk.injEq] at h
    obtain ⟨_, h2⟩ := h
    subst h2
    exact ⟨rfl, rfl, rfl, rfl⟩

/-- The shape of every result of `RPXImage::ParseImage`: either header validation failed
and the image is the default one; or the buffer was copied into `data` and a later header
stage failed, leaving no sections; or every stage succeeded and the sections are made
from the non-empty section header table in order.  Section parsing itself never fails. -/
theorem ParseImageStaged_spec (env : LoaderEnv) (buf : HostBuffer) (stage : Option ParseStage)
    (image : RPXImage) (h : RPXImage.ParseImageStaged env buf = some (stage, image)) :
    (stage = some .header ∧ ValidateRPXHeader buf = false ∧ image.data = [] ∧
        image.sections = []) ∨
      (ValidateRPXHeader buf = true ∧ image.data = buf.mem.take buf.size ∧
        (((stage = some .elfHeader ∨ stage = some .sectionHeaders ∨
              stage = some .programHeaders) ∧ image.sections = []) ∨
          (stage = none ∧ image.section_headers ≠ [] ∧
            image.sections =
              makeSections env image.string_table buf 0 image.section_headers))) := by
  unfold RPXImage.ParseImageStaged at h
  by_cases hv : ValidateRPXHeader buf = false
  · simp only [hv, if_true, Option.some.injEq, Prod.mk.injEq] at h
    obtain ⟨h1, h2⟩ := h
    subst h1
    subst h2
    exact Or.inl ⟨rfl, hv, rfl, rfl⟩
  · have hv2 : ValidateRPXHeader buf = true := by simpa using hv
    right
    refine ⟨hv2, ?_⟩
    simp only [hv2, Bool.true_eq_false, if_false] at h
    generalize himg0 : ({ data := buf.mem.take buf.size, size := buf.size % U32 } : RPXImage)
      = image0 at h
    have hd0 : image0.data = buf.mem.take buf.size := by rw [← himg0]
    have hs0 : image0.sections = [] := by rw [← himg0]
    obtain ⟨e1, e2⟩ := ParseElfHeader_fields image0 buf
    by_cases h1 : (image0.ParseElfHeader buf).1 = false
    · simp only [h1, if_true, Option.some.injEq, Prod.mk.injEq] at h
      obtain ⟨g1, g2⟩ := h
      subst g1
      subst g2
      exact ⟨e1.trans hd0, Or.inl ⟨Or.inl rfl, e2.trans hs0⟩⟩
    simp only [h1, Bool.true_eq_false, if_false] at h
    generalize (image0.ParseElfHeader buf).2 = image1 at h e1 e2
    obtain ⟨f1, f2⟩ := ParseSectionHeaders_fields image1 buf
    have hne := ParseSectionHeaders_nonempty image1 buf
    by_cases h2 : (image1.ParseSectionHeaders buf).1 = false
    · simp only [h2, if_true, Option.some.injEq, Prod.mk.injEq] at h
      obtain ⟨g1, g2⟩ := h
      subst g1
      subst g2
      exact ⟨(f1.trans e1).trans hd0, Or.inl ⟨Or.inr (Or.inl rfl), (f2.trans e2).trans hs0⟩⟩
    simp only [h2, Bool.true_eq_false, if_false] at h
    have hne2 := hne (by simpa using h2)
    generalize (image1.ParseSectionHeaders buf).2 = image2 at h f1 f2 hne2
    obtain ⟨p1, p2, p3⟩ := ParseProgramHeaders_fields image2 buf
    by_cases h3 : (image2.ParseProgramHeaders buf).1 = false
    · simp only [h3, if_true, Option.some.injEq, Prod.mk.injEq] at h
      obtain ⟨g1, g2⟩ := h
      subst g1
      subst g2
      exact ⟨((p1.trans f1).trans e1).trans hd0,
        Or.inl ⟨Or.inr (Or.inr rfl), ((p2.trans f2).trans e2).trans hs0⟩⟩
    simp only [h3, Bool.true_eq_false, if_false] at h
    generalize (image2.ParseProgramHeaders buf).2 = image3 at h p1 p2 p3
    cases hps : image3.ParseSections env buf with
    | none => simp [hps] at h
    | some r =>
      obtain ⟨ok, image4⟩ := r
      simp only [hps] at h
      obtain ⟨s1, s2, s3⟩ := ParseSections_spec env image3 buf ok image4 hps
      rcases s3 with ⟨_, hempty, _⟩ | ⟨hok, _, hsec⟩
      · rw [p3] at hempty
        exact absurd hempty hne2
      · subst hok
        simp only [Bool.true_eq_false, if_false] at h
        cases hls : image4.LoadSymbols env with
        | none => simp [hls] at h
        | some r2 =>
          obtain ⟨ok2, image5⟩ := r2
          simp only [hls, Option.some.injEq, Prod.mk.injEq] at h
          obtain ⟨g1, g2⟩ := h
          subst g1
          subst g2
          obtain ⟨l1, l2, l3, l4⟩ := LoadSymbols_fields env image4 image5 ok2 hls
          refine ⟨(((l1.trans s1).trans p1).trans f1 |>.trans e1).trans hd0, Or.inr ⟨rfl, ?_, ?_⟩⟩
          · rw [l3, s2, p3]
            exact hne2
          · rw [l2, l4, l3, s2]
            exact hsec

/-- C12: whenever a stage of `RPXImage::ParseImage` fails, the returned image has no
sections.  The stages fail as follows: header validation; the ELF header stage on buffers
shorter than 52 bytes; the section header stage when `e_shoff` or `e_shnum` is zero or the
table extends past the end of the buffer; the program header stage when a present table
extends past the end of the buffer; section parsing never fails once the section header
stage has succeeded.  In each case an image is returned. -/
theorem C12_failed_parse_has_no_sections (env : LoaderEnv) (buf : HostBuffer) :
    (∀ stage image, RPXImage.ParseImageStaged env buf = some (some stage, image) →
      RPXImage.ParseImage env buf = some image ∧ image.sections = [] ∧
        stage ≠ ParseStage.sections) ∧
    (ValidateRPXHeader buf = false →
      ∃ image, RPXImage.ParseImageStaged env buf = some (some .header, image)) ∧
    (ValidateRPXHeader buf = true → buf.size < 52 →
      ∃ image, RPXImage.ParseImageStaged env buf = some (some .elfHeader, image)) ∧
    (ValidateRPXHeader buf = true → 52 ≤ buf.size →
      ((readElfHeader buf.mem 0).e_shoff = 0 ∨ (readElfHeader buf.mem 0).e_shnum = 0 ∨
        (readElfHeader buf.mem 0).e_shoff + (readElfHeader buf.mem 0).e_shnum * 40 >
          buf.size) →
      ∃ image, RPXImage.ParseImageStaged env buf = some (some .sectionHeaders, image)) ∧
    (ValidateRPXHeader buf = true → 52 ≤ buf.size →
      ¬ ((readElfHeader buf.mem 0).e_shoff = 0 ∨ (readElfHeader buf.mem 0).e_shnum = 0 ∨
        (readElfHeader buf.mem 0).e_shoff + (readElfHeader buf.mem 0).e_shnum * 40 >
          buf.size) →
      ((readElfHeader buf.mem 0).e_phoff ≠ 0 ∧ (readElfHeader buf.mem 0).e_phnum ≠ 0 ∧
        (readElfHeader buf.mem 0).e_phoff + (readElfHeader buf.mem 0).e_phnum * 32 >
          buf.size) →
      ∃ image, RPXImage.ParseImageStaged env buf = some (some .programHeaders, image)) := by
  refine ⟨?_, ?_, ?_, ?_, ?_⟩
  · intro stage image h
    have hp : RPXImage.ParseImage env buf = some image := by
      simp [RPXImage.ParseImage, h]
    rcases ParseImageStaged_spec env buf (some stage) image h with
      ⟨hst, _, _, hs⟩ | ⟨_, _, ⟨hst, hs⟩ | ⟨hst, _⟩⟩
    · refine ⟨hp, hs, ?_⟩
      intro hc
      rw [hc] at hst
      exact absurd hst (by decide)
    · refine ⟨hp, hs, ?_⟩
      intro hc
      rw [hc] at hst
      rcases hst with h1 | h1 | h1 <;> exact absurd h1 (by decide)
    · exact absurd hst (by simp)
  · intro hv
    simp [RPXImage.ParseImageStaged, hv]
  · intro hv hlt
    have hlt2 : buf.size < sizeofElfHeader := hlt
    simp [RPXImage.ParseImageStaged, hv, RPXImage.ParseElfHeader, hlt2]
  · intro hv hge hsh
    have hge2 : ¬ buf.size < sizeofElfHeader := by unfold sizeofElfHeader; omega
    by_cases h0 : (readElfHeader buf.mem 0).e_shoff = 0 ∨ (readElfHeader buf.mem 0).e_shnum = 0
    · simp [RPXImage.ParseImageStaged, hv, RPXImage.ParseElfHeader, hge2,
        RPXImage.ParseSectionHeaders, h0]
    · have h1 : (readElfHeader buf.mem 0).e_shoff +
          (readElfHeader buf.mem 0).e_shnum * sizeofSectionHeader > buf.size := by
        rcases hsh with h | h | h
        · exact absurd (Or.inl h) h0
        · exact absurd (Or.inr h) h0
        · exact h
      simp [RPXImage.ParseImageStaged, hv, RPXImage.ParseElfHeader, hge2,
        RPXImage.ParseSectionHeaders, h0, h1]
  · intro hv hge hsh hph
    have hge2 : ¬ buf.size < sizeofElfHeader := by unfold sizeofElfHeader; omega
    have h0 : ¬ ((readElfHeader buf.mem 0).e_shoff = 0 ∨ (readElfHeader buf.mem 0).e_shnum = 0) :=
      fun h => hsh (h.elim Or.inl (fun h => Or.inr (Or.inl h)))
    have h1 : ¬ (readElfHeader buf.mem 0).e_shoff +
        (readElfHeader buf.mem 0).e_shnum * sizeofSectionHeader > buf.size :=
      fun h => hsh (Or.inr (Or.inr h))
    have h2 : ¬ ((readElfHeader buf.mem 0).e_phoff = 0 ∨ (readElfHeader buf.mem 0).e_phnum = 0) :=
      fun h => h.elim hph.1 hph.2.1
    have h3 : (readElfHeader buf.mem 0).e_phoff +
        (readElfHeader buf.mem 0).e_phnum * sizeofProgramHeader > buf.size := hph.2.2
    simp [RPXImage.ParseImageStaged, hv, RPXImage.ParseElfHeader, hge2,
      RPXImage.ParseSectionHeaders, h0, h1, RPXImage.ParseProgramHeaders, h2, h3]

/-- C12, at the 20-byte buffer with valid identification bytes: the ELF header stage
fails and the returned image has no sections. -/
theorem C12_failed_parse_has_no_sections_witness :
    ∃ image, RPXImage.ParseImageStaged failingZlibEnv shortHeaderBuffer =
        some (some .elfHeader, image) ∧
      RPXImage.ParseImage failingZlibEnv shortHeaderBuffer = some image ∧
      image.sections = [] ∧ ParseStage.elfHeader ≠ ParseStage.sections :=
  ⟨((RPXImage.ParseImageStaged failingZlibEnv shortHeaderBuffer).getD (none, {})).2, rfl,
    (C12_failed_parse_has_no_sections failingZlibEnv shortHeaderBuffer).1 .elfHeader _ rfl⟩

/-- Once header validation has passed, the returned image holds the copied buffer, which
is not empty, whatever happens in the later stages. -/
theorem ParseImageStaged_data_nonempty (env : LoaderEnv) (buf : HostBuffer)
    (stage : Option ParseStage) (image : RPXImage)
    (h : RPXImage.ParseImageStaged env buf = some (stage, image))
    (hv : ValidateRPXHeader buf = true) : image.data.isEmpty = false := by
  rcases ParseImageStaged_spec env buf stage image h with ⟨_, hf, _, _⟩ | ⟨_, hd, _⟩
  · rw [hv] at hf
    exact absurd hf (by decide)
  · have h16 : ¬ buf.size < 16 := by
      intro hlt
      simp [ValidateRPXHeader, hlt] at hv
    have hm : buf.mem ≠ [] := by
      intro he
      simp [ValidateRPXHeader, he, byteAt] at hv
    rw [hd]
    cases hmem : buf.mem with
    | nil => exact absurd hmem hm
    | cons b rest =>
      obtain ⟨k, hk⟩ := Nat.exists_eq_succ_of_ne_zero (show buf.size ≠ 0 by omega)
      rw [hk]
      rfl

/-- C13 (code bug): on a 20-byte buffer with valid identification bytes (shorter than the
52-byte ELF header) and on a 52-byte buffer whose section header table extends past its
end, `RPXImage::ParseImage` fails in the ELF header stage and in the section header stage,
and the returned image has no sections; yet the failure test of the callers,
`image.data.empty()`, is false for it, because the buffer was copied into `data` before
these stages ran. -/
theorem C13_failed_parse_keeps_data (env : LoaderEnv) :
    (ValidateRPXHeader shortHeaderBuffer = true ∧ shortHeaderBuffer.size < 52 ∧
      ∃ image, RPXImage.ParseImage env shortHeaderBuffer = some image ∧
        RPXImage.ParseImageStaged env shortHeaderBuffer = some (some .elfHeader, image) ∧
        image.sections = [] ∧ image.data.isEmpty = false) ∧
    (ValidateRPXHeader truncatedTableBuffer = true ∧
      (readElfHeader truncatedTableBuffer.mem 0).e_shoff +
        (readElfHeader truncatedTableBuffer.mem 0).e_shnum * 40 > truncatedTableBuffer.size ∧
      ∃ image, RPXImage.ParseImage env truncatedTableBuffer = some image ∧
        RPXImage.ParseImageStaged env truncatedTableBuffer =
          some (some .sectionHeaders, image) ∧
        image.sections = [] ∧ image.data.isEmpty = false) := by
  refine ⟨⟨by decide, by decide, _, rfl, rfl, rfl, rfl⟩, ⟨by decide, by decide, _, rfl, rfl, rfl, rfl⟩⟩

/-! ## Theorems: sections -/

/-- The sections are made from the headers one by one, in order. -/
theorem makeSections_getElem? (env : LoaderEnv) (string_table : List String)
    (buf : HostBuffer) (headers : List RPX_SectionHeader) (i k : Nat) :
    (makeSections env string_table buf i headers)[k]? =
      (headers[k]?).map (makeSection env string_table buf (i + k)) := by
  induction headers generalizing i k with
  | nil => simp [makeSections]
  | cons header rest ih =>
    cases k with
    | zero => simp [makeSections]
    | succ k =>
      simp only [makeSections, List.getElem?_cons_succ]
      rw [ih (i + 1) k, show i + 1 + k = i + (k + 1) by omega]

/-- A section keeps the address and the size of its header. -/
theorem makeSection_range (env : LoaderEnv) (string_table : List String) (buf : HostBuffer)
    (i : Nat) (header : RPX_SectionHeader) :
    (makeSection env string_table buf i header).range = header.range := by
  unfold makeSection Section.range RPX_SectionHeader.range
  simp only
  split_ifs <;> rfl

/-- The ranges of the sections are those of the headers, in order. -/
theorem makeSections_range (env : LoaderEnv) (string_table : List String) (buf : HostBuffer)
    (headers : List RPX_SectionHeader) (i : Nat) :
    (makeSections env string_table buf i headers).map Section.range =
      headers.map RPX_SectionHeader.range := by
  induction headers generalizing i with
  | nil => rfl
  | cons header rest ih =>
    simp only [makeSections, List.map_cons, ih (i + 1), makeSection_range]

/-- A compressed section whose decompression fails is made with `sh_size` zero bytes. -/
theorem makeSection_zlib_failure (env : LoaderEnv) (string_table : List String)
    (buf : HostBuffer) (i : Nat) (header : RPX_SectionHeader)
    (hz : header.sh_flags &&& SHF_RPL_ZLIB ≠ 0) (ht : header.sh_type ≠ SHT_NOBITS)
    (hs : header.sh_size > 0) (ho : header.sh_offset < buf.size)
    (hfail : env.uncompress header.sh_size ((buf.mem.drop header.sh_offset).take
      (min ((buf.size - header.sh_offset) % U32) header.sh_size)) = none) :
    (makeSection env string_table buf i header).data =
      some (List.replicate header.sh_size 0) := by
  have hs0 : header.sh_size ≠ 0 := by omega
  unfold makeSection
  simp only [ht, hs, ho, hz, and_self, if_true, ne_eq, not_false_eq_true, if_false,
    DecompressSection, hfail, hs0]
  split_ifs <;> rfl

/-- C14 (counterexample): the only section header of the example image has the
`SHF_RPL_ZLIB` flag and a payload that zlib rejects, yet `RPXImage::ParseImage` reports
no failure: every stage succeeds and the image contains the section, its four bytes
replaced by zeros. -/
theorem C14_decompression_failure_counterexample :
    (readSectionHeader zlibSectionBuffer.mem 52).sh_flags &&& SHF_RPL_ZLIB ≠ 0 ∧
      failingZlibEnv.uncompress 4 [0, 0, 0, 0] = none ∧
      ∃ image, RPXImage.ParseImageStaged failingZlibEnv zlibSectionBuffer =
          some (none, image) ∧
        image.section_headers = [readSectionHeader zlibSectionBuffer.mem 52] ∧
        image.sections =
          [{ base := 0x02000000, size := 4, flags := 0x08000002,
             data := some [0, 0, 0, 0], name := "" }] := by
  exact ⟨by decide, rfl,
    ((RPXImage.ParseImageStaged failingZlibEnv zlibSectionBuffer).getD (none, {})).2, rfl,
    by decide, by decide⟩

/-- C14 (amended): when every header stage has passed, a section header with the
`SHF_RPL_ZLIB` flag, a type other than NOBITS, a non-zero size and an offset inside the
buffer, whose payload fails to decompress, yields a section of the image all the same:
it has the address and the size of the header and `sh_size` zero bytes as its contents. -/
theorem C14_decompression_failure_amended (env : LoaderEnv) (buf : HostBuffer)
    (image : RPXImage) (k : Nat) (header : RPX_SectionHeader)
    (h : RPXImage.ParseImageStaged env buf = some (none, image))
    (hk : image.section_headers[k]? = some header)
    (hz : header.sh_flags &&& SHF_RPL_ZLIB ≠ 0) (ht : header.sh_type ≠ SHT_NOBITS)
    (hs : header.sh_size > 0) (ho : header.sh_offset < buf.size)
    (hfail : env.uncompress header.sh_size ((buf.mem.drop header.sh_offset).take
      (min ((buf.size - header.sh_offset) % U32) header.sh_size)) = none) :
    ∃ sec, image.sections[k]? = some sec ∧ sec.base = header.sh_addr ∧
      sec.size = header.sh_size ∧ sec.data = some (List.replicate header.sh_size 0) := by
  rcases ParseImageStaged_spec env buf none image h with ⟨hst, _⟩ | ⟨_, _, ⟨hst, _⟩ | ⟨_, _, hsec⟩⟩
  · exact absurd hst (by simp)
  · rcases hst with h1 | h1 | h1 <;> exact absurd h1 (by simp)
  · refine ⟨makeSection env image.string_table buf k header, ?_, ?_, ?_, ?_⟩
    · rw [hsec, makeSections_getElem?, hk]
      simp
    · exact congrArg Prod.fst (makeSection_range env image.string_table buf k header)
    · exact congrArg Prod.snd (makeSection_range env image.string_table buf k header)
    · exact makeSection_zlib_failure env image.string_table buf k header hz ht hs ho hfail

/-- C14 (amended), witness: the example image with the rejected payload. -/
theorem C14_decompression_failure_amended_witness :
    ∃ image, RPXImage.ParseImageStaged failingZlibEnv zlibSectionBuffer = some (none, image) ∧
      ∃ sec, image.sections[0]? = some sec ∧ sec.base = 0x02000000 ∧ sec.size = 4 ∧
        sec.data = some (List.replicate 4 0) :=
  ⟨((RPXImage.ParseImageStaged failingZlibEnv zlibSectionBuffer).getD (none, {})).2, rfl,
    C14_decompression_failure_amended failingZlibEnv zlibSectionBuffer _ 0
    (readSectionHeader zlibSectionBuffer.mem 52) rfl (by decide) (by decide) (by decide)
    (by decide) (by decide) rfl⟩

/-- The loop of `RPXImage::Find(uint32_t)`: a returned pointer is into the first section
that passes the test of the loop, at the offset of the address from its base; null is
returned exactly when no section passes the test. -/
theorem findAddressFrom_spec (address : Nat) (secs : List Section) (i : Nat) :
    (∀ j off, findAddressFrom address secs i = some (j, off) →
      ∃ k sec, secs[k]? = some sec ∧ j = i + k ∧ sec.Holds address ∧
        off = address - sec.base ∧
        ∀ k', k' < k → ∀ sec', secs[k']? = some sec' → ¬ sec'.Holds address) ∧
    (findAddressFrom address secs i = none ↔ ∀ sec ∈ secs, ¬ sec.Holds address) := by
  induction secs generalizing i with
  | nil => simp [findAddressFrom]
  | cons sec rest ih =>
    obtain ⟨ih1, ih2⟩ := ih (i + 1)
    by_cases hh : sec.Holds address
    · have hr : address ≥ sec.base ∧ address < (sec.base + sec.size) % U32 := ⟨hh.1, hh.2.1⟩
      have hf : findAddressFrom address (sec :: rest) i = some (i, address - sec.base) := by
        simp only [findAddressFrom, hr, and_self, if_true, hh.2.2]
      constructor
      · intro j off hj
        rw [hf] at hj
        simp only [Option.some.injEq, Prod.mk.injEq] at hj
        refine ⟨0, sec, by simp, by omega, hh, hj.2.symm, ?_⟩
        intro k' hk'
        omega
      · rw [hf]
        simp only [reduceCtorEq, List.mem_cons, forall_eq_or_imp, false_iff, not_and]
        intro hc
        exact absurd hh hc
    · have hf : findAddressFrom address (sec :: rest) i =
          findAddressFrom address rest (i + 1) := by
        unfold Section.Holds at hh
        simp only [findAddressFrom]
        split_ifs with h1 h2
        · exact absurd ⟨h1.1, h1.2, h2⟩ hh
        · rfl
        · rfl
      constructor
      · intro j off hj
        rw [hf] at hj
        obtain ⟨k, sec1, hk, hjk, hh1, hoff, hfirst⟩ := ih1 j off hj
        refine ⟨k + 1, sec1, by simpa using hk, by omega, hh1, hoff, ?_⟩
        intro k' hk' sec' hsec'
        cases k' with
        | zero =>
          simp only [List.getElem?_cons_zero, Option.some.injEq] at hsec'
          rw [← hsec']
          exact hh
        | succ k' =>
          simp only [List.getElem?_cons_succ] at hsec'
          exact hfirst k' (by omega) sec' hsec'
      · rw [hf, ih2]
        simp only [List.mem_cons, forall_eq_or_imp]
        exact ⟨fun h => ⟨hh, h⟩, fun h => h.2⟩

/-- C15 (counterexample): the image parsed from the example buffer has one section, of
type NOBITS, with base `0x10000000` and size `0x100`; the address `0x10000000` lies in
its range, yet `Find` returns null for it. -/
theorem C15_Find_counterexample :
    ∃ image, RPXImage.ParseImage failingZlibEnv bssSectionBuffer = some image ∧
      ∃ S ∈ image.sections, S.base ≤ 0x10000000 ∧ 0x10000000 < S.base + S.size ∧
        image.Find 0x10000000 = none :=
  ⟨(RPXImage.ParseImage failingZlibEnv bssSectionBuffer).getD {}, rfl, by decide⟩

/-- C15 (amended): for every image and address, `Find` returns a non-null pointer exactly
when some section has data and holds the address between its base and its end computed in
`uint32_t`; the pointer is then to byte `a - base` of the first such section in section
order.  It returns null exactly when there is no such section. -/
theorem C15_Find_amended (image : RPXImage) (a : Nat) :
    (∀ j off, image.Find a = some (j, off) →
      ∃ sec, image.sections[j]? = some sec ∧ sec.Holds a ∧ off = a - sec.base ∧
        ∀ k, k < j → ∀ sec', image.sections[k]? = some sec' → ¬ sec'.Holds a) ∧
    ((∃ sec ∈ image.sections, sec.Holds a) → ∃ j off, image.Find a = some (j, off)) ∧
    (image.Find a = none ↔ ∀ sec ∈ image.sections, ¬ sec.Holds a) := by
  obtain ⟨h1, h2⟩ := findAddressFrom_spec a image.sections 0
  refine ⟨?_, ?_, h2⟩
  · intro j off hj
    obtain ⟨k, sec, hk, hjk, hh, hoff, hfirst⟩ := h1 j off hj
    have hjk2 : j = k := by omega
    subst hjk2
    exact ⟨sec, hk, hh, hoff, hfirst⟩
  · rintro ⟨sec, hmem, hh⟩
    cases hf : image.Find a with
    | none => exact absurd hh (h2.mp hf sec hmem)
    | some r => exact ⟨r.1, r.2, rfl⟩

/-- C15 (amended), witness: in the image with a named code section at `0x02000000`,
`Find` at `0x02000002` points to byte 2 of section 0. -/
theorem C15_Find_amended_witness :
    ∃ image, RPXImage.ParseImage failingZlibEnv namedSectionsBuffer = some image ∧
      image.Find 0x02000002 = some (0, 2) ∧
      ∃ sec, image.sections[0]? = some sec ∧ sec.Holds 0x02000002 ∧
        2 = 0x02000002 - sec.base ∧
        ∀ k, k < 0 → ∀ sec', image.sections[k]? = some sec' → ¬ sec'.Holds 0x02000002 :=
  ⟨(RPXImage.ParseImage failingZlibEnv namedSectionsBuffer).getD {}, rfl, by decide,
    (C15_Find_amended _ 0x02000002).1 0 2 (by decide)⟩

/-- C16 (counterexample): the image parsed from the example buffer has two sections of
size `0x100`, at `0x10000000` and at `0x10000080`; the address `0x10000080` lies in the
range of both. -/
theorem C16_sections_overlap_counterexample :
    ∃ image, RPXImage.ParseImage failingZlibEnv overlappingSectionsBuffer = some image ∧
      ∃ S T, image.sections[0]? = some S ∧ image.sections[1]? = some T ∧
        S.size ≠ 0 ∧ T.size ≠ 0 ∧
        (S.base ≤ 0x10000080 ∧ 0x10000080 < S.base + S.size) ∧
        (T.base ≤ 0x10000080 ∧ 0x10000080 < T.base + T.size) :=
  ⟨(RPXImage.ParseImage failingZlibEnv overlappingSectionsBuffer).getD {}, rfl,
    { base := 0x10000000, size := 0x100, flags := 0xC3, data := none, name := "" },
    { base := 0x10000080, size := 0x100, flags := 0xC3, data := none, name := "" },
    by decide, by decide, by decide, by decide, by decide, by decide⟩

/-- C16 (amended): in every image that `RPXImage::ParseImage` returns with every stage
passed, the address ranges of the sections are the ranges `(sh_addr, sh_size)` of the
section headers, in the same order; so the sections are pairwise free of common addresses
exactly when the ranges announced by the headers are. -/
theorem C16_sections_overlap_amended (env : LoaderEnv) (buf : HostBuffer) (image : RPXImage)
    (h : RPXImage.ParseImageStaged env buf = some (none, image)) :
    image.sections.map Section.range = image.section_headers.map RPX_SectionHeader.range ∧
      ((image.sections.map Section.range).Pairwise (fun r s => ¬ rangesIntersect r s) ↔
        (image.section_headers.map RPX_SectionHeader.range).Pairwise
          (fun r s => ¬ rangesIntersect r s)) := by
  have hmap : image.sections.map Section.range =
      image.section_headers.map RPX_SectionHeader.range := by
    rcases ParseImageStaged_spec env buf none image h with
      ⟨hst, _⟩ | ⟨_, _, ⟨hst, _⟩ | ⟨_, _, hsec⟩⟩
    · exact absurd hst (by simp)
    · rcases hst with h1 | h1 | h1 <;> exact absurd h1 (by simp)
    · rw [hsec, makeSections_range]
  exact ⟨hmap, by rw [hmap]⟩

/-- C16 (amended), witness: the image with two named sections and the string table. -/
theorem C16_sections_overlap_amended_witness :
    ∃ image, RPXImage.ParseImageStaged failingZlibEnv namedSectionsBuffer =
        some (none, image) ∧
      image.sections.map Section.range = image.section_headers.map RPX_SectionHeader.range ∧
      ((image.sections.map Section.range).Pairwise (fun r s => ¬ rangesIntersect r s) ↔
        (image.section_headers.map RPX_SectionHeader.range).Pairwise
          (fun r s => ¬ rangesIntersect r s)) :=
  ⟨((RPXImage.ParseImageStaged failingZlibEnv namedSectionsBuffer).getD (none, {})).2, rfl,
    C16_sections_overlap_amended failingZlibEnv namedSectionsBuffer _ rfl⟩

/-- C17 (code bug): the string table `"\0.text\0.data\0"` is parsed into the strings
`""`, `".text"`, `".data"`, and `GetSectionName` uses `sh_name` as an index into this
list: `sh_name = 1` yields `".text"`, but `sh_name = 7`, the byte offset of `".data"`,
yields the empty name.  In the image parsed from the example buffer the section whose
`sh_name` is 7 is therefore unnamed. -/
theorem C17_section_name_by_list_index :
    parseStringTable [0, 0x2E, 0x74, 0x65, 0x78, 0x74, 0, 0x2E, 0x64, 0x61, 0x74, 0x61, 0]
        0 13 14 0 = some ["", ".text", ".data"] ∧
      GetSectionName ["", ".text", ".data"] 1 = ".text" ∧
      GetSectionName ["", ".text", ".data"] 7 = "" ∧
      GetSectionName ["", ".text", ".data"] 2 = ".data" ∧
      (RPXImage.ParseImage failingZlibEnv namedSectionsBuffer).map
          (fun image => (image.string_table,
            image.section_headers.map (fun header => header.sh_name),
            image.sections.map (fun sec => sec.name))) =
        some (["", ".text", ".data"], [1, 7, 0], [".text", "", ""]) := by
  refine ⟨by decide, by decide, by decide, by decide, by decide⟩

/-- C18 (code bug): a section header with `sh_flags = 0x30` (`SHF_MERGE | SHF_STRINGS`)
has neither `SHF_EXECINSTR` nor `SHF_WRITE`, yet the section made from it carries the
bit `SectionFlags_Code`, because the flags of the section start as a copy of `sh_flags`
and `SHF_STRINGS` has the value of `SectionFlags_Code`.  The image parsed from the example
buffer contains such a section, with data. -/
theorem C18_code_flag_without_execinstr :
    (readSectionHeader stringsSectionBuffer.mem 52).sh_flags = 0x30 ∧
      (readSectionHeader stringsSectionBuffer.mem 52).sh_flags &&& SHF_EXECINSTR = 0 ∧
      (makeSection failingZlibEnv [] stringsSectionBuffer 0
        (readSectionHeader stringsSectionBuffer.mem 52)).flags &&& SectionFlags_Code ≠ 0 ∧
      (RPXImage.ParseImage failingZlibEnv stringsSectionBuffer).map
          (fun image => image.sections.map
            (fun sec => (sec.flags, sec.flags &&& SectionFlags_Code, sec.data))) =
        some [(0x30, 0x20, some [0x61, 0x62, 0x63, 0])] := by
  refine ⟨by decide, by decide, by decide, by decide⟩

/-! ## Theorems: symbols -/

/-- Inserting a named symbol into a store of named symbols leaves every symbol named. -/
theorem insertSymbol_names (env : LoaderEnv) (symbols : List Symbol) (symbol : Symbol)
    (hs : ∀ s ∈ symbols, s.name ≠ "") (hn : symbol.name ≠ "") :
    ∀ s ∈ insertSymbol env symbols symbol, s.name ≠ "" := by
  unfold insertSymbol
  split_ifs
  · exact hs
  · intro s hmem
    rcases List.mem_append.mp hmem with h | h
    · exact hs s h
    · rw [List.mem_singleton.mp h]
      exact hn

/-- The entry loop of `LoadSymbols` stores only named symbols. -/
theorem loadSymbolEntries_names (env : LoaderEnv) (symData strData : List Nat)
    (strSize : Nat) (entries : List Nat) (state result : List Symbol × List (Nat × String))
    (h : loadSymbolEntries env symData strData strSize entries state = some result)
    (hs : ∀ s ∈ state.1, s.name ≠ "") : ∀ s ∈ result.1, s.name ≠ "" := by
  induction entries generalizing state with
  | nil =>
    simp only [loadSymbolEntries, Option.some.injEq] at h
    rw [← h]
    exact hs
  | cons i rest ih =>
    simp only [loadSymbolEntries] at h
    by_cases h1 : be32At symData (i * sizeofSymbolEntry) ≥ strSize
    · rw [if_pos h1] at h
      exact ih state h hs
    · rw [if_neg h1] at h
      cases hc : cstring (List.drop (be32At symData (i * sizeofSymbolEntry)) strData) with
      | none =>
        rw [hc] at h
        simp at h
      | some bytes =>
        rw [hc] at h
        simp only at h
        by_cases h2 : stringOfBytes bytes = ""
        · rw [if_pos h2] at h
          exact ih state h hs
        · rw [if_neg h2] at h
          exact ih _ h (insertSymbol_names env state.1 _ hs h2)

/-- C19 (counterexample): the only entry of the example symbol table has the name `"f"`
and `st_size = 0`; `LoadSymbols` puts it into the symbol store, with size 0. -/
theorem C19_zero_size_symbol_counterexample :
    be32At [0x00, 0x00, 0x00, 0x01, 0x02, 0x00, 0x00, 0x00,
            0x00, 0x00, 0x00, 0x00, 0x02, 0x00, 0x00, 0x01] 8 = 0 ∧
      (symbolTableImage.LoadSymbols failingZlibEnv).map (fun r => (r.1, r.2.symbols)) =
        some (true, [⟨"f", 0x02000000, 0, SymbolType.Symbol_Function⟩]) :=
  ⟨by decide, rfl⟩

/-- C19 (amended): every symbol that a successful `LoadSymbols` leaves in the symbol
store has a non-empty name. -/
theorem C19_symbols_named_amended (env : LoaderEnv) (image image1 : RPXImage)
    (h : image.LoadSymbols env = some (true, image1)) :
    ∀ s ∈ image1.symbols, s.name ≠ "" := by
  unfold RPXImage.LoadSymbols at h
  split at h
  · split at h
    · simp only at h
      split at h
      · simp at h
      · rename_i state hstate
        simp only [Option.some.injEq, Prod.mk.injEq, true_and] at h
        subst h
        exact loadSymbolEntries_names env _ _ _ _ _ state hstate (by simp)
    · simp at h
  · simp at h

/-- C19 (amended), witness: the symbol stored from the example symbol table is named. -/
theorem C19_symbols_named_amended_witness :
    (⟨"f", 0x02000000, 0, SymbolType.Symbol_Function⟩ : Symbol) ∈
        ((symbolTableImage.LoadSymbols failingZlibEnv).getD (false, {})).2.symbols ∧
      (⟨"f", 0x02000000, 0, SymbolType.Symbol_Function⟩ : Symbol).name ≠ "" :=
  ⟨by decide,
    C19_symbols_named_amended failingZlibEnv symbolTableImage
      ((symbolTableImage.LoadSymbols failingZlibEnv).getD (false, {})).2 rfl _ (by decide)⟩

/-! ## Theorems: the recompiler -/

/-- C20 (code bug): the word `4E 80 00 20` decodes with the descriptor `bclr`, which stands
before `blr` in the table, so its identifier is `PPC_INST_BCLR` and the case
`PPC_INST_BLR` of `RecompileInstruction`, which prints `return;`, is not taken.  For the
function made of this one word `RecompileFunction` returns false, and the body it emits
holds a comment and `__builtin_debugtrap();` and no `return;`.  The function is the one
`Function::Analyze` finds for this word at `0x02000000`; all this holds for every amount
of fuel of at least 2. -/
theorem C20_blr_function_not_translated (fuel : Nat) :
    Analyze (fuel + 2) (windowOfBytes [0x4E, 0x80, 0x00, 0x20]) = some blrFunction ∧
    (DecodeInstruction 0x4E800020 freshInsn).2.opcode.map (fun d => (d.name, d.id)) =
        some (some "bclr", ppc_insn_id.PPC_INST_BCLR) ∧
      (Recompiler.RecompileFunction findByAddress (fuel + 2) { image := blrImage }
          blrFunction).map (fun p => (p.1, p.2.out)) =
        some (false,
          "PPC_FUNC_IMPL(__imp__sub_2000000) \x7b\n\tPPC_FUNC_PROLOGUE();\n" ++
          "\t// bclr bclr r20, r0\n\t__builtin_debugtrap(); // Unimplemented: bclr\n" ++
          "\x7d\n\nPPC_WEAK_FUNC(sub_2000000) \x7b\n\t__imp__sub_2000000(ctx, base);\n" ++
          "\x7d\n\n") := by
  exact ⟨rfl, by decide, rfl⟩

/-! ## Theorems: lowering of `b` and `addi` -/

/-- Shifting right distributes over the bitwise and. -/
theorem shiftRight_and (a b i : Nat) : (a &&& b) >>> i = (a >>> i) &&& (b >>> i) := by
  apply Nat.eq_of_testBit_eq
  intro j
  simp [Nat.testBit_shiftRight, Nat.testBit_and]

/-- A looked-up descriptor is one of the table and passes the test of the lookup loop. -/
theorem GetOpcode_some (w : Nat) (d : ppc_opcode) (h : GetOpcode w = some d) :
    d ∈ descriptors ∧ (w &&& d.mask) = d.opcode := by
  rw [GetOpcode_eq_find] at h
  exact ⟨List.mem_of_find?_eq_some h, by simpa using List.find?_some h⟩

set_option maxRecDepth 8000 in
/-- C21 (code bug): the word `48 00 00 08` decodes as `b` with operand 0 equal to the
displacement 8, and `RecompileInstruction` compares this operand, not the target
`0x02000008`, with the bounds of the function.  For the function of 12 bytes at
`0x02000000` holding `b +8; blr; blr` the branch is therefore lowered to a call of the
unknown function `0x8` followed by `return;`; no `goto` is emitted, although the label
`loc_2000008:` is.  This holds for every amount of fuel of at least 4. -/
theorem C21_forward_branch_lowered_to_call (fuel : Nat) :
    (DecodeInstruction 0x48000008 freshInsn).2.operands.getD 0 0 = 8 ∧
      (Recompiler.RecompileFunction findByAddress (fuel + 4) { image := forwardBranchImage }
          forwardBranchFunction).map (fun p => (p.1, p.2.out)) =
        some (false,
          "PPC_FUNC_IMPL(__imp__sub_2000000) \x7b\n\tPPC_FUNC_PROLOGUE();\n" ++
          "\t// b b 0x8\n\t// CALL to unknown function 0x8\n\treturn;\n" ++
          "\t// bclr bclr r20, r0\n\t__builtin_debugtrap(); // Unimplemented: bclr\n" ++
          "loc_2000008:\n" ++
          "\t// bclr bclr r20, r0\n\t__builtin_debugtrap(); // Unimplemented: bclr\n" ++
          "\x7d\n\nPPC_WEAK_FUNC(sub_2000000) \x7b\n\t__imp__sub_2000000(ctx, base);\n" ++
          "\x7d\n\n") :=
  ⟨by decide, rfl⟩

/-- The descriptor of a word that decodes with the identifier `PPC_INST_ADDI` is `addi`,
and the decoder fills the operands from the four 5-bit register fields. -/
theorem DecodeInstruction_addi (w : Nat) (d : ppc_opcode) (h : GetOpcode w = some d)
    (hid : d.id = ppc_insn_id.PPC_INST_ADDI) :
    (DecodeInstruction w freshInsn).2.operands =
      [(w >>> 21) &&& 31, (w >>> 16) &&& 31, (w >>> 11) &&& 31, (w >>> 6) &&& 31] := by
  obtain ⟨hmem, hmask⟩ := GetOpcode_some w d h
  have hd : ∀ e ∈ descriptors, e.id = ppc_insn_id.PPC_INST_ADDI →
      e.mask = 0xFC000000 ∧ e.opcode = 0x38000000 := by decide
  obtain ⟨hm, ho⟩ := hd d hmem hid
  rw [hm, ho] at hmask
  have hop : PPC_OP w = 14 := by
    unfold PPC_OP
    have := congrArg (fun x => x >>> 26) hmask
    simp only [shiftRight_and] at this
    exact this
  unfold DecodeInstruction
  simp only [h, hid, hop]
  simp [freshInsn, ExtractOperand, U32]

/-- C22 (code bug): for every word that decodes as `addi`, operand 2 is the 5-bit field
in bits 16-20 of the word, a value below 32, and not the 16-bit immediate; this operand
is what `RecompileInstruction` prints as the constant.  For `addi r3, r4, 8`
(`38 64 00 08`) the statement emitted adds 0, and for `addi r3, r3, -1` (`38 63 FF FF`)
it adds 31. -/
theorem C22_addi_constant_is_register_field :
    (∀ w d, GetOpcode w = some d → d.id = ppc_insn_id.PPC_INST_ADDI →
      (DecodeInstruction w freshInsn).2.operands.getD 2 0 = (w >>> 11) &&& 31 ∧
        (w >>> 11) &&& 31 < 32) ∧
    ((DecodeInstruction 0x38640008 freshInsn).2.opcode.map (fun d =>
        (Recompiler.RecompileInstruction findByAddress {} blrFunction 0x02000000
          (DecodeInstruction 0x38640008 freshInsn).2 d {}).2.1.out) =
      some "\t// addi addi r3, r4, r0\n\tctx.r3.s64 = ctx.r4.s64 + 0;\n") ∧
    ((DecodeInstruction 0x3863FFFF freshInsn).2.opcode.map (fun d =>
        (Recompiler.RecompileInstruction findByAddress {} blrFunction 0x02000000
          (DecodeInstruction 0x3863FFFF freshInsn).2 d {}).2.1.out) =
      some "\t// addi addi r3, r3, r31\n\tctx.r3.s64 = ctx.r3.s64 + 31;\n") := by
  refine ⟨?_, by decide, by decide⟩
  intro w d h hid
  rw [DecodeInstruction_addi w d h hid]
  refine ⟨rfl, ?_⟩
  have := Nat.and_pow_two_sub_one_eq_mod (w >>> 11) 5
  norm_num at this
  rw [this]
  omega

/-! ## Theorems: decoded branch operands -/

/-- Exclusive or with a single bit adds the bit when it is clear and removes it when it
is set. -/
theorem xor_two_pow (v k : Nat) (hv : v < 2 ^ (k + 1)) :
    v ^^^ 2 ^ k = if v < 2 ^ k then v + 2 ^ k else v - 2 ^ k := by
  have h2 : 2 ^ (k + 1) = 2 * 2 ^ k := by rw [pow_succ]; ring
  split_ifs with hlt
  · have hor : v + 2 ^ k = 2 ^ k * 1 ||| v := by
      rw [← Nat.mul_add_lt_is_or hlt 1]; ring
    rw [hor]
    apply Nat.eq_of_testBit_eq
    intro i
    simp only [Nat.testBit_xor, Nat.testBit_or, mul_one, Nat.testBit_two_pow]
    by_cases hi : k = i
    · subst hi
      simp [Nat.testBit_lt_two_pow hlt]
    · simp [hi]
  · have hlo : v - 2 ^ k < 2 ^ k := by omega
    have hv2 : v = 2 ^ k * 1 ||| (v - 2 ^ k) := by
      rw [← Nat.mul_add_lt_is_or hlo 1]; omega
    apply Nat.eq_of_testBit_eq
    intro i
    nth_rewrite 1 [hv2]
    simp only [Nat.testBit_xor, Nat.testBit_or, mul_one, Nat.testBit_two_pow]
    by_cases hi : k = i
    · subst hi
      simp [Nat.testBit_lt_two_pow hlo]
    · simp [hi]

/-- The field `ExtractOperand(w, 16, 29) << 2` is the word masked with `0xFFFC`. -/
theorem extract_bd_field (w : Nat) :
    (ExtractOperand w 16 29 <<< 2) % U32 = w &&& 0xFFFC := by
  have hm : ExtractOperand w 16 29 = (w >>> 2) &&& (2 ^ 14 - 1) := by
    simp [ExtractOperand, U32]
  have hc : (0xFFFC : Nat) = (2 ^ 14 - 1) <<< 2 := by decide
  have he : ExtractOperand w 16 29 <<< 2 = w &&& 0xFFFC := by
    rw [hm, hc]
    apply Nat.eq_of_testBit_eq
    intro i
    simp only [Nat.testBit_shiftLeft, Nat.testBit_and, Nat.testBit_shiftRight,
      Nat.testBit_two_pow_sub_one]
    by_cases hi : 2 ≤ i
    · have : 2 + (i - 2) = i := by omega
      simp [hi, this]
    · simp [hi]
  rw [he]
  apply Nat.mod_eq_of_lt
  have hle : w &&& 0xFFFC ≤ 0xFFFC := Nat.and_le_right
  unfold U32
  omega

/-- The field `ExtractOperand(w, 6, 29) << 2` is the word masked with `0x03FFFFFC`. -/
theorem extract_li_field (w : Nat) :
    (ExtractOperand w 6 29 <<< 2) % U32 = w &&& 0x03FFFFFC := by
  have hm : ExtractOperand w 6 29 = (w >>> 2) &&& (2 ^ 24 - 1) := by
    simp [ExtractOperand, U32]
  have hc : (0x03FFFFFC : Nat) = (2 ^ 24 - 1) <<< 2 := by decide
  have he : ExtractOperand w 6 29 <<< 2 = w &&& 0x03FFFFFC := by
    rw [hm, hc]
    apply Nat.eq_of_testBit_eq
    intro i
    simp only [Nat.testBit_shiftLeft, Nat.testBit_and, Nat.testBit_shiftRight,
      Nat.testBit_two_pow_sub_one]
    by_cases hi : 2 ≤ i
    · have : 2 + (i - 2) = i := by omega
      simp [hi, this]
    · simp [hi]
  rw [he]
  apply Nat.mod_eq_of_lt
  have hle : w &&& 0x03FFFFFC ≤ 0x03FFFFFC := Nat.and_le_right
  unfold U32
  omega

/-- A value masked with `2^n - 4` is a multiple of 4. -/
theorem and_mask_mod_four (w m : Nat) (hm : m % 4 = 0) : (w &&& m) % 4 = 0 := by
  have h1 : (w &&& m) % 2 ^ 2 = (w &&& m) &&& (2 ^ 2 - 1) :=
    (Nat.and_pow_two_sub_one_eq_mod _ 2).symm
  have h2 : m &&& (2 ^ 2 - 1) = 0 := by
    rw [Nat.and_pow_two_sub_one_eq_mod]
    exact hm
  have h3 : (w &&& m) % 2 ^ 2 = 0 := by
    rw [h1, Nat.and_assoc, h2, Nat.and_zero]
  exact h3

/-- The function `SignExtend` on a 16-bit value. -/
theorem SignExtend_16 (v : Nat) (hv : v < 2 ^ 16) :
    SignExtend v 16 = if v < 2 ^ 15 then (v : Int) else (v : Int) - 2 ^ 16 := by
  unfold SignExtend toInt32
  have hs : (1 <<< (16 - 1)) % U32 = 2 ^ 15 := by decide
  simp only [hs]
  rw [xor_two_pow v 15 hv]
  unfold U32
  split_ifs <;> omega

/-- The function `SignExtend` on a 26-bit value. -/
theorem SignExtend_26 (v : Nat) (hv : v < 2 ^ 26) :
    SignExtend v 26 = if v < 2 ^ 25 then (v : Int) else (v : Int) - 2 ^ 26 := by
  unfold SignExtend toInt32
  have hs : (1 <<< (26 - 1)) % U32 = 2 ^ 25 := by decide
  simp only [hs]
  rw [xor_two_pow v 25 hv]
  unfold U32
  split_ifs <;> omega

/-- Reading a stored 32-bit two's complement value back as `int32_t`. -/
theorem toInt32_toU32 (t : Int) (hlo : -2 ^ 31 ≤ t) (hhi : t < 2 ^ 31) :
    toInt32 (toU32 t) = t := by
  unfold toInt32 toU32 U32
  split_ifs <;> omega

/-- An instruction object has four operand slots. -/
theorem operands_four (insn : ppc_insn) (hlen : insn.operands.length = 4) :
    ∃ a b c rest, insn.operands = a :: b :: c :: rest := by
  obtain ⟨a, rest1, hops1⟩ : ∃ a rest, insn.operands = a :: rest := by
    cases ho : insn.operands with
    | nil => simp [ho] at hlen
    | cons a rest => exact ⟨a, rest, rfl⟩
  obtain ⟨b, rest2, hops2⟩ : ∃ b rest, rest1 = b :: rest := by
    cases ho : rest1 with
    | nil => simp [hops1, ho] at hlen
    | cons b rest => exact ⟨b, rest, rfl⟩
  obtain ⟨c, rest3, hops3⟩ : ∃ c rest, rest2 = c :: rest := by
    cases ho : rest2 with
    | nil => simp [hops1, hops2, ho] at hlen
    | cons c rest => exact ⟨c, rest, rfl⟩
  subst hops2 hops3
  exact ⟨a, b, c, rest3, hops1⟩

/-- The operands the decoder writes for a word that decodes as `bc`. -/
theorem DecodeInstruction_bc (w : Nat) (d : ppc_opcode) (a b c : Nat) (rest : List Nat)
    (insn : ppc_insn) (h : GetOpcode w = some d) (hops : insn.operands = a :: b :: c :: rest)
    (hid : d.id = ppc_insn_id.PPC_INST_BC) :
    (DecodeInstruction w insn).2.operands =
      ((w >>> 21) &&& 0x1F) :: ((w >>> 16) &&& 0x1F) ::
        toU32 (SignExtend (w &&& 0xFFFC) 16) :: rest := by
  have hbd := extract_bd_field w
  have h0 : ExtractOperand w 6 10 = (w >>> 21) &&& 0x1F := by simp [ExtractOperand, U32]
  have h1 : ExtractOperand w 11 15 = (w >>> 16) &&& 0x1F := by simp [ExtractOperand, U32]
  unfold DecodeInstruction
  simp only [h, hid, hops, hbd, h0, h1]
  simp

/-- The operands the decoder writes for a word that decodes as `b`, `ba` or `bl`. -/
theorem DecodeInstruction_b (w : Nat) (d : ppc_opcode) (a b c : Nat) (rest : List Nat)
    (insn : ppc_insn) (h : GetOpcode w = some d) (hops : insn.operands = a :: b :: c :: rest)
    (hid : d.id = ppc_insn_id.PPC_INST_B ∨ d.id = ppc_insn_id.PPC_INST_BA ∨
      d.id = ppc_insn_id.PPC_INST_BL) :
    (DecodeInstruction w insn).2.operands =
      toU32 (SignExtend (w &&& 0x03FFFFFC) 26) :: b :: c :: rest := by
  have hli := extract_li_field w
  unfold DecodeInstruction
  simp only [h, hid, hops, hli]
  simp

/-- The stored 16-bit displacement, read as `int32_t`. -/
theorem displacement_16 (w : Nat) :
    toInt32 (toU32 (SignExtend (w &&& 0xFFFC) 16)) =
        (if w &&& 0xFFFC < 2 ^ 15 then ((w &&& 0xFFFC : Nat) : Int)
          else ((w &&& 0xFFFC : Nat) : Int) - 2 ^ 16) ∧
      toInt32 (toU32 (SignExtend (w &&& 0xFFFC) 16)) % 4 = 0 := by
  have hle : w &&& 0xFFFC ≤ 0xFFFC := Nat.and_le_right
  have hm4 := and_mask_mod_four w 0xFFFC (by norm_num)
  have hse := SignExtend_16 (w &&& 0xFFFC) (by omega)
  have hval : toInt32 (toU32 (SignExtend (w &&& 0xFFFC) 16)) =
      SignExtend (w &&& 0xFFFC) 16 := by
    apply toInt32_toU32 <;> rw [hse] <;> split_ifs <;> omega
  rw [hval, hse]
  exact ⟨rfl, by split_ifs <;> omega⟩

/-- The stored 26-bit displacement, read as `int32_t`. -/
theorem displacement_26 (w : Nat) :
    toInt32 (toU32 (SignExtend (w &&& 0x03FFFFFC) 26)) =
        (if w &&& 0x03FFFFFC < 2 ^ 25 then ((w &&& 0x03FFFFFC : Nat) : Int)
          else ((w &&& 0x03FFFFFC : Nat) : Int) - 2 ^ 26) ∧
      toInt32 (toU32 (SignExtend (w &&& 0x03FFFFFC) 26)) % 4 = 0 := by
  have hle : w &&& 0x03FFFFFC ≤ 0x03FFFFFC := Nat.and_le_right
  have hm4 := and_mask_mod_four w 0x03FFFFFC (by norm_num)
  have hse := SignExtend_26 (w &&& 0x03FFFFFC) (by omega)
  have hval : toInt32 (toU32 (SignExtend (w &&& 0x03FFFFFC) 26)) =
      SignExtend (w &&& 0x03FFFFFC) 26 := by
    apply toInt32_toU32 <;> rw [hse] <;> split_ifs <;> omega
  rw [hval, hse]
  exact ⟨rfl, by split_ifs <;> omega⟩

/-- C27: for every word that decodes as `bc`, `DecodeInstruction` yields the operands BO
(bits 6-10), BI (bits 11-15) and a displacement that, read as `int32_t`, is the 16-bit
sign extension of `w & 0xFFFC`; for every word that decodes as `b`, `ba` or `bl`,
operand 0 is the 26-bit sign extension of `w & 0x03FFFFFC`.  In both cases the
displacement is a multiple of 4.  The instruction object has four operand slots; the
slots that are not written keep their contents. -/
theorem C27_branch_operands (w : Nat) (d : ppc_opcode) (insn : ppc_insn)
    (h : GetOpcode w = some d) (hlen : insn.operands.length = 4) :
    (d.id = ppc_insn_id.PPC_INST_BC →
      ∃ disp rest, (DecodeInstruction w insn).2.operands =
          ((w >>> 21) &&& 0x1F) :: ((w >>> 16) &&& 0x1F) :: disp :: rest ∧
        toInt32 disp =
          (if w &&& 0xFFFC < 2 ^ 15 then ((w &&& 0xFFFC : Nat) : Int)
            else ((w &&& 0xFFFC : Nat) : Int) - 2 ^ 16) ∧
        toInt32 disp % 4 = 0) ∧
    (d.id = ppc_insn_id.PPC_INST_B ∨ d.id = ppc_insn_id.PPC_INST_BA ∨
        d.id = ppc_insn_id.PPC_INST_BL →
      ∃ disp rest, (DecodeInstruction w insn).2.operands = disp :: rest ∧
        toInt32 disp =
          (if w &&& 0x03FFFFFC < 2 ^ 25 then ((w &&& 0x03FFFFFC : Nat) : Int)
            else ((w &&& 0x03FFFFFC : Nat) : Int) - 2 ^ 26) ∧
        toInt32 disp % 4 = 0) := by
  obtain ⟨a, b, c, rest, hops⟩ := operands_four insn hlen
  constructor
  · intro hid
    exact ⟨_, rest, DecodeInstruction_bc w d a b c rest insn h hops hid, displacement_16 w⟩
  · intro hid
    exact ⟨_, _, DecodeInstruction_b w d a b c rest insn h hops hid, displacement_26 w⟩

/-- C27 at `beq +8` (`41 82 00 08`): BO = 12, BI = 2, displacement 8. -/
theorem C27_branch_operands_witness :
    ∃ disp rest, (DecodeInstruction 0x41820008 freshInsn).2.operands =
        ((0x41820008 >>> 21) &&& 0x1F) :: ((0x41820008 >>> 16) &&& 0x1F) :: disp :: rest ∧
      toInt32 disp =
        (if 0x41820008 &&& 0xFFFC < 2 ^ 15 then ((0x41820008 &&& 0xFFFC : Nat) : Int)
          else ((0x41820008 &&& 0xFFFC : Nat) : Int) - 2 ^ 16) ∧
      toInt32 disp % 4 = 0 :=
  (C27_branch_operands 0x41820008
    (ppc_opcode.mk (some "bc") 0x40000000 0xFC000003 [0, 1, 2, -1] .PPC_INST_BC) freshInsn
    (by decide) (by decide)).1 rfl

/-- The target `CalculateBranchTarget` returns for a word that decodes as `bc`: the
address plus the BO field. -/
theorem CalculateBranchTarget_bc (w a : Nat) (d : ppc_opcode) (h : GetOpcode w = some d)
    (hid : d.id = ppc_insn_id.PPC_INST_BC) :
    CalculateBranchTarget a (DecodeInstruction w freshInsn).2 =
      (a + ((w >>> 21) &&& 0x1F)) % U32 := by
  have hop := (DecodeInstruction_opcode w freshInsn).1
  have hops : (DecodeInstruction w freshInsn).2.operands.getD 0 0 = (w >>> 21) &&& 0x1F := by
    unfold DecodeInstruction
    simp only [h, hid]
    simp [freshInsn, ExtractOperand, U32]
  unfold CalculateBranchTarget IsBranchInstruction
  rw [hop, h]
  simp only [hid, hops]
  simp

/-- C28 (code bug): for every word that decodes as `bc`, `CalculateBranchTarget` returns
the address plus the BO field of the word (modulo `2^32`): operand 0 of a decoded `bc` is
BO, the displacement is operand 2.  For `beq +8` (`41 82 00 08`, BO = 12, BI = 2, BD = 8)
at address `0x02000000` it returns `0x0200000C`, not the target `0x02000008`.  For `b +8`
it returns `0x02000008` and for `ba 8` it returns 8. -/
theorem C28_conditional_target_adds_BO :
    (∀ w a d, GetOpcode w = some d → d.id = ppc_insn_id.PPC_INST_BC →
      CalculateBranchTarget a (DecodeInstruction w freshInsn).2 =
        (a + ((w >>> 21) &&& 0x1F)) % U32) ∧
      (DecodeInstruction 0x41820008 freshInsn).2.operands = [12, 2, 8, 0] ∧
      CalculateBranchTarget 0x02000000 (DecodeInstruction 0x41820008 freshInsn).2 =
        0x0200000C ∧
      CalculateBranchTarget 0x02000000 (DecodeInstruction 0x48000008 freshInsn).2 =
        0x02000008 ∧
      CalculateBranchTarget 0x02000000 (DecodeInstruction 0x4800000A freshInsn).2 = 8 :=
  ⟨fun w a d h hid => CalculateBranchTarget_bc w a d h hid, by decide, by decide, by decide,
    by decide⟩

/-! ## Theorems: guest memory access -/

/-- A bitwise or of a multiple of `2^k` with a value below `2^k` is their sum. -/
theorem or_eq_add (hi lo m k : Nat) (hm : m = 2 ^ k) (hdiv : hi % m = 0) (hlo : lo < m) :
    hi ||| lo = hi + lo := by
  subst hm
  obtain ⟨a, ha⟩ := Nat.dvd_of_mod_eq_zero hdiv
  rw [ha]
  exact (Nat.mul_add_lt_is_or hlo a).symm

/-- Masking with a shifted block of ones selects a shifted field. -/
theorem and_shifted_mask (v n k : Nat) :
    v &&& ((2 ^ n - 1) <<< k) = (v / 2 ^ k % 2 ^ n) * 2 ^ k := by
  rw [← Nat.shiftLeft_eq, ← Nat.shiftRight_eq_div_pow, ← Nat.and_pow_two_sub_one_eq_mod]
  apply Nat.eq_of_testBit_eq
  intro i
  simp only [Nat.testBit_shiftLeft, Nat.testBit_and, Nat.testBit_shiftRight,
    Nat.testBit_two_pow_sub_one]
  by_cases hi : k ≤ i
  · have : k + (i - k) = i := by omega
    simp [hi, this]
  · simp [hi]

/-- The byte swap of a 16-bit quantity, in arithmetic. -/
theorem ByteSwap16_eq (v : Nat) :
    ByteSwap16 v = (v % 256) * 256 + v / 256 % 256 := by
  unfold ByteSwap16
  have h0 : v &&& 0xFF = v % 256 := Nat.and_pow_two_sub_one_eq_mod v 8
  have h1 : (v >>> 8) &&& 0xFF = v / 256 % 256 := by
    rw [Nat.shiftRight_eq_div_pow]
    exact Nat.and_pow_two_sub_one_eq_mod _ 8
  have h2 : (v % 256) <<< 8 = v % 256 * 256 := by rw [Nat.shiftLeft_eq]
  rw [h0, h1, h2]
  exact or_eq_add _ _ 256 8 (by norm_num) (by omega) (by omega)

/-- The byte swap of a 32-bit quantity, in arithmetic. -/
theorem ByteSwap_eq (v : Nat) :
    ByteSwap v = (v % 256) * 16777216 + (v / 256 % 256) * 65536 +
      (v / 65536 % 256) * 256 + v / 16777216 % 256 := by
  unfold ByteSwap
  have h0 : (v &&& 0xFF) <<< 24 = v % 256 * 16777216 := by
    rw [Nat.shiftLeft_eq]
    have := Nat.and_pow_two_sub_one_eq_mod v 8
    norm_num at this ⊢
    rw [this]
  have hc : (0xFF00 : Nat) = (2 ^ 8 - 1) <<< 8 := by decide
  have h1 : (v &&& 0xFF00) <<< 8 = (v / 256 % 256) * 65536 := by
    rw [hc, and_shifted_mask, Nat.shiftLeft_eq]
    norm_num
    omega
  have h2 : (v >>> 8) &&& 0xFF00 = (v / 65536 % 256) * 256 := by
    rw [hc, and_shifted_mask, Nat.shiftRight_eq_div_pow]
    norm_num
    omega
  have h3 : (v >>> 24) &&& 0xFF = v / 16777216 % 256 := by
    have := Nat.and_pow_two_sub_one_eq_mod (v >>> 24) 8
    rw [Nat.shiftRight_eq_div_pow] at this ⊢
    norm_num at this ⊢
    rw [this]
  rw [h0, h1, h2, h3]
  rw [or_eq_add (v % 256 * 16777216) (v / 256 % 256 * 65536) 16777216 24 (by norm_num)
      (by omega) (by omega),
    or_eq_add (v % 256 * 16777216 + v / 256 % 256 * 65536) (v / 65536 % 256 * 256) 65536 16
      (by norm_num) (by omega) (by omega),
    or_eq_add _ (v / 16777216 % 256) 256 8 (by norm_num) (by omega) (by omega)]

/-- The base-256 digits of a number given by four digits. -/
theorem digits_four (b0 b1 b2 b3 : Nat) (h1 : b1 < 256) (h2 : b2 < 256) (h3 : b3 < 256) :
    (b0 * 16777216 + b1 * 65536 + b2 * 256 + b3) % 256 = b3 ∧
      (b0 * 16777216 + b1 * 65536 + b2 * 256 + b3) / 256 % 256 = b2 ∧
      (b0 * 16777216 + b1 * 65536 + b2 * 256 + b3) / 65536 % 256 = b1 ∧
      (b0 * 16777216 + b1 * 65536 + b2 * 256 + b3) / 16777216 = b0 := by
  refine ⟨by omega, by omega, by omega, by omega⟩

/-- Swapping the bytes of a 16-bit value twice gives the value back. -/
theorem ByteSwap16_ByteSwap16 (v : Nat) (hv : v < 2 ^ 16) : ByteSwap16 (ByteSwap16 v) = v := by
  rw [ByteSwap16_eq (ByteSwap16 v), ByteSwap16_eq v]
  have e1 : (v % 256 * 256 + v / 256 % 256) % 256 = v / 256 % 256 := by omega
  have e2 : (v % 256 * 256 + v / 256 % 256) / 256 % 256 = v % 256 := by omega
  rw [e1, e2]
  omega

/-- Swapping the bytes of a 32-bit value twice gives the value back. -/
theorem ByteSwap_ByteSwap (v : Nat) (hv : v < 2 ^ 32) : ByteSwap (ByteSwap v) = v := by
  rw [ByteSwap_eq (ByteSwap v), ByteSwap_eq v]
  obtain ⟨f3, f2, f1, f0⟩ := digits_four (v % 256) (v / 256 % 256) (v / 65536 % 256)
    (v / 16777216 % 256) (by omega) (by omega) (by omega)
  rw [f3, f2, f1, f0]
  clear f3 f2 f1 f0
  omega

/-- A bitwise or of a value below `2^k` with a multiple of `2^k` is their sum. -/
theorem or_eq_add_low (lo hi m k : Nat) (hm : m = 2 ^ k) (hdiv : hi % m = 0) (hlo : lo < m) :
    lo ||| hi = lo + hi := by
  rw [Nat.lor_comm, or_eq_add hi lo m k hm hdiv hlo, Nat.add_comm]

/-- Two bytes assembled by a little-endian load. -/
theorem load_chain2 (b0 b1 : Nat) (h0 : b0 < 256) :
    b0 ||| (b1 <<< 8) = b0 + b1 * 256 := by
  simp only [Nat.shiftLeft_eq]
  norm_num
  exact or_eq_add_low b0 (b1 * 256) 256 8 (by norm_num) (by omega) h0

/-- Four bytes assembled by a little-endian load. -/
theorem load_chain4 (b0 b1 b2 b3 : Nat) (h0 : b0 < 256) (h1 : b1 < 256) (h2 : b2 < 256) :
    b0 ||| (b1 <<< 8) ||| (b2 <<< 16) ||| (b3 <<< 24) =
      b0 + b1 * 256 + b2 * 65536 + b3 * 16777216 := by
  simp only [Nat.shiftLeft_eq]
  norm_num
  rw [or_eq_add_low b0 (b1 * 256) 256 8 (by norm_num) (by omega) h0,
    or_eq_add_low (b0 + b1 * 256) (b2 * 65536) 65536 16 (by norm_num) (by omega) (by omega),
    or_eq_add_low (b0 + b1 * 256 + b2 * 65536) (b3 * 16777216) 16777216 24 (by norm_num)
      (by omega) (by omega)]

/-- Eight bytes assembled by a little-endian load. -/
theorem load_chain8 (b0 b1 b2 b3 b4 b5 b6 b7 : Nat) (h0 : b0 < 256) (h1 : b1 < 256)
    (h2 : b2 < 256) (h3 : b3 < 256) (h4 : b4 < 256) (h5 : b5 < 256) (h6 : b6 < 256) :
    b0 ||| (b1 <<< 8) ||| (b2 <<< 16) ||| (b3 <<< 24) ||| (b4 <<< 32) ||| (b5 <<< 40) |||
        (b6 <<< 48) ||| (b7 <<< 56) =
      b0 + b1 * 256 + b2 * 65536 + b3 * 16777216 + b4 * 4294967296 + b5 * 1099511627776 +
        b6 * 281474976710656 + b7 * 72057594037927936 := by
  simp only [Nat.shiftLeft_eq]
  norm_num
  rw [or_eq_add_low b0 (b1 * 256) 256 8 (by norm_num) (by omega) h0,
    or_eq_add_low (b0 + b1 * 256) (b2 * 65536) 65536 16 (by norm_num) (by omega) (by omega),
    or_eq_add_low (b0 + b1 * 256 + b2 * 65536) (b3 * 16777216) 16777216 24 (by norm_num)
      (by omega) (by omega),
    or_eq_add_low (b0 + b1 * 256 + b2 * 65536 + b3 * 16777216) (b4 * 4294967296) 4294967296 32
      (by norm_num) (by omega) (by omega),
    or_eq_add_low (b0 + b1 * 256 + b2 * 65536 + b3 * 16777216 + b4 * 4294967296)
      (b5 * 1099511627776) 1099511627776 40 (by norm_num) (by omega) (by omega),
    or_eq_add_low (b0 + b1 * 256 + b2 * 65536 + b3 * 16777216 + b4 * 4294967296 +
      b5 * 1099511627776) (b6 * 281474976710656) 281474976710656 48 (by norm_num) (by omega)
      (by omega),
    or_eq_add_low (b0 + b1 * 256 + b2 * 65536 + b3 * 16777216 + b4 * 4294967296 +
      b5 * 1099511627776 + b6 * 281474976710656) (b7 * 72057594037927936) 72057594037927936 56
      (by norm_num) (by omega) (by omega)]

/-- Eight fields assembled by the 64-bit byte swap. -/
theorem swap_chain8 (b0 b1 b2 b3 b4 b5 b6 b7 : Nat) (h1 : b1 < 256)
    (h2 : b2 < 256) (h3 : b3 < 256) (h4 : b4 < 256) (h5 : b5 < 256) (h6 : b6 < 256)
    (h7 : b7 < 256) :
    b0 * 72057594037927936 ||| b1 * 281474976710656 ||| b2 * 1099511627776 |||
        b3 * 4294967296 ||| b4 * 16777216 ||| b5 * 65536 ||| b6 * 256 ||| b7 =
      b0 * 72057594037927936 + b1 * 281474976710656 + b2 * 1099511627776 +
        b3 * 4294967296 + b4 * 16777216 + b5 * 65536 + b6 * 256 + b7 := by
  rw [or_eq_add (b0 * 72057594037927936) (b1 * 281474976710656) 72057594037927936 56
      (by norm_num) (by omega) (by omega),
    or_eq_add (b0 * 72057594037927936 + b1 * 281474976710656) (b2 * 1099511627776)
      281474976710656 48 (by norm_num) (by omega) (by omega),
    or_eq_add (b0 * 72057594037927936 + b1 * 281474976710656 + b2 * 1099511627776)
      (b3 * 4294967296) 1099511627776 40 (by norm_num) (by omega) (by omega),
    or_eq_add (b0 * 72057594037927936 + b1 * 281474976710656 + b2 * 1099511627776 +
      b3 * 4294967296) (b4 * 16777216) 4294967296 32 (by norm_num) (by omega) (by omega),
    or_eq_add (b0 * 72057594037927936 + b1 * 281474976710656 + b2 * 1099511627776 +
      b3 * 4294967296 + b4 * 16777216) (b5 * 65536) 16777216 24 (by norm_num) (by omega)
      (by omega),
    or_eq_add (b0 * 72057594037927936 + b1 * 281474976710656 + b2 * 1099511627776 +
      b3 * 4294967296 + b4 * 16777216 + b5 * 65536) (b6 * 256) 65536 16 (by norm_num)
      (by omega) (by omega),
    or_eq_add (b0 * 72057594037927936 + b1 * 281474976710656 + b2 * 1099511627776 +
      b3 * 4294967296 + b4 * 16777216 + b5 * 65536 + b6 * 256) b7 256 8 (by norm_num)
      (by omega) (by omega)]

/-- The byte swap of a 64-bit quantity, in arithmetic. -/
theorem ByteSwap64_eq (v : Nat) :
    ByteSwap64 v = (v % 256) * 72057594037927936 + (v / 256 % 256) * 281474976710656 +
      (v / 65536 % 256) * 1099511627776 + (v / 16777216 % 256) * 4294967296 +
      (v / 4294967296 % 256) * 16777216 + (v / 1099511627776 % 256) * 65536 +
      (v / 281474976710656 % 256) * 256 + v / 72057594037927936 % 256 := by
  unfold ByteSwap64
  have c1 : (0xFF00 : Nat) = (2 ^ 8 - 1) <<< 8 := by decide
  have c2 : (0xFF0000 : Nat) = (2 ^ 8 - 1) <<< 16 := by decide
  have c3 : (0xFF000000 : Nat) = (2 ^ 8 - 1) <<< 24 := by decide
  have h0 : (v &&& 0xFF) <<< 56 = v % 256 * 72057594037927936 := by
    rw [Nat.shiftLeft_eq]
    have := Nat.and_pow_two_sub_one_eq_mod v 8
    norm_num at this ⊢
    rw [this]
  have h1 : (v &&& 0xFF00) <<< 40 = (v / 256 % 256) * 281474976710656 := by
    rw [c1, and_shifted_mask, Nat.shiftLeft_eq]
    norm_num
    omega
  have h2 : (v &&& 0xFF0000) <<< 24 = (v / 65536 % 256) * 1099511627776 := by
    rw [c2, and_shifted_mask, Nat.shiftLeft_eq]
    norm_num
    omega
  have h3 : (v &&& 0xFF000000) <<< 8 = (v / 16777216 % 256) * 4294967296 := by
    rw [c3, and_shifted_mask, Nat.shiftLeft_eq]
    norm_num
    omega
  have h4 : (v >>> 8) &&& 0xFF000000 = (v / 4294967296 % 256) * 16777216 := by
    rw [c3, and_shifted_mask, Nat.shiftRight_eq_div_pow]
    norm_num
    omega
  have h5 : (v >>> 24) &&& 0xFF0000 = (v / 1099511627776 % 256) * 65536 := by
    rw [c2, and_shifted_mask, Nat.shiftRight_eq_div_pow]
    norm_num
    omega
  have h6 : (v >>> 40) &&& 0xFF00 = (v / 281474976710656 % 256) * 256 := by
    rw [c1, and_shifted_mask, Nat.shiftRight_eq_div_pow]
    norm_num
    omega
  have h7 : (v >>> 56) &&& 0xFF = v / 72057594037927936 % 256 := by
    have := Nat.and_pow_two_sub_one_eq_mod (v >>> 56) 8
    rw [Nat.shiftRight_eq_div_pow] at this ⊢
    norm_num at this ⊢
    rw [this]
  rw [h0, h1, h2, h3, h4, h5, h6, h7]
  exact swap_chain8 _ _ _ _ _ _ _ _ (by omega) (by omega) (by omega) (by omega) (by omega)
    (by omega) (by omega)

/-- The base-256 digits of a number given by eight digits. -/
theorem digits_eight (b0 b1 b2 b3 b4 b5 b6 b7 : Nat) (h1 : b1 < 256) (h2 : b2 < 256)
    (h3 : b3 < 256) (h4 : b4 < 256) (h5 : b5 < 256) (h6 : b6 < 256) (h7 : b7 < 256) :
    (b0 * 72057594037927936 + b1 * 281474976710656 + b2 * 1099511627776 +
        b3 * 4294967296 + b4 * 16777216 + b5 * 65536 + b6 * 256 + b7) % 256 = b7 ∧
      (b0 * 72057594037927936 + b1 * 281474976710656 + b2 * 1099511627776 +
        b3 * 4294967296 + b4 * 16777216 + b5 * 65536 + b6 * 256 + b7) / 256 % 256 = b6 ∧
      (b0 * 72057594037927936 + b1 * 281474976710656 + b2 * 1099511627776 +
        b3 * 4294967296 + b4 * 16777216 + b5 * 65536 + b6 * 256 + b7) / 65536 % 256 = b5 ∧
      (b0 * 72057594037927936 + b1 * 281474976710656 + b2 * 1099511627776 +
        b3 * 4294967296 + b4 * 16777216 + b5 * 65536 + b6 * 256 + b7) / 16777216 % 256 =
          b4 ∧
      (b0 * 72057594037927936 + b1 * 281474976710656 + b2 * 1099511627776 +
        b3 * 4294967296 + b4 * 16777216 + b5 * 65536 + b6 * 256 + b7) / 4294967296 % 256 =
          b3 ∧
      (b0 * 72057594037927936 + b1 * 281474976710656 + b2 * 1099511627776 +
        b3 * 4294967296 + b4 * 16777216 + b5 * 65536 + b6 * 256 + b7) / 1099511627776 % 256 =
          b2 ∧
      (b0 * 72057594037927936 + b1 * 281474976710656 + b2 * 1099511627776 +
        b3 * 4294967296 + b4 * 16777216 + b5 * 65536 + b6 * 256 + b7) / 281474976710656 %
          256 = b1 ∧
      (b0 * 72057594037927936 + b1 * 281474976710656 + b2 * 1099511627776 +
        b3 * 4294967296 + b4 * 16777216 + b5 * 65536 + b6 * 256 + b7) / 72057594037927936 =
          b0 := by
  refine ⟨by omega, by omega, by omega, by omega, by omega, by omega, by omega, by omega⟩

/-- Swapping the bytes of a 64-bit value twice gives the value back. -/
theorem ByteSwap64_ByteSwap64 (v : Nat) (hv : v < 2 ^ 64) :
    ByteSwap64 (ByteSwap64 v) = v := by
  rw [ByteSwap64_eq (ByteSwap64 v), ByteSwap64_eq v]
  obtain ⟨f7, f6, f5, f4, f3, f2, f1, f0⟩ := digits_eight (v % 256) (v / 256 % 256)
    (v / 65536 % 256) (v / 16777216 % 256) (v / 4294967296 % 256) (v / 1099511627776 % 256)
    (v / 281474976710656 % 256) (v / 72057594037927936 % 256) (by omega) (by omega) (by omega)
    (by omega) (by omega) (by omega) (by omega)
  rw [f7, f6, f5, f4, f3, f2, f1, f0]
  clear f7 f6 f5 f4 f3 f2 f1 f0
  omega

/-- A byte written by a host store is read back at its address. -/
theorem storeBytes_read (mem : Nat → Nat) (p v n i : Nat) (hn : n ≤ 8)
    (hi : i < n) : storeBytes mem p v n ((p + i) % U64) = (v >>> (8 * i)) % 256 := by
  induction n with
  | zero => omega
  | succ k ih =>
    unfold storeBytes
    by_cases hik : i = k
    · subst hik
      simp
    · have hne : (p + i) % U64 ≠ (p + k) % U64 := by
        unfold U64
        omega
      simp only [hne, if_false]
      exact ih (by omega) (by omega)

/-- The bytes of a value add up to the value modulo `2^16`, `2^32`, `2^64`. -/
theorem bytes_sum (x : Nat) :
    x % 256 + x / 256 % 256 * 256 = x % 65536 ∧
    x % 256 + x / 256 % 256 * 256 + x / 65536 % 256 * 65536 +
      x / 16777216 % 256 * 16777216 = x % 4294967296 ∧
    x % 256 + x / 256 % 256 * 256 + x / 65536 % 256 * 65536 +
      x / 16777216 % 256 * 16777216 + x / 4294967296 % 256 * 4294967296 +
      x / 1099511627776 % 256 * 1099511627776 +
      x / 281474976710656 % 256 * 281474976710656 +
      x / 72057594037927936 % 256 * 72057594037927936 = x % 18446744073709551616 := by
  refine ⟨by omega, by omega, by omega⟩

/-- A 16-bit host load after a 16-bit host store at the same address. -/
theorem load16_store16 (mem : Nat → Nat) (p x : Nat) (hp : p < U64) :
    load16 (store16 mem p x) p = x % 65536 := by
  have r0 : store16 mem p x p = x / 1 % 256 := by
    have := storeBytes_read mem p x 2 0 (by omega) (by omega)
    rw [Nat.add_zero, Nat.mod_eq_of_lt hp, Nat.shiftRight_eq_div_pow] at this
    exact this
  have r1 : store16 mem p x ((p + 1) % U64) = x / 256 % 256 := by
    have := storeBytes_read mem p x 2 1 (by omega) (by omega)
    rw [Nat.shiftRight_eq_div_pow] at this
    exact this
  unfold load16
  rw [r0, r1]
  simp only [Nat.mod_mod, Nat.div_one]
  rw [load_chain2 _ _ (Nat.mod_lt _ (by norm_num))]
  exact (bytes_sum x).1

/-- A 32-bit host load after a 32-bit host store at the same address. -/
theorem load32_store32 (mem : Nat → Nat) (p x : Nat) (hp : p < U64) :
    load32 (store32 mem p x) p = x % 4294967296 := by
  have r0 : store32 mem p x p = x / 1 % 256 := by
    have := storeBytes_read mem p x 4 0 (by omega) (by omega)
    rw [Nat.add_zero, Nat.mod_eq_of_lt hp, Nat.shiftRight_eq_div_pow] at this
    exact this
  have r1 : store32 mem p x ((p + 1) % U64) = x / 256 % 256 := by
    have := storeBytes_read mem p x 4 1 (by omega) (by omega)
    rw [Nat.shiftRight_eq_div_pow] at this
    exact this
  have r2 : store32 mem p x ((p + 2) % U64) = x / 65536 % 256 := by
    have := storeBytes_read mem p x 4 2 (by omega) (by omega)
    rw [Nat.shiftRight_eq_div_pow] at this
    exact this
  have r3 : store32 mem p x ((p + 3) % U64) = x / 16777216 % 256 := by
    have := storeBytes_read mem p x 4 3 (by omega) (by omega)
    rw [Nat.shiftRight_eq_div_pow] at this
    exact this
  unfold load32
  rw [r0, r1, r2, r3]
  simp only [Nat.mod_mod, Nat.div_one]
  rw [load_chain4 _ _ _ _ (Nat.mod_lt _ (by norm_num)) (Nat.mod_lt _ (by norm_num))
    (Nat.mod_lt _ (by norm_num))]
  exact (bytes_sum x).2.1

/-- A 64-bit host load after a 64-bit host store at the same address. -/
theorem load64_store64 (mem : Nat → Nat) (p x : Nat) (hp : p < U64) :
    load64 (store64 mem p x) p = x % 18446744073709551616 := by
  have r0 : store64 mem p x p = x / 1 % 256 := by
    have := storeBytes_read mem p x 8 0 (by omega) (by omega)
    rw [Nat.add_zero, Nat.mod_eq_of_lt hp, Nat.shiftRight_eq_div_pow] at this
    exact this
  have r1 : store64 mem p x ((p + 1) % U64) = x / 256 % 256 := by
    have := storeBytes_read mem p x 8 1 (by omega) (by omega)
    rw [Nat.shiftRight_eq_div_pow] at this
    exact this
  have r2 : store64 mem p x ((p + 2) % U64) = x / 65536 % 256 := by
    have := storeBytes_read mem p x 8 2 (by omega) (by omega)
    rw [Nat.shiftRight_eq_div_pow] at this
    exact this
  have r3 : store64 mem p x ((p + 3) % U64) = x / 16777216 % 256 := by
    have := storeBytes_read mem p x 8 3 (by omega) (by omega)
    rw [Nat.shiftRight_eq_div_pow] at this
    exact this
  have r4 : store64 mem p x ((p + 4) % U64) = x / 4294967296 % 256 := by
    have := storeBytes_read mem p x 8 4 (by omega) (by omega)
    rw [Nat.shiftRight_eq_div_pow] at this
    exact this
  have r5 : store64 mem p x ((p + 5) % U64) = x / 1099511627776 % 256 := by
    have := storeBytes_read mem p x 8 5 (by omega) (by omega)
    rw [Nat.shiftRight_eq_div_pow] at this
    exact this
  have r6 : store64 mem p x ((p + 6) % U64) = x / 281474976710656 % 256 := by
    have := storeBytes_read mem p x 8 6 (by omega) (by omega)
    rw [Nat.shiftRight_eq_div_pow] at this
    exact this
  have r7 : store64 mem p x ((p + 7) % U64) = x / 72057594037927936 % 256 := by
    have := storeBytes_read mem p x 8 7 (by omega) (by omega)
    rw [Nat.shiftRight_eq_div_pow] at this
    exact this
  unfold load64
  rw [r0, r1, r2, r3, r4, r5, r6, r7]
  simp only [Nat.mod_mod, Nat.div_one]
  rw [load_chain8 _ _ _ _ _ _ _ _ (Nat.mod_lt _ (by norm_num)) (Nat.mod_lt _ (by norm_num))
    (Nat.mod_lt _ (by norm_num)) (Nat.mod_lt _ (by norm_num)) (Nat.mod_lt _ (by norm_num))
    (Nat.mod_lt _ (by norm_num)) (Nat.mod_lt _ (by norm_num))]
  exact (bytes_sum x).2.2

/-- C26: on a byte-addressed memory, for every pointer `base`, address `a` and 32-bit
value `v`, `PPC_STORE_U32(a, v)` followed by `PPC_LOAD_U32(a)` yields `v`; likewise the
U16 pair for every 16-bit value and the U64 pair for every 64-bit value. -/
theorem C26_store_load_roundtrip (mem : Nat → Nat) (base a : Nat) :
    (∀ v, v < 2 ^ 32 → PPC_LOAD_U32 (PPC_STORE_U32 mem base a v) base a = v) ∧
    (∀ v, v < 2 ^ 16 → PPC_LOAD_U16 (PPC_STORE_U16 mem base a v) base a = v) ∧
    (∀ v, v < 2 ^ 64 → PPC_LOAD_U64 (PPC_STORE_U64 mem base a v) base a = v) := by
  have hp : (base + a) % U64 < U64 := Nat.mod_lt _ (by unfold U64; norm_num)
  refine ⟨?_, ?_, ?_⟩
  · intro v hv
    unfold PPC_LOAD_U32 PPC_STORE_U32
    have hv2 : v % U32 = v := Nat.mod_eq_of_lt (by unfold U32; exact hv)
    rw [load32_store32 _ _ _ hp, hv2]
    have hb : ByteSwap v % 4294967296 = ByteSwap v := by
      rw [ByteSwap_eq]
      omega
    rw [hb]
    exact ByteSwap_ByteSwap v hv
  · intro v hv
    unfold PPC_LOAD_U16 PPC_STORE_U16
    have hv2 : v % 2 ^ 16 = v := Nat.mod_eq_of_lt hv
    rw [load16_store16 _ _ _ hp, hv2]
    have hb : ByteSwap16 v % 65536 = ByteSwap16 v := by
      rw [ByteSwap16_eq]
      omega
    rw [hb]
    exact ByteSwap16_ByteSwap16 v hv
  · intro v hv
    unfold PPC_LOAD_U64 PPC_STORE_U64
    have hv2 : v % U64 = v := Nat.mod_eq_of_lt (by unfold U64; exact hv)
    rw [load64_store64 _ _ _ hp, hv2]
    have hb : ByteSwap64 v % 18446744073709551616 = ByteSwap64 v := by
      rw [ByteSwap64_eq]
      omega
    rw [hb]
    exact ByteSwap64_ByteSwap64 v hv

/-- C26 at the value `0xDEADBEEF` and the address `0x100`. -/
theorem C26_store_load_roundtrip_witness :
    PPC_LOAD_U32 (PPC_STORE_U32 (fun _ => 0) 0 0x100 0xDEADBEEF) 0 0x100 = 0xDEADBEEF :=
  (C26_store_load_roundtrip (fun _ => 0) 0 0x100).1 0xDEADBEEF (by norm_num)

/-! ## Theorems: system function entries -/

/-- An insertion into the symbol set keeps what the set holds. -/
theorem insertSymbol_holds (env : LoaderEnv) (symbols : List Symbol) (s t : Symbol)
    (h : holdsSymbol env symbols s) : holdsSymbol env (insertSymbol env symbols t) s := by
  unfold insertSymbol
  split_ifs
  · exact h
  · rcases h with h | ⟨s0, hs0, hsame⟩
    · exact Or.inl (List.mem_append_left _ h)
    · exact Or.inr ⟨s0, List.mem_append_left _ hs0, hsame⟩

/-- After the insertion of a symbol the set holds it. -/
theorem insertSymbol_self (env : LoaderEnv) (symbols : List Symbol) (s : Symbol) :
    holdsSymbol env (insertSymbol env symbols s) s := by
  unfold insertSymbol
  split_ifs with h
  · obtain ⟨s0, hs0, hsame⟩ := List.any_eq_true.mp h
    exact Or.inr ⟨s0, hs0, hsame⟩
  · exact Or.inl (List.mem_append_right _ (List.mem_singleton.mpr rfl))

/-- One block of the loop leaves the configuration alone and keeps the functions and
symbols present. -/
theorem systemFunctionEntry_keeps (env : LoaderEnv) (r : Recompiler) (address i : Nat)
    (stem : String) (trailing : Nat) :
    (r.systemFunctionEntry env address i stem trailing).config = r.config ∧
      (∀ f ∈ r.functions, f ∈ (r.systemFunctionEntry env address i stem trailing).functions) ∧
      (∀ s, holdsSymbol env r.image.symbols s →
        holdsSymbol env (r.systemFunctionEntry env address i stem trailing).image.symbols s) := by
  unfold Recompiler.systemFunctionEntry
  split_ifs with h
  · exact ⟨rfl, fun f hf => List.mem_append_left _ hf,
      fun s hs => insertSymbol_holds env _ s _ hs⟩
  · exact ⟨rfl, fun f hf => hf, fun s hs => hs⟩

/-- One block of the loop, for a non-zero address, appends the function and emplaces the
symbol. -/
theorem systemFunctionEntry_adds (env : LoaderEnv) (r : Recompiler) (address i : Nat)
    (stem : String) (trailing : Nat) (h : address ≠ 0) :
    (⟨(address + ((i - 14) * 4) % U64) % U64, (((32 - i) * 4) % U64 + trailing) % U64, []⟩ :
        Function) ∈ (r.systemFunctionEntry env address i stem trailing).functions ∧
      holdsSymbol env (r.systemFunctionEntry env address i stem trailing).image.symbols
        ⟨stem ++ toString i, (address + ((i - 14) * 4) % U64) % U64 % U32,
          (((32 - i) * 4) % U64 + trailing) % U64 % U32, SymbolType.Symbol_Function⟩ := by
  unfold Recompiler.systemFunctionEntry
  simp only [h, ne_eq, not_false_eq_true, if_true]
  exact ⟨List.mem_append_right _ (List.mem_singleton.mpr rfl), insertSymbol_self env _ _⟩

/-- The body of the loop leaves the configuration alone and keeps the functions and
symbols present. -/
theorem systemFunctionEntries_keeps (env : LoaderEnv) (r : Recompiler) (i : Nat) :
    (r.systemFunctionEntries env i).config = r.config ∧
      (∀ f ∈ r.functions, f ∈ (r.systemFunctionEntries env i).functions) ∧
      (∀ s, holdsSymbol env r.image.symbols s →
        holdsSymbol env (r.systemFunctionEntries env i).image.symbols s) := by
  unfold Recompiler.systemFunctionEntries
  simp only
  obtain ⟨c1, f1, s1⟩ := systemFunctionEntry_keeps env r r.config.restGpr14Address i
    "__restgprlr_" 12
  generalize r.systemFunctionEntry env r.config.restGpr14Address i "__restgprlr_" 12 = r1
    at c1 f1 s1 ⊢
  obtain ⟨c2, f2, s2⟩ := systemFunctionEntry_keeps env r1 r1.config.saveGpr14Address i
    "__savegprlr_" 8
  generalize r1.systemFunctionEntry env r1.config.saveGpr14Address i "__savegprlr_" 8 = r2
    at c2 f2 s2 ⊢
  obtain ⟨c3, f3, s3⟩ := systemFunctionEntry_keeps env r2 r2.config.restFpr14Address i
    "__restfpr_" 4
  generalize r2.systemFunctionEntry env r2.config.restFpr14Address i "__restfpr_" 4 = r3
    at c3 f3 s3 ⊢
  obtain ⟨c4, f4, s4⟩ := systemFunctionEntry_keeps env r3 r3.config.saveFpr14Address i
    "__savefpr_" 4
  refine ⟨by rw [c4, c3, c2, c1], fun f hf => f4 f (f3 f (f2 f (f1 f hf))),
    fun s hs => s4 s (s3 s (s2 s (s1 s hs)))⟩

/-- The body of the loop appends, for each non-zero helper address, the function of the
helper with number `i` and emplaces its symbol. -/
theorem systemFunctionEntries_adds (env : LoaderEnv) (r : Recompiler) (i : Nat) :
    (r.config.restGpr14Address ≠ 0 →
      (⟨(r.config.restGpr14Address + ((i - 14) * 4) % U64) % U64,
          (((32 - i) * 4) % U64 + 12) % U64, []⟩ : Function) ∈
        (r.systemFunctionEntries env i).functions ∧
      holdsSymbol env (r.systemFunctionEntries env i).image.symbols
        ⟨"__restgprlr_" ++ toString i,
          (r.config.restGpr14Address + ((i - 14) * 4) % U64) % U64 % U32,
          (((32 - i) * 4) % U64 + 12) % U64 % U32, SymbolType.Symbol_Function⟩) ∧
    (r.config.saveGpr14Address ≠ 0 →
      (⟨(r.config.saveGpr14Address + ((i - 14) * 4) % U64) % U64,
          (((32 - i) * 4) % U64 + 8) % U64, []⟩ : Function) ∈
        (r.systemFunctionEntries env i).functions ∧
      holdsSymbol env (r.systemFunctionEntries env i).image.symbols
        ⟨"__savegprlr_" ++ toString i,
          (r.config.saveGpr14Address + ((i - 14) * 4) % U64) % U64 % U32,
          (((32 - i) * 4) % U64 + 8) % U64 % U32, SymbolType.Symbol_Function⟩) ∧
    (r.config.restFpr14Address ≠ 0 →
      (⟨(r.config.restFpr14Address + ((i - 14) * 4) % U64) % U64,
          (((32 - i) * 4) % U64 + 4) % U64, []⟩ : Function) ∈
        (r.systemFunctionEntries env i).functions ∧
      holdsSymbol env (r.systemFunctionEntries env i).image.symbols
        ⟨"__restfpr_" ++ toString i,
          (r.config.restFpr14Address + ((i - 14) * 4) % U64) % U64 % U32,
          (((32 - i) * 4) % U64 + 4) % U64 % U32, SymbolType.Symbol_Function⟩) ∧
    (r.config.saveFpr14Address ≠ 0 →
      (⟨(r.config.saveFpr14Address + ((i - 14) * 4) % U64) % U64,
          (((32 - i) * 4) % U64 + 4) % U64, []⟩ : Function) ∈
        (r.systemFunctionEntries env i).functions ∧
      holdsSymbol env (r.systemFunctionEntries env i).image.symbols
        ⟨"__savefpr_" ++ toString i,
          (r.config.saveFpr14Address + ((i - 14) * 4) % U64) % U64 % U32,
          (((32 - i) * 4) % U64 + 4) % U64 % U32, SymbolType.Symbol_Function⟩) := by
  unfold Recompiler.systemFunctionEntries
  simp only
  obtain ⟨c1, f1, s1⟩ := systemFunctionEntry_keeps env r r.config.restGpr14Address i
    "__restgprlr_" 12
  have a1 := systemFunctionEntry_adds env r r.config.restGpr14Address i "__restgprlr_" 12
  generalize r.systemFunctionEntry env r.config.restGpr14Address i "__restgprlr_" 12 = r1
    at c1 f1 s1 a1 ⊢
  obtain ⟨c2, f2, s2⟩ := systemFunctionEntry_keeps env r1 r1.config.saveGpr14Address i
    "__savegprlr_" 8
  have a2 := systemFunctionEntry_adds env r1 r1.config.saveGpr14Address i "__savegprlr_" 8
  generalize r1.systemFunctionEntry env r1.config.saveGpr14Address i "__savegprlr_" 8 = r2
    at c2 f2 s2 a2 ⊢
  obtain ⟨c3, f3, s3⟩ := systemFunctionEntry_keeps env r2 r2.config.restFpr14Address i
    "__restfpr_" 4
  have a3 := systemFunctionEntry_adds env r2 r2.config.restFpr14Address i "__restfpr_" 4
  generalize r2.systemFunctionEntry env r2.config.restFpr14Address i "__restfpr_" 4 = r3
    at c3 f3 s3 a3 ⊢
  obtain ⟨c4, f4, s4⟩ := systemFunctionEntry_keeps env r3 r3.config.saveFpr14Address i
    "__savefpr_" 4
  have a4 := systemFunctionEntry_adds env r3 r3.config.saveFpr14Address i "__savefpr_" 4
  generalize r3.systemFunctionEntry env r3.config.saveFpr14Address i "__savefpr_" 4 = r4
    at c4 f4 s4 a4 ⊢
  have e1 : r1.config = r.config := c1
  have e2 : r2.config = r.config := c2.trans c1
  have e3 : r3.config = r.config := c3.trans e2
  rw [e1] at a2
  rw [e2] at a3
  rw [e3] at a4
  refine ⟨fun h => ?_, fun h => ?_, fun h => ?_, fun h => ?_⟩
  · obtain ⟨hf, hs⟩ := a1 h
    exact ⟨f4 _ (f3 _ (f2 _ hf)), s4 _ (s3 _ (s2 _ hs))⟩
  · obtain ⟨hf, hs⟩ := a2 h
    exact ⟨f4 _ (f3 _ hf), s4 _ (s3 _ hs)⟩
  · obtain ⟨hf, hs⟩ := a3 h
    exact ⟨f4 _ hf, s4 _ hs⟩
  · exact a4 h

/-- The loop over a list of numbers keeps the configuration and what is present. -/
theorem systemFunctions_foldl_keeps (env : LoaderEnv) (l : List Nat) (r : Recompiler) :
    (l.foldl (Recompiler.systemFunctionEntries env) r).config = r.config ∧
      (∀ f ∈ r.functions, f ∈ (l.foldl (Recompiler.systemFunctionEntries env) r).functions) ∧
      (∀ s, holdsSymbol env r.image.symbols s →
        holdsSymbol env (l.foldl (Recompiler.systemFunctionEntries env) r).image.symbols s) := by
  induction l generalizing r with
  | nil => exact ⟨rfl, fun f hf => hf, fun s hs => hs⟩
  | cons i rest ih =>
    obtain ⟨c1, f1, s1⟩ := systemFunctionEntries_keeps env r i
    obtain ⟨c2, f2, s2⟩ := ih (r.systemFunctionEntries env i)
    simp only [List.foldl_cons]
    exact ⟨c2.trans c1, fun f hf => f2 f (f1 f hf), fun s hs => s2 s (s1 s hs)⟩

/-- The loop over a list of numbers that contains `N` appends, for each non-zero helper
address, the function of the helper with number `N` and emplaces its symbol. -/
theorem systemFunctions_foldl_adds (env : LoaderEnv) (l : List Nat) (r : Recompiler) (N : Nat)
    (hN : N ∈ l) (address : Nat) (stem : String) (trailing : Nat) (h0 : address ≠ 0)
    (hk : (r.config.restGpr14Address = address ∧ stem = "__restgprlr_" ∧ trailing = 12) ∨
      (r.config.saveGpr14Address = address ∧ stem = "__savegprlr_" ∧ trailing = 8) ∨
      (r.config.restFpr14Address = address ∧ stem = "__restfpr_" ∧ trailing = 4) ∨
      (r.config.saveFpr14Address = address ∧ stem = "__savefpr_" ∧ trailing = 4)) :
    (⟨(address + ((N - 14) * 4) % U64) % U64, (((32 - N) * 4) % U64 + trailing) % U64, []⟩ :
        Function) ∈ (l.foldl (Recompiler.systemFunctionEntries env) r).functions ∧
      holdsSymbol env (l.foldl (Recompiler.systemFunctionEntries env) r).image.symbols
        ⟨stem ++ toString N, (address + ((N - 14) * 4) % U64) % U64 % U32,
          (((32 - N) * 4) % U64 + trailing) % U64 % U32, SymbolType.Symbol_Function⟩ := by
  induction l generalizing r with
  | nil => simp at hN
  | cons i rest ih =>
    simp only [List.foldl_cons]
    obtain ⟨c1, _, _⟩ := systemFunctionEntries_keeps env r i
    by_cases hi : N = i
    · subst hi
      obtain ⟨_, f2, s2⟩ := systemFunctions_foldl_keeps env rest (r.systemFunctionEntries env N)
      obtain ⟨a1, a2, a3, a4⟩ := systemFunctionEntries_adds env r N
      rcases hk with ⟨ha, hs, ht⟩ | ⟨ha, hs, ht⟩ | ⟨ha, hs, ht⟩ | ⟨ha, hs, ht⟩
      · subst ha hs ht
        exact ⟨f2 _ (a1 h0).1, s2 _ (a1 h0).2⟩
      · subst ha hs ht
        exact ⟨f2 _ (a2 h0).1, s2 _ (a2 h0).2⟩
      · subst ha hs ht
        exact ⟨f2 _ (a3 h0).1, s2 _ (a3 h0).2⟩
      · subst ha hs ht
        exact ⟨f2 _ (a4 h0).1, s2 _ (a4 h0).2⟩
    · have hrest : N ∈ rest := by
        rcases List.mem_cons.mp hN with h | h
        · exact absurd h hi
        · exact h
      exact ih (r.systemFunctionEntries env i) hrest (by rw [c1]; exact hk)

set_option maxRecDepth 8000 in
/-- C24 (counterexample): with `0x02000000` configured as the address of `__restgprlr_14`,
the function created for N = 14 starts at `0x02000000` and has size 84, not
`4*(14-14) + 12 = 12`, and the function created for N = 31 starts at `0x02000044` and has
size 16, not `4*(31-14) + 12 = 80`; no function of the claimed size is created at either
address. -/
theorem C24_helper_sizes_counterexample :
    (⟨0x02000000, 84, []⟩ : Function) ∈
        (Recompiler.generateSystemFunctions failingZlibEnv restGprRecompiler).functions ∧
      (⟨0x02000044, 16, []⟩ : Function) ∈
        (Recompiler.generateSystemFunctions failingZlibEnv restGprRecompiler).functions ∧
      (∀ f ∈ (Recompiler.generateSystemFunctions failingZlibEnv restGprRecompiler).functions,
        ¬ (f.base = 0x02000000 + 4 * (14 - 14) ∧ f.size = 4 * (14 - 14) + 12) ∧
        ¬ (f.base = 0x02000000 + 4 * (31 - 14) ∧ f.size = 4 * (31 - 14) + 12)) := by
  decide

/-- C24 (amended): for each N in 14..31 and each configured non-zero helper base address
B (a `uint32_t`), the start of `Recompiler::Analyse` creates a function starting at
`B + 4*(N-14)` whose size is `4*(32-N) + 12` for `__restgprlr_N`, `4*(32-N) + 8` for
`__savegprlr_N` and `4*(32-N) + 4` for `__restfpr_N` and `__savefpr_N`, and emplaces a
Function symbol with that name, the address taken in `uint32_t`, and that size. -/
theorem C24_helper_sizes_amended (env : LoaderEnv) (r : Recompiler) (N : Nat)
    (hlo : 14 ≤ N) (hhi : N ≤ 31) :
    (r.config.restGpr14Address ≠ 0 → r.config.restGpr14Address < U32 →
      (⟨r.config.restGpr14Address + 4 * (N - 14), 4 * (32 - N) + 12, []⟩ : Function) ∈
        (Recompiler.generateSystemFunctions env r).functions ∧
      holdsSymbol env (Recompiler.generateSystemFunctions env r).image.symbols
        ⟨"__restgprlr_" ++ toString N, (r.config.restGpr14Address + 4 * (N - 14)) % U32,
          4 * (32 - N) + 12, SymbolType.Symbol_Function⟩) ∧
    (r.config.saveGpr14Address ≠ 0 → r.config.saveGpr14Address < U32 →
      (⟨r.config.saveGpr14Address + 4 * (N - 14), 4 * (32 - N) + 8, []⟩ : Function) ∈
        (Recompiler.generateSystemFunctions env r).functions ∧
      holdsSymbol env (Recompiler.generateSystemFunctions env r).image.symbols
        ⟨"__savegprlr_" ++ toString N, (r.config.saveGpr14Address + 4 * (N - 14)) % U32,
          4 * (32 - N) + 8, SymbolType.Symbol_Function⟩) ∧
    (r.config.restFpr14Address ≠ 0 → r.config.restFpr14Address < U32 →
      (⟨r.config.restFpr14Address + 4 * (N - 14), 4 * (32 - N) + 4, []⟩ : Function) ∈
        (Recompiler.generateSystemFunctions env r).functions ∧
      holdsSymbol env (Recompiler.generateSystemFunctions env r).image.symbols
        ⟨"__restfpr_" ++ toString N, (r.config.restFpr14Address + 4 * (N - 14)) % U32,
          4 * (32 - N) + 4, SymbolType.Symbol_Function⟩) ∧
    (r.config.saveFpr14Address ≠ 0 → r.config.saveFpr14Address < U32 →
      (⟨r.config.saveFpr14Address + 4 * (N - 14), 4 * (32 - N) + 4, []⟩ : Function) ∈
        (Recompiler.generateSystemFunctions env r).functions ∧
      holdsSymbol env (Recompiler.generateSystemFunctions env r).image.symbols
        ⟨"__savefpr_" ++ toString N, (r.config.saveFpr14Address + 4 * (N - 14)) % U32,
          4 * (32 - N) + 4, SymbolType.Symbol_Function⟩) := by
  have hmem : N ∈ List.range' 14 18 := by
    rw [List.mem_range']
    exact ⟨N - 14, by omega, by omega⟩
  have key : ∀ (address : Nat) (stem : String) (trailing : Nat), address ≠ 0 →
      address < U32 → trailing ≤ 12 →
      ((r.config.restGpr14Address = address ∧ stem = "__restgprlr_" ∧ trailing = 12) ∨
        (r.config.saveGpr14Address = address ∧ stem = "__savegprlr_" ∧ trailing = 8) ∨
        (r.config.restFpr14Address = address ∧ stem = "__restfpr_" ∧ trailing = 4) ∨
        (r.config.saveFpr14Address = address ∧ stem = "__savefpr_" ∧ trailing = 4)) →
      (⟨address + 4 * (N - 14), 4 * (32 - N) + trailing, []⟩ : Function) ∈
        (Recompiler.generateSystemFunctions env r).functions ∧
      holdsSymbol env (Recompiler.generateSystemFunctions env r).image.symbols
        ⟨stem ++ toString N, (address + 4 * (N - 14)) % U32, 4 * (32 - N) + trailing,
          SymbolType.Symbol_Function⟩ := by
    intro address stem trailing h0 hlt ht hk
    have := systemFunctions_foldl_adds env (List.range' 14 18) { r with functions := [] } N
      hmem address stem trailing h0 hk
    have e1 : (address + ((N - 14) * 4) % U64) % U64 = address + 4 * (N - 14) := by
      unfold U64
      unfold U32 at hlt
      omega
    have e2 : (((32 - N) * 4) % U64 + trailing) % U64 = 4 * (32 - N) + trailing := by
      unfold U64
      omega
    have e3 : (4 * (32 - N) + trailing) % U32 = 4 * (32 - N) + trailing := by
      unfold U32
      omega
    rw [e1, e2, e3] at this
    unfold Recompiler.generateSystemFunctions
    exact this
  refine ⟨fun h0 hlt => ?_, fun h0 hlt => ?_, fun h0 hlt => ?_, fun h0 hlt => ?_⟩
  · exact key _ _ 12 h0 hlt (by omega) (Or.inl ⟨rfl, rfl, rfl⟩)
  · exact key _ _ 8 h0 hlt (by omega) (Or.inr (Or.inl ⟨rfl, rfl, rfl⟩))
  · exact key _ _ 4 h0 hlt (by omega) (Or.inr (Or.inr (Or.inl ⟨rfl, rfl, rfl⟩)))
  · exact key _ _ 4 h0 hlt (by omega) (Or.inr (Or.inr (Or.inr ⟨rfl, rfl, rfl⟩)))

/-- C24 (amended) at N = 14 with `0x02000000` configured for `__restgprlr_14`. -/
theorem C24_helper_sizes_amended_witness :
    (⟨0x02000000 + 4 * (14 - 14), 4 * (32 - 14) + 12, []⟩ : Function) ∈
        (Recompiler.generateSystemFunctions failingZlibEnv restGprRecompiler).functions ∧
      holdsSymbol failingZlibEnv
        (Recompiler.generateSystemFunctions failingZlibEnv restGprRecompiler).image.symbols
        ⟨"__restgprlr_" ++ toString 14, (0x02000000 + 4 * (14 - 14)) % U32,
          4 * (32 - 14) + 12, SymbolType.Symbol_Function⟩ :=
  (C24_helper_sizes_amended failingZlibEnv restGprRecompiler 14 (by decide) (by decide)).1
    (by decide) (by decide)

/-! ## Theorems: jump-table scan -/

/-- No descriptor of the table carries the id `PPC_INST_RLWINM`. -/
theorem descriptors_no_rlwinm : ∀ d ∈ descriptors, d.id ≠ .PPC_INST_RLWINM := by
  decide

/-- A decode never yields a descriptor with the id `PPC_INST_RLWINM`. -/
theorem disassembleAt_not_rlwinm (bytes : List Nat) (p : Nat) (insn0 insn : ppc_insn)
    (d : ppc_opcode) (h : disassembleAt bytes p insn0 = some insn) (hd : insn.opcode = some d) :
    d.id ≠ .PPC_INST_RLWINM := by
  unfold disassembleAt at h
  split_ifs at h
  simp only [Option.some.injEq] at h
  subst h
  unfold Disassemble at hd
  rw [(DecodeInstruction_opcode _ _).1] at hd
  exact descriptors_no_rlwinm d (GetOpcode_some _ d hd).1

/-- The inner loop of `SearchMask` never runs through a pattern that names
`PPC_INST_RLWINM`. -/
theorem matchCompare_rlwinm (bytes : List Nat) (compare : List ppc_insn_id)
    (hmem : ppc_insn_id.PPC_INST_RLWINM ∈ compare) :
    ∀ p, matchCompare bytes p compare ≠ some true := by
  induction compare with
  | nil => simp at hmem
  | cons id rest ih =>
    intro p
    unfold matchCompare
    cases h : disassembleAt bytes p freshInsn with
    | none => simp
    | some insn =>
      simp only []
      cases hd : insn.opcode with
      | none => simp
      | some d =>
        simp only []
        by_cases hid : d.id = id
        · rw [if_neg (by simpa using hid)]
          rcases List.mem_cons.1 hmem with heq | hrest
          · exact absurd (hid.trans heq.symm) (disassembleAt_not_rlwinm bytes p _ insn d h hd)
          · exact ih hrest (p + 4)
        · rw [if_pos hid]
          simp

/-- The outer loop of `SearchMask` finds no match of such a pattern. -/
theorem searchMaskLoop_rlwinm (bytes : List Nat) (source : Nat) (compare : List ppc_insn_id)
    (hmem : ppc_insn_id.PPC_INST_RLWINM ∈ compare) (n : Nat) :
    ∀ i, searchMaskLoop bytes source compare n i = none ∨
      searchMaskLoop bytes source compare n i = some none := by
  induction n with
  | zero => intro i; right; rfl
  | succ n ih =>
    intro i
    unfold searchMaskLoop
    cases h : matchCompare bytes (source + 4 * i) compare with
    | none => left; rfl
    | some b =>
      cases b with
      | true => exact absurd h (matchCompare_rlwinm bytes compare hmem _)
      | false => exact ih (i + 1)

/-- The scan of one section adds no table for such a pattern. -/
theorem scanSection_rlwinm (image : RPXImage) (bytes : List Nat) (base dataEnd : Nat)
    (pattern : List ppc_insn_id) (type : Nat)
    (hmem : ppc_insn_id.PPC_INST_RLWINM ∈ pattern) (fuel data : Nat)
    (switches : List SwitchTable) :
    scanSection image bytes base dataEnd pattern type fuel data switches = none ∨
      scanSection image bytes base dataEnd pattern type fuel data switches = some switches := by
  cases fuel with
  | zero => left; rfl
  | succ fuel =>
    unfold scanSection
    by_cases hlt : data < dataEnd
    · rw [if_pos hlt]
      unfold SearchMask
      rcases searchMaskLoop_rlwinm bytes data pattern hmem ((dataEnd - data) / 4) 0 with h | h
      · rw [h]; left; rfl
      · rw [h]; right; rfl
    · rw [if_neg hlt]; right; rfl

/-- The scan of all sections adds no table for such a pattern. -/
theorem scanPattern_rlwinm (pattern : List ppc_insn_id) (type : Nat)
    (hmem : ppc_insn_id.PPC_INST_RLWINM ∈ pattern) (fuel : Nat) (image : RPXImage)
    (switches : List SwitchTable) :
    scanPattern image pattern type fuel switches = none ∨
      scanPattern image pattern type fuel switches = some switches := by
  unfold scanPattern
  generalize image.sections = sections
  have hnone : ∀ l : List Section, List.foldl
      (fun acc sec =>
        match acc with
        | none => none
        | some switches =>
          if sec.flags &&& SectionFlags_Code = 0 then some switches
          else
            match sec.data with
            | none => some switches
            | some bytes =>
              scanSection image bytes sec.base sec.size pattern type fuel 0 switches)
      (none : Option (List SwitchTable)) l = none := by
    intro l
    induction l with
    | nil => rfl
    | cons sec rest ih => simpa using ih
  induction sections with
  | nil => right; rfl
  | cons sec rest ih =>
    rw [List.foldl_cons]
    simp only []
    by_cases hflag : sec.flags &&& SectionFlags_Code = 0
    · rw [if_pos hflag]; exact ih
    · rw [if_neg hflag]
      cases hdata : sec.data with
      | none => exact ih
      | some bytes =>
        simp only []
        rcases scanSection_rlwinm image bytes sec.base sec.size pattern type hmem fuel 0
          switches with h | h
        · rw [h]; left; exact hnone rest
        · rw [h]; exact ih

set_option maxRecDepth 8000 in
/-- C23 (code bug): the scan for the absolute jump-table pattern finds nothing.  The
table of `ppc::GetOpcode` has no entry with the id `PPC_INST_RLWINM`, so for every image
the scan with the pattern `absoluteSwitch` leaves the vector of tables as it was (or
faults on a read outside a section).  In the section of `jumpTableImage`, which holds
`cmplwi r3, 3`, `bgt`, and then `lis`, `addi`, `slwi .., 2`, `lwzx`, `mtctr`, `bctr`, the
`lis` word decodes as `addis`, the `slwi` word has no descriptor and the `bctr` word
decodes as `bcctr`; the scan ends without a fault and yields no table at all, not one. -/
theorem C23_absolute_jump_table_not_found (fuel : Nat) :
    (∀ w d, GetOpcode w = some d → d.id ≠ .PPC_INST_RLWINM) ∧
      (∀ image switches,
        scanPattern image absoluteSwitch SWITCH_ABSOLUTE fuel switches = none ∨
          scanPattern image absoluteSwitch SWITCH_ABSOLUTE fuel switches = some switches) ∧
      (GetOpcode 0x3D600200).map (fun d => d.id) = some .PPC_INST_ADDIS ∧
      GetOpcode 0x5460103A = none ∧
      (GetOpcode 0x4E800420).map (fun d => d.id) = some .PPC_INST_BCCTR ∧
      scanPattern jumpTableImage absoluteSwitch SWITCH_ABSOLUTE (fuel + 1) [] = some [] :=
  ⟨fun w d h => descriptors_no_rlwinm d (GetOpcode_some w d h).1,
    fun image switches =>
      scanPattern_rlwinm absoluteSwitch SWITCH_ABSOLUTE (by decide) fuel image switches,
    by decide, by decide, by decide, rfl⟩

/-! ## Theorems: the words read by the analysis -/

set_option maxRecDepth 8000 in
/-- C30 (code bug): `Function::Analyze` reads outside the window.  The loop condition is
`data <= dataEnd`, so for the window of 4 bytes holding `nop` the loop reads the words at
the byte offsets 0 and 4, the second one past the end of the window; the returned
function has size 8, and its blocks change with the word that follows the window in
memory.  For the window of 4 bytes holding `beq -4` the loop reads the word at offset
`-4` (`2^64 - 4`), before the start of the window, and then the word at offset 4.  This
holds for every amount of fuel of at least 3 (4 for the last window). -/
theorem C30_analyze_reads_outside_window (fuel : Nat) :
    nopWindow.size = 4 ∧
      Function.AnalyzeReads (fuel + 3) nopWindow = some [0, 4] ∧
      Analyze (fuel + 3) nopWindow = some ⟨0x02000000, 8, [⟨0, 8, NPOS⟩]⟩ ∧
      (nopThenBranchWindow.code = nopWindow.code ∧
        nopThenBranchWindow.size = nopWindow.size ∧
        nopThenBranchWindow.base = nopWindow.base ∧
        ∀ i < 4, nopThenBranchWindow.mem (nopWindow.code + i) =
          nopWindow.mem (nopWindow.code + i)) ∧
      Analyze (fuel + 3) nopThenBranchWindow =
        some ⟨0x02000000, 8, [⟨0, 8, NPOS⟩, ⟨8, 0, 4⟩]⟩ ∧
      backwardBranchWindow.size = 4 ∧
      Function.AnalyzeReads (fuel + 4) backwardBranchWindow = some [0, 2 ^ 64 - 4, 4] :=
  ⟨rfl, rfl, rfl, ⟨rfl, rfl, rfl, by decide⟩, rfl, rfl, rfl⟩

/-! ## Theorems: projected sizes -/

/-- The lambda `restoreData` leaves the block stack alone. -/
theorem restoreData_blockStack (s : AnalyzeState) :
    (restoreData s).blockStack = s.blockStack := by
  unfold restoreData
  split <;> rfl

set_option maxHeartbeats 1000000 in
/-- The shape of one pass through the loop body that does not leave by `break`: either
the projection check pops the stack and nothing else changes, or the size of the current
block grows by 4 while it was below its projected size, the block keeps its projected
size or loses it, new blocks of size 0 are appended, and the stack either stays or loses
its top and gains the indices of the new blocks. -/
theorem loopBody_shape (w : Window) (s s1 : AnalyzeState) (cur : Nat) (tail : List Nat)
    (hbase : w.base < U64) (hstack : s.blockStack = cur :: tail)
    (h : loopBody w s = some s1)
    (hbd : PPC_OP (w.insnAt s.data) = PPC_OP_BC → PPC_BL (w.insnAt s.data) = 0 →
      toSizeT (PPC_BD (w.insnAt s.data)) % 4 = 0)
    (hob : (s.blocks.getD cur default).WithinProjection) :
    (s1.blocks = s.blocks ∧ s1.blockStack = tail) ∨
      ∃ nb news,
        s1.blocks = s.blocks.set cur nb ++ news ∧
        ¬ ((s.blocks.getD cur default).projectedSize ≠ NPOS ∧
            (s.blocks.getD cur default).size ≥ (s.blocks.getD cur default).projectedSize) ∧
        nb.base = (s.blocks.getD cur default).base ∧
        nb.size = ((s.blocks.getD cur default).size + 4) % U64 ∧
        (∀ x ∈ news, x.size = 0 ∧ (x.projectedSize = NPOS ∨ x.projectedSize % 4 = 0)) ∧
        ((s1.blockStack = cur :: tail ∧ news = [] ∧
            nb.projectedSize = (s.blocks.getD cur default).projectedSize) ∨
          ((nb.projectedSize = (s.blocks.getD cur default).projectedSize ∨
              nb.projectedSize = NPOS) ∧
            s1.blockStack = (List.range' s.blocks.length news.length).reverse ++ tail)) := by
  unfold loopBody at h
  rw [hstack] at h
  simp only at h
  split_ifs at h
  all_goals
    simp only [Option.some.injEq] at h
    subst h
    simp only [restoreData_blocks, restoreData_blockStack, pushBlock, List.set_set,
      List.length_append, List.length_set, List.length_singleton, List.append_assoc]
  all_goals
    first
      | exact Or.inl ⟨trivial, trivial⟩
      | (right
         refine ⟨_, [], (List.append_nil _).symm, by assumption, rfl, rfl, by simp, ?_⟩
         first
           | exact Or.inl ⟨trivial, rfl, rfl⟩
           | exact Or.inr ⟨Or.inl rfl, rfl⟩
           | exact Or.inr ⟨Or.inr rfl, rfl⟩)
      | (right
         refine ⟨_, _, rfl, by assumption, rfl, rfl, ?_, Or.inr ⟨?_, rfl⟩⟩
         · have h4 : PPC_OP (w.insnAt s.data) = PPC_OP_BC →
               toSizeT (PPC_BD (w.insnAt s.data)) % 4 = 0 := by
             intro hop
             exact hbd hop (by omega)
           obtain ⟨hsz, hpr⟩ := hob
           first
             | (have h5 := h4 (by assumption)
                unfold U64 NPOS at *
                simp only [List.mem_append, List.mem_singleton, forall_eq_or_imp, forall_eq,
                  true_and, and_true, true_or, or_true]
                try omega)
             | (unfold U64 NPOS at *
                simp only [List.mem_append, List.mem_singleton, forall_eq_or_imp, forall_eq,
                  true_and, and_true, true_or, or_true]
                try omega)
         · first
             | exact Or.inl rfl
             | exact Or.inr rfl)

/-- A pass through the body that does not `break` found a block on the stack. -/
theorem loopBody_some_stack (w : Window) (s s1 : AnalyzeState) (h : loopBody w s = some s1) :
    ∃ cur tail, s.blockStack = cur :: tail := by
  cases hs : s.blockStack with
  | nil => simp [loopBody, hs] at h
  | cons cur tail => exact ⟨cur, tail, rfl⟩

/-- A block read from a vector of blocks within their projections is within its own. -/
theorem getD_within (l : List Function.Block) (i : Nat)
    (hl : ∀ b ∈ l, b.WithinProjection) : (l.getD i default).WithinProjection := by
  by_cases hi : i < l.length
  · rw [List.getD_eq_getElem l default hi]
    exact hl _ (List.getElem_mem hi)
  · rw [List.getD_eq_default l default (by omega)]
    exact ⟨rfl, Or.inl rfl⟩

/-- The multiple-of-4 displacement of the conditional branches without link, from the
absence of the AA bit. -/
theorem branch_displacement_aligned (w : Window)
    (hAA : ∀ off, PPC_OP (w.insnAt off) = PPC_OP_BC → PPC_BL (w.insnAt off) = 0 →
      PPC_BA (w.insnAt off) = 0) (off : Nat) :
    PPC_OP (w.insnAt off) = PPC_OP_BC → PPC_BL (w.insnAt off) = 0 →
      toSizeT (PPC_BD (w.insnAt off)) % 4 = 0 := by
  intro hop hlk
  have hm := PPC_BD_mod_four (w.insnAt off) (hAA off hop hlk) hlk
  unfold toSizeT
  omega

/-- A pass whose projection check ends the current block pops the stack and changes
nothing else but the walk position. -/
theorem loopBody_fallthrough (w : Window) (s : AnalyzeState) (cur : Nat) (tail : List Nat)
    (hstack : s.blockStack = cur :: tail)
    (hc : (s.blocks.getD cur default).projectedSize ≠ NPOS ∧
      (s.blocks.getD cur default).size ≥ (s.blocks.getD cur default).projectedSize) :
    loopBody w s = some (restoreData { s with blockStack := tail }) := by
  unfold loopBody
  rw [hstack]
  simp only
  rw [if_pos hc]

/-- The assertion of the conditional-branch case holds in every state when no word of the
memory is a conditional branch without link that has the AA bit set. -/
theorem assert_of_aligned (w : Window)
    (hAA : ∀ off, PPC_OP (w.insnAt off) = PPC_OP_BC → PPC_BL (w.insnAt off) = 0 →
      PPC_BA (w.insnAt off) = 0) (s : AnalyzeState) : w.AssertNotAbsolute s := by
  unfold Window.AssertNotAbsolute
  split
  · trivial
  · intro _ _ hop hlk
    exact hAA s.data hop hlk

/-- The shape of one pass through the loop body, as in `loopBody_shape`, for a pass that
passes the assertion of the conditional-branch case. -/
theorem loopBody_shape_asserted (w : Window) (s s1 : AnalyzeState) (cur : Nat)
    (tail : List Nat) (hbase : w.base < U64) (hstack : s.blockStack = cur :: tail)
    (h : loopBody w s = some s1) (hr : w.inRange s.data = true)
    (ha : w.AssertNotAbsolute s)
    (hob : (s.blocks.getD cur default).WithinProjection) :
    (s1.blocks = s.blocks ∧ s1.blockStack = tail) ∨
      ∃ nb news,
        s1.blocks = s.blocks.set cur nb ++ news ∧
        ¬ ((s.blocks.getD cur default).projectedSize ≠ NPOS ∧
            (s.blocks.getD cur default).size ≥ (s.blocks.getD cur default).projectedSize) ∧
        nb.base = (s.blocks.getD cur default).base ∧
        nb.size = ((s.blocks.getD cur default).size + 4) % U64 ∧
        (∀ x ∈ news, x.size = 0 ∧ (x.projectedSize = NPOS ∨ x.projectedSize % 4 = 0)) ∧
        ((s1.blockStack = cur :: tail ∧ news = [] ∧
            nb.projectedSize = (s.blocks.getD cur default).projectedSize) ∨
          ((nb.projectedSize = (s.blocks.getD cur default).projectedSize ∨
              nb.projectedSize = NPOS) ∧
            s1.blockStack = (List.range' s.blocks.length news.length).reverse ++ tail)) := by
  by_cases hc : (s.blocks.getD cur default).projectedSize ≠ NPOS ∧
      (s.blocks.getD cur default).size ≥ (s.blocks.getD cur default).projectedSize
  · rw [loopBody_fallthrough w s cur tail hstack hc] at h
    have e := Option.some.inj h
    left
    rw [← e, restoreData_blocks, restoreData_blockStack]
    exact ⟨rfl, rfl⟩
  · apply loopBody_shape w s s1 cur tail hbase hstack h _ hob
    intro hop hlk
    unfold Window.AssertNotAbsolute at ha
    rw [hstack] at ha
    have hm := PPC_BD_mod_four (w.insnAt s.data) (ha hr hc hop hlk) hlk
    unfold toSizeT
    omega

/-- One pass through the loop body keeps every block within its projection. -/
theorem loopBody_within (w : Window) (s s1 : AnalyzeState) (hbase : w.base < U64)
    (hr : w.inRange s.data = true) (ha : w.AssertNotAbsolute s)
    (hl : ∀ b ∈ s.blocks, b.WithinProjection) (h : loopBody w s = some s1) :
    ∀ b ∈ s1.blocks, b.WithinProjection := by
  obtain ⟨cur, tail, hstack⟩ := loopBody_some_stack w s s1 h
  have hob := getD_within s.blocks cur hl
  rcases loopBody_shape_asserted w s s1 cur tail hbase hstack h hr ha hob with ⟨hb, _⟩ | ⟨nb, news, hb, hc, _, hsize, hnews, hk⟩
  · rw [hb]; exact hl
  · intro b hmem
    rw [hb] at hmem
    obtain ⟨hsz, hpr⟩ := hob
    have hproj : nb.projectedSize = (s.blocks.getD cur default).projectedSize ∨
        nb.projectedSize = NPOS := by
      rcases hk with ⟨_, _, hp⟩ | ⟨hp, _⟩
      · exact Or.inl hp
      · exact hp
    rcases List.mem_append.1 hmem with hm | hm
    · rcases List.mem_or_eq_of_mem_set hm with hm | hm
      · exact hl b hm
      · subst hm
        unfold Function.Block.WithinProjection
        unfold U64 NPOS at *
        rcases hproj with hp | hp
        · rw [hp, hsize]; omega
        · rw [hp, hsize]; omega
    · obtain ⟨h0, hp⟩ := hnews b hm
      unfold Function.Block.WithinProjection
      rw [h0]
      omega

/-- One pass through the loop body keeps the stack a list of distinct indices into the
block vector. -/
theorem loopBody_stack (w : Window) (s s1 : AnalyzeState) (hbase : w.base < U64)
    (hr : w.inRange s.data = true) (ha : w.AssertNotAbsolute s)
    (hl : ∀ b ∈ s.blocks, b.WithinProjection)
    (hst : (∀ j ∈ s.blockStack, j < s.blocks.length) ∧ s.blockStack.Nodup)
    (h : loopBody w s = some s1) :
    (∀ j ∈ s1.blockStack, j < s1.blocks.length) ∧ s1.blockStack.Nodup := by
  obtain ⟨cur, tail, hstack⟩ := loopBody_some_stack w s s1 h
  have hob := getD_within s.blocks cur hl
  obtain ⟨hlt, hnd⟩ := hst
  rw [hstack] at hlt hnd
  rcases loopBody_shape_asserted w s s1 cur tail hbase hstack h hr ha hob with ⟨hb, hk⟩ | ⟨nb, news, hb, _, _, _, _, hk⟩
  · rw [hb, hk]
    exact ⟨fun j hj => hlt j (List.mem_cons_of_mem _ hj), (List.nodup_cons.1 hnd).2⟩
  · have hlen : s1.blocks.length = s.blocks.length + news.length := by
      rw [hb, List.length_append, List.length_set]
    rcases hk with ⟨hk, _, _⟩ | ⟨_, hk⟩
    · rw [hk, hlen]
      exact ⟨fun j hj => by have := hlt j hj; omega, hnd⟩
    · rw [hk, hlen]
      constructor
      · intro j hj
        rcases List.mem_append.1 hj with hj | hj
        · rw [List.mem_reverse, List.mem_range'_1] at hj
          omega
        · have := hlt j (List.mem_cons_of_mem _ hj)
          omega
      · rw [List.nodup_append]
        refine ⟨List.nodup_reverse.2 (List.nodup_range' _ _), (List.nodup_cons.1 hnd).2, ?_⟩
        intro a ha hb2
        rw [List.mem_reverse, List.mem_range'_1] at ha
        have := hlt a (List.mem_cons_of_mem _ hb2)
        omega

/-- Reading index `i` of a vector after the write to index `cur` and the append of new
blocks. -/
theorem getD_set_append (l news : List Function.Block) (cur i : Nat) (nb : Function.Block)
    (hi : i < l.length) :
    (l.set cur nb ++ news).getD i default = if cur = i then nb else l.getD i default := by
  have h1 : i < (l.set cur nb).length := by rw [List.length_set]; exact hi
  rw [List.getD_append _ _ _ _ h1, List.getD_eq_getElem _ _ h1, List.getD_eq_getElem _ _ hi,
    List.getElem_set]

/-- One pass through the loop body keeps a block below a projected size `p` that it
carries or carried: the block at index `i` keeps its base, stays within `p`, and either
still carries `p` or has left the stack for good. -/
theorem loopBody_frozen (w : Window) (s s1 : AnalyzeState) (hbase : w.base < U64)
    (hr : w.inRange s.data = true) (ha : w.AssertNotAbsolute s)
    (hl : ∀ b ∈ s.blocks, b.WithinProjection)
    (hst : (∀ j ∈ s.blockStack, j < s.blocks.length) ∧ s.blockStack.Nodup)
    (h : loopBody w s = some s1) (i p σ : Nat)
    (hF : i < s.blocks.length ∧ (s.blocks.getD i default).base = σ ∧
      (s.blocks.getD i default).size ≤ p ∧
      ((s.blocks.getD i default).projectedSize = p ∨ i ∉ s.blockStack)) :
    i < s1.blocks.length ∧ (s1.blocks.getD i default).base = σ ∧
      (s1.blocks.getD i default).size ≤ p ∧
      ((s1.blocks.getD i default).projectedSize = p ∨ i ∉ s1.blockStack) := by
  obtain ⟨cur, tail, hstack⟩ := loopBody_some_stack w s s1 h
  have hob := getD_within s.blocks cur hl
  obtain ⟨hlt, hnd⟩ := hst
  obtain ⟨hi, hbs, hsz, hpr⟩ := hF
  rw [hstack] at hlt hnd hpr
  rcases loopBody_shape_asserted w s s1 cur tail hbase hstack h hr ha hob with
    ⟨hb, hk⟩ | ⟨nb, news, hb, hc, hnbase, hnsize, _, hk⟩
  · rw [hb, hk]
    refine ⟨hi, hbs, hsz, ?_⟩
    rcases hpr with hpr | hpr
    · exact Or.inl hpr
    · exact Or.inr (fun hmem => hpr (List.mem_cons_of_mem _ hmem))
  · have hlen : s1.blocks.length = s.blocks.length + news.length := by
      rw [hb, List.length_append, List.length_set]
    have hnew : i ∉ (List.range' s.blocks.length news.length).reverse := by
      rw [List.mem_reverse, List.mem_range'_1]
      omega
    rw [hlen, hb, getD_set_append _ _ _ _ _ hi]
    by_cases hci : cur = i
    · subst hci
      rw [if_pos rfl]
      have hpc : (s.blocks.getD cur default).projectedSize = p := by
        rcases hpr with hpr | hpr
        · exact hpr
        · exact absurd (List.mem_cons_self _ _) hpr
      obtain ⟨hm4, hwp⟩ := hob
      have hgrow : nb.size ≤ p := by
        rw [hnsize]
        unfold U64 NPOS at *
        omega
      refine ⟨by omega, hnbase.trans hbs, hgrow, ?_⟩
      rcases hk with ⟨hk, _, hnp⟩ | ⟨_, hk⟩
      · exact Or.inl (hnp.trans hpc)
      · right
        rw [hk]
        intro hmem
        rcases List.mem_append.1 hmem with hm | hm
        · exact hnew hm
        · exact (List.nodup_cons.1 hnd).1 hm
    · rw [if_neg hci]
      refine ⟨by omega, hbs, hsz, ?_⟩
      rcases hpr with hpr | hpr
      · exact Or.inl hpr
      · right
        rcases hk with ⟨hk, _, _⟩ | ⟨_, hk⟩
        · rw [hk]; exact hpr
        · rw [hk]
          intro hmem
          rcases List.mem_append.1 hmem with hm | hm
          · exact hnew hm
          · exact hpr (List.mem_cons_of_mem _ hm)

/-- The first pass of a run of at least one pass, and the run that follows it. -/
theorem analyzeSteps_succ (w : Window) (n : Nat) (s s1 : AnalyzeState)
    (hr : w.inRange s.data = true) (hb : loopBody w s = some s1) :
    analyzeSteps w (n + 1) s = analyzeSteps w n { s1 with data := (s1.data + 4) % U64 } := by
  simp [analyzeSteps, hr, hb]

/-- While the passes pass the assertion of the conditional-branch case, the loop keeps
every block within its projection and the stack a list of distinct indices into the block
vector. -/
theorem analyzeSteps_invariant (w : Window) (hbase : w.base < U64) (n : Nat) :
    ∀ s : AnalyzeState, (∀ k < n, w.AssertNotAbsolute (analyzeSteps w k s)) →
      (∀ b ∈ s.blocks, b.WithinProjection) →
      ((∀ j ∈ s.blockStack, j < s.blocks.length) ∧ s.blockStack.Nodup) →
      (∀ b ∈ (analyzeSteps w n s).blocks, b.WithinProjection) ∧
        ((∀ j ∈ (analyzeSteps w n s).blockStack, j < (analyzeSteps w n s).blocks.length) ∧
          (analyzeSteps w n s).blockStack.Nodup) := by
  induction n with
  | zero => intro s _ hl hst; exact ⟨hl, hst⟩
  | succ n ih =>
    intro s hrun hl hst
    have ha : w.AssertNotAbsolute s := hrun 0 (Nat.succ_pos _)
    unfold analyzeSteps
    by_cases hr : w.inRange s.data = true
    · rw [if_pos hr]
      cases hb : loopBody w s with
      | none => exact ⟨hl, hst⟩
      | some s1 =>
        refine ih _ ?_ (loopBody_within w s s1 hbase hr ha hl hb)
          (loopBody_stack w s s1 hbase hr ha hl hst hb)
        intro k hk
        rw [← analyzeSteps_succ w k s s1 hr hb]
        exact hrun (k + 1) (by omega)
    · rw [if_neg hr]; exact ⟨hl, hst⟩

/-- While the passes pass the assertion of the conditional-branch case, the loop keeps a
block below a projected size that it carries or carried. -/
theorem analyzeSteps_frozen (w : Window) (hbase : w.base < U64) (i p σ : Nat) (m : Nat) :
    ∀ s : AnalyzeState, (∀ k < m, w.AssertNotAbsolute (analyzeSteps w k s)) →
      (∀ b ∈ s.blocks, b.WithinProjection) →
      ((∀ j ∈ s.blockStack, j < s.blocks.length) ∧ s.blockStack.Nodup) →
      (i < s.blocks.length ∧ (s.blocks.getD i default).base = σ ∧
        (s.blocks.getD i default).size ≤ p ∧
        ((s.blocks.getD i default).projectedSize = p ∨ i ∉ s.blockStack)) →
      i < (analyzeSteps w m s).blocks.length ∧
        ((analyzeSteps w m s).blocks.getD i default).base = σ ∧
        ((analyzeSteps w m s).blocks.getD i default).size ≤ p := by
  induction m with
  | zero => intro s _ _ _ hF; exact ⟨hF.1, hF.2.1, hF.2.2.1⟩
  | succ m ih =>
    intro s hrun hl hst hF
    have ha : w.AssertNotAbsolute s := hrun 0 (Nat.succ_pos _)
    unfold analyzeSteps
    by_cases hr : w.inRange s.data = true
    · rw [if_pos hr]
      cases hb : loopBody w s with
      | none => exact ⟨hF.1, hF.2.1, hF.2.2.1⟩
      | some s1 =>
        refine ih _ ?_ (loopBody_within w s s1 hbase hr ha hl hb)
          (loopBody_stack w s s1 hbase hr ha hl hst hb)
          (loopBody_frozen w s s1 hbase hr ha hl hst hb i p σ hF)
        intro k hk
        rw [← analyzeSteps_succ w k s s1 hr hb]
        exact hrun (k + 1) (by omega)
    · rw [if_neg hr]; exact ⟨hF.1, hF.2.1, hF.2.2.1⟩

/-- The passes of the loop compose. -/
theorem analyzeSteps_add (w : Window) (n m : Nat) :
    ∀ s, analyzeSteps w (n + m) s = analyzeSteps w m (analyzeSteps w n s) := by
  induction n with
  | zero => intro s; rw [Nat.zero_add]; rfl
  | succ n ih =>
    intro s
    have hstuck : ∀ k, (w.inRange s.data = false ∨ loopBody w s = none) →
        analyzeSteps w k s = s := by
      intro k hk
      cases k with
      | zero => rfl
      | succ k =>
        unfold analyzeSteps
        rcases hk with hk | hk
        · simp [hk]
        · simp [hk]
    rw [show n + 1 + m = (n + m) + 1 by omega]
    by_cases hr : w.inRange s.data = true
    · cases hb : loopBody w s with
      | none =>
        rw [hstuck _ (Or.inr hb), hstuck _ (Or.inr hb), hstuck _ (Or.inr hb)]
      | some s1 =>
        have e1 : analyzeSteps w (n + m + 1) s =
            analyzeSteps w (n + m) { s1 with data := (s1.data + 4) % U64 } := by
          simp [analyzeSteps, hr, hb]
        have e2 : analyzeSteps w (n + 1) s =
            analyzeSteps w n { s1 with data := (s1.data + 4) % U64 } := by
          simp [analyzeSteps, hr, hb]
        rw [e1, e2, ih]
    · have hr2 : w.inRange s.data = false := by simpa using hr
      rw [hstuck _ (Or.inl hr2), hstuck _ (Or.inl hr2), hstuck _ (Or.inl hr2)]

/-- The state at loop exit is the state after as many passes as the loop was given. -/
theorem analyzeLoop_eq_steps (w : Window) (n : Nat) :
    ∀ s r, analyzeLoop w n s = some r → r = analyzeSteps w n s := by
  induction n with
  | zero => intro s r h; simp [analyzeLoop] at h
  | succ n ih =>
    intro s r h
    unfold analyzeLoop at h
    unfold analyzeSteps
    by_cases hr : w.inRange s.data = true
    · rw [if_pos hr] at h ⊢
      cases hb : loopBody w s with
      | none =>
        rw [hb] at h
        simp only [Option.some.injEq] at h
        exact h.symm
      | some s1 =>
        rw [hb] at h
        exact ih _ _ h
    · rw [if_neg hr] at h ⊢
      simp only [Option.some.injEq] at h
      exact h.symm

/-- The fixup pass returns blocks of the vector it was given. -/
theorem sortAndInvalidate_subset (srt : List Function.Block → List Function.Block)
    (hsrt : SortsByBase srt) (blocks : List Function.Block) :
    ∀ b ∈ sortAndInvalidate srt blocks, b ∈ blocks := by
  intro b hb
  unfold sortAndInvalidate at hb
  simp only at hb
  split_ifs at hb
  · exact (hsrt blocks).1.mem_iff.1 (List.mem_of_mem_take hb)
  · exact (hsrt blocks).1.mem_iff.1 hb
  · exact hb

/-- The element appended right after a list of length `n` has index `n`. -/
theorem get?_append_new {α : Type} (l rest : List α) (x : α) (n : Nat) (hlen : l.length = n) :
    (l ++ x :: rest).get? n = some x := by
  subst hlen
  rw [List.get?_eq_getElem?, List.getElem?_append_right (le_refl _)]
  simp

/-- A pass through the body on a conditional branch without link, with the current block
below its projected size and no block at the fall-through offset: the false successor is
appended with `lBase` as its base and `rBase - lBase` as its projected size. -/
theorem loopBody_false_successor (w : Window) (s : AnalyzeState) (cur : Nat) (tail : List Nat)
    (hstack : s.blockStack = cur :: tail)
    (hop : PPC_OP (w.insnAt s.data) = PPC_OP_BC) (hlk : PPC_BL (w.insnAt s.data) = 0)
    (hc : ¬ ((s.blocks.getD cur default).projectedSize ≠ NPOS ∧
      (s.blocks.getD cur default).size ≥ (s.blocks.getD cur default).projectedSize))
    (hnew : Function.SearchBlock
      ⟨w.base, 0, s.blocks.set cur ⟨(s.blocks.getD cur default).base,
        ((s.blocks.getD cur default).size + 4) % U64, NPOS⟩⟩
      ((w.base + w.lBase s.data) % U64) = NPOS) :
    ∃ s1, loopBody w s = some s1 ∧
      s1.blocks.get? s.blocks.length =
        some ⟨w.lBase s.data, 0, (w.rBase s.data + U64 - w.lBase s.data) % U64⟩ := by
  unfold Window.lBase at hnew
  unfold loopBody Window.lBase Window.rBase
  rw [hstack]
  simp only [hop, hlk, hc, if_false, if_true, ne_eq, not_true_eq_false, List.set_set, hnew]
  split_ifs
  · refine ⟨_, rfl, ?_⟩
    simp only [restoreData_blocks, pushBlock, List.append_assoc]
    exact get?_append_new _ _ _ _ (List.length_set _ _ _)
  · refine ⟨_, rfl, ?_⟩
    simp only [restoreData_blocks, pushBlock]
    exact get?_append_new _ _ _ _ (List.length_set _ _ _)

/-- No word of the memory around `skipBranchWindow` is a conditional branch without link
that has the AA bit set. -/
theorem skipBranchWindow_aligned :
    ∀ off, PPC_OP (skipBranchWindow.insnAt off) = PPC_OP_BC →
      PPC_BL (skipBranchWindow.insnAt off) = 0 → PPC_BA (skipBranchWindow.insnAt off) = 0 := by
  have hz : ∀ x, x < 4096 ∨ 4112 ≤ x → skipBranchWindow.mem x = 0 := by
    intro x hx
    simp only [skipBranchWindow, windowOfBytes, memOfBytes]
    split_ifs
    · rfl
    · exact List.getD_eq_default _ _ (by simp; omega)
  intro off
  unfold Window.insnAt
  have ha : (skipBranchWindow.code + off) % U64 < U64 := Nat.mod_lt _ (by decide)
  generalize (skipBranchWindow.code + off) % U64 = a at ha
  unfold U64 at ha
  by_cases h1 : a < 4093 ∨ 4112 ≤ a
  · have e : load32 skipBranchWindow.mem a = 0 := by
      unfold load32
      rw [hz a (by omega), hz ((a + 1) % U64) (by unfold U64; omega),
        hz ((a + 2) % U64) (by unfold U64; omega), hz ((a + 3) % U64) (by unfold U64; omega)]
      rfl
    rw [e]
    decide
  · have h3 : 4093 ≤ a := by omega
    have h4 : a < 4112 := by omega
    clear ha h1
    interval_cases a <;> decide

/-- An element found at an index is the element that `getD` reads there. -/
theorem get?_some_getD (l : List Function.Block) (i : Nat) (b : Function.Block)
    (h : l.get? i = some b) : i < l.length ∧ l.getD i default = b := by
  rw [List.get?_eq_getElem?] at h
  obtain ⟨hi, hb⟩ := List.getElem?_eq_some.1 h
  exact ⟨hi, by rw [List.getD_eq_getElem _ _ hi, hb]⟩

/-- Below the length, `get?` finds the element that `getD` reads. -/
theorem get?_of_getD (l : List Function.Block) (i : Nat) (hi : i < l.length) :
    l.get? i = some (l.getD i default) := by
  rw [List.get?_eq_getElem?, List.getElem?_eq_getElem hi, List.getD_eq_getElem _ _ hi]

/-- The state at loop entry: its block is within its projection and its stack holds one
index into the block vector. -/
theorem initialState_invariant :
    (∀ b ∈ initialState.blocks, b.WithinProjection) ∧
      ((∀ j ∈ initialState.blockStack, j < initialState.blocks.length) ∧
        initialState.blockStack.Nodup) := by
  refine ⟨?_, ?_, ?_⟩
  · intro b hb
    simp only [initialState, List.mem_singleton] at hb
    subst hb
    exact ⟨rfl, Or.inl rfl⟩
  · intro j hj
    simp only [initialState, List.mem_singleton] at hj
    subst hj
    decide
  · simp [initialState]

/-- With the assertions compiled out, the window `beqa 0xA; nop; nop; blr` (a conditional
branch without link whose AA bit is set) makes the false successor a block of base 4 with
the projected size `10 - 4 = 6`, which is no multiple of 4; the check
`size >= projectedSize` lets the block grow from 4 to 8.  The assertion
`assert(!PPC_BA(instruction))` is false in the first pass, so that a build with assertions
aborts there. -/
theorem absoluteBranch_overruns_projection :
    PPC_OP (absoluteBranchWindow.insnAt 0) = PPC_OP_BC ∧
      PPC_BL (absoluteBranchWindow.insnAt 0) = 0 ∧
      PPC_BA (absoluteBranchWindow.insnAt 0) = 1 ∧
      ¬ absoluteBranchWindow.AssertNotAbsolute initialState ∧
      (analyzeSteps absoluteBranchWindow 5 initialState).blocks =
        [⟨0, 4, NPOS⟩, ⟨4, 8, 6⟩, ⟨10, 8, NPOS⟩] ∧
      Analyze 8 absoluteBranchWindow =
        some ⟨0x02000000, 18, [⟨0, 4, NPOS⟩, ⟨4, 8, 6⟩, ⟨10, 8, NPOS⟩]⟩ := by
  decide

/-- C29: let the base fit a `size_t`, and let the first `n` passes through the loop of
`Function::Analyze` pass the assertion `assert(!PPC_BA(instruction))` of the
conditional-branch case (a build with assertions aborts in a pass that fails it).  Then
(1) after each of these passes every block with a projected size `p` (other than `-1`)
has a size of at most `p`; (2) the same holds for the blocks of a function returned
within `n` passes, whatever admissible order `std::sort` produces; (3) a block that
carries a projected size `p` at some time keeps its base and never grows beyond `p`
afterwards, also after it has lost `p`; (4) in particular, when a pass handles a
conditional branch without link, with the current block below its projected size and no
block at the fall-through offset, the false successor it appends at index
`blocks.size()` has base `lBase` and never grows beyond `rBase - lBase` (modulo `2^64`),
which for a forward target is the target offset minus the fall-through offset: the block
never extends past the start of the true successor. -/
theorem C29_projected_size (w : Window) (hbase : w.base < U64) (n : Nat)
    (hassert : ∀ k < n, w.AssertNotAbsolute (analyzeSteps w k initialState)) :
    (∀ k ≤ n, ∀ b ∈ (analyzeSteps w k initialState).blocks,
        b.projectedSize ≠ NPOS → b.size ≤ b.projectedSize) ∧
      (∀ srt, SortsByBase srt → ∀ fuel ≤ n, ∀ fn, AnalyzeWith srt fuel w = some fn →
        ∀ b ∈ fn.blocks, b.projectedSize ≠ NPOS → b.size ≤ b.projectedSize) ∧
      (∀ k i b, (analyzeSteps w k initialState).blocks.get? i = some b →
        b.projectedSize ≠ NPOS →
        ∀ m, k + m ≤ n →
          ∃ b', (analyzeSteps w (k + m) initialState).blocks.get? i = some b' ∧
            b'.base = b.base ∧ b'.size ≤ b.projectedSize) ∧
      (∀ k s cur tail, s = analyzeSteps w k initialState → s.blockStack = cur :: tail →
        w.inRange s.data = true →
        PPC_OP (w.insnAt s.data) = PPC_OP_BC → PPC_BL (w.insnAt s.data) = 0 →
        ¬ ((s.blocks.getD cur default).projectedSize ≠ NPOS ∧
          (s.blocks.getD cur default).size ≥ (s.blocks.getD cur default).projectedSize) →
        Function.SearchBlock
          ⟨w.base, 0, s.blocks.set cur ⟨(s.blocks.getD cur default).base,
            ((s.blocks.getD cur default).size + 4) % U64, NPOS⟩⟩
          ((w.base + w.lBase s.data) % U64) = NPOS →
        ∀ m, k + 1 + m ≤ n →
          ∃ b', (analyzeSteps w (k + 1 + m) initialState).blocks.get? s.blocks.length =
              some b' ∧
            b'.base = w.lBase s.data ∧
            b'.size ≤ (w.rBase s.data + U64 - w.lBase s.data) % U64 ∧
            (w.lBase s.data ≤ w.rBase s.data →
              b'.base + b'.size ≤ w.rBase s.data)) := by
  have hinv : ∀ k, k ≤ n →
      (∀ b ∈ (analyzeSteps w k initialState).blocks, b.WithinProjection) ∧
        ((∀ j ∈ (analyzeSteps w k initialState).blockStack,
            j < (analyzeSteps w k initialState).blocks.length) ∧
          (analyzeSteps w k initialState).blockStack.Nodup) :=
    fun k hk =>
      analyzeSteps_invariant w hbase k initialState (fun j hj => hassert j (by omega))
        initialState_invariant.1 initialState_invariant.2
  have hwithin : ∀ b : Function.Block, b.WithinProjection → b.projectedSize ≠ NPOS →
      b.size ≤ b.projectedSize := by
    intro b hb hp
    rcases hb.2 with h | h
    · exact absurd h hp
    · exact h.2
  have hkeep : ∀ k i b, (analyzeSteps w k initialState).blocks.get? i = some b →
      b.projectedSize ≠ NPOS →
      ∀ m, k + m ≤ n →
        ∃ b', (analyzeSteps w (k + m) initialState).blocks.get? i = some b' ∧
          b'.base = b.base ∧ b'.size ≤ b.projectedSize := by
    intro k i b hget hp m hkm
    obtain ⟨hi, hd⟩ := get?_some_getD _ _ _ hget
    have hb : b ∈ (analyzeSteps w k initialState).blocks := List.get?_mem hget
    obtain ⟨hl, hst⟩ := hinv k (by omega)
    have hF := analyzeSteps_frozen w hbase i b.projectedSize b.base m
      (analyzeSteps w k initialState)
      (fun j hj => by rw [← analyzeSteps_add]; exact hassert (k + j) (by omega)) hl hst
      ⟨hi, by rw [hd], by rw [hd]; exact hwithin b (hl b hb) hp, Or.inl (by rw [hd])⟩
    rw [← analyzeSteps_add] at hF
    exact ⟨_, get?_of_getD _ _ hF.1, hF.2.1, hF.2.2⟩
  refine ⟨?_, ?_, hkeep, ?_⟩
  · intro k hk b hb hp
    exact hwithin b ((hinv k hk).1 b hb) hp
  · intro srt hsrt fuel hfuel fn hfn b hb hp
    unfold AnalyzeWith at hfn
    split_ifs at hfn
    · simp only [Option.some.injEq] at hfn
      subst hfn
      simp at hb
    · cases hloop : analyzeLoop w fuel initialState with
      | none => simp [hloop] at hfn
      | some s =>
        simp only [hloop, Option.some.injEq] at hfn
        subst hfn
        have hs := analyzeLoop_eq_steps w fuel _ _ hloop
        have hmem := sortAndInvalidate_subset srt hsrt s.blocks b hb
        rw [hs] at hmem
        exact hwithin b ((hinv fuel hfuel).1 b hmem) hp
  · intro k s cur tail hs hstack hr hop hlk hc hnew m hkm
    obtain ⟨s1, hbody, hget⟩ := loopBody_false_successor w s cur tail hstack hop hlk hc hnew
    have hstep : analyzeSteps w (k + 1) initialState =
        { s1 with data := (s1.data + 4) % U64 } := by
      rw [analyzeSteps_add, ← hs]
      simp [analyzeSteps, hr, hbody]
    have hget2 : (analyzeSteps w (k + 1) initialState).blocks.get? s.blocks.length =
        some ⟨w.lBase s.data, 0, (w.rBase s.data + U64 - w.lBase s.data) % U64⟩ := by
      rw [hstep]; exact hget
    have hb : (⟨w.lBase s.data, 0, (w.rBase s.data + U64 - w.lBase s.data) % U64⟩ :
        Function.Block) ∈ (analyzeSteps w (k + 1) initialState).blocks := List.get?_mem hget2
    have hwp := (hinv (k + 1) (by omega)).1 _ hb
    have hsk : w.AssertNotAbsolute s := by
      rw [hs]
      exact hassert k (by omega)
    have h4 : toSizeT (PPC_BD (w.insnAt s.data)) % 4 = 0 := by
      unfold Window.AssertNotAbsolute at hsk
      rw [hstack] at hsk
      have hm := PPC_BD_mod_four (w.insnAt s.data) (hsk hr hc hop hlk) hlk
      unfold toSizeT
      omega
    have hp : (w.rBase s.data + U64 - w.lBase s.data) % U64 ≠ NPOS := by
      rcases hwp.2 with h | h
      · simp only [Window.rBase, Window.lBase] at h
        unfold U64 NPOS at *
        omega
      · have := h.1
        simp only at this
        unfold NPOS
        omega
    obtain ⟨b', hb', hbase', hsize'⟩ := hkeep (k + 1) s.blocks.length _ hget2 hp m hkm
    refine ⟨b', hb', hbase', hsize', ?_⟩
    intro hfwd
    have hlt : w.rBase s.data < U64 := by
      unfold Window.rBase
      exact Nat.mod_lt _ (by decide)
    simp only at hbase' hsize'
    rw [hbase']
    unfold U64 at *
    omega

/-- C29 at the window `beq +12; nop; nop; blr` at base `0x02000000`, whose seven passes
pass the assertion: its false successor, created with the projected size `12 - 4 = 8`,
ends with size 8. -/
theorem C29_projected_size_witness :
    skipBranchWindow.base < U64 ∧
      (∀ k < 7, skipBranchWindow.AssertNotAbsolute
        (analyzeSteps skipBranchWindow k initialState)) ∧
      (∀ k ≤ 7, ∀ b ∈ (analyzeSteps skipBranchWindow k initialState).blocks,
        b.projectedSize ≠ NPOS → b.size ≤ b.projectedSize) ∧
      (analyzeSteps skipBranchWindow 1 initialState).blocks =
        [⟨0, 4, NPOS⟩, ⟨4, 0, 8⟩, ⟨12, 0, NPOS⟩] ∧
      Analyze 7 skipBranchWindow =
        some ⟨0x02000000, 16, [⟨0, 4, NPOS⟩, ⟨4, 8, 8⟩, ⟨12, 4, NPOS⟩]⟩ :=
  ⟨by decide, by decide,
    (C29_projected_size skipBranchWindow (by decide) 7 (by decide)).1,
    by decide, by decide⟩

/-! ## Theorems: translation units -/

/-- The method `println` appends to `out` and leaves the other members alone. -/
theorem println_eq (r : Recompiler) (text : String) :
    r.println text = { r with out := r.out ++ (text ++ "\n") } := by
  simp [Recompiler.println, String.append_assoc]

/-- The method `println` commutes with a longer start of `out` and another file index. -/
theorem println_reframe (r : Recompiler) (text o : String) (k : Nat) :
    Recompiler.println { r with out := o ++ r.out, cppFileIndex := k } text =
      { r.println text with out := o ++ (r.println text).out, cppFileIndex := k } := by
  simp [Recompiler.println, String.append_assoc]

/-- The method `PrintFunctionCall` commutes with a longer start of `out` and another file
index, and leaves the members other than `out` alone. -/
theorem PrintFunctionCall_reframe (find : SymbolLookup) (r : Recompiler) (address : Nat)
    (o : String) (k : Nat) :
    Recompiler.PrintFunctionCall find { r with out := o ++ r.out, cppFileIndex := k } address =
      { Recompiler.PrintFunctionCall find r address with
        out := o ++ (Recompiler.PrintFunctionCall find r address).out, cppFileIndex := k } ∧
    Recompiler.PrintFunctionCall find r address =
      { r with out := (Recompiler.PrintFunctionCall find r address).out } := by
  unfold Recompiler.PrintFunctionCall
  simp only []
  cases find r.image.symbols address with
  | none => simp [Recompiler.println, String.append_assoc]
  | some targetSymbol =>
    simp only []
    split_ifs <;> simp [Recompiler.println, String.append_assoc]

set_option maxHeartbeats 2000000 in
/-- The method `RecompileInstruction` commutes with a longer start of `out` and another
file index, and leaves the members other than `out` alone. -/
theorem RecompileInstruction_reframe (find : SymbolLookup) (r : Recompiler) (fn : Function)
    (base : Nat) (insn : ppc_insn) (d : ppc_opcode) (lv : RecompilerLocalVariables)
    (o : String) (k : Nat) :
    Recompiler.RecompileInstruction find { r with out := o ++ r.out, cppFileIndex := k } fn
        base insn d lv =
      ((Recompiler.RecompileInstruction find r fn base insn d lv).1,
        { (Recompiler.RecompileInstruction find r fn base insn d lv).2.1 with
          out := o ++ (Recompiler.RecompileInstruction find r fn base insn d lv).2.1.out,
          cppFileIndex := k },
        (Recompiler.RecompileInstruction find r fn base insn d lv).2.2) ∧
    (Recompiler.RecompileInstruction find r fn base insn d lv).2.1 =
      { r with out := (Recompiler.RecompileInstruction find r fn base insn d lv).2.1.out } := by
  unfold Recompiler.RecompileInstruction
  cases hm : r.config.midAsmHooks.lookup base with
  | none =>
    simp only [Recompiler.println, hm, Recompiler.GetRegisterName,
      Recompiler.RecompilePairedSingleInstruction, Recompiler.PrintFunctionCall]
    cases find r.image.symbols (insn.operands.getD 0 0) <;>
      split <;> simp [String.append_assoc]
    all_goals (split_ifs <;> simp [String.append_assoc])
  | some hook =>
    cases ha : hook.afterInstruction
    all_goals
      simp only [Recompiler.println, hm, ha, Recompiler.GetRegisterName,
        Recompiler.RecompilePairedSingleInstruction, Recompiler.PrintFunctionCall,
        Recompiler.PrintMidAsmHook, Bool.false_eq_true, Bool.true_eq_false, if_false, if_true,
        eq_self_iff_true]
    all_goals cases find r.image.symbols (insn.operands.getD 0 0)
    all_goals split
    all_goals simp [String.append_assoc]
    all_goals (split_ifs <;> simp [String.append_assoc])

/-- The method `RecompileInstruction` on a recompiler given by its members: a longer
start of `out` and another file index change nothing but these two members of the
result, and the other members of the result are those of the argument. -/
theorem RecompileInstruction_mk (find : SymbolLookup) (im : RPXImage) (fs : List Function)
    (cfg : RecompilerConfig) (X o : String) (k idx : Nat) (fn : Function) (base : Nat)
    (insn : ppc_insn) (d : ppc_opcode) (lv : RecompilerLocalVariables) :
    Recompiler.RecompileInstruction find ⟨im, fs, o ++ X, k, cfg⟩ fn base insn d lv =
      ((Recompiler.RecompileInstruction find ⟨im, fs, X, idx, cfg⟩ fn base insn d lv).1,
        ⟨im, fs,
          o ++ (Recompiler.RecompileInstruction find ⟨im, fs, X, idx, cfg⟩ fn base insn d lv).2.1.out,
          k, cfg⟩,
        (Recompiler.RecompileInstruction find ⟨im, fs, X, idx, cfg⟩ fn base insn d lv).2.2) := by
  obtain ⟨h1, h2⟩ :=
    RecompileInstruction_reframe find ⟨im, fs, X, idx, cfg⟩ fn base insn d lv o k
  rw [h1]
  generalize Recompiler.RecompileInstruction find ⟨im, fs, X, idx, cfg⟩ fn base insn d lv = p
    at h2 ⊢
  obtain ⟨p1, p2, p3⟩ := p
  simp only at h2 ⊢
  rw [h2]

/-- One pass through the loop "Recompile each instruction" on a recompiler given by its
members: a longer start of `out` and another file index change nothing but these two
members of the result. -/
theorem recompileStep_mk (find : SymbolLookup) (fn : Function) (bytes : List Nat)
    (labels : List Nat) (im : RPXImage) (fs : List Function) (cfg : RecompilerConfig)
    (X o : String) (k idx base data : Nat) (insn : ppc_insn)
    (sw : Option (Nat × RecompilerSwitchTable)) (lv : RecompilerLocalVariables) (fp : FPState)
    (all : Bool) :
    recompileStep find fn bytes labels ⟨⟨im, fs, o ++ X, k, cfg⟩, base, data, insn, sw, lv, fp, all⟩ =
      (recompileStep find fn bytes labels
        ⟨⟨im, fs, X, idx, cfg⟩, base, data, insn, sw, lv, fp, all⟩).map
        (fun t => { t with recompiler := ⟨im, fs, o ++ t.recompiler.out, k, cfg⟩ }) := by
  by_cases hl : base ∈ labels <;> cases sw <;> by_cases hb : data + 4 > bytes.length <;>
    simp only [recompileStep, hl, hb, Recompiler.println, String.append_assoc, if_true,
      if_false, Option.map_none', Option.map_some', reduceCtorEq]
  all_goals
    generalize (Disassemble (memOfBytes 0 bytes) data (base % U32) insn).2 = ins
    cases hop : ins.opcode with
    | none =>
      simp only []
      split_ifs <;> rfl
    | some d =>
      simp only []
      rw [RecompileInstruction_mk find im fs cfg _ o k idx]
      split_ifs <;> rfl

/-- The loop "Recompile each instruction" on a recompiler given by its members: a longer
start of `out` and another file index change nothing but these two members of the
result. -/
theorem recompileLoop_mk (find : SymbolLookup) (fn : Function) (bytes : List Nat)
    (labels : List Nat) (end_ : Nat) (im : RPXImage) (fs : List Function)
    (cfg : RecompilerConfig) (o : String) (k idx : Nat) (fuel : Nat) :
    ∀ (X : String) (base data : Nat) (insn : ppc_insn)
      (sw : Option (Nat × RecompilerSwitchTable)) (lv : RecompilerLocalVariables)
      (fp : FPState) (all : Bool),
      recompileLoop find fn bytes labels end_ fuel
          ⟨⟨im, fs, o ++ X, k, cfg⟩, base, data, insn, sw, lv, fp, all⟩ =
        (recompileLoop find fn bytes labels end_ fuel
          ⟨⟨im, fs, X, idx, cfg⟩, base, data, insn, sw, lv, fp, all⟩).map
          (fun t => { t with recompiler := ⟨im, fs, o ++ t.recompiler.out, k, cfg⟩ }) := by
  induction fuel with
  | zero => intros; rfl
  | succ fuel ih =>
    intro X base data insn sw lv fp all
    unfold recompileLoop
    by_cases hlt : base < end_
    · simp only [hlt, if_true]
      rw [recompileStep_mk find fn bytes labels im fs cfg X o k idx]
      have hkeep := recompileStep_mk find fn bytes labels im fs cfg X "" idx idx base data
        insn sw lv fp all
      rw [String.empty_append] at hkeep
      cases hstep : recompileStep find fn bytes labels
          ⟨⟨im, fs, X, idx, cfg⟩, base, data, insn, sw, lv, fp, all⟩ with
      | none => rfl
      | some t =>
        rw [hstep] at hkeep
        simp only [Option.map_some', Option.some.injEq] at hkeep
        obtain ⟨tr, tb, td, ti, ts, tl, tf, ta⟩ := t
        simp only [RecompileState.mk.injEq, true_and, and_true] at hkeep
        simp only [Option.map_some']
        rw [hkeep]
        simp only [String.empty_append]
        exact ih _ _ _ _ _ _ _ _
    · simp only [hlt, if_false]
      rfl

/-- The declarations of register pairs only append to `out`, and what they append does
not depend on the recompiler. -/
theorem printRegisterPairs_mk (first second : String) (im im' : RPXImage)
    (fs fs' : List Function) (cfg cfg' : RecompilerConfig) (o : String) (k k' : Nat)
    (l : List (Bool × Bool)) :
    ∀ (i : Nat) (X : String),
      printRegisterPairs first second l i ⟨im, fs, o ++ X, k, cfg⟩ =
        ⟨im, fs, o ++ (printRegisterPairs first second l i ⟨im', fs', X, k', cfg'⟩).out, k, cfg⟩ := by
  induction l with
  | nil => intros; rfl
  | cons p rest ih =>
    intro i X
    obtain ⟨a, b⟩ := p
    unfold printRegisterPairs
    cases a <;> cases b <;>
      simp only [Recompiler.println, String.append_assoc, Bool.false_eq_true, if_false, if_true] <;>
      exact ih _ _

/-- The declarations of register pairs append their text to `out`. -/
theorem printRegisterPairs_text (first second : String) (im : RPXImage) (fs : List Function)
    (cfg : RecompilerConfig) (k : Nat) (l : List (Bool × Bool)) (i : Nat) (Y : String) :
    printRegisterPairs first second l i ⟨im, fs, Y, k, cfg⟩ =
      ⟨im, fs, Y ++ registerPairsText first second l i, k, cfg⟩ := by
  have h := printRegisterPairs_mk first second im {} fs [] cfg {} Y k 0 l i ""
  rw [String.append_empty] at h
  exact h

/-- A conditional `println` appends its text to `out`, or nothing. -/
theorem ite_println_mk (c : Bool) (im : RPXImage) (fs : List Function) (cfg : RecompilerConfig)
    (k : Nat) (Y text : String) :
    (if c = true then (⟨im, fs, Y, k, cfg⟩ : Recompiler).println text else ⟨im, fs, Y, k, cfg⟩) =
      ⟨im, fs, Y ++ (if c = true then text ++ "\n" else ""), k, cfg⟩ := by
  cases c <;> simp [Recompiler.println, String.append_assoc]

/-- The declarations of the local variables append their text to `out`. -/
theorem printLocalVariables_text (im : RPXImage) (fs : List Function) (cfg : RecompilerConfig)
    (k : Nat) (lv : RecompilerLocalVariables) (Y : String) :
    printLocalVariables ⟨im, fs, Y, k, cfg⟩ lv = ⟨im, fs, Y ++ localVariablesText lv, k, cfg⟩ := by
  unfold localVariablesText printLocalVariables
  simp only [ite_println_mk, printRegisterPairs_text, String.append_assoc, String.empty_append]

/-- The method `RecompileFunction` only appends to `out`: it returns the flag, and appends
the text, that it returns and leaves for an empty `out` and the file index 0, and it
leaves the other members alone. -/
theorem RecompileFunction_mk (find : SymbolLookup) (fuel : Nat) (im : RPXImage)
    (fs : List Function) (cfg : RecompilerConfig) (X : String) (k : Nat) (fn : Function) :
    Recompiler.RecompileFunction find fuel ⟨im, fs, X, k, cfg⟩ fn =
      (Recompiler.RecompileFunction find fuel ⟨im, fs, "", 0, cfg⟩ fn).map
        (fun p => (p.1, ⟨im, fs, X ++ p.2.out, k, cfg⟩)) := by
  unfold Recompiler.RecompileFunction
  simp only []
  cases hfind : RPXImage.Find im (fn.base % U32) with
  | none => simp [String.append_empty]
  | some data =>
    simp only []
    cases hlab : collectLabels cfg ((im.sections.getD data.1 {}).data.getD []) data.2 fn.base
        ((fn.base + fn.size) % U64) fuel fn.base [] with
    | none => rfl
    | some labels =>
      simp only [Recompiler.println]
      have hl := recompileLoop_mk find fn ((im.sections.getD data.1 {}).data.getD []) labels
        ((fn.base + fn.size) % U64) im fs cfg "" k 0 fuel "" fn.base data.2 freshInsn none {}
        FPState.Unknown true
      simp only [String.empty_append] at hl
      rw [hl]
      cases hloop : recompileLoop find fn ((im.sections.getD data.1 {}).data.getD []) labels
          ((fn.base + fn.size) % U64) fuel
          ⟨⟨im, fs, "", 0, cfg⟩, fn.base, data.2, freshInsn, none, {}, FPState.Unknown, true⟩ with
      | none => rfl
      | some s =>
        simp only [Option.map_some', printLocalVariables_text, String.append_assoc,
          String.empty_append]

/-- The method `SaveCurrentOutData` without a name, on a non-empty `out`: the text is
saved under the next numbered path. -/
theorem SaveCurrentOutData_numbered (im : RPXImage) (fs : List Function)
    (cfg : RecompilerConfig) (X : String) (k : Nat) (files : List (String × String))
    (hX : X ≠ "") :
    Recompiler.SaveCurrentOutData ⟨im, fs, X, k, cfg⟩ files "" =
      (⟨im, fs, "", k + 1, cfg⟩, files ++ [(unitPath cfg k, X)]) := by
  simp [Recompiler.SaveCurrentOutData, hX, unitPath, outputPath]

/-- The method `SaveCurrentOutData` on an empty `out` does nothing. -/
theorem SaveCurrentOutData_empty (im : RPXImage) (fs : List Function)
    (cfg : RecompilerConfig) (k : Nat) (files : List (String × String)) (name : String) :
    Recompiler.SaveCurrentOutData ⟨im, fs, "", k, cfg⟩ files name =
      (⟨im, fs, "", k, cfg⟩, files) := by
  simp [Recompiler.SaveCurrentOutData]

/-- The method `SaveCurrentOutData` with a name: `out` is empty afterwards, the other
members are kept, and at most one file is saved, under the path of that name. -/
theorem SaveCurrentOutData_named (im : RPXImage) (fs : List Function)
    (cfg : RecompilerConfig) (X : String) (k : Nat) (files : List (String × String))
    (name : String) (hname : name ≠ "") :
    ∃ extra,
      Recompiler.SaveCurrentOutData ⟨im, fs, X, k, cfg⟩ files name =
        (⟨im, fs, "", k, cfg⟩, files ++ extra) ∧
      ∀ f ∈ extra, f.1 = outputPath cfg name := by
  by_cases hX : X = ""
  · subst hX
    exact ⟨[], by rw [SaveCurrentOutData_empty, List.append_nil], by simp⟩
  · exact ⟨[(outputPath cfg name, X)],
      by simp [Recompiler.SaveCurrentOutData, hX, hname, outputPath], by simp⟩

/-- The loop over the lines of the context header only appends to `out`. -/
theorem foldl_println_mk (im : RPXImage) (fs : List Function) (cfg : RecompilerConfig)
    (k : Nat) (lines : List String) :
    ∀ Y, ∃ Z, lines.foldl (fun (r : Recompiler) line => r.println line) ⟨im, fs, Y, k, cfg⟩ =
      ⟨im, fs, Z, k, cfg⟩ := by
  induction lines with
  | nil => intro Y; exact ⟨Y, rfl⟩
  | cons line rest ih =>
    intro Y
    simp only [List.foldl_cons, Recompiler.println]
    exact ih _

/-- The loops over the symbols only append to `out`. -/
theorem printFunctionSymbols_mk (line : Symbol → String) (im : RPXImage) (fs : List Function)
    (cfg : RecompilerConfig) (k : Nat) (symbols : List Symbol) :
    ∀ Y, ∃ Z, printFunctionSymbols line symbols ⟨im, fs, Y, k, cfg⟩ = ⟨im, fs, Z, k, cfg⟩ := by
  unfold printFunctionSymbols
  induction symbols with
  | nil => intro Y; exact ⟨Y, rfl⟩
  | cons symbol rest ih =>
    intro Y
    simp only [List.foldl_cons, Recompiler.println]
    split_ifs
    · exact ih _
    · exact ih _

/-- A choice between two recompilers that differ in `out` only is a choice of `out`. -/
theorem ite_mk (c : Prop) [Decidable c] (im : RPXImage) (fs : List Function)
    (cfg : RecompilerConfig) (k : Nat) (A B : String) :
    (if c then (⟨im, fs, A, k, cfg⟩ : Recompiler) else ⟨im, fs, B, k, cfg⟩) =
      ⟨im, fs, if c then A else B, k, cfg⟩ := by
  split_ifs <;> rfl

/-- The method `GenerateConfigFiles` leaves `out` empty, keeps the other members, and
saves at most the file `ppc_config.h`. -/
theorem GenerateConfigFiles_mk (im : RPXImage) (fs : List Function) (cfg : RecompilerConfig)
    (X : String) (k : Nat) (files : List (String × String)) :
    ∃ extra,
      Recompiler.GenerateConfigFiles ⟨im, fs, X, k, cfg⟩ files =
        (⟨im, fs, "", k, cfg⟩, files ++ extra) ∧
      ∀ f ∈ extra, f.1 = outputPath cfg "ppc_config.h" := by
  unfold Recompiler.GenerateConfigFiles
  simp only [Recompiler.println, ite_mk]
  exact SaveCurrentOutData_named im fs cfg _ k files "ppc_config.h" (by decide)

/-- The method `GenerateHeaderFiles` leaves `out` empty, keeps the other members, and
saves at most the files `ppc_context.h` and `ppc_recomp_shared.h`. -/
theorem GenerateHeaderFiles_mk (contextFile : Option (List String)) (im : RPXImage)
    (fs : List Function) (cfg : RecompilerConfig) (X : String) (k : Nat)
    (files : List (String × String)) :
    ∃ extra,
      Recompiler.GenerateHeaderFiles contextFile ⟨im, fs, X, k, cfg⟩ files =
        (⟨im, fs, "", k, cfg⟩, files ++ extra) ∧
      ∀ f ∈ extra, f.1 = outputPath cfg "ppc_context.h" ∨
        f.1 = outputPath cfg "ppc_recomp_shared.h" := by
  unfold Recompiler.GenerateHeaderFiles
  have h1 : ∃ Z, (match contextFile with
      | some lines =>
        lines.foldl (fun (r : Recompiler) line => r.println line)
          (((Recompiler.println ⟨im, fs, X, k, cfg⟩ "#pragma once").println
            "#include \"ppc_config.h\"").println "")
      | none => ⟨im, fs, X, k, cfg⟩) = (⟨im, fs, Z, k, cfg⟩ : Recompiler) := by
    cases contextFile with
    | none => exact ⟨X, rfl⟩
    | some lines =>
      simp only [Recompiler.println]
      exact foldl_println_mk im fs cfg k lines _
  obtain ⟨Z, hZ⟩ := h1
  simp only [] at hZ ⊢
  rw [hZ]
  obtain ⟨e1, hs1, hp1⟩ := SaveCurrentOutData_named im fs cfg Z k files "ppc_context.h"
    (by decide)
  rw [hs1]
  simp only [Recompiler.println]
  obtain ⟨Z2, hZ2⟩ := printFunctionSymbols_mk
    (fun symbol => "PPC_EXTERN_FUNC(" ++ symbol.name ++ ");") im fs cfg k im.symbols
    ("" ++ "#pragma once" ++ "\n" ++ "#include \"ppc_config.h\"" ++ "\n" ++
      "#include \"ppc_context.h\"" ++ "\n" ++ "" ++ "\n")
  rw [hZ2]
  obtain ⟨e2, hs2, hp2⟩ := SaveCurrentOutData_named im fs cfg Z2 k (files ++ e1)
    "ppc_recomp_shared.h" (by decide)
  rw [hs2]
  refine ⟨e1 ++ e2, by rw [List.append_assoc], ?_⟩
  intro f hf
  rcases List.mem_append.1 hf with h | h
  · exact Or.inl (hp1 f h)
  · exact Or.inr (hp2 f h)

/-- The method `GenerateFunctionMappings` leaves `out` empty, keeps the other members,
and saves at most the file `ppc_func_mapping.cpp`. -/
theorem GenerateFunctionMappings_mk (im : RPXImage) (fs : List Function)
    (cfg : RecompilerConfig) (X : String) (k : Nat) (files : List (String × String)) :
    ∃ extra,
      Recompiler.GenerateFunctionMappings ⟨im, fs, X, k, cfg⟩ files =
        (⟨im, fs, "", k, cfg⟩, files ++ extra) ∧
      ∀ f ∈ extra, f.1 = outputPath cfg "ppc_func_mapping.cpp" := by
  unfold Recompiler.GenerateFunctionMappings
  simp only [Recompiler.println]
  obtain ⟨Z, hZ⟩ := printFunctionSymbols_mk
    (fun symbol => "\t\x7b 0x" ++ formatHex symbol.address ++ ", " ++ symbol.name ++ " \x7d,")
    im fs cfg k im.symbols
    (X ++ "#include \"ppc_recomp_shared.h\"" ++ "\n" ++ "" ++ "\n" ++
      "PPCFuncMapping PPCFuncMappings[] = \x7b" ++ "\n")
  rw [hZ]
  exact SaveCurrentOutData_named im fs cfg _ k files "ppc_func_mapping.cpp" (by decide)

/-- Appending a list of texts to a text. -/
theorem foldl_append_join (l : List String) :
    ∀ init : String, l.foldl (fun r s => r ++ s) init = init ++ String.join l := by
  induction l with
  | nil => intro init; simp [String.join]
  | cons a rest ih =>
    intro init
    simp only [List.foldl_cons, String.join]
    rw [ih (init ++ a), ih ("" ++ a), String.empty_append, String.append_assoc]

/-- The concatenation of a list of texts that starts with `a`. -/
theorem join_cons (a : String) (l : List String) : String.join (a :: l) = a ++ String.join l := by
  have h := foldl_append_join l ("" ++ a)
  rw [String.empty_append] at h
  simpa [String.join] using h

/-- The method `RecompileFunction` appends the text of the function to `out` and leaves
the other members alone, whenever the text is defined. -/
theorem RecompileFunction_text (find : SymbolLookup) (fuel : Nat) (im : RPXImage)
    (fs : List Function) (cfg : RecompilerConfig) (X X0 : String) (k k0 : Nat) (fn : Function)
    (h : (functionText find fuel ⟨im, fs, X0, k0, cfg⟩ fn).isSome = true) :
    ∃ b, Recompiler.RecompileFunction find fuel ⟨im, fs, X, k, cfg⟩ fn =
      some (b, ⟨im, fs, X ++ (functionText find fuel ⟨im, fs, X0, k0, cfg⟩ fn).getD "", k, cfg⟩) := by
  rw [RecompileFunction_mk]
  unfold functionText at h ⊢
  simp only [] at h ⊢
  cases hr : Recompiler.RecompileFunction find fuel ⟨im, fs, "", 0, cfg⟩ fn with
  | none => simp [hr] at h
  | some p => exact ⟨p.1, by simp⟩

/-- The loop "Recompile all functions" over `m` indices that are no multiples of 256:
the texts of the functions are appended to `out`, and nothing is saved. -/
theorem recompileFunctions_run (find : SymbolLookup) (fuel : Nat) (im : RPXImage)
    (fs : List Function) (cfg : RecompilerConfig) (X0 : String) (k0 k : Nat)
    (hdef : ∀ fn ∈ fs, (functionText find fuel ⟨im, fs, X0, k0, cfg⟩ fn).isSome = true)
    (files : List (String × String)) (n : Nat) :
    ∀ (m i : Nat) (X : String), i + m ≤ fs.length →
      (∀ j, i ≤ j → j < i + m → j % 256 ≠ 0) →
      recompileFunctions find fuel (m + n) i ⟨im, fs, X, k, cfg⟩ files =
        recompileFunctions find fuel n (i + m)
          ⟨im, fs, X ++ String.join (((fs.drop i).take m).map
            (fun fn => (functionText find fuel ⟨im, fs, X0, k0, cfg⟩ fn).getD "")), k, cfg⟩
          files := by
  intro m
  induction m with
  | zero =>
    intro i X _ _
    simp [String.join]
  | succ m ih =>
    intro i X hle hj
    have hi : i < fs.length := by omega
    have hmod : ¬ i % 256 = 0 := hj i (le_refl _) (by omega)
    obtain ⟨b, hb⟩ := RecompileFunction_text find fuel im fs cfg X X0 k k0 (fs.get ⟨i, hi⟩)
      (hdef _ (List.get_mem _ _ _))
    rw [show m + 1 + n = (m + n) + 1 by omega]
    rw [recompileFunctions]
    simp only [hmod, if_false, List.get?_eq_get hi, hb]
    rw [ih (i + 1) _ (by omega) (fun j h1 h2 => hj j (by omega) (by omega))]
    rw [show i + 1 + m = i + (m + 1) by omega]
    have hdrop : fs.drop i = fs.get ⟨i, hi⟩ :: fs.drop (i + 1) :=
      List.drop_eq_getElem_cons hi
    rw [hdrop, List.take_succ_cons, List.map_cons, join_cons, String.append_assoc]

/-- A pass through the loop "Recompile all functions" at an index that is a multiple of
256: a non-empty `out` is saved under the next numbered path, and `out` restarts with
the include lines, followed by the text of the function. -/
theorem recompileFunctions_boundary (find : SymbolLookup) (fuel : Nat) (im : RPXImage)
    (fs : List Function) (cfg : RecompilerConfig) (X0 : String) (k0 k : Nat)
    (files : List (String × String)) (n i : Nat) (X : String) (hi : i < fs.length)
    (hfn : (functionText find fuel ⟨im, fs, X0, k0, cfg⟩ (fs.get ⟨i, hi⟩)).isSome = true)
    (h0 : i % 256 = 0) :
    recompileFunctions find fuel (n + 1) i ⟨im, fs, X, k, cfg⟩ files =
      recompileFunctions find fuel n (i + 1)
        ⟨im, fs,
          unitIncludes ++ (functionText find fuel ⟨im, fs, X0, k0, cfg⟩ (fs.get ⟨i, hi⟩)).getD "",
          if X = "" then k else k + 1, cfg⟩
        (if X = "" then files else files ++ [(unitPath cfg k, X)]) := by
  have hinc : ("" : String) ++ "#include \"ppc_recomp_shared.h\"" ++ "\n" ++ "#include <cmath>" ++
      "\n" ++ "#include <immintrin.h>" ++ "\n" ++ "" ++ "\n" = unitIncludes := by decide
  rw [recompileFunctions]
  by_cases hX : X = ""
  · subst hX
    obtain ⟨b, hb⟩ := RecompileFunction_text find fuel im fs cfg unitIncludes X0 k k0
      (fs.get ⟨i, hi⟩) hfn
    simp only [h0, if_true, SaveCurrentOutData_empty, Recompiler.println, hinc,
      List.get?_eq_get hi, hb]
  · obtain ⟨b, hb⟩ := RecompileFunction_text find fuel im fs cfg unitIncludes X0 (k + 1) k0
      (fs.get ⟨i, hi⟩) hfn
    simp only [h0, if_true, SaveCurrentOutData_numbered im fs cfg X k files hX,
      Recompiler.println, hinc, List.get?_eq_get hi, hb, hX, if_false]

/-- A text that starts with the include lines is not empty. -/
theorem unitIncludes_append_ne (s : String) : unitIncludes ++ s ≠ "" := by
  intro h
  have hlen := congrArg String.length h
  rw [String.length_append] at hlen
  have h1 : 0 < unitIncludes.length := by decide
  have h2 : ("" : String).length = 0 := rfl
  omega

/-- The loop "Recompile all functions" from an index `i` that is a multiple of 256 (or
from the end of the vector), followed by the final `SaveCurrentOutData`: a non-empty
`out` at loop entry is saved as the next numbered file, and then one numbered file is
saved for every 256 functions left, holding the include lines and the texts of its
functions. -/
theorem recompileFunctions_units (find : SymbolLookup) (fuel : Nat) (im : RPXImage)
    (fs : List Function) (cfg : RecompilerConfig) (X0 : String) (k0 : Nat)
    (hdef : ∀ fn ∈ fs, (functionText find fuel ⟨im, fs, X0, k0, cfg⟩ fn).isSome = true)
    (n : Nat) :
    ∀ (i k : Nat) (X : String) (files : List (String × String)),
      i + n = fs.length → (n = 0 ∨ i % 256 = 0) →
      (recompileFunctions find fuel n i ⟨im, fs, X, k, cfg⟩ files).map
          (fun p => p.1.SaveCurrentOutData p.2 "") =
        some (⟨im, fs, "", (if X = "" then k else k + 1) + (n + 255) / 256, cfg⟩,
          (if X = "" then files else files ++ [(unitPath cfg k, X)]) ++
            (List.range ((n + 255) / 256)).map
              (fun j => (unitPath cfg ((if X = "" then k else k + 1) + j),
                unitIncludes ++ String.join (((fs.drop (256 * (i / 256 + j))).take 256).map
                  (fun fn => (functionText find fuel ⟨im, fs, X0, k0, cfg⟩ fn).getD ""))))) := by
  induction n using Nat.strong_induction_on with
  | _ n ih =>
    intro i k X files hlen hbound
    cases n with
    | zero =>
      simp only [recompileFunctions, Option.map_some', Nat.zero_add, Nat.reduceDiv,
        List.range_zero, List.map_nil, List.append_nil, Nat.add_zero]
      by_cases hX : X = ""
      · subst hX
        rw [SaveCurrentOutData_empty]
        simp
      · rw [SaveCurrentOutData_numbered im fs cfg X k files hX]
        simp [hX]
    | succ n1 =>
      have h0 : i % 256 = 0 := by
        rcases hbound with h | h
        · omega
        · exact h
      have hi : i < fs.length := by omega
      have hm : ∃ m n2, n1 = m + n2 ∧ m ≤ 255 ∧ (n2 = 0 ∨ m = 255) := by
        by_cases h : n1 ≤ 255
        · exact ⟨n1, 0, by omega, h, Or.inl rfl⟩
        · exact ⟨255, n1 - 255, by omega, le_refl _, Or.inr rfl⟩
      obtain ⟨m, n2, hn1, hm255, hcase⟩ := hm
      subst hn1
      rw [recompileFunctions_boundary find fuel im fs cfg X0 k0 k files (m + n2) i X hi
        (hdef _ (List.get_mem _ _ _)) h0]
      rw [recompileFunctions_run find fuel im fs cfg X0 k0 _ hdef _ n2 m (i + 1) _ (by omega)
        (fun j h1 h2 => by omega)]
      have hdrop : fs.drop i = fs.get ⟨i, hi⟩ :: fs.drop (i + 1) :=
        List.drop_eq_getElem_cons hi
      have hchunk : ((fs.drop i).take 256) = fs.get ⟨i, hi⟩ :: (fs.drop (i + 1)).take m := by
        rw [hdrop, List.take_succ_cons]
        congr 1
        rcases hcase with h | h
        · have hl : (fs.drop (i + 1)).length ≤ m := by
            rw [List.length_drop]; omega
          rw [List.take_of_length_le hl, List.take_of_length_le (by omega)]
        · rw [h]
      have hcontent : unitIncludes ++
          (functionText find fuel ⟨im, fs, X0, k0, cfg⟩ (fs.get ⟨i, hi⟩)).getD "" ++
          String.join (((fs.drop (i + 1)).take m).map
            (fun fn => (functionText find fuel ⟨im, fs, X0, k0, cfg⟩ fn).getD "")) =
          unitIncludes ++ String.join (((fs.drop (256 * (i / 256 + 0))).take 256).map
            (fun fn => (functionText find fuel ⟨im, fs, X0, k0, cfg⟩ fn).getD "")) := by
        have hq : 256 * (i / 256 + 0) = i := by omega
        rw [hq, hchunk, List.map_cons, join_cons, String.append_assoc]
      rw [hcontent]
      have hne := unitIncludes_append_ne (String.join (((fs.drop (256 * (i / 256 + 0))).take 256).map
        (fun fn => (functionText find fuel ⟨im, fs, X0, k0, cfg⟩ fn).getD "")))
      have hrec := ih n2 (by omega) (i + 1 + m) (if X = "" then k else k + 1)
        (unitIncludes ++ String.join (((fs.drop (256 * (i / 256 + 0))).take 256).map
          (fun fn => (functionText find fuel ⟨im, fs, X0, k0, cfg⟩ fn).getD "")))
        (if X = "" then files else files ++ [(unitPath cfg k, X)]) (by omega)
        (by rcases hcase with h | h
            · exact Or.inl h
            · right; omega)
      rw [hrec]
      simp only [hne, if_false]
      have hc : (m + n2 + 1 + 255) / 256 = (n2 + 255) / 256 + 1 := by
        rcases hcase with h | h
        · subst h; omega
        · subst h; omega
      rw [hc, List.range_succ_eq_map, List.map_cons, List.map_map]
      have hmap : ∀ j ∈ List.range ((n2 + 255) / 256),
          (unitPath cfg ((if X = "" then k else k + 1) + 1 + j),
            unitIncludes ++ String.join (((fs.drop (256 * ((i + 1 + m) / 256 + j))).take 256).map
              (fun fn => (functionText find fuel ⟨im, fs, X0, k0, cfg⟩ fn).getD ""))) =
          ((fun j => (unitPath cfg ((if X = "" then k else k + 1) + j),
            unitIncludes ++ String.join (((fs.drop (256 * (i / 256 + j))).take 256).map
              (fun fn => (functionText find fuel ⟨im, fs, X0, k0, cfg⟩ fn).getD "")))) ∘
            Nat.succ) j := by
        intro j hj
        have hjlt := List.mem_range.1 hj
        have hm2 : m = 255 := by
          rcases hcase with h | h
          · subst h; omega
          · exact h
        subst hm2
        have e1 : (i + 1 + 255) / 256 + j = i / 256 + (j + 1) := by omega
        simp only [Function.comp, Nat.succ_eq_add_one, e1, Nat.add_assoc]
        rw [Nat.add_comm 1 j]
      rw [List.map_congr_left hmap]
      simp only [Nat.add_zero, List.append_assoc, List.singleton_append, Nat.add_assoc]
      rw [Nat.add_comm 1 ((n2 + 255) / 256)]

/-- C25: `Recompiler::Recompile`, called with the file index 0 on functions whose
translation is defined for the given fuel, returns, and after the files that the three
`Generate` methods save under their names it saves exactly the numbered files
`translationUnits`: `(F + 255) / 256` files for `F` functions, file `k` under the path
`ppc_recomp.k.cpp`, `k` counting from 0, holding the four include lines and then the
texts of the functions with the indices `256 * k` to `256 * k + 255` in their order.  So
the function at index `i` is the function number `i % 256` of file `i / 256`, and no file
holds more than 256 functions. -/
theorem C25_translation_units (find : SymbolLookup) (fuel : Nat)
    (contextFile : Option (List String)) (r : Recompiler) (files : List (String × String))
    (hidx : r.cppFileIndex = 0)
    (hdef : ∀ fn ∈ r.functions, (functionText find fuel r fn).isSome = true) :
    (∃ generated,
      Recompiler.Recompile find fuel contextFile r files =
        some ({ r with out := "", cppFileIndex := (r.functions.length + 255) / 256 },
          files ++ generated ++ translationUnits find fuel r) ∧
      ∀ f ∈ generated,
        f.1 = outputPath r.config "ppc_config.h" ∨ f.1 = outputPath r.config "ppc_context.h" ∨
        f.1 = outputPath r.config "ppc_recomp_shared.h" ∨
        f.1 = outputPath r.config "ppc_func_mapping.cpp") ∧
      (translationUnits find fuel r).length = (r.functions.length + 255) / 256 ∧
      (∀ k, k < (r.functions.length + 255) / 256 →
        (translationUnits find fuel r).get? k =
          some (unitPath r.config k,
            unitIncludes ++ String.join (((r.functions.drop (256 * k)).take 256).map
              (fun fn => (functionText find fuel r fn).getD "")))) ∧
      (∀ i, i < r.functions.length →
        ((r.functions.drop (256 * (i / 256))).take 256).get? (i % 256) = r.functions.get? i) ∧
      (∀ k, ((r.functions.drop (256 * k)).take 256).length ≤ 256) := by
  refine ⟨?_, ?_, ?_, ?_, ?_⟩
  · obtain ⟨im, fs, X0, k0, cfg⟩ := r
    simp only at hidx hdef
    subst hidx
    obtain ⟨g1, h1, p1⟩ := GenerateConfigFiles_mk im fs cfg X0 0 files
    obtain ⟨g2, h2, p2⟩ := GenerateHeaderFiles_mk contextFile im fs cfg "" 0 (files ++ g1)
    obtain ⟨g3, h3, p3⟩ := GenerateFunctionMappings_mk im fs cfg "" 0 (files ++ g1 ++ g2)
    have hu := recompileFunctions_units find fuel im fs cfg X0 0 hdef fs.length 0 0 ""
      (files ++ g1 ++ g2 ++ g3) (by omega) (Or.inr rfl)
    refine ⟨g1 ++ (g2 ++ g3), ?_, ?_⟩
    · unfold Recompiler.Recompile
      simp only [h1, h2, h3]
      cases hrf : recompileFunctions find fuel fs.length 0 ⟨im, fs, "", 0, cfg⟩
          (files ++ g1 ++ g2 ++ g3) with
      | none => rw [hrf] at hu; simp at hu
      | some res =>
        rw [hrf] at hu
        simp only [Option.map_some', Option.some.injEq] at hu
        simp only [hu, translationUnits, if_true, Nat.zero_add, Nat.zero_div, List.append_assoc]
    · intro f hf
      rcases List.mem_append.1 hf with h | h
      · exact Or.inl (p1 f h)
      · rcases List.mem_append.1 h with h | h
        · rcases p2 f h with h | h
          · exact Or.inr (Or.inl h)
          · exact Or.inr (Or.inr (Or.inl h))
        · exact Or.inr (Or.inr (Or.inr (p3 f h)))
  · simp [translationUnits]
  · intro k hk
    simp [translationUnits, List.getElem?_map, List.getElem?_range hk]
  · intro i hi
    rw [List.get?_eq_getElem?, List.get?_eq_getElem?, List.getElem?_take_of_lt (Nat.mod_lt _ (by decide)),
      List.getElem?_drop, Nat.div_add_mod]
  · intro k
    exact List.length_take_le _ _

set_option maxRecDepth 8000 in
/-- C25, witness: a recompiler with the file index 0 and 257 copies of a function whose
translation is defined; two numbered files are saved. -/
theorem C25_translation_units_witness :
    manyFunctionsRecompiler.cppFileIndex = 0 ∧
      manyFunctionsRecompiler.functions.length = 257 ∧
      (functionText findByAddress 4 manyFunctionsRecompiler blrFunction).isSome = true ∧
      (translationUnits findByAddress 4 manyFunctionsRecompiler).length = (257 + 255) / 256 :=
  ⟨rfl, by decide, by decide,
    (C25_translation_units findByAddress 4 none manyFunctionsRecompiler [] rfl
      (fun fn hfn => by
        rw [List.eq_of_mem_replicate hfn]
        decide)).2.1⟩

/-! ## Theorems: reachability of the descriptors -/

/-- A list entry that matches whenever a later, different entry matches keeps `find?` from
returning the later one. -/
theorem find?_shadowed {α : Type} (p : α → Bool) (l1 l2 : List α) (e d : α)
    (hd : d ∉ l1) (hde : d ≠ e) (hsh : p d = true → p e = true) :
    (l1 ++ e :: l2).find? p ≠ some d := by
  intro h
  have hpd : p d = true := List.find?_some h
  rw [List.find?_append] at h
  cases h1 : l1.find? p with
  | some x =>
    rw [h1] at h
    have hx : x = d := by simpa using h
    exact hd (hx ▸ List.mem_of_find?_eq_some h1)
  | none =>
    rw [h1] at h
    simp only [Option.none_or, List.find?, hsh hpd] at h
    exact hde (Option.some.inj h).symm

/-- A word that matches a descriptor also matches every descriptor whose mask is part of
that mask and whose pattern agrees on it. -/
theorem match_of_submask (w m1 o1 m2 o2 : Nat) (hm : m2 &&& m1 = m2) (ho : o1 &&& m2 = o2)
    (h : (w &&& m1) = o1) : (w &&& m2) = o2 := by
  rw [← ho, ← h, Nat.and_assoc, Nat.and_comm m1 m2, hm]

/-- A descriptor that stands after a more general one is never returned by the lookup. -/
theorem GetOpcode_shadowed (w j : Nat) (e d : ppc_opcode)
    (hsplit : descriptors = descriptors.take j ++ e :: descriptors.drop (j + 1))
    (hd : d ∉ descriptors.take j) (hde : d ≠ e)
    (hm : e.mask &&& d.mask = e.mask) (ho : d.opcode &&& e.mask = e.opcode) :
    GetOpcode w ≠ some d := by
  rw [GetOpcode_eq_find, hsplit]
  apply find?_shadowed _ _ _ e d hd hde
  intro hp
  have hp2 : (w &&& d.mask) = d.opcode := by simpa using hp
  simpa using match_of_submask w d.mask d.opcode e.mask e.opcode hm ho hp2

/-- A descriptor whose pattern has a bit outside its mask matches no word. -/
theorem GetOpcode_never (w : Nat) (d : ppc_opcode) (hbits : d.opcode &&& d.mask ≠ d.opcode) :
    GetOpcode w ≠ some d := by
  intro h
  rw [GetOpcode_eq_find] at h
  have hp : (w &&& d.mask) = d.opcode := by simpa using List.find?_some h
  apply hbits
  rw [← hp, Nat.and_assoc, Nat.and_self]

/-- The ten descriptors of the table that no word reaches. -/
theorem GetOpcode_unreachable (w : Nat) (d : ppc_opcode) (h : GetOpcode w = some d) :
    d ∉ [ppc_opcode.mk (some "add.") 0x7C000215 0xFC0007FF [0, 1, 2, -1] .PPC_INST_ADD,
      ppc_opcode.mk (some "and.") 0x7C000039 0xFC0007FF [0, 1, 2, -1] .PPC_INST_AND,
      ppc_opcode.mk (some "or.") 0x7C000379 0xFC0007FF [0, 1, 2, -1] .PPC_INST_OR,
      ppc_opcode.mk (some "blr") 0x4E800020 0xFFFFFFFF [-1, -1, -1, -1] .PPC_INST_BLR,
      ppc_opcode.mk (some "bctr") 0x4E800420 0xFFFFFFFF [-1, -1, -1, -1] .PPC_INST_BCTR,
      ppc_opcode.mk (some "cmplw") 0x7C000040 0xFC400000 [0, 1, 2, -1] .PPC_INST_CMPLW,
      ppc_opcode.mk (some "li") 0x38000000 0xFFE00000 [0, 1, -1, -1] .PPC_INST_LI,
      ppc_opcode.mk (some "lis") 0x3C000000 0xFFE00000 [0, 1, -1, -1] .PPC_INST_LIS,
      ppc_opcode.mk (some "mr") 0x7C000378 0xFC0007FE [0, 1, 1, -1] .PPC_INST_OR,
      ppc_opcode.mk (some "nop") 0x60000000 0xFFFFFFFF [-1, -1, -1, -1] .PPC_INST_NOP] := by
  intro hmem
  simp only [List.mem_cons, List.mem_singleton, List.not_mem_nil, or_false] at hmem
  rcases hmem with e | e | e | e | e | e | e | e | e | e <;> subst e
  · exact GetOpcode_shadowed w 0
      (ppc_opcode.mk (some "add") 0x7C000214 0xFC0007FE [0, 1, 2, -1] .PPC_INST_ADD) _
      (by decide) (by decide) (by decide) (by decide) (by decide) h
  · exact GetOpcode_shadowed w 6
      (ppc_opcode.mk (some "and") 0x7C000038 0xFC0007FE [0, 1, 2, -1] .PPC_INST_AND) _
      (by decide) (by decide) (by decide) (by decide) (by decide) h
  · exact GetOpcode_shadowed w 10
      (ppc_opcode.mk (some "or") 0x7C000378 0xFC0007FE [0, 1, 2, -1] .PPC_INST_OR) _
      (by decide) (by decide) (by decide) (by decide) (by decide) h
  · exact GetOpcode_shadowed w 21
      (ppc_opcode.mk (some "bclr") 0x4C000020 0xFC00FFFE [0, 1, -1, -1] .PPC_INST_BCLR) _
      (by decide) (by decide) (by decide) (by decide) (by decide) h
  · exact GetOpcode_shadowed w 22
      (ppc_opcode.mk (some "bcctr") 0x4C000420 0xFC00FFFE [0, 1, -1, -1] .PPC_INST_BCCTR) _
      (by decide) (by decide) (by decide) (by decide) (by decide) h
  · exact GetOpcode_never w _ (by decide) h
  · exact GetOpcode_shadowed w 2
      (ppc_opcode.mk (some "addi") 0x38000000 0xFC000000 [0, 1, 2, -1] .PPC_INST_ADDI) _
      (by decide) (by decide) (by decide) (by decide) (by decide) h
  · exact GetOpcode_shadowed w 3
      (ppc_opcode.mk (some "addis") 0x3C000000 0xFC000000 [0, 1, 2, -1] .PPC_INST_ADDIS) _
      (by decide) (by decide) (by decide) (by decide) (by decide) h
  · exact GetOpcode_shadowed w 10
      (ppc_opcode.mk (some "or") 0x7C000378 0xFC0007FE [0, 1, 2, -1] .PPC_INST_OR) _
      (by decide) (by decide) (by decide) (by decide) (by decide) h
  · exact GetOpcode_shadowed w 12
      (ppc_opcode.mk (some "ori") 0x60000000 0xFC000000 [0, 1, 2, -1] .PPC_INST_ORI) _
      (by decide) (by decide) (by decide) (by decide) (by decide) h

/-- The descriptors with one of the six identities or one of the ten names are the ten
unreachable ones. -/
theorem descriptors_unreachable_names :
    ∀ d ∈ descriptors,
      (d.name ∈ [some "add.", some "and.", some "or.", some "blr", some "bctr", some "cmplw",
          some "li", some "lis", some "mr", some "nop"] ∨
        d.id ∈ [ppc_insn_id.PPC_INST_LIS, ppc_insn_id.PPC_INST_LI, ppc_insn_id.PPC_INST_BLR,
          ppc_insn_id.PPC_INST_BCTR, ppc_insn_id.PPC_INST_NOP, ppc_insn_id.PPC_INST_CMPLW]) →
      d ∈ [ppc_opcode.mk (some "add.") 0x7C000215 0xFC0007FF [0, 1, 2, -1] .PPC_INST_ADD,
        ppc_opcode.mk (some "and.") 0x7C000039 0xFC0007FF [0, 1, 2, -1] .PPC_INST_AND,
        ppc_opcode.mk (some "or.") 0x7C000379 0xFC0007FF [0, 1, 2, -1] .PPC_INST_OR,
        ppc_opcode.mk (some "blr") 0x4E800020 0xFFFFFFFF [-1, -1, -1, -1] .PPC_INST_BLR,
        ppc_opcode.mk (some "bctr") 0x4E800420 0xFFFFFFFF [-1, -1, -1, -1] .PPC_INST_BCTR,
        ppc_opcode.mk (some "cmplw") 0x7C000040 0xFC400000 [0, 1, 2, -1] .PPC_INST_CMPLW,
        ppc_opcode.mk (some "li") 0x38000000 0xFFE00000 [0, 1, -1, -1] .PPC_INST_LI,
        ppc_opcode.mk (some "lis") 0x3C000000 0xFFE00000 [0, 1, -1, -1] .PPC_INST_LIS,
        ppc_opcode.mk (some "mr") 0x7C000378 0xFC0007FE [0, 1, 1, -1] .PPC_INST_OR,
        ppc_opcode.mk (some "nop") 0x60000000 0xFFFFFFFF [-1, -1, -1, -1] .PPC_INST_NOP] := by
  decide

/-- Every other descriptor is returned for its own pattern word. -/
theorem descriptors_reachable :
    ∀ d ∈ descriptors,
      d.name ∉ [some "add.", some "and.", some "or.", some "blr", some "bctr", some "cmplw",
          some "li", some "lis", some "mr", some "nop"] →
      GetOpcode d.opcode = some d := by
  decide

set_option maxRecDepth 8000 in
/-- C35 (code bug): no word is looked up to a descriptor named `add.`, `and.`, `or.`,
`blr`, `bctr`, `cmplw`, `li`, `lis`, `mr` or `nop`, nor to one with the identity of `lis`,
`li`, `blr`, `bctr`, `nop` or `cmplw`: each of them stands after a descriptor that matches
every word it matches, except `cmplw`, whose pattern has a bit outside its mask.  The
words of `blr`, `bctr`, `nop`, `li r3, 1`, `lis r3, 1` and `cmplw r3, r4` are looked up
to `bclr`, `bcctr`, `ori`, `addi`, `addis` and `cmpw`.  The other seventy descriptors are
each returned for their own pattern word. -/
theorem C35_unreachable_descriptors :
    (∀ w d, GetOpcode w = some d →
      d.name ∉ [some "add.", some "and.", some "or.", some "blr", some "bctr", some "cmplw",
          some "li", some "lis", some "mr", some "nop"] ∧
        d.id ∉ [ppc_insn_id.PPC_INST_LIS, ppc_insn_id.PPC_INST_LI, ppc_insn_id.PPC_INST_BLR,
          ppc_insn_id.PPC_INST_BCTR, ppc_insn_id.PPC_INST_NOP, ppc_insn_id.PPC_INST_CMPLW]) ∧
      (∀ d ∈ descriptors,
        d.name ∉ [some "add.", some "and.", some "or.", some "blr", some "bctr", some "cmplw",
            some "li", some "lis", some "mr", some "nop"] →
        GetOpcode d.opcode = some d) ∧
      [0x4E800020, 0x4E800420, 0x60000000, 0x38600001, 0x3C600001, 0x7C032040].map
          (fun w => (GetOpcode w).bind (fun d => d.name)) =
        [some "bclr", some "bcctr", some "ori", some "addi", some "addis", some "cmpw"] := by
  refine ⟨?_, descriptors_reachable, by decide⟩
  intro w d h
  have hmem : d ∈ descriptors := by
    rw [GetOpcode_eq_find] at h
    exact List.mem_of_find?_eq_some h
  have hun := GetOpcode_unreachable w d h
  constructor
  · intro hn
    exact hun (descriptors_unreachable_names d hmem (Or.inl hn))
  · intro hi
    exact hun (descriptors_unreachable_names d hmem (Or.inr hi))

/-! ## Theorems: call targets of RPXAnalyzer::FindFunctionBoundaries -/

/-- The macro `PPC_BI` on a word with AA clear and LK set: the sign-extended displacement
field plus the link bit. -/
theorem PPC_BI_link (w : Nat) (haa : PPC_BA w = 0) (hlk : PPC_BL w = 1) :
    PPC_BI w = SignExtend (w &&& 0x03FFFFFC) 26 + 1 := by
  have hc : (0x03FFFFFC : Nat) = (2 ^ 24 - 1) <<< 2 := by decide
  have hle : w &&& 0x03FFFFFC ≤ 0x03FFFFFC := Nat.and_le_right
  rw [SignExtend_26 _ (by omega)]
  rw [hc, and_shifted_mask w 24 2]
  unfold PPC_BA at haa
  unfold PPC_BL at hlk
  unfold PPC_BI toInt32
  rw [Nat.and_one_is_mod] at haa hlk
  rw [Nat.shiftRight_eq_div_pow] at haa
  rw [Int.shiftRight_eq_div_pow, Nat.shiftLeft_eq]
  simp only [U32]
  norm_num at haa ⊢
  split_ifs <;> omega

/-- Every word with primary opcode 18, AA clear and LK set is looked up to the descriptor
`bl`. -/
theorem GetOpcode_bl (w : Nat) (hop : PPC_OP w = PPC_OP_B)
    (haa : PPC_BA w = 0) (hlk : PPC_BL w = 1) :
    GetOpcode w =
      some (ppc_opcode.mk (some "bl") 0x48000001 0xFC000003 [0, -1, -1, -1] .PPC_INST_BL) := by
  have hsplit : descriptors = descriptors.take 19 ++
      ppc_opcode.mk (some "bl") 0x48000001 0xFC000003 [0, -1, -1, -1] .PPC_INST_BL ::
        descriptors.drop 20 := by decide
  have hhigh : w &&& 0xFC000000 = 0x48000000 := by
    have hc : (0xFC000000 : Nat) = (2 ^ 6 - 1) <<< 26 := by decide
    rw [hc, and_shifted_mask w 6 26]
    unfold PPC_OP PPC_OP_B at hop
    have h6 : (0x3F : Nat) = 2 ^ 6 - 1 := by norm_num
    rw [h6, Nat.and_pow_two_sub_one_eq_mod, Nat.shiftRight_eq_div_pow] at hop
    rw [hop]
    norm_num
  have hlow : w &&& 0xFC000003 = 0x48000001 := by
    have hor : (0xFC000003 : Nat) = 0xFC000000 ||| 3 := by decide
    have h3 : w &&& 3 = 1 := by
      have e3 : (3 : Nat) = 2 ^ 2 - 1 := by norm_num
      rw [e3, Nat.and_pow_two_sub_one_eq_mod]
      unfold PPC_BA at haa
      unfold PPC_BL at hlk
      rw [Nat.and_one_is_mod] at haa hlk
      rw [Nat.shiftRight_eq_div_pow] at haa
      norm_num at haa ⊢
      omega
    rw [hor, Nat.and_or_distrib_left, hhigh, h3]
    decide
  have hnone : (descriptors.take 19).find? (fun d => decide ((w &&& d.mask) = d.opcode)) =
      none := by
    rw [List.find?_eq_none]
    intro e he
    have hfacts : ∀ e ∈ descriptors.take 19,
        (0xFC000000 &&& e.mask = 0xFC000000 ∧ e.opcode &&& 0xFC000000 ≠ 0x48000000) ∨
          (0xFC000003 &&& e.mask = 0xFC000003 ∧ e.opcode &&& 0xFC000003 ≠ 0x48000001) := by
      decide
    simp only [decide_eq_true_eq]
    intro hmatch
    rcases hfacts e he with ⟨hm, ho⟩ | ⟨hm, ho⟩
    · apply ho
      have := match_of_submask w e.mask e.opcode 0xFC000000 (e.opcode &&& 0xFC000000) hm rfl
        hmatch
      rw [← this, hhigh]
    · apply ho
      have := match_of_submask w e.mask e.opcode 0xFC000003 (e.opcode &&& 0xFC000003) hm rfl
        hmatch
      rw [← this, hlow]
  rw [GetOpcode_eq_find, hsplit, List.find?_append, hnone]
  simp [List.find?, hlow]

/-- The `uint32_t` image of a multiple of 4 is a multiple of 4 below `2^32`. -/
theorem toU32_aligned (t : Int) (h4 : t % 4 = 0) : toU32 t < U32 ∧ toU32 t % 4 = 0 := by
  unfold toU32 U32
  omega

/-- Adding the `uint32_t` image of `t + 1` is adding the image of `t` and then 1. -/
theorem add_toU32_succ (c : Nat) (t : Int) :
    (c + toU32 (t + 1)) % U32 = (c + toU32 t + 1) % U32 := by
  unfold toU32 U32
  omega

/-- The displacement of a branch word is a multiple of 4. -/
theorem SignExtend_li_aligned (w : Nat) : SignExtend (w &&& 0x03FFFFFC) 26 % 4 = 0 := by
  have hle : w &&& 0x03FFFFFC ≤ 0x03FFFFFC := Nat.and_le_right
  have hm4 := and_mask_mod_four w 0x03FFFFFC (by norm_num)
  rw [SignExtend_26 (w &&& 0x03FFFFFC) (by omega)]
  split_ifs <;> omega

/-- The target that `FindFunctionBoundaries` computes for a `bl` word is one byte past the
address that the decoded displacement gives. -/
theorem callTarget_bl (A i w : Nat) (hop : PPC_OP w = PPC_OP_B)
    (haa : PPC_BA w = 0) (hlk : PPC_BL w = 1) :
    ∃ li rest, (DecodeInstruction w freshInsn).2.operands = li :: rest ∧
      li < U32 ∧ li % 4 = 0 ∧
      callTarget A i w = ((A + (i * 4) % U64) % U32 + li + 1) % U32 := by
  have hd := GetOpcode_bl w hop haa hlk
  have hops := DecodeInstruction_b w _ 0 0 0 [0] freshInsn hd rfl (Or.inr (Or.inr rfl))
  have hal := toU32_aligned _ (SignExtend_li_aligned w)
  refine ⟨toU32 (SignExtend (w &&& 0x03FFFFFC) 26), _, hops, hal.1, hal.2, ?_⟩
  unfold callTarget
  simp only
  rw [PPC_BI_link w haa hlk]
  exact add_toU32_succ _ _

/-- The scan of `callSection`: the only call found is the `bl +8` at `0x02000000`; the
function analysed for it starts at `0x02000009`. -/
theorem FindFunctionBoundaries_callSection (fuel : Nat) :
    RPXAnalyzer.FindFunctionBoundaries (fuel + 3) 0x1000 callSection [] =
      some [⟨0x02000009, 8, [⟨0, 8, NPOS⟩]⟩] := by
  have hA : RPXAnalyzer.AnalyzeSingleFunction (fuel + 3) 0x1000
      [0x48, 0x00, 0x00, 0x09, 0x4E, 0x80, 0x00, 0x20,
        0x4E, 0x80, 0x00, 0x20, 0x00, 0x00, 0x00, 0x00] 0x02000009 9 7 =
      some ⟨0x02000009, 8, [⟨0, 8, NPOS⟩]⟩ :=
    AnalyzeWith_fuel_mono sortBlocks
      ⟨memOfBytes 0x1000 [0x48, 0x00, 0x00, 0x09, 0x4E, 0x80, 0x00, 0x20,
        0x4E, 0x80, 0x00, 0x20, 0x00, 0x00, 0x00, 0x00], (0x1000 + 9) % U64, 7, 0x02000009⟩
      3 (fuel + 3) ⟨0x02000009, 8, [⟨0, 8, NPOS⟩]⟩ (by omega) (by decide)
  have h0 : findFunctionBoundariesStep (fuel + 3) 0x1000 callSection
      [0x48, 0x00, 0x00, 0x09, 0x4E, 0x80, 0x00, 0x20,
        0x4E, 0x80, 0x00, 0x20, 0x00, 0x00, 0x00, 0x00] [] 0 =
      some [⟨0x02000009, 8, [⟨0, 8, NPOS⟩]⟩] := by
    unfold findFunctionBoundariesStep
    simp only []
    rw [if_pos (by decide), if_pos (by decide), if_neg (by decide)]
    have e1 : callTarget callSection.base 0 (be32At [0x48, 0x00, 0x00, 0x09, 0x4E, 0x80, 0x00,
        0x20, 0x4E, 0x80, 0x00, 0x20, 0x00, 0x00, 0x00, 0x00] (4 * 0)) = 0x02000009 := by
      decide
    have e2 : (0x02000009 + U32 - callSection.base) % U32 = 9 := by decide
    have e3 : (callSection.size + U64 - 9) % U64 = 7 := by decide
    rw [e1, e2, e3, hA]
    rfl
  have hrest : ∀ i, i = 1 ∨ i = 2 ∨ i = 3 →
      findFunctionBoundariesStep (fuel + 3) 0x1000 callSection
        [0x48, 0x00, 0x00, 0x09, 0x4E, 0x80, 0x00, 0x20,
          0x4E, 0x80, 0x00, 0x20, 0x00, 0x00, 0x00, 0x00]
        [⟨0x02000009, 8, [⟨0, 8, NPOS⟩]⟩] i = some [⟨0x02000009, 8, [⟨0, 8, NPOS⟩]⟩] := by
    intro i hi
    rcases hi with rfl | rfl | rfl <;>
      (unfold findFunctionBoundariesStep; dsimp only; rw [if_neg (by decide)])
  have hr : List.range (callSection.size / 4) = [0, 1, 2, 3] := by decide
  have hdata : callSection.data = some [0x48, 0x00, 0x00, 0x09, 0x4E, 0x80, 0x00, 0x20,
      0x4E, 0x80, 0x00, 0x20, 0x00, 0x00, 0x00, 0x00] := rfl
  unfold RPXAnalyzer.FindFunctionBoundaries
  rw [hdata]
  simp only []
  rw [hr, List.foldl_cons, List.foldl_cons, List.foldl_cons, List.foldl_cons, List.foldl_nil,
    Option.some_bind, h0, Option.some_bind, hrest 1 (Or.inl rfl), Option.some_bind,
    hrest 2 (Or.inr (Or.inl rfl)), Option.some_bind, hrest 3 (Or.inr (Or.inr rfl))]

/-- C34 (code bug): for every `bl` word (primary opcode 18, AA = 0, LK = 1) at index `i` of
a section with base `A`, the target that `FindFunctionBoundaries` computes is the address
of the word plus the displacement that `DecodeInstruction` decodes plus 1, modulo `2^32`:
`PPC_BI` sign-extends the low 26 bits of the word, the LK bit included.  When the address
of the word is a multiple of 4 the target is 1 modulo 4, so it is neither aligned nor the
address that the decoded displacement gives.  For `bl +8` at `0x02000000` the decoded
displacement is 8 and the computed target `0x02000009`; in the section
`bl +8; blr; blr; 0` the function recorded for the call starts at `0x02000009`. -/
theorem C34_call_target_includes_link_bit :
    (∀ A i w : Nat, PPC_OP w = PPC_OP_B → PPC_BA w = 0 → PPC_BL w = 1 →
      ∃ li rest, (DecodeInstruction w freshInsn).2.operands = li :: rest ∧
        callTarget A i w = ((A + (i * 4) % U64) % U32 + li + 1) % U32 ∧
        ((A + (i * 4) % U64) % U32 % 4 = 0 →
          callTarget A i w % 4 = 1 ∧
            callTarget A i w ≠ ((A + (i * 4) % U64) % U32 + li) % U32)) ∧
      (DecodeInstruction 0x48000009 freshInsn).2.operands = [8, 0, 0, 0] ∧
      callTarget 0x02000000 0 0x48000009 = 0x02000009 ∧
      (∀ fuel, RPXAnalyzer.FindFunctionBoundaries (fuel + 3) 0x1000 callSection [] =
        some [⟨0x02000009, 8, [⟨0, 8, NPOS⟩]⟩]) := by
  refine ⟨?_, by decide, by decide, FindFunctionBoundaries_callSection⟩
  intro A i w hop haa hlk
  obtain ⟨li, rest, hops, hli, h4, ht⟩ := callTarget_bl A i w hop haa hlk
  refine ⟨li, rest, hops, ht, ?_⟩
  intro hal
  rw [ht]
  generalize (A + (i * 4) % U64) % U32 = c at *
  unfold U32 at *
  omega

/-! ## Theorems: Function::Validate -/

/-- Without wrap-around of a block end, the test of adjacent blocks separates every pair
of blocks: each block ends at or before the start of every later block. -/
theorem blocksOrdered_pairwise (l : List Function.Block)
    (hfit : ∀ b ∈ l, b.base + b.size < U64) (h : blocksOrdered l = true) :
    List.Pairwise (fun a b => a.base + a.size ≤ b.base) l := by
  induction l with
  | nil => exact List.Pairwise.nil
  | cons a rest ih =>
    cases rest with
    | nil => exact List.pairwise_singleton _ _
    | cons b rest2 =>
      have ha : a.base + a.size < U64 := hfit a (List.mem_cons_self _ _)
      have hb : b.base + b.size < U64 := hfit b (by simp)
      have hrest : ∀ c ∈ b :: rest2, c.base + c.size < U64 :=
        fun c hc => hfit c (List.mem_cons_of_mem _ hc)
      simp only [blocksOrdered] at h
      split_ifs at h with hlt
      have hp := ih hrest h
      refine List.Pairwise.cons ?_ hp
      have hab : a.base + a.size ≤ b.base := by
        rw [Nat.mod_eq_of_lt ha] at hlt
        omega
      intro c hc
      rcases List.mem_cons.mp hc with rfl | hc2
      · exact hab
      · have := List.rel_of_pairwise_cons hp hc2
        omega

/-- C36, counterexample: the function with base `0x02000000`, size 8 and the blocks
`(5, 1)`, `(6, 2^64 - 6)`, `(0, 1)` passes `Validate`, because the end of the second block
wraps around to 0; yet the blocks are not sorted by start (6 precedes 0), the first block
ends after the start of the third, also when the end is taken in `size_t`, and
`start + size` of the second block exceeds the function size. -/
theorem C36_validate_counterexample :
    (Function.mk 0x02000000 8
        [⟨5, 1, NPOS⟩, ⟨6, 0xFFFFFFFFFFFFFFFA, NPOS⟩, ⟨0, 1, NPOS⟩]).Validate = true ∧
      ¬ ((6 : Nat) ≤ 0) ∧ ¬ ((5 : Nat) + 1 ≤ 0) ∧ ¬ ((5 + 1) % U64 ≤ 0) ∧
      ¬ (6 + 0xFFFFFFFFFFFFFFFA ≤ 8) := by
  decide

/-- C36, amended: for a function in which no block end `start + size` wraps around
`2^64`, a true result of `Validate` means that base and size are non-zero, the block
vector is non-empty and sorted by start, every block has `start < size` and
`start + size <= size` of the function, and every block ends at or before the start of
every later block. -/
theorem C36_validate_amended (f : Function)
    (hfit : ∀ b ∈ f.blocks, b.base + b.size < U64) (h : f.Validate = true) :
    f.base ≠ 0 ∧ f.size ≠ 0 ∧ f.blocks ≠ [] ∧
      List.Pairwise (fun a b => a.base ≤ b.base) f.blocks ∧
      (∀ b ∈ f.blocks, b.base < f.size ∧ b.base + b.size ≤ f.size) ∧
      (∀ (i j : Nat) (a b : Function.Block), i < j → f.blocks[i]? = some a →
        f.blocks[j]? = some b → a.base + a.size ≤ b.base) := by
  unfold Function.Validate at h
  split_ifs at h with h1 h2
  have hne : f.base ≠ 0 ∧ f.size ≠ 0 ∧ f.blocks ≠ [] := by
    refine ⟨fun e => h1 (Or.inl e), fun e => h1 (Or.inr (Or.inl e)), fun e => h1 ?_⟩
    right; right
    simp [e]
  have hin : ∀ b ∈ f.blocks, b.base < f.size ∧ b.base + b.size ≤ f.size := by
    intro b hb
    have hnot : ¬ (b.base ≥ f.size ∨ (b.base + b.size) % U64 > f.size) := by
      intro hc
      apply h2
      rw [List.any_eq_true]
      exact ⟨b, hb, by simpa using hc⟩
    rw [Nat.mod_eq_of_lt (hfit b hb)] at hnot
    omega
  have hp := blocksOrdered_pairwise f.blocks hfit h
  refine ⟨hne.1, hne.2.1, hne.2.2, hp.imp (fun hab => by omega), hin, ?_⟩
  intro i j a b hij hi hj
  have hi2 : i < f.blocks.length := by
    rcases Nat.lt_or_ge i f.blocks.length with hlt | hge
    · exact hlt
    · rw [List.getElem?_eq_none hge] at hi
      cases hi
  have hj2 : j < f.blocks.length := by
    rcases Nat.lt_or_ge j f.blocks.length with hlt | hge
    · exact hlt
    · rw [List.getElem?_eq_none hge] at hj
      cases hj
  rw [List.getElem?_eq_getElem hi2] at hi
  rw [List.getElem?_eq_getElem hj2] at hj
  have ha : a = f.blocks[i] := by injection hi with e; exact e.symm
  have hb : b = f.blocks[j] := by injection hj with e; exact e.symm
  rw [ha, hb]
  exact (List.pairwise_iff_getElem.mp hp) i j hi2 hj2 hij

/-- C36, amended, at the function with base `0x02000000`, size 12 and the blocks `(0, 4)`,
`(4, 4)`, `(8, 4)`. -/
theorem C36_validate_amended_witness :
    (Function.mk 0x02000000 12 [⟨0, 4, NPOS⟩, ⟨4, 4, NPOS⟩, ⟨8, 4, NPOS⟩]).Validate = true ∧
      ((0 : Nat) + 4 ≤ 8) ∧
      (∀ (i j : Nat) (a b : Function.Block), i < j →
        (Function.mk 0x02000000 12
          [⟨0, 4, NPOS⟩, ⟨4, 4, NPOS⟩, ⟨8, 4, NPOS⟩]).blocks[i]? = some a →
        (Function.mk 0x02000000 12
          [⟨0, 4, NPOS⟩, ⟨4, 4, NPOS⟩, ⟨8, 4, NPOS⟩]).blocks[j]? = some b →
        a.base + a.size ≤ b.base) :=
  ⟨by decide, by decide,
    (C36_validate_amended
      (Function.mk 0x02000000 12 [⟨0, 4, NPOS⟩, ⟨4, 4, NPOS⟩, ⟨8, 4, NPOS⟩])
      (by decide) (by decide)).2.2.2.2.2⟩

/-! ## Theorems: Function::MergeOverlappingBlocks -/

/-- The loop over the rest of the sorted blocks, started with a vector whose back is
`last`, leaves the blocks before `last` alone and yields `mergeFrom last rest` after
them. -/
theorem foldl_mergeStep (rest : List Function.Block) (front : List Function.Block)
    (last : Function.Block) :
    rest.foldl mergeStep (front ++ [last]) = front ++ mergeFrom last rest := by
  induction rest generalizing front last with
  | nil => simp [mergeFrom]
  | cons current rest ih =>
    simp only [List.foldl_cons, mergeFrom]
    have hstep : mergeStep (front ++ [last]) current =
        if current.base ≤ (last.base + last.size) % U64 then
          front ++ [{ last with size := mergedSize last current }]
        else (front ++ [last]) ++ [current] := by
      simp [mergeStep]
    rw [hstep]
    by_cases hc : current.base ≤ (last.base + last.size) % U64
    · rw [if_pos hc, if_pos hc, ih]
    · rw [if_neg hc, if_neg hc, ih]
      simp

/-- The result of `MergeOverlappingBlocks` on more than one block is the merge of the
sorted vector from its first block on. -/
theorem mergeBlocksWith_eq (srt : List Function.Block → List Function.Block)
    (blocks : List Function.Block) (first : Function.Block) (rest : List Function.Block)
    (hlen : ¬ blocks.length ≤ 1) (hs : srt blocks = first :: rest) :
    mergeBlocksWith srt blocks = mergeFrom first rest := by
  unfold mergeBlocksWith
  rw [if_neg hlen, hs]
  simpa using foldl_mergeStep rest [] first

/-- The first block of a merge keeps the base of the block the merge started from. -/
theorem mergeFrom_head (rest : List Function.Block) (last : Function.Block) :
    ∃ h t, mergeFrom last rest = h :: t ∧ h.base = last.base := by
  induction rest generalizing last with
  | nil => exact ⟨last, [], rfl, rfl⟩
  | cons current rest ih =>
    simp only [mergeFrom]
    split_ifs with hc
    · obtain ⟨h, t, e, hb⟩ := ih { last with size := mergedSize last current }
      exact ⟨h, t, e, hb⟩
    · exact ⟨last, _, rfl, rfl⟩

/-- When `current` starts at or before the end of `last` and not before its start, the
merged block ends at the larger of the two ends, computed in `size_t`. -/
theorem mergedSize_end (last current : Function.Block) (hle : last.base ≤ current.base)
    (hc : current.base ≤ (last.base + last.size) % U64) :
    (last.base + mergedSize last current) % U64 =
      max ((last.base + last.size) % U64) ((current.base + current.size) % U64) := by
  unfold mergedSize
  have h1 : (last.base + last.size) % U64 < U64 := Nat.mod_lt _ (by decide)
  have h2 : (current.base + current.size) % U64 < U64 := Nat.mod_lt _ (by decide)
  generalize (last.base + last.size) % U64 = le at *
  generalize (current.base + current.size) % U64 = ce at *
  rcases Nat.le_total le ce with h | h
  · rw [Nat.max_eq_right h]
    unfold U64 at *
    omega
  · rw [Nat.max_eq_left h]
    unfold U64 at *
    omega

/-- Merging keeps the coverage of a sorted vector, ranges taken in `size_t`. -/
theorem mergeFrom_covers (rest : List Function.Block) (last : Function.Block) (x : Nat)
    (hs : List.Pairwise (fun a b => a.base ≤ b.base) (last :: rest)) :
    (∃ b ∈ mergeFrom last rest, b.InRange x) ↔ ∃ b ∈ last :: rest, b.InRange x := by
  induction rest generalizing last with
  | nil => simp [mergeFrom]
  | cons current rest ih =>
    have hle : last.base ≤ current.base := List.rel_of_pairwise_cons hs (List.mem_cons_self _ _)
    have hs2 : List.Pairwise (fun a b => a.base ≤ b.base) (current :: rest) :=
      (List.pairwise_cons.mp hs).2
    simp only [mergeFrom]
    split_ifs with hc
    · have hs3 : List.Pairwise (fun a b => a.base ≤ b.base)
          ({ last with size := mergedSize last current } :: rest) := by
        refine List.Pairwise.cons ?_ (List.pairwise_cons.mp hs2).2
        intro c hcmem
        exact List.rel_of_pairwise_cons hs (List.mem_cons_of_mem _ hcmem)
      rw [ih _ hs3]
      have hend := mergedSize_end last current hle hc
      have hkey : (Function.Block.InRange { last with size := mergedSize last current } x) ↔
          (last.InRange x ∨ current.InRange x) := by
        unfold Function.Block.InRange
        simp only
        rw [hend]
        generalize (last.base + last.size) % U64 = le at *
        generalize (current.base + current.size) % U64 = ce at *
        rcases Nat.le_total le ce with h | h
        · rw [Nat.max_eq_right h]
          omega
        · rw [Nat.max_eq_left h]
          omega
      simp only [List.mem_cons, exists_eq_or_imp, hkey]
      tauto
    · simp only [List.mem_cons, exists_eq_or_imp]
      rw [ih current hs2]
      simp only [List.mem_cons, exists_eq_or_imp]

/-- Without wrap-around of a block end, merging a sorted vector yields blocks that do not
wrap around either and are separated: each ends before the next one starts. -/
theorem mergeFrom_separated (rest : List Function.Block) (last : Function.Block)
    (hs : List.Pairwise (fun a b => a.base ≤ b.base) (last :: rest))
    (hfit : ∀ b ∈ last :: rest, b.base + b.size < U64) :
    (∀ b ∈ mergeFrom last rest, b.base + b.size < U64) ∧
      List.Chain' (fun a b => a.base + a.size < b.base) (mergeFrom last rest) := by
  induction rest generalizing last with
  | nil =>
    simp only [mergeFrom]
    exact ⟨hfit, List.chain'_singleton _⟩
  | cons current rest ih =>
    have hle : last.base ≤ current.base := List.rel_of_pairwise_cons hs (List.mem_cons_self _ _)
    have hs2 : List.Pairwise (fun a b => a.base ≤ b.base) (current :: rest) :=
      (List.pairwise_cons.mp hs).2
    have hl : last.base + last.size < U64 := hfit last (List.mem_cons_self _ _)
    have hcur : current.base + current.size < U64 := hfit current (by simp)
    simp only [mergeFrom]
    split_ifs with hc
    · have hs3 : List.Pairwise (fun a b => a.base ≤ b.base)
          ({ last with size := mergedSize last current } :: rest) := by
        refine List.Pairwise.cons ?_ (List.pairwise_cons.mp hs2).2
        intro c hcmem
        exact List.rel_of_pairwise_cons hs (List.mem_cons_of_mem _ hcmem)
      apply ih _ hs3
      intro b hb
      rcases List.mem_cons.mp hb with rfl | hb2
      · simp only
        have hend := mergedSize_end last current hle hc
        have hm : mergedSize last current < U64 := Nat.mod_lt _ (by decide)
        rw [Nat.mod_eq_of_lt hl, Nat.mod_eq_of_lt hcur] at hend
        rw [Nat.mod_eq_of_lt hl] at hc
        unfold mergedSize at hm ⊢
        rw [Nat.mod_eq_of_lt hl, Nat.mod_eq_of_lt hcur] at hm ⊢
        rcases Nat.le_total (last.base + last.size) (current.base + current.size) with h | h
        · rw [Nat.max_eq_right h] at hm ⊢
          unfold U64 at *
          omega
        · rw [Nat.max_eq_left h] at hm ⊢
          unfold U64 at *
          omega
      · exact hfit b (List.mem_cons_of_mem _ (List.mem_cons_of_mem _ hb2))
    · have hrest : ∀ b ∈ current :: rest, b.base + b.size < U64 :=
        fun b hb => hfit b (List.mem_cons_of_mem _ hb)
      obtain ⟨hf, hch⟩ := ih current hs2 hrest
      obtain ⟨h, t, e, hb⟩ := mergeFrom_head rest current
      refine ⟨?_, ?_⟩
      · intro b hbm
        rcases List.mem_cons.mp hbm with rfl | hb2
        · exact hl
        · exact hf b hb2
      · rw [e] at hch ⊢
        refine List.Chain'.cons ?_ hch
        rw [hb]
        rw [Nat.mod_eq_of_lt hl] at hc
        omega

/-- The sorted vector of more than one block is not empty. -/
theorem sorted_cons (srt : List Function.Block → List Function.Block)
    (hsrt : SortsByBase srt) (blocks : List Function.Block) (hlen : ¬ blocks.length ≤ 1) :
    ∃ first rest, srt blocks = first :: rest := by
  have hperm := (hsrt blocks).1
  cases hs : srt blocks with
  | nil =>
    have := hperm.length_eq
    rw [hs] at this
    simp at this
    omega
  | cons first rest => exact ⟨first, rest, rfl⟩

/-- Without wrap-around of a block end before the call, the blocks after
`MergeOverlappingBlocks` are separated and no block end wraps around. -/
theorem merge_separated (srt : List Function.Block → List Function.Block)
    (hsrt : SortsByBase srt) (f : Function)
    (hfit : ∀ b ∈ f.blocks, b.base + b.size < U64) :
    List.Chain' (fun a b => a.base + a.size < b.base)
        (f.MergeOverlappingBlocksWith srt).blocks ∧
      (∀ b ∈ (f.MergeOverlappingBlocksWith srt).blocks, b.base + b.size < U64) := by
  simp only [Function.MergeOverlappingBlocksWith]
  by_cases hlen : f.blocks.length ≤ 1
  · have hres : mergeBlocksWith srt f.blocks = f.blocks := by
      unfold mergeBlocksWith
      rw [if_pos hlen]
    rw [hres]
    have hch : List.Chain' (fun a b => a.base + a.size < b.base) f.blocks := by
      match hb : f.blocks with
      | [] => exact List.chain'_nil
      | [a] => exact List.chain'_singleton a
      | a :: b :: rest =>
        rw [hb] at hlen
        simp at hlen
    exact ⟨hch, hfit⟩
  · obtain ⟨first, rest, hs⟩ := sorted_cons srt hsrt f.blocks hlen
    rw [mergeBlocksWith_eq srt f.blocks first rest hlen hs]
    have hsorted : List.Pairwise (fun a b => a.base ≤ b.base) (first :: rest) := by
      rw [← hs]
      exact (hsrt f.blocks).2
    have hfit2 : ∀ b ∈ first :: rest, b.base + b.size < U64 := by
      intro b hb
      rw [← hs] at hb
      exact hfit b (((hsrt f.blocks).1.mem_iff).mp hb)
    obtain ⟨h1, h2⟩ := mergeFrom_separated rest first hsorted hfit2
    exact ⟨h2, h1⟩

/-- For the blocks `(5, 2^64 - 3)` and `(5, 2^64 - 4)`, whatever order the sort gives
them, the merge keeps the two blocks the sort returns. -/
theorem merge_wrapped_pair (srt : List Function.Block → List Function.Block)
    (hsrt : SortsByBase srt) :
    ∃ a b, (Function.MergeOverlappingBlocksWith srt
        (Function.mk 0 0 [⟨5, 0xFFFFFFFFFFFFFFFD, NPOS⟩,
          ⟨5, 0xFFFFFFFFFFFFFFFC, NPOS⟩])).blocks = [a, b] ∧
      a.base = 5 ∧ b.base = 5 := by
  have hperm := (hsrt [⟨5, 0xFFFFFFFFFFFFFFFD, NPOS⟩, ⟨5, 0xFFFFFFFFFFFFFFFC, NPOS⟩]).1
  have hlen := hperm.length_eq
  have hmem : ∀ x ∈ srt [⟨5, 0xFFFFFFFFFFFFFFFD, NPOS⟩, ⟨5, 0xFFFFFFFFFFFFFFFC, NPOS⟩],
      x = ⟨5, 0xFFFFFFFFFFFFFFFD, NPOS⟩ ∨ x = ⟨5, 0xFFFFFFFFFFFFFFFC, NPOS⟩ := by
    intro x hx
    simpa using hperm.mem_iff.mp hx
  have hstep : ∀ x y : Function.Block,
      (x = ⟨5, 0xFFFFFFFFFFFFFFFD, NPOS⟩ ∨ x = ⟨5, 0xFFFFFFFFFFFFFFFC, NPOS⟩) →
      (y = ⟨5, 0xFFFFFFFFFFFFFFFD, NPOS⟩ ∨ y = ⟨5, 0xFFFFFFFFFFFFFFFC, NPOS⟩) →
      mergeStep [x] y = [x, y] ∧ x.base = 5 ∧ y.base = 5 := by
    intro x y hx hy
    rcases hx with rfl | rfl <;> rcases hy with rfl | rfl <;> decide
  simp only [Function.MergeOverlappingBlocksWith, mergeBlocksWith, List.length_cons,
    List.length_nil]
  rw [if_neg (by decide)]
  match hs : srt [⟨5, 0xFFFFFFFFFFFFFFFD, NPOS⟩, ⟨5, 0xFFFFFFFFFFFFFFFC, NPOS⟩] with
  | [] => rw [hs] at hlen; simp at hlen
  | [_] => rw [hs] at hlen; simp at hlen
  | _ :: _ :: _ :: _ => rw [hs] at hlen; simp at hlen
  | [x, y] =>
    rw [hs] at hmem
    obtain ⟨h1, h2, h3⟩ := hstep x y (hmem x (by simp)) (hmem y (by simp))
    exact ⟨x, y, by simpa using h1, h2, h3⟩

/-- C37, counterexample: for the blocks `(5, 2^64 - 3)` and `(5, 2^64 - 4)`, whose ends
wrap around to 2 and 1, no block starts at or before the wrapped end of the other, so
`MergeOverlappingBlocks` keeps both, in the order of the input and, for every behaviour
of `std::sort`, in whatever order the sort gives them: the starts 5 and 5 are not
strictly increasing, and `prev.start + prev.size < next.start` fails in unbounded
arithmetic.  For the blocks `(5, 2^64 - 3)` and `(6, 1)` both are kept too, and
`5 + (2^64 - 3) < 6` fails. -/
theorem C37_merge_separated_counterexample :
    ((Function.mk 0 0 [⟨5, 0xFFFFFFFFFFFFFFFD, NPOS⟩,
          ⟨5, 0xFFFFFFFFFFFFFFFC, NPOS⟩]).MergeOverlappingBlocks.blocks =
        [⟨5, 0xFFFFFFFFFFFFFFFD, NPOS⟩, ⟨5, 0xFFFFFFFFFFFFFFFC, NPOS⟩] ∧
      ¬ ((5 : Nat) < 5) ∧ ¬ (5 + 0xFFFFFFFFFFFFFFFD < 5)) ∧
    (∀ srt, SortsByBase srt →
      ∃ a b, (Function.MergeOverlappingBlocksWith srt
          (Function.mk 0 0 [⟨5, 0xFFFFFFFFFFFFFFFD, NPOS⟩,
            ⟨5, 0xFFFFFFFFFFFFFFFC, NPOS⟩])).blocks = [a, b] ∧
        a.base = 5 ∧ b.base = 5) ∧
    ((Function.mk 0 0 [⟨5, 0xFFFFFFFFFFFFFFFD, NPOS⟩,
          ⟨6, 1, NPOS⟩]).MergeOverlappingBlocks.blocks =
        [⟨5, 0xFFFFFFFFFFFFFFFD, NPOS⟩, ⟨6, 1, NPOS⟩] ∧
      ¬ (5 + 0xFFFFFFFFFFFFFFFD < 6)) :=
  ⟨by decide, merge_wrapped_pair, by decide⟩

/-- C37, amended: when no block end `start + size` wraps around `2^64` before the call,
then after `MergeOverlappingBlocks` (for every behaviour of `std::sort` on equal starts)
the blocks are sorted by strictly increasing start, every block ends before the next one
starts (`prev.start + prev.size < next.start`), and no block end wraps around. -/
theorem C37_merge_separated_amended (srt : List Function.Block → List Function.Block)
    (hsrt : SortsByBase srt) (f : Function)
    (hfit : ∀ b ∈ f.blocks, b.base + b.size < U64) :
    List.Pairwise (fun a b => a.base < b.base) (f.MergeOverlappingBlocksWith srt).blocks ∧
      List.Chain' (fun a b => a.base + a.size < b.base)
        (f.MergeOverlappingBlocksWith srt).blocks ∧
      (∀ b ∈ (f.MergeOverlappingBlocksWith srt).blocks, b.base + b.size < U64) := by
  haveI : IsTrans Function.Block (fun a b => a.base < b.base) :=
    ⟨fun _ _ _ h1 h2 => Nat.lt_trans h1 h2⟩
  have hstrict : ∀ l : List Function.Block,
      List.Chain' (fun a b => a.base + a.size < b.base) l →
        List.Pairwise (fun a b => a.base < b.base) l := by
    intro l hl
    rw [← List.chain'_iff_pairwise]
    exact hl.imp (fun h => by omega)
  obtain ⟨h2, h1⟩ := merge_separated srt hsrt f hfit
  exact ⟨hstrict _ h2, h2, h1⟩

/-- C37, amended, at the blocks `(8, 4)`, `(0, 4)`, `(4, 2)`, `(20, 4)`: the result is
`(0, 6)`, `(8, 4)`, `(20, 4)`. -/
theorem C37_merge_separated_amended_witness :
    ((Function.mk 0x02000000 24 [⟨8, 4, NPOS⟩, ⟨0, 4, NPOS⟩, ⟨4, 2, NPOS⟩,
        ⟨20, 4, NPOS⟩]).MergeOverlappingBlocksWith sortBlocks).blocks =
        [⟨0, 6, NPOS⟩, ⟨8, 4, NPOS⟩, ⟨20, 4, NPOS⟩] ∧
      List.Chain' (fun a b => a.base + a.size < b.base)
        ((Function.mk 0x02000000 24 [⟨8, 4, NPOS⟩, ⟨0, 4, NPOS⟩, ⟨4, 2, NPOS⟩,
          ⟨20, 4, NPOS⟩]).MergeOverlappingBlocksWith sortBlocks).blocks :=
  ⟨by decide,
    (C37_merge_separated_amended sortBlocks sortBlocks_spec
      (Function.mk 0x02000000 24 [⟨8, 4, NPOS⟩, ⟨0, 4, NPOS⟩, ⟨4, 2, NPOS⟩, ⟨20, 4, NPOS⟩])
      (by decide)).2.1⟩

/-- C38, counterexample: the blocks `(5, 1)` and `(6, 2^64 - 6)` are merged into `(5, 1)`,
because the end of the second block wraps around to 0 and the larger of the ends 6 and 0
is taken: offset 7 lies in `[6, 6 + (2^64 - 6))` before the call and in no block after
it. -/
theorem C38_merge_preserves_coverage_counterexample :
    (Function.mk 0 0 [⟨5, 1, NPOS⟩,
        ⟨6, 0xFFFFFFFFFFFFFFFA, NPOS⟩]).MergeOverlappingBlocks.blocks = [⟨5, 1, NPOS⟩] ∧
      (∃ b ∈ (Function.mk 0 0 [⟨5, 1, NPOS⟩, ⟨6, 0xFFFFFFFFFFFFFFFA, NPOS⟩]).blocks,
        b.Spans 7) ∧
      ¬ (∃ b ∈ (Function.mk 0 0 [⟨5, 1, NPOS⟩,
        ⟨6, 0xFFFFFFFFFFFFFFFA, NPOS⟩]).MergeOverlappingBlocks.blocks, b.Spans 7) := by
  decide

/-- C38, amended: when no block end `start + size` wraps around `2^64` before the call,
`MergeOverlappingBlocks` preserves coverage, for every behaviour of `std::sort` on equal
starts: an offset `x` lies in the range `[start, start + size)` of some block before the
call exactly when it lies in the range of some block after the call.  With the end of a
range computed in `size_t`, as the code computes it, the equivalence holds for every
function. -/
theorem C38_merge_preserves_coverage_amended (srt : List Function.Block → List Function.Block)
    (hsrt : SortsByBase srt) (f : Function) (x : Nat) :
    ((∃ b ∈ f.blocks, b.InRange x) ↔
        ∃ b ∈ (f.MergeOverlappingBlocksWith srt).blocks, b.InRange x) ∧
      ((∀ b ∈ f.blocks, b.base + b.size < U64) →
        ((∃ b ∈ f.blocks, b.Spans x) ↔
          ∃ b ∈ (f.MergeOverlappingBlocksWith srt).blocks, b.Spans x)) := by
  have hmain : (∃ b ∈ f.blocks, b.InRange x) ↔
      ∃ b ∈ (f.MergeOverlappingBlocksWith srt).blocks, b.InRange x := by
    simp only [Function.MergeOverlappingBlocksWith]
    by_cases hlen : f.blocks.length ≤ 1
    · have hres : mergeBlocksWith srt f.blocks = f.blocks := by
        unfold mergeBlocksWith
        rw [if_pos hlen]
      rw [hres]
    · obtain ⟨first, rest, hs⟩ := sorted_cons srt hsrt f.blocks hlen
      rw [mergeBlocksWith_eq srt f.blocks first rest hlen hs]
      have hsorted : List.Pairwise (fun a b => a.base ≤ b.base) (first :: rest) := by
        rw [← hs]
        exact (hsrt f.blocks).2
      rw [mergeFrom_covers rest first x hsorted, ← hs]
      constructor
      · rintro ⟨b, hb, hx⟩
        exact ⟨b, ((hsrt f.blocks).1.mem_iff).mpr hb, hx⟩
      · rintro ⟨b, hb, hx⟩
        exact ⟨b, ((hsrt f.blocks).1.mem_iff).mp hb, hx⟩
  refine ⟨hmain, ?_⟩
  intro hfit
  have hfit2 := (merge_separated srt hsrt f hfit).2
  have hsame : ∀ b : Function.Block, b.base + b.size < U64 → (b.Spans x ↔ b.InRange x) := by
    intro b hb
    unfold Function.Block.Spans Function.Block.InRange
    rw [Nat.mod_eq_of_lt hb]
  constructor
  · rintro ⟨b, hb, hx⟩
    obtain ⟨c, hc, hcx⟩ := hmain.mp ⟨b, hb, (hsame b (hfit b hb)).mp hx⟩
    exact ⟨c, hc, (hsame c (hfit2 c hc)).mpr hcx⟩
  · rintro ⟨c, hc, hcx⟩
    obtain ⟨b, hb, hx⟩ := hmain.mpr ⟨c, hc, (hsame c (hfit2 c hc)).mp hcx⟩
    exact ⟨b, hb, (hsame b (hfit b hb)).mpr hx⟩

/-- C38, amended, at the blocks `(8, 4)`, `(0, 4)`, `(4, 8)` and the offset 9: the blocks
merge into `(0, 12)`, which covers offset 9 as the first and the third block did. -/
theorem C38_merge_preserves_coverage_amended_witness :
    ((Function.mk 0x02000000 12 [⟨8, 4, NPOS⟩, ⟨0, 4, NPOS⟩,
        ⟨4, 8, NPOS⟩]).MergeOverlappingBlocksWith sortBlocks).blocks = [⟨0, 12, NPOS⟩] ∧
      (∀ b ∈ (Function.mk 0x02000000 12 [⟨8, 4, NPOS⟩, ⟨0, 4, NPOS⟩, ⟨4, 8, NPOS⟩]).blocks,
        b.base + b.size < U64) ∧
      ((∃ b ∈ (Function.mk 0x02000000 12 [⟨8, 4, NPOS⟩, ⟨0, 4, NPOS⟩, ⟨4, 8, NPOS⟩]).blocks,
          b.Spans 9) ↔
        ∃ b ∈ ((Function.mk 0x02000000 12 [⟨8, 4, NPOS⟩, ⟨0, 4, NPOS⟩,
          ⟨4, 8, NPOS⟩]).MergeOverlappingBlocksWith sortBlocks).blocks, b.Spans 9) :=
  ⟨by decide, by decide,
    (C38_merge_preserves_coverage_amended sortBlocks sortBlocks_spec
      (Function.mk 0x02000000 12 [⟨8, 4, NPOS⟩, ⟨0, 4, NPOS⟩, ⟨4, 8, NPOS⟩]) 9).2
      (by decide)⟩

/-- A single-bit mask is non-zero exactly when the bit is set. -/
theorem and_two_pow_ne_zero (x j : Nat) : (x &&& 2 ^ j) ≠ 0 ↔ x.testBit j = true := by
  constructor
  · intro h
    by_contra hb
    apply h
    apply Nat.eq_of_testBit_eq
    intro i
    rw [Nat.testBit_and, Nat.testBit_two_pow, Nat.zero_testBit]
    by_cases hij : j = i
    · subst hij
      simp [hb]
    · simp [hij]
  · intro hb h
    have := congrArg (fun v => Nat.testBit v j) h
    simp [Nat.testBit_and, Nat.testBit_two_pow, hb] at this

/-- The value of `Get` has the flags in bits 31, 30, 29 and the count in the low byte. -/
theorem Get_testBit (x : PPCXERRegister) (i : Nat) :
    x.Get.testBit i =
      ((x.so && decide (i = 31)) || (x.ov && decide (i = 30)) || (x.ca && decide (i = 29)) ||
        (decide (i < 8) && x.count.testBit i)) := by
  have e31 : (0x80000000 : Nat) = 2 ^ 31 := by norm_num
  have e30 : (0x40000000 : Nat) = 2 ^ 30 := by norm_num
  have e29 : (0x20000000 : Nat) = 2 ^ 29 := by norm_num
  have e8 : (256 : Nat) = 2 ^ 8 := by norm_num
  have t31 : ∀ j, Nat.testBit 0x80000000 j = decide (j = 31) := by
    intro j
    rw [e31, Nat.testBit_two_pow]
    exact decide_eq_decide.mpr eq_comm
  have t30 : ∀ j, Nat.testBit 0x40000000 j = decide (j = 30) := by
    intro j
    rw [e30, Nat.testBit_two_pow]
    exact decide_eq_decide.mpr eq_comm
  have t29 : ∀ j, Nat.testBit 0x20000000 j = decide (j = 29) := by
    intro j
    rw [e29, Nat.testBit_two_pow]
    exact decide_eq_decide.mpr eq_comm
  unfold PPCXERRegister.Get
  rw [e8]
  simp only [Nat.testBit_or, Nat.testBit_mod_two_pow]
  cases x.so <;> cases x.ov <;> cases x.ca <;>
    simp [t31, t30, t29]

/-- Writing back the value read keeps the flags and the low seven bits of the count. -/
theorem Set_Get (x : PPCXERRegister) :
    x.Set x.Get = { x with count := x.count % 128 } := by
  have e31 : (0x80000000 : Nat) = 2 ^ 31 := by norm_num
  have e30 : (0x40000000 : Nat) = 2 ^ 30 := by norm_num
  have e29 : (0x20000000 : Nat) = 2 ^ 29 := by norm_num
  have e7 : (0x7F : Nat) = 2 ^ 7 - 1 := by norm_num
  have hcount : (x.Get &&& 0x7F) % 256 = x.count % 128 := by
    have : x.Get &&& 0x7F = x.count % 2 ^ 7 := by
      apply Nat.eq_of_testBit_eq
      intro i
      rw [e7, Nat.testBit_and, Nat.testBit_two_pow_sub_one, Nat.testBit_mod_two_pow,
        Get_testBit]
      by_cases hi : i < 7
      · have h1 : i ≠ 31 := by omega
        have h2 : i ≠ 30 := by omega
        have h3 : i ≠ 29 := by omega
        have h4 : i < 8 := by omega
        simp [hi, h1, h2, h3, h4]
      · simp [hi]
    rw [this]
    omega
  have hbit : ∀ K j : Nat, K = 2 ^ j → decide ((x.Get &&& K) ≠ 0) = x.Get.testBit j := by
    intro K j hK
    subst hK
    by_cases hb : x.Get.testBit j = true
    · rw [hb]
      exact decide_eq_true ((and_two_pow_ne_zero _ _).mpr hb)
    · have hf : x.Get.testBit j = false := by simpa using hb
      rw [hf]
      exact decide_eq_false (fun hne => hb ((and_two_pow_ne_zero _ _).mp hne))
  have hso : decide ((x.Get &&& 0x80000000) ≠ 0) = x.so := by
    rw [hbit _ 31 e31, Get_testBit]
    simp
  have hov : decide ((x.Get &&& 0x40000000) ≠ 0) = x.ov := by
    rw [hbit _ 30 e30, Get_testBit]
    simp
  have hca : decide ((x.Get &&& 0x20000000) ≠ 0) = x.ca := by
    rw [hbit _ 29 e29, Get_testBit]
    simp
  unfold PPCXERRegister.Set
  rw [hso, hov, hca, hcount]

/-- C39, counterexample: the state with all flags clear and count 128 reads as
`0x00000080`; writing that value back sets the count to 0, so `Set(Get())` changes the
state. -/
theorem C39_xer_roundtrip_counterexample :
    (PPCXERRegister.mk false false false 128).Get = 0x80 ∧
      (PPCXERRegister.mk false false false 128).Set
          (PPCXERRegister.mk false false false 128).Get =
        PPCXERRegister.mk false false false 0 ∧
      (PPCXERRegister.mk false false false 128).Set
          (PPCXERRegister.mk false false false 128).Get ≠
        PPCXERRegister.mk false false false 128 := by
  decide

/-- C39, amended: for every state whose count is below 128, `Set(Get())` leaves the state
unchanged; in general it keeps the three flags and replaces the count by its low seven
bits, so the state is unchanged exactly when the count is below 128. -/
theorem C39_xer_roundtrip_amended (x : PPCXERRegister) :
    x.Set x.Get = { x with count := x.count % 128 } ∧
      (x.count < 128 → x.Set x.Get = x) ∧
      (x.Set x.Get = x ↔ x.count < 128) := by
  have hset := Set_Get x
  have hiff : x.Set x.Get = x ↔ x.count < 128 := by
    rw [hset]
    constructor
    · intro he
      have := congrArg PPCXERRegister.count he
      simp only at this
      omega
    · intro hlt
      obtain ⟨so, ov, ca, count⟩ := x
      simp only at hlt
      simp [Nat.mod_eq_of_lt hlt]
  exact ⟨hset, hiff.mpr, hiff⟩

/-- C39, amended, at the state with every flag set and count 127. -/
theorem C39_xer_roundtrip_amended_witness :
    (127 : Nat) < 128 ∧
      (PPCXERRegister.mk true true true 127).Set (PPCXERRegister.mk true true true 127).Get =
        PPCXERRegister.mk true true true 127 :=
  ⟨by decide,
    (C39_xer_roundtrip_amended (PPCXERRegister.mk true true true 127)).2.1 (by decide)⟩

/-! ## Theorems: an analysis that does not end -/

/-- A pass through the body on the word `nop` before the window: the block on top of the
stack grows by one word. -/
theorem loopBody_below_nop (blocks : List Function.Block) (cur : Nat) (tail : List Nat)
    (hcur : blocks[cur]? = some ⟨0xFFFFFFFFFFFFFFFC, 0, NPOS⟩) :
    loopBody loopBelowWindow ⟨blocks, cur :: tail, 0xFFFFFFFFFFFFFFFC⟩ =
      some ⟨blocks.set cur ⟨0xFFFFFFFFFFFFFFFC, 4, NPOS⟩, cur :: tail, 0xFFFFFFFFFFFFFFFC⟩ := by
  have hinsn : loopBelowWindow.insnAt 0xFFFFFFFFFFFFFFFC = 0x60000000 := by decide
  have hop : PPC_OP 0x60000000 = 24 := by decide
  have hlk : PPC_BL 0x60000000 = 0 := by decide
  have hdec : GetOpcode 0x60000000 ≠ none := by decide
  have h4 : 4 % U64 = 4 := by decide
  simp [loopBody, Disassemble_opcode, hcur, hinsn, hop, hlk, hdec, PPC_OP_BC, PPC_OP_B,
    PPC_OP_CTR, h4]

/-- A pass through the body on the branch `beq -4` at the start of the window, reached from
the word before it: the current block ends, the false successor is found, and a new
block is created for the branch target, which lies below the base. -/
theorem loopBody_below_branch (blocks : List Function.Block) (cur : Nat)
    (hcur : blocks[cur]? = some ⟨0xFFFFFFFFFFFFFFFC, 4, NPOS⟩)
    (hfound : Function.SearchBlock
      ⟨0x02000000, 0, blocks.set cur ⟨0xFFFFFFFFFFFFFFFC, 8, NPOS⟩⟩ 0x02000004 ≠ NPOS) :
    loopBody loopBelowWindow ⟨blocks, [cur, 1], 0⟩ =
      some (restoreData (pushBlock ⟨blocks.set cur ⟨0xFFFFFFFFFFFFFFFC, 8, NPOS⟩, [1], 0⟩
        ⟨0xFFFFFFFFFFFFFFFC, 0, NPOS⟩)) := by
  have hinsn : loopBelowWindow.insnAt 0 = 0x4182FFFC := by decide
  have hop : PPC_OP 0x4182FFFC = 16 := by decide
  have hlk : PPC_BL 0x4182FFFC = 0 := by decide
  have hbd : toSizeT (PPC_BD 0x4182FFFC) = 0xFFFFFFFFFFFFFFFC := by decide
  have hbase : loopBelowWindow.base = 0x02000000 := rfl
  have h8 : (4 + 4) % U64 = 8 := by decide
  have e1 : (0x02000000 + 0) % U64 = 0x02000000 := by decide
  have e2 : ((0x02000000 + U64 - 0x02000000) % U64 + 4) % U64 = 4 := by decide
  have e3 : (0x02000000 + 4) % U64 = 0x02000004 := by decide
  have e4 : (0x02000000 + 0xFFFFFFFFFFFFFFFC) % U64 = 0x01FFFFFC := by decide
  have e5 : (0x01FFFFFC + U64 - 0x02000000) % U64 = 0xFFFFFFFFFFFFFFFC := by decide
  have e6 : (0x02000000 + 0xFFFFFFFFFFFFFFFC) % U64 = 0x01FFFFFC := by decide
  have hlow : ∀ l : List Function.Block,
      Function.SearchBlock ⟨0x02000000, 0, l⟩ 0x01FFFFFC = NPOS := by
    intro l
    simp [Function.SearchBlock]
  simp only [loopBody, hcur, hinsn, hop, hlk, hbd, hbase, h8, e1, e2, e3, e4, e5, e6,
    PPC_OP_BC, List.getD_eq_getElem?_getD, Option.getD_some, List.set_set, pushBlock, hlow]
  simp [hfound, pushBlock]

/-- Reading the block behind a front of known length. -/
theorem belowState_get (b0 b1 x : Function.Block) (front : List Function.Block) :
    (b0 :: b1 :: (front ++ [x]))[front.length + 2]? = some x := by
  simp

/-- Writing the block behind a front of known length. -/
theorem belowState_set (b0 b1 x y : Function.Block) (front : List Function.Block) :
    (b0 :: b1 :: (front ++ [x])).set (front.length + 2) y = b0 :: b1 :: (front ++ [y]) := by
  simp

/-- In the states of the loop below the window, the fall-through offset 4 is found as the
start of the empty block at index 1. -/
theorem SearchBlock_below (rest : List Function.Block) :
    Function.SearchBlock
      ⟨0x02000000, 0, ⟨0, 4, NPOS⟩ :: ⟨4, 0, 0xFFFFFFFFFFFFFFF8⟩ :: rest⟩ 0x02000004 = 1 := by
  have e1 : (0x02000000 + 0) % U64 = 0x02000000 := by decide
  have e2 : (0x02000000 + 4) % U64 = 0x02000004 := by decide
  have e3 : (0x02000004 + 0) % U64 = 0x02000004 := by decide
  simp [Function.SearchBlock, SearchBlockFrom, e1, e2, e3]

/-- Reading the element appended to a list of known length. -/
theorem getD_append_last (l : List Function.Block) (x : Function.Block) (n : Nat)
    (hn : l.length = n) : (l ++ [x]).getD n default = x := by
  subst hn
  rw [List.getD_eq_getElem?_getD]
  simp

/-- The two passes through the body that lead from one state below the window to the
next: on `nop` the block on top of the stack grows, on the branch it ends with size 8 and
a new block for the same target is pushed. -/
theorem below_passes (front : List Function.Block) :
    loopBody loopBelowWindow (belowState front) =
        some ⟨⟨0, 4, NPOS⟩ :: ⟨4, 0, 0xFFFFFFFFFFFFFFF8⟩ ::
          (front ++ [⟨0xFFFFFFFFFFFFFFFC, 4, NPOS⟩]), [front.length + 2, 1],
          0xFFFFFFFFFFFFFFFC⟩ ∧
      ∃ s2, loopBody loopBelowWindow
          ⟨⟨0, 4, NPOS⟩ :: ⟨4, 0, 0xFFFFFFFFFFFFFFF8⟩ ::
            (front ++ [⟨0xFFFFFFFFFFFFFFFC, 4, NPOS⟩]), [front.length + 2, 1], 0⟩ = some s2 ∧
        belowState (front ++ [⟨0xFFFFFFFFFFFFFFFC, 8, NPOS⟩]) =
          { s2 with data := (s2.data + 4) % U64 } := by
  have hA := loopBody_below_nop
    (⟨0, 4, NPOS⟩ :: ⟨4, 0, 0xFFFFFFFFFFFFFFF8⟩ :: (front ++ [⟨0xFFFFFFFFFFFFFFFC, 0, NPOS⟩]))
    (front.length + 2) [1] (belowState_get _ _ _ front)
  rw [belowState_set] at hA
  have hB := loopBody_below_branch
    (⟨0, 4, NPOS⟩ :: ⟨4, 0, 0xFFFFFFFFFFFFFFF8⟩ :: (front ++ [⟨0xFFFFFFFFFFFFFFFC, 4, NPOS⟩]))
    (front.length + 2) (belowState_get _ _ _ front)
    (by rw [belowState_set, SearchBlock_below]; decide)
  rw [belowState_set] at hB
  refine ⟨hA, _, hB, ?_⟩
  have hlen : (Function.Block.mk 0 4 NPOS :: Function.Block.mk 4 0 0xFFFFFFFFFFFFFFF8 ::
      (front ++ [Function.Block.mk 0xFFFFFFFFFFFFFFFC 8 NPOS])).length = front.length + 3 := by
    simp
  have hget := getD_append_last
    (Function.Block.mk 0 4 NPOS :: Function.Block.mk 4 0 0xFFFFFFFFFFFFFFF8 ::
      (front ++ [Function.Block.mk 0xFFFFFFFFFFFFFFFC 8 NPOS]))
    (Function.Block.mk 0xFFFFFFFFFFFFFFFC 0 NPOS) (front.length + 3) hlen
  have e1 : (4 * ((0xFFFFFFFFFFFFFFFC + 0) % U64 / 4) + U64 - 4) % U64 = 0xFFFFFFFFFFFFFFF8 := by
    decide
  have e2 : (0xFFFFFFFFFFFFFFF8 + 4) % U64 = 0xFFFFFFFFFFFFFFFC := by decide
  simp only [belowState, restoreData, pushBlock, hlen, hget, e1, e2]
  simp
  decide

/-- Two passes through the loop lead from one state below the window to the next. -/
theorem analyzeLoop_below (n : Nat) (front : List Function.Block) :
    analyzeLoop loopBelowWindow (n + 2) (belowState front) =
      analyzeLoop loopBelowWindow n
        (belowState (front ++ [⟨0xFFFFFFFFFFFFFFFC, 8, NPOS⟩])) := by
  have hr1 : loopBelowWindow.inRange (belowState front).data = true := by
    simp only [belowState]
    decide
  have hr0 : loopBelowWindow.inRange 0 = true := by decide
  obtain ⟨hA, s2, hB, hnext⟩ := below_passes front
  rw [analyzeLoop_step loopBelowWindow (n + 1) (belowState front) _
    ⟨⟨0, 4, NPOS⟩ :: ⟨4, 0, 0xFFFFFFFFFFFFFFF8⟩ :: (front ++ [⟨0xFFFFFFFFFFFFFFFC, 4, NPOS⟩]),
      [front.length + 2, 1], 0⟩ hr1 hA (by simp; decide)]
  exact analyzeLoop_step loopBelowWindow n _ s2 _ hr0 hB hnext

/-- Two passes of the loop, as steps of the state. -/
theorem analyzeSteps_below (front : List Function.Block) :
    analyzeSteps loopBelowWindow 2 (belowState front) =
      belowState (front ++ [⟨0xFFFFFFFFFFFFFFFC, 8, NPOS⟩]) := by
  have hr1 : loopBelowWindow.inRange (belowState front).data = true := by
    simp only [belowState]
    decide
  have hr0 : loopBelowWindow.inRange 0 = true := by decide
  have e : (0xFFFFFFFFFFFFFFFC + 4) % U64 = 0 := by decide
  obtain ⟨hA, s2, hB, hnext⟩ := below_passes front
  simp only [analyzeSteps, hr1, hA, if_true, e, hr0, hB, hnext]

/-- From a state below the window the loop does not end, whatever the fuel. -/
theorem analyzeLoop_below_none (n : Nat) :
    ∀ front, analyzeLoop loopBelowWindow n (belowState front) = none := by
  induction n using Nat.strong_induction_on with
  | _ n ih =>
    intro front
    match n with
    | 0 => rfl
    | 1 =>
      have hr1 : loopBelowWindow.inRange 0xFFFFFFFFFFFFFFFC = true := by decide
      have hA := loopBody_below_nop
        (⟨0, 4, NPOS⟩ :: ⟨4, 0, 0xFFFFFFFFFFFFFFF8⟩ ::
          (front ++ [⟨0xFFFFFFFFFFFFFFFC, 0, NPOS⟩]))
        (front.length + 2) [1] (belowState_get _ _ _ front)
      rw [analyzeLoop_succ_cont loopBelowWindow 0 (belowState front) _ hr1 hA]
      rfl
    | k + 2 =>
      rw [analyzeLoop_below]
      exact ih k (by omega) _

/-- The loop of the analysis of `loopBelowWindow` does not end, whatever the fuel. -/
theorem analyzeLoop_loopBelowWindow (fuel : Nat) :
    analyzeLoop loopBelowWindow fuel initialState = none := by
  cases fuel with
  | zero => rfl
  | succ n =>
    have hr0 : loopBelowWindow.inRange initialState.data = true := by decide
    have h1 : loopBody loopBelowWindow initialState =
        some ⟨[⟨0, 4, NPOS⟩, ⟨4, 0, 0xFFFFFFFFFFFFFFF8⟩, ⟨0xFFFFFFFFFFFFFFFC, 0, NPOS⟩], [2, 1],
          0xFFFFFFFFFFFFFFF8⟩ := by
      decide
    rw [analyzeLoop_step loopBelowWindow n initialState _ (belowState []) hr0 h1 (by decide)]
    exact analyzeLoop_below_none n []

/-- C31 (code bug): the analysis of the one-word window `beq -4` that is preceded in memory
by the word `nop` (the second word of the code `nop; beq -4`) does not terminate: for
every bound on the number of loop iterations the loop is still running.  The branch
target lies below the base, so `SearchBlock` never finds it; every second pass creates a
new block for it and moves the walk back to the word before the window.  After
`2 * k + 1` passes the block vector holds `k + 3` blocks. -/
theorem C31_analysis_does_not_terminate :
    (∀ fuel, analyzeLoop loopBelowWindow fuel initialState = none) ∧
      (∀ fuel, Analyze fuel loopBelowWindow = none) ∧
      (∀ k, analyzeSteps loopBelowWindow (2 * k + 1) initialState =
        belowState (List.replicate k ⟨0xFFFFFFFFFFFFFFFC, 8, NPOS⟩)) ∧
      (∀ k, (analyzeSteps loopBelowWindow (2 * k + 1) initialState).blocks.length = k + 3) := by
  have hsteps : ∀ k, analyzeSteps loopBelowWindow (2 * k + 1) initialState =
      belowState (List.replicate k ⟨0xFFFFFFFFFFFFFFFC, 8, NPOS⟩) := by
    intro k
    induction k with
    | zero => decide
    | succ k ih =>
      have e : 2 * (k + 1) + 1 = (2 * k + 1) + 2 := by ring
      rw [e, analyzeSteps_add, ih, analyzeSteps_below, List.replicate_succ']
  refine ⟨analyzeLoop_loopBelowWindow, ?_, hsteps, ?_⟩
  · intro fuel
    have hfast : loopBelowWindow.isTailCallThunk = false := by decide
    simp only [Analyze, AnalyzeWith, hfast, Bool.false_eq_true, if_false,
      analyzeLoop_loopBelowWindow]
  · intro k
    rw [hsteps k]
    simp [belowState]

/-! ## Theorems: dependence of the analysis on the base address -/

/-- C32 (code bug): the result of `Function::Analyze` depends on the base address.  For
the window `beqlr; blr` the analysis with base 4 returns size 4 and the single block
`(0, 4)`, with base `0x02000000` it returns size 8 and the blocks `(0, 4)`, `(4, 4)`.  For
the window `b +8; beqlr; b -4` the analysis with base 0 returns three blocks, with base
`0x02000000` four.  The runs on `beqlr; blr` add no negative displacement, so that no
address computation wraps around in them.  The fall-through block of a conditional `bclr`
is searched with `SearchBlock(lBase)`, an offset, where the conditional branch case
searches `SearchBlock(base + lBase)`: with base 4 the offset 4 is taken for the address of
the first block, with base `0x02000000` every offset is below the base and is reported as
not found. -/
theorem C32_result_depends_on_base :
    (∀ fuel, Analyze (fuel + 3) (conditionalReturnWindow 4) =
        some ⟨4, 4, [⟨0, 4, NPOS⟩]⟩) ∧
      (∀ fuel, Analyze (fuel + 3) (conditionalReturnWindow 0x02000000) =
        some ⟨0x02000000, 8, [⟨0, 4, NPOS⟩, ⟨4, 4, NPOS⟩]⟩) ∧
      (∀ fuel, Analyze (fuel + 4) (returnLoopWindow 0) =
        some ⟨0, 12, [⟨0, 4, NPOS⟩, ⟨4, 4, NPOS⟩, ⟨8, 4, NPOS⟩]⟩) ∧
      (∀ fuel, Analyze (fuel + 5) (returnLoopWindow 0x02000000) =
        some ⟨0x02000000, 12,
          [⟨0, 4, NPOS⟩, ⟨4, 4, NPOS⟩, ⟨8, 4, NPOS⟩, ⟨8, 4, NPOS⟩]⟩) ∧
      Function.SearchBlock ⟨4, 0, [⟨0, 4, NPOS⟩]⟩ 4 = 0 ∧
      Function.SearchBlock ⟨0x02000000, 0, [⟨0, 4, NPOS⟩]⟩ 4 = NPOS :=
  ⟨fun fuel => AnalyzeWith_fuel_mono sortBlocks _ 3 (fuel + 3) _ (by omega) (by decide),
    fun fuel => AnalyzeWith_fuel_mono sortBlocks _ 3 (fuel + 3) _ (by omega) (by decide),
    fun fuel => AnalyzeWith_fuel_mono sortBlocks _ 4 (fuel + 4) _ (by omega) (by decide),
    fun fuel => AnalyzeWith_fuel_mono sortBlocks _ 5 (fuel + 5) _ (by omega) (by decide),
    by decide, by decide⟩

/-! ## Theorems: the scan of the code sections -/

/-- A pass of the scan that returns the state it started from repeats for ever: the loop
does not end, whatever the fuel. -/
theorem scanLoop_stalled (find : SymbolLookup) (env : LoaderEnv) (analyzeFuel host : Nat)
    (sec : Section) (bytes : List Nat) (s : ScanState)
    (hcond : (host + s.data) % U64 < (host + sec.size) % U64)
    (hstep : Recompiler.scanStep find env analyzeFuel host sec bytes s = some s) (fuel : Nat) :
    Recompiler.scanLoop find env analyzeFuel host sec bytes fuel s = none := by
  induction fuel with
  | zero => rfl
  | succ n ih =>
    rw [Recompiler.scanLoop, if_pos hcond, hstep]
    exact ih

/-- The scan of an image with a single section is the scan of that section. -/
theorem scanCodeSections_single (find : SymbolLookup) (env : LoaderEnv)
    (fuel analyzeFuel : Nat) (hostOf : Nat → Nat) (r : Recompiler) (sec : Section)
    (hs : r.image.sections = [sec]) :
    Recompiler.scanCodeSections find env fuel analyzeFuel hostOf r =
      Recompiler.scanSection find env fuel analyzeFuel (hostOf 0) r sec := by
  unfold Recompiler.scanCodeSections
  rw [hs]
  rfl

/-- C33 (code bug): the scan of the code sections does not terminate on an image whose
symbol set holds a function symbol of size 0 at a scanned address, nor with a configured
invalid-instruction pattern of size 0: the pass of the loop adds 0 to `base` and `data`
and returns the state it started from, so for every bound on the number of iterations the
loop is still running.  The image is `blrImage`, one code section at `0x02000000` holding
the word `4E 80 00 20`; the symbol is `f` at `0x02000000` with size 0, the pattern is
`0x4E800020` with size 0.  Without the symbol and the pattern the same scan ends after
one pass with one function of 4 bytes. -/
theorem C33_scan_stalls_on_zero_size :
    (∀ env analyzeFuel,
      Recompiler.scanStep findByAddress env analyzeFuel 0x1000 blrSection
          [0x4E, 0x80, 0x00, 0x20] ⟨zeroSizeSymbolRecompiler, 0x02000000, 0⟩ =
        some ⟨zeroSizeSymbolRecompiler, 0x02000000, 0⟩) ∧
      (∀ env fuel analyzeFuel,
        Recompiler.scanCodeSections findByAddress env fuel analyzeFuel (fun _ => 0x1000)
          zeroSizeSymbolRecompiler = none) ∧
      (∀ env analyzeFuel,
        Recompiler.scanStep findByAddress env analyzeFuel 0x1000 blrSection
            [0x4E, 0x80, 0x00, 0x20] ⟨zeroSizePatternRecompiler, 0x02000000, 0⟩ =
          some ⟨zeroSizePatternRecompiler, 0x02000000, 0⟩) ∧
      (∀ env fuel analyzeFuel,
        Recompiler.scanCodeSections findByAddress env fuel analyzeFuel (fun _ => 0x1000)
          zeroSizePatternRecompiler = none) ∧
      ((Recompiler.scanCodeSections findByAddress failingZlibEnv 2 2 (fun _ => 0x1000)
          { image := blrImage }).map (fun r => r.functions) =
        some [⟨0x02000000, 4, [⟨0, 4, NPOS⟩]⟩]) := by
  have h1 : ∀ env analyzeFuel,
      Recompiler.scanStep findByAddress env analyzeFuel 0x1000 blrSection
          [0x4E, 0x80, 0x00, 0x20] ⟨zeroSizeSymbolRecompiler, 0x02000000, 0⟩ =
        some ⟨zeroSizeSymbolRecompiler, 0x02000000, 0⟩ := by
    intro env analyzeFuel
    rfl
  have h2 : ∀ env analyzeFuel,
      Recompiler.scanStep findByAddress env analyzeFuel 0x1000 blrSection
          [0x4E, 0x80, 0x00, 0x20] ⟨zeroSizePatternRecompiler, 0x02000000, 0⟩ =
        some ⟨zeroSizePatternRecompiler, 0x02000000, 0⟩ := by
    intro env analyzeFuel
    rfl
  refine ⟨h1, ?_, h2, ?_, by decide⟩
  · intro env fuel analyzeFuel
    rw [scanCodeSections_single _ _ _ _ _ zeroSizeSymbolRecompiler blrSection rfl]
    have hl := scanLoop_stalled findByAddress env analyzeFuel 0x1000 blrSection
      [0x4E, 0x80, 0x00, 0x20] ⟨zeroSizeSymbolRecompiler, 0x02000000, 0⟩ (by decide)
      (h1 env analyzeFuel) fuel
    have hd : blrSection.data = some [0x4E, 0x80, 0x00, 0x20] := rfl
    have hf : ¬ (blrSection.flags &&& SectionFlags_Code) = 0 := by decide
    simp only [Recompiler.scanSection, hd, if_neg hf]
    rw [show blrSection.base = 0x02000000 from rfl, hl]
    rfl
  · intro env fuel analyzeFuel
    rw [scanCodeSections_single _ _ _ _ _ zeroSizePatternRecompiler blrSection rfl]
    have hl := scanLoop_stalled findByAddress env analyzeFuel 0x1000 blrSection
      [0x4E, 0x80, 0x00, 0x20] ⟨zeroSizePatternRecompiler, 0x02000000, 0⟩ (by decide)
      (h2 env analyzeFuel) fuel
    have hd : blrSection.data = some [0x4E, 0x80, 0x00, 0x20] := rfl
    have hf : ¬ (blrSection.flags &&& SectionFlags_Code) = 0 := by decide
    simp only [Recompiler.scanSection, hd, if_neg hf]
    rw [show blrSection.base = 0x02000000 from rfl, hl]
    rfl

end RebrewU
